import Mathlib

/-!
# Michi console language: lexer, parser, evaluator and executor

A shallow embedding of `Samples/Michi/main.c`.

* `float` lanes are modelled by exact rationals (`ℚ`): the evaluator and the
  executor compute without rounding and without overflow.  What binary32 gives
  (rounding to nearest, overflow to an infinity, a quotient by zero) is stated
  with `float_round` and the `float_` operations.  A quotient by zero is no
  finite `float` and has no rational: the vector the `/` case of the evaluator
  gives for a zero divisor stands for nothing, and statements about lanes
  leave that case out.
* A C `String` (pointer and length into the text buffer) is the offset of its
  first byte together with the bytes it spans.
* An `Expr *` is an `Expr` value; the arena is implicit.  The parser's
  `null_expr` sentinel is `Expr.none`; the one pointer the parser leaves
  `NULL` for a while, `binary_op.right`, is an `Option`.
* Pointers into the world (`float *ptr`, `float *copy_ptr`) are a field of the
  world together with a lane offset.
* The C library's `strtof` is a parameter of the scanner and `errno` a member
  of its state.
* The scanner's loops run on a count of turns taken from the length of the
  buffer; the expression parser takes its fuel as an argument and gives
  `none` when it runs out.
-/

namespace MichiLang

/-! ## Vectors -/

structure V2 where
  x : ℚ
  y : ℚ
deriving DecidableEq

structure V4 where
  x : ℚ
  y : ℚ
  z : ℚ
  w : ℚ
deriving DecidableEq

def v2 (x y : ℚ) : V2 := ⟨x, y⟩

def v4 (x y z w : ℚ) : V4 := ⟨x, y, z, w⟩

def v4add (a b : V4) : V4 := ⟨a.x + b.x, a.y + b.y, a.z + b.z, a.w + b.w⟩

def v4sub (a b : V4) : V4 := ⟨a.x - b.x, a.y - b.y, a.z - b.z, a.w - b.w⟩

def v4mul (a : V4) (b : ℚ) : V4 := ⟨a.x * b, a.y * b, a.z * b, a.w * b⟩

def v4dot (a b : V4) : ℚ := a.x * b.x + a.y * b.y + a.z * b.z + a.w * b.w

/-- Lane `i` of a vector viewed as `float[4]`, that is `*((float *)&v + i)`. -/
def V4.lane (v : V4) (i : Nat) : ℚ :=
  match i with
  | 0 => v.x
  | 1 => v.y
  | 2 => v.z
  | 3 => v.w
  | _ => 0

/-- Store into lane `i` of a vector viewed as `float[4]`. -/
def V4.setLane (v : V4) (i : Nat) (f : ℚ) : V4 :=
  match i with
  | 0 => { v with x := f }
  | 1 => { v with y := f }
  | 2 => { v with z := f }
  | 3 => { v with w := f }
  | _ => v

def V2.lane (v : V2) (i : Nat) : ℚ :=
  match i with
  | 0 => v.x
  | 1 => v.y
  | _ => 0

def V2.setLane (v : V2) (i : Nat) (f : ℚ) : V2 :=
  match i with
  | 0 => { v with x := f }
  | 1 => { v with y := f }
  | _ => v

/-! ## Binary32 -/

/-- A `float` (IEEE 754 binary32) by its value: a finite number, an infinity
with its sign, or not a number.  The sign of a zero is not kept: a zero
counts as `+0`. -/
inductive Float_Class where
  | finite (q : ℚ)
  | infinite (negative : Bool)
  | nan
deriving DecidableEq

/-- The power `2 ^ k` of an integer `k`. -/
def pow2 (k : ℤ) : ℚ :=
  if 0 ≤ k then ((2 ^ k.toNat : ℕ) : ℚ) else 1 / ((2 ^ (-k).toNat : ℕ) : ℚ)

/-- The number of binary digits of `n`, counted in at most `fuel` halvings. -/
def bit_length : Nat → Nat → Nat
  | 0, _ => 0
  | fuel + 1, n => if n = 0 then 0 else bit_length fuel (n / 2) + 1

/-- The binary exponent of a positive rational `a`: the `k` with
`2 ^ k ≤ a < 2 ^ (k + 1)`. -/
def log2_floor (a : ℚ) : ℤ :=
  let k : ℤ := (bit_length a.num.natAbs a.num.natAbs : ℤ) - (bit_length a.den a.den : ℤ)
  if pow2 k ≤ a then k else k - 1

/-- The nearest integer, the even one of the two when they are equally near. -/
def round_half_even (x : ℚ) : ℤ :=
  let f := Rat.floor x
  if x - f < 1 / 2 then f
  else if 1 / 2 < x - f then f + 1
  else if f % 2 = 0 then f else f + 1

/-- The spacing of the binary32 values about a positive rational `a`, its unit
in the last place: 24 binary digits, the exponent at least -126 (below, the
spacing stays `2 ^ -149`). -/
def float_ulp (a : ℚ) : ℚ := pow2 (max (log2_floor a) (-126) - 23)

/-- The binary32 result of an operation whose exact result is `q`: rounding to
nearest, ties to even, with 24 binary digits; the exponent is at least -126
and at most 127 (a result that rounds to `2 ^ 128` or more is an infinity). -/
def float_round (q : ℚ) : Float_Class :=
  if q = 0 then .finite 0
  else
    let a := if q < 0 then -q else q
    let ulp := float_ulp a
    let r := (round_half_even (a / ulp) : ℚ) * ulp
    if pow2 128 ≤ r then .infinite (decide (q < 0))
    else .finite (if q < 0 then -r else r)

/-- The product `a * b` of two finite `float`s, as in `v4mul`. -/
def float_mul (a b : ℚ) : Float_Class := float_round (a * b)

/-- The quotient `a / b` of two finite `float`s, as in `1.0f / rv.x`: by zero
it is an infinity, or not a number when `a` is zero too. -/
def float_div (a b : ℚ) : Float_Class :=
  if b = 0 then (if a = 0 then .nan else .infinite (decide (a < 0)))
  else float_round (a / b)

/-- C `String`: `data` is the offset of the first byte from the start of the
text buffer (`none` for a NULL pointer) and `chars` the `length` bytes there. -/
structure Str where
  data : Option Nat
  chars : List Char
deriving DecidableEq

def Str.length (s : Str) : Nat := s.chars.length

/-- The all-zero `String` left by `memset`. -/
def Str.null : Str := ⟨none, []⟩

def string_match (a : Str) (b : List Char) : Bool :=
  if a.chars.length != b.length then false else a.chars == b

inductive Token_Kind where
  | ERROR
  | EOF
  | NUMBER_LITERAL
  | PLUS
  | MINUS
  | BRACKET_OPEN
  | BRACKET_CLOSE
  | MUL
  | DIV
  | PERIOD
  | COMMA
  | COLON
  | IDENTIFIER
deriving DecidableEq

structure Token where
  kind : Token_Kind
  string : Str
  number : ℚ
deriving DecidableEq

inductive Op_Kind where
  | NULL
  | PLUS
  | MINUS
  | DIV
  | MUL
  | PERIOD
  | COMMA
  | COLON
  | BRACKET
deriving DecidableEq

/-- The cast `(Op_Kind)token.kind`: the operator kinds share the token kinds'
values, `OP_KIND_BRACKET` being `TOKEN_KIND_BRACKET_CLOSE`. -/
def Op_Kind.ofToken : Token_Kind → Op_Kind
  | .PLUS => .PLUS
  | .MINUS => .MINUS
  | .DIV => .DIV
  | .MUL => .MUL
  | .PERIOD => .PERIOD
  | .COMMA => .COMMA
  | .COLON => .COLON
  | .BRACKET_CLOSE => .BRACKET
  | _ => .NULL

inductive Michi_Action where
  | MOVE
  | ROTATE
  | ENLARGE
  | CHANGE
  | FOLLOW
  | DRAW
  | DISP
  | EXIT
deriving DecidableEq

inductive Michi_Var where
  | OUTPUT
  | ACTOR
  | SPEED
  | POSITION
  | ROTATION
  | SCALE
  | COLOR
  | X
  | Y
  | Z
  | W
deriving DecidableEq

inductive Michi_Const where
  | ON
  | OFF
  | HELP
  | EXPR
deriving DecidableEq

/-- The `float` fields of the world a variable can point into. -/
inductive Field where
  | output
  | position
  | rotation
  | scale
  | color
  | rotation_target
  | scale_target
  | color_target
  | speed_position
  | speed_rotation
  | speed_scale
  | speed_color
deriving DecidableEq

/-- A `float *` into the world: the address of `field` plus `lane` floats. -/
structure Loc where
  field : Field
  lane : Nat
deriving DecidableEq

inductive Expr where
  | none
  | number (string : Str) (vector : V4) (vector_dim : Nat)
  | identifier (string : Str)
  | unary (string : Str) (kind : Op_Kind) (child : Expr)
  | binary (string : Str) (kind : Op_Kind) (left : Expr) (right : Option Expr)
  | var (string : Str) (kind : Michi_Var) (vector : V4) (vector_dim : Nat)
      (ptr : Option Loc) (copy_ptr : Option Loc)
  | const (string : Str) (kind : Michi_Const) (vector : V4) (vector_dim : Nat)
  | action (string : Str) (kind : Michi_Action)
  | statement (string : Str) (left : Expr) (right : Expr)

inductive Expr_Kind where
  | NONE
  | NUMBER_LITERAL
  | IDENTIFIER
  | UNARY_OPERATOR
  | BINARY_OPERATOR
  | VAR
  | CONST
  | ACTION
  | STATEMENT
deriving DecidableEq

/-- The `kind` member of a node. -/
def Expr.kind : Expr → Expr_Kind
  | .none => .NONE
  | .number _ _ _ => .NUMBER_LITERAL
  | .identifier _ => .IDENTIFIER
  | .unary _ _ _ => .UNARY_OPERATOR
  | .binary _ _ _ _ => .BINARY_OPERATOR
  | .var _ _ _ _ _ _ => .VAR
  | .const _ _ _ _ => .CONST
  | .action _ _ => .ACTION
  | .statement _ _ _ => .STATEMENT

/-- The `string` member of a node; the sentinel's is all zero. -/
def Expr.string : Expr → Str
  | .none => Str.null
  | .number s _ _ => s
  | .identifier s => s
  | .unary s _ _ => s
  | .binary s _ _ _ => s
  | .var s _ _ _ _ _ => s
  | .const s _ _ _ => s
  | .action s _ => s
  | .statement s _ _ => s

structure Parse_Error where
  content : Str
  message : String
deriving DecidableEq

/-! ## Lexer -/

/-- State of the scanner.  `first` is the text buffer up to its terminating NUL,
`token_start` and `current` are offsets into it.  `errno_erange` is the C
library's `errno == ERANGE`, which the scanner reads and nothing resets. -/
structure Lexer where
  first : List Char
  token_start : Nat
  current : Nat
  error : String
  token : Token
  tokenizing : Bool
  errno_erange : Bool

/-- The byte at offset `i` of the buffer; the terminating NUL from its end on. -/
def Lexer.peek (l : Lexer) (i : Nat) : Char := l.first.getD i (Char.ofNat 0)

/-- C locale `isspace`. -/
def isspace (c : Char) : Bool := c.toNat == 32 || (9 ≤ c.toNat && c.toNat ≤ 13)

/-- C locale `isdigit`. -/
def isdigit (c : Char) : Bool := 48 ≤ c.toNat && c.toNat ≤ 57

/-- C locale `isalnum`. -/
def isalnum (c : Char) : Bool :=
  isdigit c || (65 ≤ c.toNat && c.toNat ≤ 90) || (97 ≤ c.toNat && c.toNat ≤ 122)

def lexer_init (l : Lexer) (first : List Char) : Lexer :=
  { l with
    first := first
    token_start := 0
    current := 0
    tokenizing := first.getD 0 (Char.ofNat 0) != Char.ofNat 0 }

def _lexer_consume_character (l : Lexer) : Lexer :=
  if l.tokenizing then
    let l := { l with current := l.current + 1 }
    if l.peek l.current = Char.ofNat 0 then { l with tokenizing := false } else l
  else l

def _lexer_consume_characters (l : Lexer) : Nat → Lexer
  | 0 => l
  | count + 1 => _lexer_consume_characters (_lexer_consume_character l) count

def _lexer_set_token_start (l : Lexer) : Lexer :=
  { l with token_start := l.current }

def _lexer_make_token (l : Lexer) (kind : Token_Kind) : Lexer :=
  { l with
    token :=
      { l.token with
        kind := kind
        string := ⟨some l.token_start,
          (l.first.drop l.token_start).take (l.current - l.token_start)⟩ }
    token_start := l.current }

def _lexer_make_error_token (l : Lexer) (error : String) : Lexer :=
  { _lexer_make_token l .ERROR with error := error }

/-- The C library's `strtof` as the scanner uses it: from the bytes at
`current`, up to the terminating NUL, it gives the value, the number of bytes read (`endptr - current`) and
whether it reported a range error. -/
abbrev Strtof := List Char → ℚ × Nat × Bool

/-- The loop `while (l->tokenizing && isspace(*l->current))`.  Every turn reads a
byte of the buffer, so `first.length` turns always reach the exit. -/
def lexer_skip_space : Nat → Lexer → Lexer
  | 0, l => l
  | fuel + 1, l =>
    if l.tokenizing && isspace (l.peek l.current) then
      lexer_skip_space fuel (_lexer_consume_character l)
    else l

/-- The identifier loop `while (l->tokenizing) { consume; if (...) break; }`,
`a` being the first byte of the token. -/
def lexer_identifier_loop (a : Char) : Nat → Lexer → Lexer
  | 0, l => l
  | fuel + 1, l =>
    if l.tokenizing then
      let l := _lexer_consume_character l
      if !isalnum (l.peek l.current) && a != '_' then l
      else lexer_identifier_loop a fuel l
    else l

/-- The call `strtof(l->current, &endptr)`: the range error it reports stays
in `errno`. -/
def lexer_strtof (strtof : Strtof) (l : Lexer) : Lexer × ℚ × Nat :=
  let r := strtof ((l.first.drop l.current).takeWhile fun c => c != Char.ofNat 0)
  ({ l with errno_erange := l.errno_erange || r.2.2 }, r.1, r.2.1)

/-- The number branch shared by the `.` and the digit case, entered once
`strtof` has read `count` bytes: they are consumed and the token is made
according to `errno`. -/
def lexer_number (l : Lexer) (value : ℚ) (count : Nat) : Lexer :=
  let l := _lexer_consume_characters l count
  if l.errno_erange then _lexer_make_error_token l "Number literal out of range"
  else
    let l := _lexer_make_token l .NUMBER_LITERAL
    { l with token := { l.token with number := value } }

/-- The identifier branch: an error token for a byte that cannot start an
identifier, else the identifier loop. -/
def lexer_identifier (l : Lexer) (a : Char) : Lexer :=
  if !isalnum a && a != '_' then
    _lexer_make_error_token (_lexer_consume_character l) "Invalid character"
  else
    _lexer_make_token (lexer_identifier_loop a (l.first.length + 1) l) .IDENTIFIER

/-- The outer loop of `lexer_advance_token`.  Only the white space branch
continues it, after consuming a byte, so `first.length + 1` turns suffice. -/
def lexer_advance_token_loop (strtof : Strtof) : Nat → Lexer → Lexer
  | 0, l => _lexer_make_token l .EOF
  | fuel + 1, l =>
    if l.tokenizing then
      let a := l.peek l.current
      let b := l.peek (l.current + 1)
      let single (k : Token_Kind) : Lexer := _lexer_make_token (_lexer_consume_character l) k
      if isspace a then
        let l := _lexer_consume_character l
        let l := lexer_skip_space l.first.length l
        lexer_advance_token_loop strtof fuel (_lexer_set_token_start l)
      else if a = '+' then single .PLUS
      else if a = '-' then single .MINUS
      else if a = '*' then single .MUL
      else if a = '/' then single .DIV
      else if a = '(' then single .BRACKET_OPEN
      else if a = ')' then single .BRACKET_CLOSE
      else if a = ',' then single .COMMA
      else if a = ':' then single .COLON
      else if a = '.' then
        if isdigit b then
          let (l, value, count) := lexer_strtof strtof l
          if count = 0 then _lexer_make_token (_lexer_consume_character l) .PERIOD
          else lexer_number l value count
        else single .PERIOD
      else if isdigit a then
        let (l, value, count) := lexer_strtof strtof l
        if count ≠ 0 then lexer_number l value count
        else lexer_identifier l a
      else lexer_identifier l a
    else _lexer_make_token l .EOF

def lexer_advance_token (strtof : Strtof) (l : Lexer) : Lexer :=
  lexer_advance_token_loop strtof (l.first.length + 1) l

/-! ## Parser -/

structure Parser where
  tokens : List Token
  error_stream : List Parse_Error
  lexer : Lexer
  cursor : Nat

def Token.zero : Token := ⟨.ERROR, Str.null, 0⟩

def parser_consume_token (p : Parser) : Parser :=
  if p.cursor != p.tokens.length then { p with cursor := p.cursor + 1 } else p

def parser_peek_token (p : Parser) : Token :=
  if p.cursor != p.tokens.length then p.tokens.getD p.cursor Token.zero
  else p.tokens.getD (p.tokens.length - 1) Token.zero

def parser_report_error (p : Parser) (content : Str) (message : String) : Parser :=
  { p with error_stream := p.error_stream ++ [⟨content, message⟩] }

def token_op_precedence : Token_Kind → Int
  | .COLON => 10
  | .COMMA => 15
  | .PLUS => 80
  | .MINUS => 80
  | .MUL => 90
  | .DIV => 90
  | .PERIOD => 100
  | .BRACKET_OPEN => 100
  | _ => -1

inductive Associativity where
  | LR
  | RL
deriving DecidableEq

def token_op_associativity : Token_Kind → Associativity
  | .COLON => .RL
  | .PLUS => .LR
  | .MINUS => .LR
  | .MUL => .LR
  | .DIV => .LR
  | .COMMA => .LR
  | .PERIOD => .LR
  | .BRACKET_OPEN => .LR
  | _ => .RL

def parse_binary_operator (p : Parser) (left : Expr) : Expr × Parser :=
  let token := parser_peek_token p
  let op (k : Op_Kind) : Expr × Parser :=
    (Expr.binary token.string k left Option.none, parser_consume_token p)
  match token.kind with
  | .PLUS => op .PLUS
  | .MINUS => op .MINUS
  | .MUL => op .MUL
  | .DIV => op .DIV
  | .PERIOD => op .PERIOD
  | .COMMA => op .COMMA
  | .COLON => op .COLON
  | .BRACKET_CLOSE =>
    let p := parser_consume_token p
    let p := parser_report_error p token.string "Bracket mismatch"
    (Expr.binary token.string .NULL left (some Expr.none), p)
  | _ =>
    let p := parser_report_error p token.string "Expected operator"
    (Expr.binary token.string .NULL left Option.none, p)

mutual

/-- The body of `parse_subexpression`; `none` only when the fuel runs out. -/
def parse_subexpression : Nat → Parser → Option (Expr × Parser)
  | 0, _ => Option.none
  | fuel + 1, p =>
    let token := parser_peek_token p
    match token.kind with
    | .PLUS | .MINUS =>
      match parse_subexpression fuel (parser_consume_token p) with
      | Option.none => Option.none
      | some (child, p) =>
        some (Expr.unary token.string (Op_Kind.ofToken token.kind) child, p)
    | .NUMBER_LITERAL =>
      some (Expr.number token.string (v4 token.number 0 0 0) 1, parser_consume_token p)
    | .IDENTIFIER =>
      some (Expr.identifier token.string, parser_consume_token p)
    | .BRACKET_OPEN =>
      match parse_expression fuel (parser_consume_token p) (-1) .BRACKET_CLOSE with
      | Option.none => Option.none
      | some (child, p) =>
        let token := parser_peek_token p
        let p :=
          if token.kind = .BRACKET_CLOSE then parser_consume_token p
          else parser_report_error p token.string "Expected \")\""
        some (Expr.unary token.string .BRACKET child, p)
    | .BRACKET_CLOSE =>
      let p := parser_consume_token p
      some (Expr.none, parser_report_error p token.string "Bracket mismatch!")
    | _ =>
      some (Expr.none, parser_report_error p token.string "Expected expression")

/-- The body of `parse_expression`. -/
def parse_expression : Nat → Parser → Int → Token_Kind → Option (Expr × Parser)
  | 0, _, _, _ => Option.none
  | fuel + 1, p, prec, expect =>
    let token := parser_peek_token p
    if token.kind ≠ .EOF then
      match parse_subexpression fuel p with
      | Option.none => Option.none
      | some (a_node, p) => parse_expression_loop fuel p prec expect a_node
    else
      some (Expr.none, parser_report_error p token.string "Expected expression")

/-- The `while` loop of `parse_expression`, entered with the current `a_node`. -/
def parse_expression_loop : Nat → Parser → Int → Token_Kind → Expr → Option (Expr × Parser)
  | 0, _, _, _, _ => Option.none
  | fuel + 1, p, prec, expect, a_node =>
    let token := parser_peek_token p
    if token.kind = .EOF then some (a_node, p)
    else if token.kind = expect then some (a_node, p)
    else
      let op_prec := token_op_precedence token.kind
      if op_prec < prec then some (a_node, p)
      else if op_prec = prec ∧ token_op_associativity token.kind = .LR then some (a_node, p)
      else
        match parse_binary_operator p a_node with
        | (Expr.binary s k l Option.none, p) =>
          match parse_expression fuel p op_prec expect with
          | Option.none => Option.none
          | some (right, p) =>
            parse_expression_loop fuel p prec expect (Expr.binary s k l (some right))
        | (op_node, p) => parse_expression_loop fuel p prec expect op_node

end

/-- The tokenizing loop of `parse`: `some` with the parser after the loop, the
flag telling whether it left through the error `return`.  Every token but the
last spans a byte, so `text.length + 1` turns suffice; `none` if they did not. -/
def parse_tokenize (strtof : Strtof) : Nat → Parser → Option (Bool × Parser)
  | 0, _ => Option.none
  | fuel + 1, p =>
    if p.lexer.token.kind ≠ .EOF then
      if p.lexer.token.kind = .ERROR then
        some (true, parser_report_error p p.lexer.token.string p.lexer.error)
      else
        let p := { p with tokens := p.tokens ++ [p.lexer.token] }
        parse_tokenize strtof fuel { p with lexer := lexer_advance_token strtof p.lexer }
    else some (false, p)

/-- The function `parse`.  `fuel` bounds the depth of the expression parser. -/
def parse (strtof : Strtof) (fuel : Nat) (p : Parser) (text : List Char) :
    Option (Expr × Parser) :=
  let p := { p with lexer := lexer_advance_token strtof (lexer_init p.lexer text) }
  let p := { p with tokens := [], error_stream := [] }
  match parse_tokenize strtof (text.length + 1) p with
  | Option.none => Option.none
  | some (true, p) => some (Expr.none, p)
  | some (false, p) =>
    let p := { p with tokens := p.tokens ++ [p.lexer.token] }
    let p := { p with cursor := 0 }
    if (p.tokens.getD 0 Token.zero).kind = .EOF then some (Expr.none, p)
    else parse_expression fuel p (-1) .EOF

/-- The parser after `parser_create`: all zero. -/
def parser_create : Parser :=
  { tokens := []
    error_stream := []
    lexer := ⟨[], 0, 0, "", Token.zero, false, false⟩
    cursor := 0 }

/-- The value of a run of decimal digits. -/
def decimal_value (ds : List Char) : Nat :=
  ds.foldl (fun n c => 10 * n + (c.toNat - 48)) 0

/-- A `strtof` for plain decimal literals `digits`, `digits.digits` and
`.digits`, which never reports a range error.  It stands for the C library
where a concrete input is evaluated. -/
def strtof_decimal : Strtof := fun s =>
  let ip := s.takeWhile isdigit
  match s.drop ip.length with
  | '.' :: r =>
    let fp := r.takeWhile isdigit
    if ip.isEmpty && fp.isEmpty then (0, 0, false)
    else ((decimal_value ip : ℚ) + (decimal_value fp : ℚ) / 10 ^ fp.length,
      ip.length + 1 + fp.length, false)
  | _ => if ip.isEmpty then (0, 0, false) else ((decimal_value ip : ℚ), ip.length, false)

/-! ## World state -/

structure Actor_Speed where
  position : ℚ
  rotation : ℚ
  scale : ℚ
  color : ℚ
deriving DecidableEq

structure Actor where
  position : V2
  rotation : ℚ
  scale : V2
  color : V4
  move_distance : ℚ
  rotation_target : ℚ
  scale_target : V2
  color_target : V4
  speed : Actor_Speed
deriving DecidableEq

/-- The array `bool disp[_PANEL_DISP_COUNT]`. -/
structure Panel_Disp where
  HELP : Bool
  EXPR : Bool
  POSITION : Bool
  ROTATION : Bool
  SCALE : Bool
  COLOR : Bool
  SPEED : Bool
  OUTPUT : Bool
deriving DecidableEq

/-- The text buffer: the array `buffer`, the length `count` of the text in it
and the cursor. -/
structure Panel_Text_Input where
  buffer : List Char
  count : Nat
  cursor : Nat
deriving DecidableEq

/-- The part of `Panel` the language and the key handler work on; style and
animation members are left out. -/
structure Panel where
  text_input : Panel_Text_Input
  error_cursor_index : Nat
  disp : Panel_Disp
deriving DecidableEq

/-- The world `Michi`, with `should_close` for the window's close flag that the
`exit` action sets.  The stroke buffer is left out. -/
structure Michi where
  size : ℚ
  position : V2
  actor : Actor
  follow : Bool
  draw : Bool
  panel : Panel
  output : V4
  output_dim : Nat
  should_close : Bool
deriving DecidableEq

/-- The number of `float`s in a field of the world. -/
def Field.dim : Field → Nat
  | .output => 4
  | .position => 2
  | .scale => 2
  | .color => 4
  | .scale_target => 2
  | .color_target => 4
  | _ => 1

/-- The `float` read through a pointer into the world. -/
def Michi.load (m : Michi) (l : Loc) : ℚ :=
  match l.field with
  | .output => m.output.lane l.lane
  | .position => m.actor.position.lane l.lane
  | .rotation => if l.lane = 0 then m.actor.rotation else 0
  | .scale => m.actor.scale.lane l.lane
  | .color => m.actor.color.lane l.lane
  | .rotation_target => if l.lane = 0 then m.actor.rotation_target else 0
  | .scale_target => m.actor.scale_target.lane l.lane
  | .color_target => m.actor.color_target.lane l.lane
  | .speed_position => if l.lane = 0 then m.actor.speed.position else 0
  | .speed_rotation => if l.lane = 0 then m.actor.speed.rotation else 0
  | .speed_scale => if l.lane = 0 then m.actor.speed.scale else 0
  | .speed_color => if l.lane = 0 then m.actor.speed.color else 0

/-- A `float` stored through a pointer into the world.  A lane past the end of
the field is not one of the field: such a store is dropped here. -/
def Michi.store (m : Michi) (l : Loc) (f : ℚ) : Michi :=
  match l.field with
  | .output => { m with output := m.output.setLane l.lane f }
  | .position => { m with actor := { m.actor with position := m.actor.position.setLane l.lane f } }
  | .rotation => if l.lane = 0 then { m with actor := { m.actor with rotation := f } } else m
  | .scale => { m with actor := { m.actor with scale := m.actor.scale.setLane l.lane f } }
  | .color => { m with actor := { m.actor with color := m.actor.color.setLane l.lane f } }
  | .rotation_target =>
    if l.lane = 0 then { m with actor := { m.actor with rotation_target := f } } else m
  | .scale_target =>
    { m with actor := { m.actor with scale_target := m.actor.scale_target.setLane l.lane f } }
  | .color_target =>
    { m with actor := { m.actor with color_target := m.actor.color_target.setLane l.lane f } }
  | .speed_position =>
    if l.lane = 0 then
      { m with actor := { m.actor with speed := { m.actor.speed with position := f } } }
    else m
  | .speed_rotation =>
    if l.lane = 0 then
      { m with actor := { m.actor with speed := { m.actor.speed with rotation := f } } }
    else m
  | .speed_scale =>
    if l.lane = 0 then
      { m with actor := { m.actor with speed := { m.actor.speed with scale := f } } }
    else m
  | .speed_color =>
    if l.lane = 0 then
      { m with actor := { m.actor with speed := { m.actor.speed with color := f } } }
    else m

/-- The pointer `ptr + i`. -/
def Loc.add (l : Loc) (i : Nat) : Loc := ⟨l.field, l.lane + i⟩

/-- The call `memcpy(dst, &src, sizeof(float) * n)`: the first `n` lanes of
`src` go to `dst`, `dst + 1`, ... -/
def memcpy_floats (m : Michi) (dst : Loc) (src : V4) : Nat → Michi
  | 0 => m
  | n + 1 => (memcpy_floats m dst src n).store (dst.add n) (src.lane n)

/-! ## Evaluator -/

def expr_resolves_to_literal : Expr → Bool
  | .number _ _ _ => true
  | .var _ _ _ dim _ _ => dim != 0
  | .const _ _ _ dim => dim != 0
  | _ => false

/-- The function `expr_resolve`, giving the vector and, for `*dim`, the dimension. -/
def expr_resolve : Expr → V4 × Nat
  | .number _ v dim => (v, dim)
  | .var _ _ v dim _ _ => (v, dim)
  | .const _ _ v dim => (v, dim)
  | _ => (v4 0 0 0 0, 0)

def michi_action_strings : List (Michi_Action × List Char) :=
  [(.MOVE, "move".toList), (.ROTATE, "rotate".toList), (.ENLARGE, "enlarge".toList),
   (.CHANGE, "change".toList), (.FOLLOW, "follow".toList), (.DRAW, "draw".toList),
   (.DISP, "disp".toList), (.EXIT, "exit".toList)]

def michi_var_strings : List (Michi_Var × List Char) :=
  [(.OUTPUT, "output".toList), (.ACTOR, "actor".toList), (.SPEED, "speed".toList),
   (.POSITION, "position".toList), (.ROTATION, "rotation".toList), (.SCALE, "scale".toList),
   (.COLOR, "color".toList), (.X, "x".toList), (.Y, "y".toList), (.Z, "z".toList),
   (.W, "w".toList)]

def michi_const_strings : List (Michi_Const × List Char) :=
  [(.ON, "on".toList), (.OFF, "off".toList), (.HELP, "help".toList), (.EXPR, "expr".toList)]

/-- The loop `for (i ...) if (string_match(s, table[i])) return i`. -/
def table_find {α : Type} (s : Str) : List (α × List Char) → Option α
  | [] => Option.none
  | (k, name) :: rest => if string_match s name then some k else table_find s rest

/-- The lane member `x`, `y`, `z`, `w` a variable kind names, with its index. -/
def Michi_Var.laneIndex : Michi_Var → Option Nat
  | .X => some 0
  | .Y => some 1
  | .Z => some 2
  | .W => some 3
  | _ => Option.none

/-- The vector and dimension of both operands of an arithmetic operator, after
the two `expr_resolves_to_literal` checks; `none` with the diagnostic recorded
when a check fails. -/
def expr_resolve_operands (p : Parser) (left right : Expr) :
    Option ((V4 × Nat) × (V4 × Nat)) × Parser :=
  if !expr_resolves_to_literal left then
    (Option.none, parser_report_error p left.string "Expected variable or literal")
  else if !expr_resolves_to_literal right then
    (Option.none, parser_report_error p left.string "Expected variable or literal")
  else (some (expr_resolve left, expr_resolve right), p)

/-- The two loops of the `,` case filling `vec[4]`; a store past `vec[3]` is
not made. -/
def comma_pack (lv : V4) (ld : Nat) (rv : V4) (rd : Nat) : V4 :=
  let vec := (List.range ld).foldl (fun (vec : V4) i => vec.setLane i (lv.lane i)) (v4 0 0 0 0)
  (List.range rd).foldl (fun (vec : V4) i => vec.setLane (i + ld) (rv.lane i)) vec

/-- The case `OP_KIND_PERIOD` of `expr_evaluate_binary_operator`, `left` and
`right` being the evaluated operands. -/
def expr_evaluate_period (p : Parser) (string : Str) (left right : Expr) (michi : Michi) :
    Expr × Parser :=
  match left, right with
  | .var _ lkind lvec ldim lptr lcopy, .var _ rkind _ _ _ _ =>
    let invalid : Expr × Parser :=
      (Expr.none, parser_report_error p string "Invalid member access")
    match lkind with
    | .OUTPUT =>
      let out := michi.output
      match rkind with
      | .X => (Expr.var string .X (v4 out.x 0 0 0) 1 (some ⟨.output, 0⟩) Option.none, p)
      | .Y => (Expr.var string .Y (v4 out.y 0 0 0) 1 (some ⟨.output, 1⟩) Option.none, p)
      | .Z => (Expr.var string .Z (v4 out.z 0 0 0) 1 (some ⟨.output, 2⟩) Option.none, p)
      | .W => (Expr.var string .W (v4 out.w 0 0 0) 1 (some ⟨.output, 3⟩) Option.none, p)
      | _ => invalid
    | .ACTOR =>
      match rkind with
      | .POSITION =>
        let out := michi.actor.position
        (Expr.var string .POSITION (v4 out.x out.y 0 0) 2 (some ⟨.position, 0⟩) Option.none, p)
      | .ROTATION =>
        let out := michi.actor.rotation
        (Expr.var string .ROTATION (v4 out 0 0 0) 1 (some ⟨.rotation, 0⟩)
          (some ⟨.rotation_target, 0⟩), p)
      | .SCALE =>
        let out := michi.actor.scale
        (Expr.var string .SCALE (v4 out.x out.y 0 0) 2 (some ⟨.scale, 0⟩)
          (some ⟨.scale_target, 0⟩), p)
      | .COLOR =>
        let out := michi.actor.color
        (Expr.var string .COLOR (v4 out.x out.y out.z out.w) 4 (some ⟨.color, 0⟩)
          (some ⟨.color_target, 0⟩), p)
      | _ => (Expr.none, p)
    | .SPEED =>
      match rkind with
      | .POSITION =>
        (Expr.var string .X (v4 michi.actor.speed.position 0 0 0) 1
          (some ⟨.speed_position, 0⟩) Option.none, p)
      | .ROTATION =>
        (Expr.var string .X (v4 michi.actor.speed.rotation 0 0 0) 1
          (some ⟨.speed_rotation, 0⟩) Option.none, p)
      | .SCALE =>
        (Expr.var string .X (v4 michi.actor.speed.scale 0 0 0) 1
          (some ⟨.speed_scale, 0⟩) Option.none, p)
      | .COLOR =>
        (Expr.var string .X (v4 michi.actor.speed.color 0 0 0) 1
          (some ⟨.speed_color, 0⟩) Option.none, p)
      | _ => invalid
    | .POSITION | .SCALE | .COLOR =>
      match lptr with
      | Option.none => (Expr.none, parser_report_error p string "Invalid identifier")
      | some ptr =>
        let out := lvec
        let outd := ldim
        let lane (k : Michi_Var) (i : Nat) : Expr × Parser :=
          (Expr.var string k (v4 (out.lane i) 0 0 0) 1 (some (ptr.add i))
            (lcopy.map fun c => c.add i), p)
        match rkind with
        | .X => lane .X 0
        | .Y => if outd ≥ 2 then lane .Y 1 else invalid
        | .Z => if outd ≥ 3 then lane .Z 2 else invalid
        | .W => if outd = 4 then lane .W 3 else invalid
        | _ => invalid
    | .ROTATION | .X | .Y | .Z | .W => invalid
  | .var _ _ _ _ _ _, _ => (Expr.none, parser_report_error p right.string "Expected variable")
  | _, _ => (Expr.none, parser_report_error p left.string "Expected variable")

/-- The `switch (expr->binary_op.kind)` of `expr_evaluate_binary_operator`:
`string` is the operator node's, `left` and `right` the evaluated operands,
neither of them the sentinel.  The `/` case is `v4mul(lv, 1.0f / rv.x)`; for
`rv.x = 0` the lanes of the C node are infinite or not a number
(`float_scale`, `float_div`) and the vector given here stands for nothing. -/
def expr_evaluate_binary_switch (p : Parser) (string : Str) (kind : Op_Kind)
    (left right : Expr) (michi : Michi) : Expr × Parser :=
  match kind with
  | .PLUS =>
    match expr_resolve_operands p left right with
    | (Option.none, p) => (Expr.none, p)
    | (some ((lv, ld), (rv, rd)), p) =>
      if ld = rd then (Expr.number string (v4add lv rv) ld, p)
      else (Expr.none, parser_report_error p left.string
        "Addition can not be performed on vectors with different dimension")
  | .MINUS =>
    match expr_resolve_operands p left right with
    | (Option.none, p) => (Expr.none, p)
    | (some ((lv, ld), (rv, rd)), p) =>
      if ld = rd then (Expr.number string (v4sub lv rv) ld, p)
      else (Expr.none, parser_report_error p left.string
        "Subtraction can not be performed on vectors with different dimension")
  | .DIV =>
    match expr_resolve_operands p left right with
    | (Option.none, p) => (Expr.none, p)
    | (some ((lv, ld), (rv, rd)), p) =>
      if rd = 1 then (Expr.number string (v4mul lv (1 / rv.x)) ld, p)
      else (Expr.none, parser_report_error p left.string
        "Division can not be performed by vector")
  | .MUL =>
    match expr_resolve_operands p left right with
    | (Option.none, p) => (Expr.none, p)
    | (some ((lv, ld), (rv, rd)), p) =>
      if rd = ld then (Expr.number string (v4 (v4dot lv rv) 0 0 0) ld, p)
      else if rd = 1 then (Expr.number string (v4mul lv rv.x) ld, p)
      else if ld = 1 then (Expr.number string (v4mul rv lv.x) rd, p)
      else (Expr.none, parser_report_error p left.string
        "Invalid vectors for multiplication")
  | .PERIOD => expr_evaluate_period p string left right michi
  | .COMMA =>
    match expr_resolve_operands p left right with
    | (Option.none, p) => (Expr.none, p)
    | (some ((lv, ld), (rv, rd)), p) =>
      if (ld + rd) % 4294967296 ≤ 4 then
        (Expr.number string (comma_pack lv ld rv rd) ((ld + rd) % 4294967296), p)
      else (Expr.none, parser_report_error p string
        "Vectors with dimension greater than 4 is not supported")
  | .COLON =>
    if left.kind ≠ .ACTION ∧ left.kind ≠ .VAR then
      (Expr.none, parser_report_error p left.string "Expected action or variable")
    else if !expr_resolves_to_literal right ∧ right.kind ≠ .VAR ∧ right.kind ≠ .CONST then
      (Expr.none, parser_report_error p right.string "Expected action or variable or constant")
    else (Expr.statement string left right, p)
  | _ => (Expr.none, p)

/-- The function `expr_evaluate_expression`, the binary case being the body of
`expr_evaluate_binary_operator`.  The result is `none` only where the C code
reads through the `NULL` right operand of a binary node. -/
def expr_evaluate_expression (michi : Michi) : Parser → Expr → Option (Expr × Parser)
  | p, .var s k v d ptr c => some (.var s k v d ptr c, p)
  | p, .const s k v d => some (.const s k v d, p)
  | p, .action s k => some (.action s k, p)
  | p, .statement s l r => some (.statement s l r, p)
  | p, .number s v d => some (.number s v d, p)
  | p, .unary string kind child =>
    match expr_evaluate_expression michi p child with
    | Option.none => Option.none
    | some (child, p) =>
      if expr_resolves_to_literal child then
        let (out, dim) := expr_resolve child
        match kind with
        | .MINUS => some (Expr.number string (v4 (-out.x) (-out.y) (-out.z) (-out.w)) dim, p)
        | .PLUS | .BRACKET => some (Expr.number string out dim, p)
        | _ => some (Expr.none, p)
      else if child.kind = .NONE then some (Expr.none, p)
      else some (Expr.none, parser_report_error p child.string "Expected expression")
  | p, .binary string kind _ Option.none =>
    if kind = .NULL then
      some (Expr.none, parser_report_error p string "Expected binary operator")
    else Option.none
  | p, .binary string kind left (some right) =>
    if kind = .NULL then
      some (Expr.none, parser_report_error p string "Expected binary operator")
    else
      match expr_evaluate_expression michi p left with
      | Option.none => Option.none
      | some (left, p) =>
        match expr_evaluate_expression michi p right with
        | Option.none => Option.none
        | some (right, p) =>
          if left.kind = .NONE ∨ right.kind = .NONE then some (Expr.none, p)
          else some (expr_evaluate_binary_switch p string kind left right michi)
  | p, .identifier string =>
    match table_find string michi_action_strings with
    | some k => some (Expr.action string k, p)
    | Option.none =>
      match table_find string michi_var_strings with
      | some k =>
        let dim := if k = .OUTPUT then michi.output_dim else 0
        some (Expr.var string k (v4 0 0 0 0) dim Option.none Option.none, p)
      | Option.none =>
        match table_find string michi_const_strings with
        | some k => some (Expr.const string k (v4 0 0 0 0) 0, p)
        | Option.none =>
          some (Expr.none, parser_report_error p string "Invalid identifier")
  | p, .none => some (Expr.none, parser_report_error p Str.null "Expected expression")

/-- The function `expr_evaluate_binary_operator`, which `expr_evaluate_expression`
calls on binary nodes only. -/
def expr_evaluate_binary_operator (michi : Michi) (p : Parser) (expr : Expr) :
    Option (Expr × Parser) :=
  if expr.kind ≠ .BINARY_OPERATOR then
    some (Expr.none, parser_report_error p expr.string "Expected binary operator")
  else expr_evaluate_expression michi p expr

/-! ## Executor -/

/-- The literal `MATH_PI`, `3.1415926535f`: the binary32 value nearest to
3.1415926535, which is 13176795 / 2 ^ 22. -/
def MATH_PI : ℚ := 13176795 / 4194304

def TO_RADIANS (deg : ℚ) : ℚ := deg * (MATH_PI / 180)

/-- The hand-off of a statement whose left side is an action. -/
def execute_action_statement (string : Str) (lstring : Str) (kind : Michi_Action)
    (right : Expr) (p : Parser) (michi : Michi) : Bool × Parser × Michi :=
  if kind = .EXIT then
    (false, parser_report_error p lstring "Action takes no arguments", michi)
  else if kind = .FOLLOW ∨ kind = .DRAW then
    match right with
    | .const _ .ON _ _ =>
      if kind = .FOLLOW then (true, p, { michi with follow := true })
      else (true, p, { michi with draw := true })
    | .const _ .OFF _ _ =>
      if kind = .FOLLOW then (true, p, { michi with follow := false })
      else (true, p, { michi with draw := false })
    | _ => (false, parser_report_error p right.string "Expected 'on' or 'off' argument", michi)
  else if kind = .DISP then
    let disp := michi.panel.disp
    let set (d : Panel_Disp) : Bool × Parser × Michi :=
      (true, p, { michi with panel := { michi.panel with disp := d } })
    match right with
    | .const _ .HELP _ _ => set { disp with HELP := !disp.HELP }
    | .const _ .EXPR _ _ => set { disp with EXPR := !disp.EXPR }
    | .var _ .POSITION _ _ _ _ => set { disp with POSITION := !disp.POSITION }
    | .var _ .ROTATION _ _ _ _ => set { disp with ROTATION := !disp.ROTATION }
    | .var _ .SCALE _ _ _ _ => set { disp with SCALE := !disp.SCALE }
    | .var _ .COLOR _ _ _ _ => set { disp with COLOR := !disp.COLOR }
    | .var _ .SPEED _ _ _ _ => set { disp with SPEED := !disp.SPEED }
    | .var _ .OUTPUT _ _ _ _ => set { disp with OUTPUT := !disp.OUTPUT }
    | _ => (false, parser_report_error p right.string "Invalid option", michi)
  else if !expr_resolves_to_literal right then
    (false, parser_report_error p right.string "Expected r-value resolving to vector", michi)
  else
    let (v, dim) := expr_resolve right
    match kind with
    | .MOVE =>
      if dim = 1 then (true, p, { michi with actor := { michi.actor with move_distance := v.x } })
      else (false, parser_report_error p string "Expected vector1 argument", michi)
    | .ROTATE =>
      if dim = 1 then
        (true, p, { michi with actor :=
          { michi.actor with rotation_target := michi.actor.rotation_target + TO_RADIANS v.x } })
      else (false, parser_report_error p string "Expected vector1 argument", michi)
    | .ENLARGE =>
      if dim ≤ 2 then (true, p, memcpy_floats michi ⟨.scale_target, 0⟩ v dim)
      else (false, parser_report_error p string "Expected vector1 or vector2 argument", michi)
    | .CHANGE => (true, p, memcpy_floats michi ⟨.color_target, 0⟩ v dim)
    | _ => (false, parser_report_error p string "Expected literal, variable or statement", michi)

/-- The hand-off of a statement whose left side is a variable.  A store through
a `NULL` `ptr` is not made. -/
def execute_var_statement (string : Str) (lstring : Str) (kind : Michi_Var) (vector_dim : Nat)
    (ptr copy_ptr : Option Loc) (right : Expr) (p : Parser) (michi : Michi) :
    Bool × Parser × Michi :=
  if kind = .OUTPUT then
    if expr_resolves_to_literal right then
      let (v, dim) := expr_resolve right
      (true, p, { michi with output := v, output_dim := dim })
    else
      (false, parser_report_error p right.string "Expected r-value resolving to vector", michi)
  else if vector_dim = 0 then
    (false, parser_report_error p lstring "Invalid variable", michi)
  else if expr_resolves_to_literal right then
    let (v, dim) := expr_resolve right
    if dim = vector_dim then
      let michi :=
        match ptr with
        | some ptr => memcpy_floats michi ptr v dim
        | Option.none => michi
      let michi :=
        match copy_ptr with
        | some copy_ptr => memcpy_floats michi copy_ptr v dim
        | Option.none =>
          if ptr = some ⟨.position, 0⟩ then
            { michi with actor := { michi.actor with move_distance := 0 } }
          else michi
      (true, p, michi)
    else (false, parser_report_error p string "Incompatible types", michi)
  else
    (false, parser_report_error p right.string "Expected r-value resolving to vector", michi)

def expr_type_check_and_execute (expr : Expr) (p : Parser) (michi : Michi) :
    Bool × Parser × Michi :=
  let fallthrough : Bool × Parser × Michi :=
    (false, parser_report_error p expr.string "Expected literal, variable or statement", michi)
  match expr with
  | .none => (false, p, michi)
  | .number _ v dim => (true, p, { michi with output := v, output_dim := dim })
  | .var string _ v dim _ _ =>
    if dim = 0 then (false, parser_report_error p string "Invalid variable", michi)
    else (true, p, { michi with output := v, output_dim := dim })
  | .action string kind =>
    match kind with
    | .EXIT => (true, p, { michi with should_close := true })
    | .MOVE | .ROTATE => (false, parser_report_error p string "Expected vector1 argument", michi)
    | .ENLARGE =>
      (false, parser_report_error p string "Expected vector1 or vector 2 argument", michi)
    | .CHANGE =>
      (false, parser_report_error p string
        "Expected vector1, vector2, vector3 or vector4 argument", michi)
    | .FOLLOW | .DISP =>
      (false, parser_report_error p string "Expected 'on' or 'off' argument", michi)
    | .DRAW => fallthrough
  | .statement string left right =>
    match left with
    | .action lstring kind => execute_action_statement string lstring kind right p michi
    | .var lstring kind _ vector_dim ptr copy_ptr =>
      execute_var_statement string lstring kind vector_dim ptr copy_ptr right p michi
    | _ => (false, parser_report_error p left.string "Expected action or variable", michi)
  | _ => fallthrough

/-! ## Key handler -/

def panel_set_cursor (panel : Panel) (cursor : Nat) : Panel :=
  if cursor ≤ panel.text_input.count then
    { panel with text_input := { panel.text_input with cursor := cursor } }
  else panel

/-- The function `panel_set_cursor_on_error`.  The cursor is the offset of the
diagnostic's content in the buffer; a content with a `NULL` pointer has none
and leaves the cursor alone. -/
def panel_set_cursor_on_error (panel : Panel) (p : Parser) : Bool × Panel :=
  if p.error_stream.length ≠ 0 then
    let panel :=
      if panel.error_cursor_index ≥ p.error_stream.length then
        { panel with error_cursor_index := 0 }
      else panel
    let cursor := (p.error_stream.getD panel.error_cursor_index ⟨Str.null, ""⟩).content.data
    let panel := { panel with error_cursor_index := panel.error_cursor_index + 1 }
    match cursor with
    | some cursor => (true, panel_set_cursor panel cursor)
    | Option.none => (true, panel)
  else (false, panel)

/-- The `GLFW_KEY_ENTER` case of `panel_on_key_input` in the typing state, on
the world and its parser `michi->parser`. -/
def panel_on_key_enter (strtof : Strtof) (fuel : Nat) (michi : Michi) (parser : Parser) :
    Option (Michi × Parser) :=
  let input := michi.panel.text_input
  let buffer := input.buffer.set input.count (Char.ofNat 0)
  let michi := { michi with panel := { michi.panel with text_input := { input with buffer := buffer } } }
  match parse strtof fuel parser buffer with
  | Option.none => Option.none
  | some (expr, parser) =>
    match panel_set_cursor_on_error michi.panel parser with
    | (true, panel) => some ({ michi with panel := panel }, parser)
    | (false, panel) =>
      let michi := { michi with panel := panel }
      match expr_evaluate_expression michi parser expr with
      | Option.none => Option.none
      | some (expr, parser) =>
        match panel_set_cursor_on_error michi.panel parser with
        | (true, panel) => some ({ michi with panel := panel }, parser)
        | (false, panel) =>
          let michi := { michi with panel := panel }
          match expr_type_check_and_execute expr parser michi with
          | (true, parser, michi) =>
            let panel := { michi.panel with text_input := { michi.panel.text_input with count := 0 } }
            some ({ michi with panel := panel_set_cursor panel 0 }, parser)
          | (false, parser, michi) =>
            some ({ michi with panel := (panel_set_cursor_on_error michi.panel parser).2 }, parser)

/-- The world after `michi_create`, with an empty text buffer of `n` bytes. -/
def michi_create (size : ℚ) (n : Nat) : Michi :=
  { size := size
    position := v2 0 0
    actor :=
      { position := v2 0 0
        rotation := 0
        scale := v2 4 4
        color := v4 0 1 1 1
        move_distance := 0
        rotation_target := 0
        scale_target := v2 4 4
        color_target := v4 0 1 1 1
        speed := ⟨1 / 4, 1 / 4, 1 / 4, 1 / 4⟩ }
    follow := false
    draw := true
    panel :=
      { text_input := ⟨List.replicate n (Char.ofNat 0), 0, 0⟩
        error_cursor_index := 0
        disp := ⟨false, false, false, false, false, false, false, true⟩ }
    output := v4 0 0 0 0
    output_dim := 4
    should_close := false }

/-! ## Statement helpers -/

/-- A number or identifier token. -/
def Token_Kind.is_primary : Token_Kind → Bool
  | .NUMBER_LITERAL => true
  | .IDENTIFIER => true
  | _ => false

/-- One of the binary operator tokens `: , + - * / .` -/
def Token_Kind.is_binary_op : Token_Kind → Bool
  | .COLON => true
  | .COMMA => true
  | .PLUS => true
  | .MINUS => true
  | .MUL => true
  | .DIV => true
  | .PERIOD => true
  | _ => false

/-- The leaf a number or identifier token stands for. -/
def primary_node (t : Token) : Expr :=
  match t.kind with
  | .NUMBER_LITERAL => Expr.number t.string (v4 t.number 0 0 0) 1
  | _ => Expr.identifier t.string

/-- The binary node of operator token `o` over `l` and `r`. -/
def binary_node (o : Token) (l r : Expr) : Expr :=
  Expr.binary o.string (Op_Kind.ofToken o.kind) l (some r)

/-- A token of kind `k` spanning the bytes `s` at offset `off`. -/
def token_at (k : Token_Kind) (off : Nat) (s : String) (n : ℚ) : Token :=
  ⟨k, ⟨some off, s.toList⟩, n⟩

/-- The members of the world no `float *` of the language points into, the
in-flight move distance aside. -/
def Michi.frame (m : Michi) : ℚ × V2 × Bool × Bool × Panel × Nat × Bool :=
  (m.size, m.position, m.follow, m.draw, m.panel, m.output_dim, m.should_close)

/-- The world after `michi_create` with a move of distance 2 in flight. -/
def michi_moving : Michi :=
  { michi_create 1 0 with actor := { (michi_create 1 0).actor with move_distance := 2 } }

/-- The world with `s` typed into the text buffer, the cursor at its end. -/
def Michi.typed (m : Michi) (s : String) : Michi :=
  { m with panel := { m.panel with
      text_input := ⟨s.toList ++ [Char.ofNat 0], s.length, s.length⟩ } }

/-- Structural equality of nodes, as a computable test. -/
def Expr.beq : Expr → Expr → Bool
  | .none, .none => true
  | .number s v d, .number s' v' d' => decide (s = s') && decide (v = v') && decide (d = d')
  | .identifier s, .identifier s' => decide (s = s')
  | .unary s k c, .unary s' k' c' => decide (s = s') && decide (k = k') && Expr.beq c c'
  | .binary s k l Option.none, .binary s' k' l' Option.none =>
    decide (s = s') && decide (k = k') && Expr.beq l l'
  | .binary s k l (some r), .binary s' k' l' (some r') =>
    decide (s = s') && decide (k = k') && Expr.beq l l' && Expr.beq r r'
  | .var s k v d a c, .var s' k' v' d' a' c' =>
    decide (s = s') && decide (k = k') && decide (v = v') && decide (d = d') &&
      decide (a = a') && decide (c = c')
  | .const s k v d, .const s' k' v' d' =>
    decide (s = s') && decide (k = k') && decide (v = v') && decide (d = d')
  | .action s k, .action s' k' => decide (s = s') && decide (k = k')
  | .statement s l r, .statement s' l' r' =>
    decide (s = s') && Expr.beq l l' && Expr.beq r r'
  | _, _ => false

/-- The tree of `1,2,3,4,5`. -/
def comma_five_tree : Expr :=
  .binary ⟨some 7, [',']⟩ .COMMA
    (.binary ⟨some 5, [',']⟩ .COMMA
      (.binary ⟨some 3, [',']⟩ .COMMA
        (.binary ⟨some 1, [',']⟩ .COMMA (.number ⟨some 0, ['1']⟩ (v4 1 0 0 0) 1)
          (some (.number ⟨some 2, ['2']⟩ (v4 2 0 0 0) 1)))
        (some (.number ⟨some 4, ['3']⟩ (v4 3 0 0 0) 1)))
      (some (.number ⟨some 6, ['4']⟩ (v4 4 0 0 0) 1)))
    (some (.number ⟨some 8, ['5']⟩ (v4 5 0 0 0) 1))

/-- The identifier node spelling `name` at offset `off`. -/
def ident (off : Nat) (name : String) : Expr := .identifier ⟨some off, name.toList⟩

/-- The member access node `a.b` over two identifiers, with operator string `s`. -/
def member_access (s : Str) (oa : Nat) (a : String) (ob : Nat) (b : String) : Expr :=
  .binary s .PERIOD (ident oa a) (some (ident ob b))

/-- The world state the language acts on: everything but the panel's text
input and error cursor. -/
def Michi.world (m : Michi) :
    (ℚ × V2 × Actor) × (Bool × Bool × Panel_Disp) × (V4 × Nat × Bool) :=
  ((m.size, m.position, m.actor), (m.follow, m.draw, m.panel.disp),
    (m.output, m.output_dim, m.should_close))

/-- The text in the buffer: its contents and its length. -/
def Michi.text (m : Michi) : List Char × Nat :=
  (m.panel.text_input.buffer.take m.panel.text_input.count, m.panel.text_input.count)

/-- The world after `buffer[count] = 0`, the first step of the Enter case. -/
def Michi.terminated (m : Michi) : Michi :=
  { m with panel := { m.panel with text_input := { m.panel.text_input with
      buffer := m.panel.text_input.buffer.set m.panel.text_input.count (Char.ofNat 0) } } }

/-- The flag a Constant `on` or `off` stands for; `none` for any other node. -/
def Expr.on_off : Expr → Option Bool
  | .const _ .ON _ _ => some true
  | .const _ .OFF _ _ => some false
  | _ => Option.none

/-- The index into `disp` (the enum `PANEL_DISP_*`) that a right operand of
`disp` names; `none` for any other node. -/
def Expr.disp_index : Expr → Option Nat
  | .const _ .HELP _ _ => some 0
  | .const _ .EXPR _ _ => some 1
  | .var _ .POSITION _ _ _ _ => some 2
  | .var _ .ROTATION _ _ _ _ => some 3
  | .var _ .SCALE _ _ _ _ => some 4
  | .var _ .COLOR _ _ _ _ => some 5
  | .var _ .SPEED _ _ _ _ => some 6
  | .var _ .OUTPUT _ _ _ _ => some 7
  | _ => Option.none

/-- The element `disp[i]`. -/
def Panel_Disp.get (d : Panel_Disp) (i : Nat) : Bool :=
  match i with
  | 0 => d.HELP
  | 1 => d.EXPR
  | 2 => d.POSITION
  | 3 => d.ROTATION
  | 4 => d.SCALE
  | 5 => d.COLOR
  | 6 => d.SPEED
  | 7 => d.OUTPUT
  | _ => false

/-- The array after `disp[i] = !disp[i]`. -/
def Panel_Disp.toggle (d : Panel_Disp) (i : Nat) : Panel_Disp :=
  match i with
  | 0 => { d with HELP := !d.HELP }
  | 1 => { d with EXPR := !d.EXPR }
  | 2 => { d with POSITION := !d.POSITION }
  | 3 => { d with ROTATION := !d.ROTATION }
  | 4 => { d with SCALE := !d.SCALE }
  | 5 => { d with COLOR := !d.COLOR }
  | 6 => { d with SPEED := !d.SPEED }
  | 7 => { d with OUTPUT := !d.OUTPUT }
  | _ => d

/-- The world with the HUD flag `i` negated. -/
def Michi.toggle_disp (m : Michi) (i : Nat) : Michi :=
  { m with panel := { m.panel with disp := m.panel.disp.toggle i } }

/-- Two submissions in a row: `s1` is typed and Enter pressed, then `s2`. -/
def submit_twice (w : Michi) (s1 s2 : String) : Option (Michi × Parser) :=
  (panel_on_key_enter strtof_decimal 20 (w.typed s1) parser_create).bind fun r =>
    panel_on_key_enter strtof_decimal 20 (r.1.typed s2) r.2

/-- The text `s` parsed and, whatever the parse recorded, evaluated in the
world `m`. -/
def evaluate_text (m : Michi) (s : String) : Option (Expr × Parser) :=
  (parse strtof_decimal 20 parser_create (s.toList ++ [Char.ofNat 0])).bind fun r =>
    expr_evaluate_expression m r.2 r.1

/-- The names of the three identifier tables, in search order. -/
def michi_names : List (List Char) :=
  michi_action_strings.map Prod.snd ++ michi_var_strings.map Prod.snd ++
    michi_const_strings.map Prod.snd

/-- No `NULL` pointer in the tree: every binary node has its right operand. -/
def Expr.complete : Expr → Bool
  | .unary _ _ c => c.complete
  | .binary _ _ _ Option.none => false
  | .binary _ _ l (some r) => l.complete && r.complete
  | .statement _ l r => l.complete && r.complete
  | _ => true

/-- The largest finite `float`. -/
def FLT_MAX : ℚ := 340282346638528859811704183484516925440

/-- A `strtof` for plain decimal literals that reports a range error for a
literal above `FLT_MAX`, as the C library does on overflow; rounding is not
modelled. -/
def strtof_ranged : Strtof := fun s =>
  ((strtof_decimal s).1, (strtof_decimal s).2.1, decide (FLT_MAX < (strtof_decimal s).1))

/-- A submission after another, seen from the parser `michi->parser`: the text
`s1` is parsed, then the text `s2`, with the `strtof` that reports overflow. -/
def parse_twice (s1 s2 : String) : Option (Expr × Parser) :=
  (parse strtof_ranged 20 parser_create (s1.toList ++ [Char.ofNat 0])).bind fun r =>
    parse strtof_ranged 20 r.2 (s2.toList ++ [Char.ofNat 0])

/-- The bytes `strtof` is handed: from `current` up to the terminating NUL. -/
def Lexer.rest (l : Lexer) : List Char :=
  (l.first.drop l.current).takeWhile fun c => c != Char.ofNat 0

/-- The scanner after `lexer_init` on `text` and `n + 1` calls of
`lexer_advance_token`: its `token` is token number `n` of the text. -/
def lexer_nth (strtof : Strtof) (l : Lexer) (text : List Char) (n : Nat) : Lexer :=
  (lexer_advance_token strtof)^[n + 1] (lexer_init l text)

/-- The number of bytes left to scan. -/
def Lexer.left (l : Lexer) : Nat := if l.tokenizing then l.first.length - l.current else 0

/-- While the scanner is tokenizing, the byte at `current` is not the NUL. -/
def Lexer.sound (l : Lexer) : Prop := l.tokenizing = true → l.peek l.current ≠ Char.ofNat 0

/-- A step of the scanner from `l` to `k`: within one buffer, with no more bytes
left to scan than before. -/
def Lexer.le (l k : Lexer) : Prop := k.sound ∧ k.first = l.first ∧ k.left ≤ l.left

/-- A step of the scanner that has consumed a byte. -/
def Lexer.lt (l k : Lexer) : Prop := k.sound ∧ k.first = l.first ∧ k.left < l.left

/-- The tokens `parse_subexpression` consumes when it meets them first. -/
def Token_Kind.starts_operand : Token_Kind → Bool
  | .PLUS => true
  | .MINUS => true
  | .NUMBER_LITERAL => true
  | .IDENTIFIER => true
  | .BRACKET_OPEN => true
  | .BRACKET_CLOSE => true
  | _ => false

/-- The Token Buffer as `parse` leaves it for the expression parser, with the
cursor inside it: the last token is the only EOF token and no token is an
error token. -/
def Parser.wf (p : Parser) : Prop :=
  p.cursor < p.tokens.length ∧
  (∀ i, i < p.tokens.length →
    ((p.tokens.getD i Token.zero).kind = .EOF ↔ i + 1 = p.tokens.length)) ∧
  (∀ i, i < p.tokens.length → (p.tokens.getD i Token.zero).kind ≠ .ERROR)

/-- The number of tokens between the cursor and the EOF token. -/
def Parser.remaining (p : Parser) : Nat := p.tokens.length - 1 - p.cursor

/-- The parser `q` comes after `p` in a parse: same tokens and scanner, the
cursor not moved back and still inside the Token Buffer, the Error Stream
grown at its end. -/
def Parser.reaches (p q : Parser) : Prop :=
  q.tokens = p.tokens ∧ q.lexer = p.lexer ∧ p.cursor ≤ q.cursor ∧ q.cursor < p.tokens.length ∧
    ∃ own, q.error_stream = p.error_stream ++ own

/-- The condition on which the loop of `parse_expression` is left. -/
def Parser.stopped (p : Parser) (prec : Int) (expect : Token_Kind) : Prop :=
  (parser_peek_token p).kind = .EOF ∨ (parser_peek_token p).kind = expect ∨
    token_op_precedence (parser_peek_token p).kind < prec ∨
    (token_op_precedence (parser_peek_token p).kind = prec ∧
      token_op_associativity (parser_peek_token p).kind = .LR)

/-- The diagnostic `panel_set_cursor_on_error` selects: the one at the stored
index, or the first when the stored index is past the end of the stream. -/
def error_selected (panel : Panel) (p : Parser) : Nat :=
  if panel.error_cursor_index ≥ p.error_stream.length then 0 else panel.error_cursor_index

/-- The panel after a jump to the next diagnostic. -/
def error_jump (p : Parser) (panel : Panel) : Panel := (panel_set_cursor_on_error panel p).2

/-- The token an operator kind comes from: the inverse of the cast
`(Op_Kind)token.kind`. -/
def Op_Kind.token : Op_Kind → Token_Kind
  | .PLUS => .PLUS
  | .MINUS => .MINUS
  | .DIV => .DIV
  | .MUL => .MUL
  | .PERIOD => .PERIOD
  | .COMMA => .COMMA
  | .COLON => .COLON
  | .BRACKET => .BRACKET_CLOSE
  | .NULL => .ERROR

/-- What a tree keeps of a token: its kind, its string (an opening bracket's is
not kept) and, for a number literal, its value. -/
def Token.shape (t : Token) : Token_Kind × Option Str × Option ℚ :=
  (t.kind, if t.kind = .BRACKET_OPEN then Option.none else some t.string,
    if t.kind = .NUMBER_LITERAL then some t.number else Option.none)

/-- The in-order traversal of a tree: a leaf gives its token, a sign gives
itself and then its child, a bracket node gives `(`, its child and `)`, a
binary node gives its left operand, its operator and its right operand. -/
def Expr.traverse : Expr → List (Token_Kind × Option Str × Option ℚ)
  | .number s v _ => [(.NUMBER_LITERAL, some s, some v.x)]
  | .identifier s => [(.IDENTIFIER, some s, Option.none)]
  | .unary s k c =>
    if k = .BRACKET then
      (.BRACKET_OPEN, Option.none, Option.none) :: c.traverse ++
        [(.BRACKET_CLOSE, some s, Option.none)]
    else (k.token, some s, Option.none) :: c.traverse
  | .binary s k l (some r) => l.traverse ++ [(k.token, some s, Option.none)] ++ r.traverse
  | .binary _ _ l Option.none => l.traverse
  | _ => []

/-- No sentinel and no binary node of the null operator kind in the tree. -/
def Expr.clean : Expr → Bool
  | .number _ _ _ => true
  | .identifier _ => true
  | .unary _ _ c => c.clean
  | .binary _ k l (some r) => k != .NULL && l.clean && r.clean
  | _ => false

/-- A tree of the nodes the parser makes: the sentinel, number literals of
dimension 1 with the value in the first lane, identifiers, unary nodes and
binary nodes with both operands. -/
def Expr.parsed : Expr → Bool
  | .none => true
  | .number _ v d => decide (d = 1) && decide (v.y = 0) && decide (v.z = 0) && decide (v.w = 0)
  | .identifier _ => true
  | .unary _ _ c => c.parsed
  | .binary _ _ l (some r) => l.parsed && r.parsed
  | _ => false

/-- The tokens from the cursor of `p` up to the cursor of `q`. -/
def Parser.segment (p q : Parser) : List Token :=
  (p.tokens.drop p.cursor).take (q.cursor - p.cursor)

/-- The field that follows a field of the actor in the animation: the one a
`copy_ptr` points into. -/
def Field.target : Field → Option Field
  | .rotation => some .rotation_target
  | .scale => some .scale_target
  | .color => some .color_target
  | _ => Option.none

/-- The `d` floats at the pointer are floats of the field it points into. -/
def Loc.inside (l : Loc) (d : Nat) : Bool := decide (l.lane + d ≤ l.field.dim)

/-- The bindings of the Variables of an evaluated node.  A Variable without
`ptr` has no `copy_ptr` either and is of dimension 0 or the `output`
Variable; one with `ptr` is of dimension `d ≥ 1`, is not the `output`
Variable, its `d` floats are inside the field, and its `copy_ptr`, if any,
is the same lane of the target field. -/
def Expr.bound : Expr → Bool
  | .var _ k _ d Option.none copy => copy.isNone && (decide (d = 0) || decide (k = .OUTPUT))
  | .var _ k _ d (some l) copy =>
    decide (1 ≤ d) && l.inside d && decide (k ≠ .OUTPUT) &&
      (match copy with
       | Option.none => true
       | some c => decide (l.field.target = some c.field) && decide (c.lane = l.lane))
  | .statement _ l r => l.bound && r.bound
  | _ => true

/-- Every lane of the vector at index `d` or above is zero. -/
def V4.tail_zero (v : V4) (d : Nat) : Bool :=
  (List.range 4).all fun i => decide (i < d) || decide (v.lane i = 0)

/-- The dimension tags of an evaluated node: a NumberLiteral has dimension 1 to
4, a Variable dimension 0 to 4, both with zero lanes from the dimension on (a
Variable of dimension 0 aside), and a Constant has dimension 0. -/
def Expr.dimensioned : Expr → Bool
  | .number _ v d => decide (1 ≤ d) && decide (d ≤ 4) && v.tail_zero d
  | .var _ _ v d _ _ => decide (d = 0) || (decide (d ≤ 4) && v.tail_zero d)
  | .const _ _ _ d => decide (d = 0)
  | .statement _ l r => l.dimensioned && r.dimensioned
  | _ => true

/-- The scanner's flag agrees with the text: the cursor is inside the buffer or
at its end, and `tokenizing` holds exactly when the byte at the cursor is not
the terminating NUL. -/
def Lexer.tidy (l : Lexer) : Prop :=
  l.current ≤ l.first.length ∧ (l.tokenizing = true ↔ l.peek l.current ≠ Char.ofNat 0)

/-- The scanner after `lexer_init` or between two calls of
`lexer_advance_token`: the next token starts at the cursor. -/
def Lexer.ready (l : Lexer) : Prop := l.token_start = l.current ∧ l.tidy

/-- The scanner `k` is `l` after it consumed the bytes from `l.current` up to
`k.current`, none of them the NUL. -/
def Lexer.scanned (l k : Lexer) : Prop :=
  k.first = l.first ∧ k.token_start = l.token_start ∧ l.current ≤ k.current ∧ k.tidy ∧
    ∀ i, l.current ≤ i → i < k.current → l.peek i ≠ Char.ofNat 0

/-- The scanner `k` is `l` after a call of `lexer_advance_token` that skipped
the white space from `l.current` up to `s` and made the token `k.token` of the
bytes from `s` up to `k.current`, none of them the NUL; the span is empty for
the EOF token only, which is made at the NUL. -/
def Lexer.tokenized (l k : Lexer) (s : Nat) : Prop :=
  k.first = l.first ∧ k.ready ∧ l.current ≤ s ∧ s ≤ k.current ∧
  k.token.string = ⟨some s, (l.first.drop s).take (k.current - s)⟩ ∧
  (∀ i, l.current ≤ i → i < s → isspace (l.peek i) = true) ∧
  (∀ i, s ≤ i → i < k.current → l.peek i ≠ Char.ofNat 0) ∧
  (k.token.kind ≠ .EOF → s < k.current) ∧
  (k.token.kind = .EOF → s = k.current ∧ k.tokenizing = false)

/-- The offset of the first byte of a token. -/
def Token.start (t : Token) : Nat := t.string.data.getD 0

/-- The offset after the last byte of a token. -/
def Token.stop (t : Token) : Nat := t.start + t.string.length

/-- What is read of a token: its kind, its string and, of a number literal, its
value (the member `number` is written for number literals only). -/
def Token.read (t : Token) : Token_Kind × Str × Option ℚ :=
  (t.kind, t.string, if t.kind = .NUMBER_LITERAL then some t.number else Option.none)

/-- The scanner with other leftovers of earlier calls in the message and the
token. -/
def Lexer.leftover (l : Lexer) (e : String) (t : Token) : Lexer :=
  { l with error := e, token := t }

/-- Two scanners at the same place of the same text with the same `errno`,
whose tokens read the same, and with the same message if the token is an
error token. -/
def Lexer.same_token (k k' : Lexer) : Prop :=
  k'.first = k.first ∧ k'.token_start = k.token_start ∧ k'.current = k.current ∧
  k'.tokenizing = k.tokenizing ∧ k'.errno_erange = k.errno_erange ∧
  k'.token.read = k.token.read ∧ (k.token.kind = .ERROR → k'.error = k.error)

/-- Two parsers whose Token Buffers read the same, with the same Error Stream
and cursor. -/
def Parser.alike (p p' : Parser) : Prop :=
  p'.tokens.map Token.read = p.tokens.map Token.read ∧ p'.error_stream = p.error_stream ∧
    p'.cursor = p.cursor

/-- Two results of the expression parser with the same tree, left in parsers
that are alike; or both without result. -/
def Parser.alike_result (o o' : Option (Expr × Parser)) : Prop :=
  match o, o' with
  | Option.none, Option.none => True
  | some r, some r' => r'.1 = r.1 ∧ r.2.alike r'.2
  | _, _ => False

/-- What `parse` is specified to leave: the tree, the Token Buffer as it reads
and the Error Stream. -/
def parse_outcome (o : Option (Expr × Parser)) :
    Option (Expr × List (Token_Kind × Str × Option ℚ) × List Parse_Error) :=
  o.map fun r => (r.1, r.2.tokens.map Token.read, r.2.error_stream)

theorem parse_subexpression_primary (fuel : Nat) (p : Parser)
    (h : (parser_peek_token p).kind.is_primary = true) :
    parse_subexpression (fuel + 1) p =
      some (primary_node (parser_peek_token p), parser_consume_token p) := by
  unfold parse_subexpression primary_node
  generalize (parser_peek_token p) = t at h
  obtain ⟨k, s, n⟩ := t
  cases k <;> simp [Token_Kind.is_primary] at h <;> rfl

theorem parse_expression_primary (fuel : Nat) (p : Parser) (prec : Int) (expect : Token_Kind)
    (h : (parser_peek_token p).kind.is_primary = true) :
    parse_expression (fuel + 2) p prec expect =
      parse_expression_loop (fuel + 1) (parser_consume_token p) prec expect
        (primary_node (parser_peek_token p)) := by
  have hne : (parser_peek_token p).kind ≠ .EOF := by
    intro h0; rw [h0] at h; simp [Token_Kind.is_primary] at h
  rw [parse_expression]
  simp only [hne, ne_eq, not_false_eq_true, if_true, parse_subexpression_primary fuel p h]

theorem parse_expression_loop_eof (fuel : Nat) (p : Parser) (prec : Int) (expect : Token_Kind)
    (a_node : Expr) (h : (parser_peek_token p).kind = .EOF) :
    parse_expression_loop (fuel + 1) p prec expect a_node = some (a_node, p) := by
  rw [parse_expression_loop]
  simp [h]

theorem parse_expression_loop_break (fuel : Nat) (p : Parser) (prec : Int)
    (expect : Token_Kind) (a_node : Expr)
    (h : token_op_precedence (parser_peek_token p).kind < prec ∨
      (token_op_precedence (parser_peek_token p).kind = prec ∧
        token_op_associativity (parser_peek_token p).kind = .LR)) :
    parse_expression_loop (fuel + 1) p prec expect a_node = some (a_node, p) := by
  rw [parse_expression_loop]
  rcases h with h | h
  · simp [h]
  · simp [h.1, h.2]

theorem parse_binary_operator_op (p : Parser) (left : Expr)
    (h : (parser_peek_token p).kind.is_binary_op = true) :
    parse_binary_operator p left =
      (Expr.binary (parser_peek_token p).string (Op_Kind.ofToken (parser_peek_token p).kind)
        left Option.none, parser_consume_token p) := by
  unfold parse_binary_operator
  generalize (parser_peek_token p) = t at h
  obtain ⟨k, s, n⟩ := t
  cases k <;> simp [Token_Kind.is_binary_op] at h <;> rfl

theorem parse_expression_loop_op (fuel : Nat) (p : Parser) (prec : Int) (expect : Token_Kind)
    (a_node : Expr) (hop : (parser_peek_token p).kind.is_binary_op = true)
    (hex : (parser_peek_token p).kind ≠ expect)
    (h1 : ¬ token_op_precedence (parser_peek_token p).kind < prec)
    (h2 : ¬ (token_op_precedence (parser_peek_token p).kind = prec ∧
        token_op_associativity (parser_peek_token p).kind = .LR)) :
    parse_expression_loop (fuel + 1) p prec expect a_node =
      (parse_expression fuel (parser_consume_token p)
        (token_op_precedence (parser_peek_token p).kind) expect).bind fun r =>
          parse_expression_loop fuel r.2 prec expect
            (binary_node (parser_peek_token p) a_node r.1) := by
  have hne : (parser_peek_token p).kind ≠ .EOF := by
    intro h0; rw [h0] at hop; simp [Token_Kind.is_binary_op] at hop
  rw [parse_expression_loop]
  simp only [hne, hex, h1, h2, if_false, parse_binary_operator_op p a_node hop]
  cases parse_expression fuel (parser_consume_token p)
    (token_op_precedence (parser_peek_token p).kind) expect <;> rfl

theorem token_op_precedence_binary (k : Token_Kind) (h : k.is_binary_op = true) :
    10 ≤ token_op_precedence k := by
  cases k <;> simp [Token_Kind.is_binary_op] at h <;> decide

theorem token_op_associativity_of_precedence (k1 k2 : Token_Kind)
    (h1 : k1.is_binary_op = true) (h2 : k2.is_binary_op = true)
    (h : token_op_precedence k1 = token_op_precedence k2) :
    token_op_associativity k1 = token_op_associativity k2 := by
  cases k1 <;> simp [Token_Kind.is_binary_op] at h1 <;>
  cases k2 <;> simp [Token_Kind.is_binary_op] at h2 <;>
  first | rfl | (exfalso; revert h; decide)

/-- C1: for primaries `a b c` and binary operator tokens `o1 o2`, parsing
`a o1 b o2 c` with enough fuel records no diagnostic, stops on the EOF token
and yields `(a o1 b) o2 c` when `o1` binds tighter than `o2` or they bind
equally and associate to the left, and `a o1 (b o2 c)` otherwise; precedence
and associativity are the table `:` 10 right, `,` 15 left, `+ -` 80 left,
`* /` 90 left, `.` 100 left. -/
theorem parse_expression_precedence (a o1 b o2 c e : Token) (lx : Lexer) (fuel : Nat)
    (ha : a.kind.is_primary = true) (hb : b.kind.is_primary = true)
    (hc : c.kind.is_primary = true) (h1 : o1.kind.is_binary_op = true)
    (h2 : o2.kind.is_binary_op = true) (he : e.kind = .EOF) (hf : 8 ≤ fuel) :
    parse_expression fuel ⟨[a, o1, b, o2, c, e], [], lx, 0⟩ (-1) .EOF =
      some
        (if token_op_precedence o1.kind > token_op_precedence o2.kind ∨
            (token_op_precedence o1.kind = token_op_precedence o2.kind ∧
              token_op_associativity o1.kind = .LR) then
          binary_node o2 (binary_node o1 (primary_node a) (primary_node b)) (primary_node c)
        else
          binary_node o1 (primary_node a) (binary_node o2 (primary_node b) (primary_node c)),
        ⟨[a, o1, b, o2, c, e], [], lx, 5⟩) ∧
    (token_op_precedence .COLON = 10 ∧ token_op_associativity .COLON = .RL) ∧
    (token_op_precedence .COMMA = 15 ∧ token_op_associativity .COMMA = .LR) ∧
    (token_op_precedence .PLUS = 80 ∧ token_op_associativity .PLUS = .LR) ∧
    (token_op_precedence .MINUS = 80 ∧ token_op_associativity .MINUS = .LR) ∧
    (token_op_precedence .MUL = 90 ∧ token_op_associativity .MUL = .LR) ∧
    (token_op_precedence .DIV = 90 ∧ token_op_associativity .DIV = .LR) ∧
    (token_op_precedence .PERIOD = 100 ∧ token_op_associativity .PERIOD = .LR) := by
  refine ⟨?_, by decide⟩
  obtain ⟨k, rfl⟩ := Nat.exists_eq_add_of_le hf
  have ne1 : o1.kind ≠ .EOF := by
    intro h0; rw [h0] at h1; simp [Token_Kind.is_binary_op] at h1
  have ne2 : o2.kind ≠ .EOF := by
    intro h0; rw [h0] at h2; simp [Token_Kind.is_binary_op] at h2
  have g1 := token_op_precedence_binary _ h1
  have g2 := token_op_precedence_binary _ h2
  have tail : ∀ (n : Nat) (prec : Int) (x : Expr),
      parse_expression_loop (n + 1) ⟨[a, o1, b, o2, c, e], [], lx, 5⟩ prec .EOF x =
        some (x, ⟨[a, o1, b, o2, c, e], [], lx, 5⟩) := fun n prec x =>
    parse_expression_loop_eof n _ prec .EOF x (by simpa [parser_peek_token] using he)
  have last : ∀ (n : Nat) (prec : Int),
      parse_expression (n + 2) ⟨[a, o1, b, o2, c, e], [], lx, 4⟩ prec .EOF =
        some (primary_node c, ⟨[a, o1, b, o2, c, e], [], lx, 5⟩) := fun n prec => by
    rw [parse_expression_primary n _ prec .EOF (by simpa [parser_peek_token] using hc)]
    exact tail n prec _
  rw [show 8 + k = (k + 6) + 2 by omega,
    parse_expression_primary (k + 6) _ (-1) .EOF (by simpa [parser_peek_token] using ha),
    parse_expression_loop_op (k + 6) _ (-1) .EOF _ (by simpa [parser_peek_token] using h1)
      (by simpa [parser_peek_token] using ne1)
      (by simp only [parser_peek_token, parser_consume_token]; simp; omega)
      (by simp only [parser_peek_token, parser_consume_token]; simp; omega)]
  simp only [parser_peek_token, parser_consume_token]
  simp only [List.length_cons, List.length_nil, Nat.reduceAdd, bne_iff_ne, ne_eq,
    OfNat.zero_ne_ofNat, OfNat.one_ne_ofNat, not_false_eq_true, if_true, List.getD_cons_zero,
    List.getD_cons_succ, Nat.reduceEqDiff]
  rw [show k + 6 = (k + 4) + 2 by omega,
    parse_expression_primary (k + 4) _ _ .EOF (by simpa [parser_peek_token] using hb)]
  simp only [parser_peek_token, parser_consume_token]
  simp only [List.length_cons, List.length_nil, Nat.reduceAdd, bne_iff_ne, ne_eq,
    OfNat.ofNat_ne_zero, OfNat.ofNat_ne_one, not_false_eq_true, if_true, List.getD_cons_zero,
    List.getD_cons_succ, Nat.reduceEqDiff]
  by_cases hg : token_op_precedence o1.kind > token_op_precedence o2.kind ∨
      (token_op_precedence o1.kind = token_op_precedence o2.kind ∧
        token_op_associativity o1.kind = .LR)
  · rw [if_pos hg, parse_expression_loop_break (k + 4) _ _ .EOF _ (by
      simp only [parser_peek_token]
      simp only [List.length_cons, List.length_nil, Nat.reduceAdd, bne_iff_ne, ne_eq,
        not_false_eq_true, if_true, List.getD_cons_zero, List.getD_cons_succ, Nat.reduceEqDiff]
      rcases hg with hg | hg
      · exact Or.inl hg
      · exact Or.inr ⟨hg.1.symm,
          (token_op_associativity_of_precedence _ _ h1 h2 hg.1).symm.trans hg.2⟩)]
    simp only [Option.bind]
    rw [show k + 4 + 2 = (k + 5) + 1 by omega,
      parse_expression_loop_op (k + 5) _ (-1) .EOF _ (by simpa [parser_peek_token] using h2)
        (by simpa [parser_peek_token] using ne2)
        (by simp only [parser_peek_token]; simp; omega)
        (by simp only [parser_peek_token]; simp; omega)]
    simp only [parser_peek_token, parser_consume_token]
    simp only [List.length_cons, List.length_nil, Nat.reduceAdd, bne_iff_ne, ne_eq,
      not_false_eq_true, if_true, List.getD_cons_zero, List.getD_cons_succ, Nat.reduceEqDiff]
    rw [show k + 5 = (k + 3) + 2 by omega, last (k + 3)]
    simp only [Option.bind]
    rw [show k + 3 + 2 = (k + 4) + 1 by omega, tail (k + 4)]
  · rw [if_neg hg, show k + 4 + 1 = (k + 4) + 1 by omega,
      parse_expression_loop_op (k + 4) _ _ .EOF _ (by simpa [parser_peek_token] using h2)
        (by simpa [parser_peek_token] using ne2)
        (by
          simp only [parser_peek_token]
          simp only [List.length_cons, List.length_nil, Nat.reduceAdd, bne_iff_ne, ne_eq,
            not_false_eq_true, if_true, List.getD_cons_zero, List.getD_cons_succ,
            Nat.reduceEqDiff]
          intro hlt
          exact hg (Or.inl hlt))
        (by
          simp only [parser_peek_token]
          simp only [List.length_cons, List.length_nil, Nat.reduceAdd, bne_iff_ne, ne_eq,
            not_false_eq_true, if_true, List.getD_cons_zero, List.getD_cons_succ,
            Nat.reduceEqDiff]
          rintro ⟨he1, he2⟩
          exact hg (Or.inr ⟨he1.symm,
            (token_op_associativity_of_precedence _ _ h1 h2 he1.symm).trans he2⟩))]
    simp only [parser_peek_token, parser_consume_token]
    simp only [List.length_cons, List.length_nil, Nat.reduceAdd, bne_iff_ne, ne_eq,
      not_false_eq_true, if_true, List.getD_cons_zero, List.getD_cons_succ, Nat.reduceEqDiff]
    rw [show k + 4 = (k + 2) + 2 by omega, last (k + 2)]
    simp only [Option.bind]
    rw [show k + 2 + 2 = (k + 3) + 1 by omega, tail (k + 3)]
    simp only [Option.bind]
    rw [show k + 3 + 1 + 2 = (k + 5) + 1 by omega, tail (k + 5)]

theorem parse_expression_precedence_witness :
    (parse_expression 8
        ⟨[token_at .NUMBER_LITERAL 0 "1" 1, token_at .PLUS 2 "+" 1,
          token_at .NUMBER_LITERAL 4 "2" 2, token_at .MUL 6 "*" 2,
          token_at .NUMBER_LITERAL 8 "3" 3, token_at .EOF 9 "" 3], [], parser_create.lexer, 0⟩
        (-1) .EOF).map Prod.fst =
      some (Expr.binary ⟨some 2, ['+']⟩ .PLUS (Expr.number ⟨some 0, ['1']⟩ (v4 1 0 0 0) 1)
        (some (Expr.binary ⟨some 6, ['*']⟩ .MUL (Expr.number ⟨some 4, ['2']⟩ (v4 2 0 0 0) 1)
          (some (Expr.number ⟨some 8, ['3']⟩ (v4 3 0 0 0) 1))))) ∧
    (parse_expression 8
        ⟨[token_at .NUMBER_LITERAL 0 "1" 1, token_at .MINUS 2 "-" 1,
          token_at .NUMBER_LITERAL 4 "2" 2, token_at .MINUS 6 "-" 2,
          token_at .NUMBER_LITERAL 8 "3" 3, token_at .EOF 9 "" 3], [], parser_create.lexer, 0⟩
        (-1) .EOF).map Prod.fst =
      some (Expr.binary ⟨some 6, ['-']⟩ .MINUS
        (Expr.binary ⟨some 2, ['-']⟩ .MINUS (Expr.number ⟨some 0, ['1']⟩ (v4 1 0 0 0) 1)
          (some (Expr.number ⟨some 4, ['2']⟩ (v4 2 0 0 0) 1)))
        (some (Expr.number ⟨some 8, ['3']⟩ (v4 3 0 0 0) 1))) ∧
    (parse_expression 8
        ⟨[token_at .IDENTIFIER 0 "a" 0, token_at .COLON 2 ":" 0,
          token_at .IDENTIFIER 4 "b" 0, token_at .COLON 6 ":" 0,
          token_at .IDENTIFIER 8 "c" 0, token_at .EOF 9 "" 0], [], parser_create.lexer, 0⟩
        (-1) .EOF).map Prod.fst =
      some (Expr.binary ⟨some 2, [':']⟩ .COLON (Expr.identifier ⟨some 0, ['a']⟩)
        (some (Expr.binary ⟨some 6, [':']⟩ .COLON (Expr.identifier ⟨some 4, ['b']⟩)
          (some (Expr.identifier ⟨some 8, ['c']⟩))))) ∧
    (parse strtof_decimal 8 parser_create "1 + 2 * 3".toList).map
        (fun r => (r.2.tokens, r.2.error_stream)) =
      some ([token_at .NUMBER_LITERAL 0 "1" 1, token_at .PLUS 2 "+" 1,
        token_at .NUMBER_LITERAL 4 "2" 2, token_at .MUL 6 "*" 2,
        token_at .NUMBER_LITERAL 8 "3" 3, token_at .EOF 9 "" 3], []) ∧
    (parse strtof_decimal 8 parser_create "1 - 2 - 3".toList).map
        (fun r => (r.2.tokens, r.2.error_stream)) =
      some ([token_at .NUMBER_LITERAL 0 "1" 1, token_at .MINUS 2 "-" 1,
        token_at .NUMBER_LITERAL 4 "2" 2, token_at .MINUS 6 "-" 2,
        token_at .NUMBER_LITERAL 8 "3" 3, token_at .EOF 9 "" 3], []) ∧
    (parse strtof_decimal 8 parser_create "a : b : c".toList).map
        (fun r => (r.2.tokens, r.2.error_stream)) =
      some ([token_at .IDENTIFIER 0 "a" 0, token_at .COLON 2 ":" 0,
        token_at .IDENTIFIER 4 "b" 0, token_at .COLON 6 ":" 0,
        token_at .IDENTIFIER 8 "c" 0, token_at .EOF 9 "" 0], []) := by
  refine ⟨?_, ?_, ?_, by decide!, by decide!, by decide!⟩
  · rw [(parse_expression_precedence (token_at .NUMBER_LITERAL 0 "1" 1) (token_at .PLUS 2 "+" 1)
      (token_at .NUMBER_LITERAL 4 "2" 2) (token_at .MUL 6 "*" 2)
      (token_at .NUMBER_LITERAL 8 "3" 3) (token_at .EOF 9 "" 3) parser_create.lexer 8
      rfl rfl rfl rfl rfl rfl (le_refl 8)).1]
    rfl
  · rw [(parse_expression_precedence (token_at .NUMBER_LITERAL 0 "1" 1) (token_at .MINUS 2 "-" 1)
      (token_at .NUMBER_LITERAL 4 "2" 2) (token_at .MINUS 6 "-" 2)
      (token_at .NUMBER_LITERAL 8 "3" 3) (token_at .EOF 9 "" 3) parser_create.lexer 8
      rfl rfl rfl rfl rfl rfl (le_refl 8)).1]
    rfl
  · rw [(parse_expression_precedence (token_at .IDENTIFIER 0 "a" 0) (token_at .COLON 2 ":" 0)
      (token_at .IDENTIFIER 4 "b" 0) (token_at .COLON 6 ":" 0)
      (token_at .IDENTIFIER 8 "c" 0) (token_at .EOF 9 "" 0) parser_create.lexer 8
      rfl rfl rfl rfl rfl rfl (le_refl 8)).1]
    rfl

/-! ## Loads and stores -/

theorem v4_lane_setLane (v : V4) (i j : Nat) (f : ℚ) :
    (v.setLane i f).lane j = if i = j ∧ i < 4 then f else v.lane j := by
  rcases i with _ | _ | _ | _ | i <;> rcases j with _ | _ | _ | _ | j <;>
    simp [V4.setLane, V4.lane]
  rw [if_neg (by omega)]

theorem v2_lane_setLane (v : V2) (i j : Nat) (f : ℚ) :
    (v.setLane i f).lane j = if i = j ∧ i < 2 then f else v.lane j := by
  rcases i with _ | _ | i <;> rcases j with _ | _ | j <;> simp [V2.setLane, V2.lane]
  rw [if_neg (by omega)]

theorem Michi.load_store (m : Michi) (l k : Loc) (f : ℚ) :
    (m.store l f).load k = if l = k ∧ l.lane < l.field.dim then f else m.load k := by
  obtain ⟨lf, i⟩ := l
  obtain ⟨kf, j⟩ := k
  cases lf <;> cases kf <;>
    simp only [Michi.store, Michi.load, v4_lane_setLane, v2_lane_setLane, Field.dim,
      Loc.mk.injEq, reduceCtorEq, false_and, true_and, if_false] <;>
    split_ifs <;> first | rfl | (exfalso; omega)

theorem Michi.frame_store (m : Michi) (l : Loc) (f : ℚ) :
    (m.store l f).frame = m.frame ∧
      (m.store l f).actor.move_distance = m.actor.move_distance := by
  obtain ⟨lf, i⟩ := l
  cases lf <;> unfold Michi.store <;> dsimp only <;> (try split_ifs) <;> exact ⟨rfl, rfl⟩

theorem memcpy_floats_frame (m : Michi) (dst : Loc) (src : V4) (n : Nat) :
    (memcpy_floats m dst src n).frame = m.frame ∧
      (memcpy_floats m dst src n).actor.move_distance = m.actor.move_distance := by
  induction n with
  | zero => exact ⟨rfl, rfl⟩
  | succ n ih =>
    rw [memcpy_floats]
    exact ⟨(Michi.frame_store _ _ _).1.trans ih.1, (Michi.frame_store _ _ _).2.trans ih.2⟩

theorem memcpy_floats_load (m : Michi) (dst : Loc) (src : V4) (n : Nat) (k : Loc) :
    (memcpy_floats m dst src n).load k =
      if k.field = dst.field ∧ dst.lane ≤ k.lane ∧ k.lane < dst.lane + n ∧
          k.lane < dst.field.dim then
        src.lane (k.lane - dst.lane)
      else m.load k := by
  induction n with
  | zero =>
    rw [memcpy_floats, if_neg]
    omega
  | succ n ih =>
    rw [memcpy_floats, Michi.load_store, ih]
    obtain ⟨df, dl⟩ := dst
    obtain ⟨kf, kl⟩ := k
    simp only [Loc.add, Loc.mk.injEq]
    by_cases h1 : df = kf ∧ dl + n = kl
    · obtain ⟨rfl, rfl⟩ := h1
      by_cases h2 : dl + n < df.dim
      · simp [h2]
      · have : ¬ (dl + n < dl + n) := lt_irrefl _
        simp [h2]
    · by_cases h3 : kf = df
      · subst h3
        have h4 : dl + n ≠ kl := fun h => h1 ⟨rfl, h⟩
        have e : (kl < dl + (n + 1)) ↔ (kl < dl + n) := by omega
        simp [h4, e]
      · have h5 : ¬ (df = kf) := fun h => h3 h.symm
        simp [h3, h5]

/-! ## Executor: assignment through a variable -/

theorem execute_var_statement_match (string lstring : Str) (kind : Michi_Var) (lv : V4)
    (d : Nat) (ptr : Loc) (copy_ptr : Option Loc) (right : Expr) (p : Parser) (m : Michi)
    (hk : kind ≠ .OUTPUT) (hd : d ≠ 0) (hlit : expr_resolves_to_literal right = true)
    (hr : (expr_resolve right).2 = d) :
    expr_type_check_and_execute
        (.statement string (.var lstring kind lv d (some ptr) copy_ptr) right) p m =
      (true, p,
        match copy_ptr with
        | some c =>
          memcpy_floats (memcpy_floats m ptr (expr_resolve right).1 d) c (expr_resolve right).1 d
        | Option.none =>
          if ptr = ⟨.position, 0⟩ then
            { memcpy_floats m ptr (expr_resolve right).1 d with
              actor := { (memcpy_floats m ptr (expr_resolve right).1 d).actor with
                move_distance := 0 } }
          else memcpy_floats m ptr (expr_resolve right).1 d) := by
  subst hr
  cases copy_ptr <;>
    simp only [expr_type_check_and_execute, execute_var_statement, hk, hd, hlit,
      if_true, if_false, Option.some.injEq]

theorem Michi.load_move_distance (m : Michi) (x : ℚ) (k : Loc) :
    ({ m with actor := { m.actor with move_distance := x } } : Michi).load k = m.load k := by
  obtain ⟨kf, kl⟩ := k
  cases kf <;> rfl

/-- C5: executing a statement whose left side is a variable other than `output`
of dimension `d >= 1`, bound to lanes inside a field (and, if it has a target,
to lanes inside another field), and whose right side is literal-like of
dimension `r`: if `r = d` the executor returns true, records nothing, and the
first `d` lanes of the right value are read back from the primary location and
from the target; if `r != d` it returns false, records "Incompatible types"
and leaves the world as it was. -/
theorem execute_var_statement_assign (string lstring : Str) (kind : Michi_Var) (lv : V4)
    (d : Nat) (ptr : Loc) (copy_ptr : Option Loc) (right : Expr) (p : Parser) (m : Michi)
    (hk : kind ≠ .OUTPUT) (hd : 1 ≤ d) (hlit : expr_resolves_to_literal right = true)
    (hptr : ptr.lane + d ≤ ptr.field.dim)
    (hcopy : ∀ c, copy_ptr = some c → c.lane + d ≤ c.field.dim ∧ c.field ≠ ptr.field) :
    ((expr_resolve right).2 = d →
      (expr_type_check_and_execute
          (.statement string (.var lstring kind lv d (some ptr) copy_ptr) right) p m).1 = true ∧
      (expr_type_check_and_execute
          (.statement string (.var lstring kind lv d (some ptr) copy_ptr) right) p m).2.1 = p ∧
      (∀ i, i < d →
        (expr_type_check_and_execute
          (.statement string (.var lstring kind lv d (some ptr) copy_ptr) right) p m).2.2.load
            (ptr.add i) = (expr_resolve right).1.lane i) ∧
      (∀ c, copy_ptr = some c → ∀ i, i < d →
        (expr_type_check_and_execute
          (.statement string (.var lstring kind lv d (some ptr) copy_ptr) right) p m).2.2.load
            (c.add i) = (expr_resolve right).1.lane i)) ∧
    ((expr_resolve right).2 ≠ d →
      expr_type_check_and_execute
          (.statement string (.var lstring kind lv d (some ptr) copy_ptr) right) p m =
        (false, parser_report_error p string "Incompatible types", m)) := by
  have hd0 : d ≠ 0 := by omega
  have inr : ∀ (l : Loc) (i : Nat), i < d → l.lane + d ≤ l.field.dim →
      ((l.add i).field = l.field ∧ l.lane ≤ (l.add i).lane ∧ (l.add i).lane < l.lane + d ∧
        (l.add i).lane < l.field.dim) ∧ (l.add i).lane - l.lane = i := by
    intro l i hi hl
    refine ⟨⟨rfl, ?_, ?_, ?_⟩, ?_⟩ <;> simp only [Loc.add] <;> omega
  constructor
  · intro hr
    rw [execute_var_statement_match string lstring kind lv d ptr copy_ptr right p m hk hd0
      hlit hr]
    refine ⟨rfl, rfl, ?_, ?_⟩
    · intro i hi
      cases copy_ptr with
      | none =>
        have e := memcpy_floats_load m ptr (expr_resolve right).1 d (ptr.add i)
        rw [if_pos (inr ptr i hi hptr).1, (inr ptr i hi hptr).2] at e
        dsimp only
        split_ifs
        · rw [Michi.load_move_distance]
          exact e
        · exact e
      | some c =>
        obtain ⟨hc1, hc2⟩ := hcopy c rfl
        dsimp only
        rw [memcpy_floats_load, if_neg (by simp only [Loc.add]; intro h; exact hc2 h.1.symm),
          memcpy_floats_load, if_pos (inr ptr i hi hptr).1, (inr ptr i hi hptr).2]
    · intro c hc i hi
      subst hc
      obtain ⟨hc1, hc2⟩ := hcopy c rfl
      dsimp only
      rw [memcpy_floats_load, if_pos (inr c i hi hc1).1, (inr c i hi hc1).2]
  · intro hr
    simp only [expr_type_check_and_execute, execute_var_statement, hk, hd0, hlit, hr,
      if_true, if_false]

theorem execute_var_statement_assign_witness :
    ((expr_type_check_and_execute
        (.statement ⟨some 12, [':']⟩
          (.var ⟨some 5, ['.']⟩ .SCALE (v4 4 4 0 0) 2 (some ⟨.scale, 0⟩)
            (some ⟨.scale_target, 0⟩))
          (.number ⟨some 15, [',']⟩ (v4 2 3 0 0) 2)) parser_create (michi_create 1 0)).1 = true ∧
      (expr_type_check_and_execute
        (.statement ⟨some 12, [':']⟩
          (.var ⟨some 5, ['.']⟩ .SCALE (v4 4 4 0 0) 2 (some ⟨.scale, 0⟩)
            (some ⟨.scale_target, 0⟩))
          (.number ⟨some 15, [',']⟩ (v4 2 3 0 0) 2)) parser_create
            (michi_create 1 0)).2.2.load ⟨.scale, 1⟩ = 3 ∧
      (expr_type_check_and_execute
        (.statement ⟨some 12, [':']⟩
          (.var ⟨some 5, ['.']⟩ .SCALE (v4 4 4 0 0) 2 (some ⟨.scale, 0⟩)
            (some ⟨.scale_target, 0⟩))
          (.number ⟨some 15, [',']⟩ (v4 2 3 0 0) 2)) parser_create
            (michi_create 1 0)).2.2.load ⟨.scale_target, 1⟩ = 3) ∧
    expr_type_check_and_execute
        (.statement ⟨some 12, [':']⟩
          (.var ⟨some 5, ['.']⟩ .SCALE (v4 4 4 0 0) 2 (some ⟨.scale, 0⟩)
            (some ⟨.scale_target, 0⟩))
          (.number ⟨some 14, ['2']⟩ (v4 2 0 0 0) 1)) parser_create (michi_create 1 0) =
      (false, parser_report_error parser_create ⟨some 12, [':']⟩ "Incompatible types",
        michi_create 1 0) := by
  have hc : ∀ c : Loc, some (⟨.scale_target, 0⟩ : Loc) = some c →
      c.lane + 2 ≤ c.field.dim ∧ c.field ≠ (⟨.scale, 0⟩ : Loc).field := by
    intro c h
    cases h
    exact ⟨le_refl 2, by decide⟩
  have h := (execute_var_statement_assign ⟨some 12, [':']⟩ ⟨some 5, ['.']⟩ .SCALE (v4 4 4 0 0) 2
    ⟨.scale, 0⟩ (some ⟨.scale_target, 0⟩) (.number ⟨some 15, [',']⟩ (v4 2 3 0 0) 2)
    parser_create (michi_create 1 0) (by decide) (by decide) rfl (le_refl 2) hc).1 rfl
  have h' := (execute_var_statement_assign ⟨some 12, [':']⟩ ⟨some 5, ['.']⟩ .SCALE (v4 4 4 0 0) 2
    ⟨.scale, 0⟩ (some ⟨.scale_target, 0⟩) (.number ⟨some 14, ['2']⟩ (v4 2 0 0 0) 1)
    parser_create (michi_create 1 0) (by decide) (by decide) rfl (le_refl 2) hc).2 (by decide)
  exact ⟨⟨h.1, h.2.2.1 1 (by decide), h.2.2.2 _ rfl 1 (by decide)⟩, h'⟩

theorem Field.dim_le (f : Field) : f.dim ≤ 4 := by
  cases f <;> decide

theorem memcpy_floats_one_load (m : Michi) (dst : Loc) (src : V4) (k : Loc)
    (h : dst.lane < dst.field.dim) :
    (memcpy_floats m dst src 1).load k = if k = dst then src.x else m.load k := by
  rw [memcpy_floats_load]
  obtain ⟨df, dl⟩ := dst
  obtain ⟨kf, kl⟩ := k
  simp only [Loc.mk.injEq]
  by_cases e : kf = df ∧ kl = dl
  · obtain ⟨rfl, rfl⟩ := e
    rw [if_pos ⟨rfl, le_refl _, by omega, h⟩, if_pos ⟨rfl, rfl⟩]
    simp [V4.lane]
  · rw [if_neg e, if_neg]
    rintro ⟨h1, h2, h3, -⟩
    exact e ⟨h1, by omega⟩

/-- C7: the lane variable that member access `.x .y .z .w` (lane `i`) makes of a
bound position, scale or color variable of dimension `pd > i` is bound to lane
`i` of the parent's primary location and of its target; assigning a scalar to
it succeeds, and afterwards exactly those lanes hold the scalar while every
other lane of every field and every other member of the world, the move
distance aside, is as before.  The move distance becomes zero when the
variable has no target and its lane is the first of the actor's position. -/
theorem lane_assignment_frame (string s ps rs : Str) (pkind rkind : Michi_Var) (pv : V4)
    (pd : Nat) (ptr : Loc) (copy_ptr : Option Loc) (rv : V4) (rd : Nat)
    (rptr rcopy : Option Loc) (right : Expr) (p : Parser) (m : Michi) (i : Nat)
    (hp : pkind = .POSITION ∨ pkind = .SCALE ∨ pkind = .COLOR)
    (hi : rkind.laneIndex = some i) (hid : i < pd)
    (hptr : ptr.lane + pd ≤ ptr.field.dim)
    (hcopy : ∀ c, copy_ptr = some c → c.lane + pd ≤ c.field.dim)
    (hlit : expr_resolves_to_literal right = true) (hdim : (expr_resolve right).2 = 1) :
    expr_evaluate_period p s (.var ps pkind pv pd (some ptr) copy_ptr)
        (.var rs rkind rv rd rptr rcopy) m =
      (Expr.var s rkind (v4 (pv.lane i) 0 0 0) 1 (some (ptr.add i))
        (copy_ptr.map fun c => c.add i), p) ∧
    (expr_type_check_and_execute (.statement string
      (expr_evaluate_period p s (.var ps pkind pv pd (some ptr) copy_ptr)
        (.var rs rkind rv rd rptr rcopy) m).1 right) p m).1 = true ∧
    (expr_type_check_and_execute (.statement string
      (expr_evaluate_period p s (.var ps pkind pv pd (some ptr) copy_ptr)
        (.var rs rkind rv rd rptr rcopy) m).1 right) p m).2.1 = p ∧
    (∀ k : Loc,
      (expr_type_check_and_execute (.statement string
        (expr_evaluate_period p s (.var ps pkind pv pd (some ptr) copy_ptr)
          (.var rs rkind rv rd rptr rcopy) m).1 right) p m).2.2.load k =
        if k = ptr.add i ∨ some k = copy_ptr.map (fun c => c.add i) then
          (expr_resolve right).1.x
        else m.load k) ∧
    (expr_type_check_and_execute (.statement string
      (expr_evaluate_period p s (.var ps pkind pv pd (some ptr) copy_ptr)
        (.var rs rkind rv rd rptr rcopy) m).1 right) p m).2.2.frame = m.frame ∧
    (expr_type_check_and_execute (.statement string
      (expr_evaluate_period p s (.var ps pkind pv pd (some ptr) copy_ptr)
        (.var rs rkind rv rd rptr rcopy) m).1 right) p m).2.2.actor.move_distance =
      if copy_ptr = Option.none ∧ ptr.add i = ⟨.position, 0⟩ then 0
      else m.actor.move_distance := by
  have hpd : pd ≤ 4 := le_trans (by omega) (le_trans hptr (Field.dim_le _))
  have hk : rkind ≠ .OUTPUT := by
    intro h; rw [h] at hi; simp [Michi_Var.laneIndex] at hi
  have e : expr_evaluate_period p s (.var ps pkind pv pd (some ptr) copy_ptr)
        (.var rs rkind rv rd rptr rcopy) m =
      (Expr.var s rkind (v4 (pv.lane i) 0 0 0) 1 (some (ptr.add i))
        (copy_ptr.map fun c => c.add i), p) := by
    rcases hp with rfl | rfl | rfl <;> cases rkind <;>
      simp only [Michi_Var.laneIndex, Option.some.injEq, reduceCtorEq] at hi <;> subst hi <;>
      simp only [expr_evaluate_period, ge_iff_le] <;>
      first
      | rfl
      | (rw [if_pos (by omega)])
  have hin : (ptr.add i).lane < (ptr.add i).field.dim := by
    simp only [Loc.add]; omega
  rw [e]
  dsimp only
  rw [execute_var_statement_match string s rkind _ 1 (ptr.add i) _ right p m hk one_ne_zero
    hlit hdim]
  refine ⟨rfl, rfl, rfl, ?_, ?_, ?_⟩
  · intro k
    cases copy_ptr with
    | none =>
      simp only [Option.map_none', reduceCtorEq, or_false]
      split_ifs with h1 h2 h2
      · rw [Michi.load_move_distance, memcpy_floats_one_load _ _ _ _ hin, if_pos h2]
      · rw [Michi.load_move_distance, memcpy_floats_one_load _ _ _ _ hin, if_neg h2]
      · rw [memcpy_floats_one_load _ _ _ _ hin, if_pos h2]
      · rw [memcpy_floats_one_load _ _ _ _ hin, if_neg h2]
    | some c =>
      have hc := hcopy c rfl
      have hcin : (c.add i).lane < (c.add i).field.dim := by
        simp only [Loc.add]; omega
      simp only [Option.map_some', Option.some.injEq]
      rw [memcpy_floats_one_load _ _ _ _ hcin, memcpy_floats_one_load _ _ _ _ hin]
      by_cases h1 : k = c.add i
      · simp [h1]
      · by_cases h2 : k = ptr.add i
        · simp [h2]
        · simp [h1, h2]
  · cases copy_ptr with
    | none =>
      dsimp only
      split_ifs
      · exact (memcpy_floats_frame _ _ _ _).1
      · exact (memcpy_floats_frame _ _ _ _).1
    | some c =>
      exact (memcpy_floats_frame _ _ _ _).1.trans (memcpy_floats_frame _ _ _ _).1
  · cases copy_ptr with
    | none =>
      dsimp only
      by_cases h : ptr.add i = ⟨.position, 0⟩
      · simp [h]
      · simp only [h, if_false, and_false]
        exact (memcpy_floats_frame _ _ _ _).2
    | some c =>
      simp only [Option.map_some', reduceCtorEq, false_and, if_false]
      exact (memcpy_floats_frame _ _ _ _).2.trans (memcpy_floats_frame _ _ _ _).2

theorem lane_assignment_frame_witness :
    (expr_type_check_and_execute (.statement ⟨some 17, [':']⟩
      (expr_evaluate_period parser_create ⟨some 14, ['.']⟩
        (.var ⟨some 5, ['.']⟩ .POSITION (v4 0 0 0 0) 2 (some ⟨.position, 0⟩) Option.none)
        (.var ⟨some 15, ['x']⟩ .X (v4 0 0 0 0) 0 Option.none Option.none) michi_moving).1
      (.number ⟨some 19, ['5']⟩ (v4 5 0 0 0) 1)) parser_create michi_moving).1 = true ∧
    (expr_type_check_and_execute (.statement ⟨some 17, [':']⟩
      (expr_evaluate_period parser_create ⟨some 14, ['.']⟩
        (.var ⟨some 5, ['.']⟩ .POSITION (v4 0 0 0 0) 2 (some ⟨.position, 0⟩) Option.none)
        (.var ⟨some 15, ['x']⟩ .X (v4 0 0 0 0) 0 Option.none Option.none) michi_moving).1
      (.number ⟨some 19, ['5']⟩ (v4 5 0 0 0) 1)) parser_create michi_moving).2.2.load
        ⟨.position, 0⟩ = 5 ∧
    (expr_type_check_and_execute (.statement ⟨some 17, [':']⟩
      (expr_evaluate_period parser_create ⟨some 14, ['.']⟩
        (.var ⟨some 5, ['.']⟩ .POSITION (v4 0 0 0 0) 2 (some ⟨.position, 0⟩) Option.none)
        (.var ⟨some 15, ['x']⟩ .X (v4 0 0 0 0) 0 Option.none Option.none) michi_moving).1
      (.number ⟨some 19, ['5']⟩ (v4 5 0 0 0) 1)) parser_create michi_moving).2.2.load
        ⟨.position, 1⟩ = michi_moving.load ⟨.position, 1⟩ ∧
    (expr_type_check_and_execute (.statement ⟨some 17, [':']⟩
      (expr_evaluate_period parser_create ⟨some 14, ['.']⟩
        (.var ⟨some 5, ['.']⟩ .POSITION (v4 0 0 0 0) 2 (some ⟨.position, 0⟩) Option.none)
        (.var ⟨some 15, ['x']⟩ .X (v4 0 0 0 0) 0 Option.none Option.none) michi_moving).1
      (.number ⟨some 19, ['5']⟩ (v4 5 0 0 0) 1)) parser_create
        michi_moving).2.2.actor.move_distance = 0 := by
  have h := lane_assignment_frame ⟨some 17, [':']⟩ ⟨some 14, ['.']⟩ ⟨some 5, ['.']⟩
    ⟨some 15, ['x']⟩ .POSITION .X (v4 0 0 0 0) 2 ⟨.position, 0⟩ Option.none (v4 0 0 0 0) 0
    Option.none Option.none (.number ⟨some 19, ['5']⟩ (v4 5 0 0 0) 1) parser_create michi_moving 0
    (Or.inl rfl) rfl (by decide) (le_refl 2) (fun c hc => by cases hc) rfl rfl
  refine ⟨h.2.1, ?_, ?_, ?_⟩
  · rw [h.2.2.2.1 ⟨.position, 0⟩]
    rfl
  · rw [h.2.2.2.1 ⟨.position, 1⟩]
    rfl
  · rw [h.2.2.2.2.2]
    rfl

/-! ## Deciding the result of a parse -/

theorem Expr.eq_of_beq : ∀ (a b : Expr), a.beq b = true → a = b
  | .none, b, h => by
    cases b <;> simp [Expr.beq] at h ⊢
  | .number s v d, b, h => by
    cases b <;> simp [Expr.beq] at h ⊢
    exact ⟨h.1.1, h.1.2, h.2⟩
  | .identifier s, b, h => by
    cases b <;> simp [Expr.beq] at h ⊢
    exact h
  | .unary s k c, b, h => by
    cases b <;> simp [Expr.beq] at h ⊢
    exact ⟨h.1.1, h.1.2, Expr.eq_of_beq _ _ h.2⟩
  | .binary s k l Option.none, b, h => by
    cases b with
    | binary s' k' l' r' =>
      cases r' <;> simp [Expr.beq] at h ⊢
      exact ⟨h.1.1, h.1.2, Expr.eq_of_beq _ _ h.2⟩
    | _ => simp [Expr.beq] at h
  | .binary s k l (some r), b, h => by
    cases b with
    | binary s' k' l' r' =>
      cases r' <;> simp [Expr.beq] at h ⊢
      exact ⟨h.1.1.1, h.1.1.2, Expr.eq_of_beq _ _ h.1.2, Expr.eq_of_beq _ _ h.2⟩
    | _ => simp [Expr.beq] at h
  | .var s k v d a c, b, h => by
    cases b <;> simp [Expr.beq] at h ⊢
    obtain ⟨⟨⟨⟨⟨h1, h2⟩, h3⟩, h4⟩, h5⟩, h6⟩ := h
    exact ⟨h1, h2, h3, h4, h5, h6⟩
  | .const s k v d, b, h => by
    cases b <;> simp [Expr.beq] at h ⊢
    obtain ⟨⟨⟨h1, h2⟩, h3⟩, h4⟩ := h
    exact ⟨h1, h2, h3, h4⟩
  | .action s k, b, h => by
    cases b <;> simp [Expr.beq] at h ⊢
    exact h
  | .statement s l r, b, h => by
    cases b <;> simp [Expr.beq] at h ⊢
    exact ⟨h.1.1, Expr.eq_of_beq _ _ h.1.2, Expr.eq_of_beq _ _ h.2⟩

/-- A parse result whose tree tests equal to `e` and whose Error Stream is
`errs`. -/
theorem parse_result_of_beq {r : Option (Expr × Parser)} {e : Expr} {errs : List Parse_Error}
    (h : r.map (fun r => (r.1.beq e, r.2.error_stream)) = some (true, errs)) :
    ∃ p, r = some (e, p) ∧ p.error_stream = errs := by
  cases r with
  | none => simp at h
  | some r =>
    obtain ⟨e', p⟩ := r
    simp only [Option.map_some', Option.some.injEq, Prod.mk.injEq] at h
    exact ⟨p, by rw [Expr.eq_of_beq _ _ h.1], h.2⟩

/-! ## Evaluation of concrete inputs -/

/-- C2: on `(1,2) * (3,4)` the evaluator yields the dot product 11 in the first
lane with dimension 2, the operands' dimension, not 1; submitted, it leaves
dimension 2 in the output register. -/
theorem mul_equal_dimension_result_dimension :
    ((parse strtof_decimal 20 parser_create "(1,2) * (3,4)".toList).bind fun r =>
        expr_evaluate_expression (michi_create 1 0) r.2 r.1).map
      (fun r => (r.1.kind, expr_resolve r.1, r.2.error_stream)) =
      some (.NUMBER_LITERAL, (v4 11 0 0 0, 2), []) ∧
    (panel_on_key_enter strtof_decimal 20 ((michi_create 1 0).typed "(1,2) * (3,4)")
        parser_create).map
      (fun r => (r.1.output, r.1.output_dim, r.2.error_stream)) =
      some (v4 11 0 0 0, 2, []) := by
  decide!

/-- C3: on `foo_bar+1` the first token is the identifier `foo` and the second
the identifier `_bar+1`, which runs to the end of the input; on `_a+1` the only
token before EOF is the identifier `_a+1`. -/
theorem lexer_identifier_underscore :
    (parse strtof_decimal 20 parser_create "foo_bar+1".toList).map
      (fun r => r.2.tokens.map fun t => (t.kind, t.string)) =
      some [(.IDENTIFIER, ⟨some 0, "foo".toList⟩), (.IDENTIFIER, ⟨some 3, "_bar+1".toList⟩),
        (.EOF, ⟨some 9, []⟩)] ∧
    (parse strtof_decimal 20 parser_create "_a+1".toList).map
      (fun r => r.2.tokens.map fun t => (t.kind, t.string)) =
      some [(.IDENTIFIER, ⟨some 0, "_a+1".toList⟩), (.EOF, ⟨some 4, []⟩)] := by
  decide!

/-- C4: `actor.x` and `actor.speed` evaluate to the sentinel with no diagnostic
recorded, while `speed.x` and `output.position` record "Invalid member
access"; submitting `actor.x` leaves the text in place with an empty Error
Stream. -/
theorem actor_member_access_silent :
    ((parse strtof_decimal 20 parser_create "actor.x".toList).bind fun r =>
        expr_evaluate_expression (michi_create 1 0) r.2 r.1).map
      (fun r => (r.1.kind, r.2.error_stream)) = some (.NONE, []) ∧
    ((parse strtof_decimal 20 parser_create "actor.speed".toList).bind fun r =>
        expr_evaluate_expression (michi_create 1 0) r.2 r.1).map
      (fun r => (r.1.kind, r.2.error_stream)) = some (.NONE, []) ∧
    ((parse strtof_decimal 20 parser_create "speed.x".toList).bind fun r =>
        expr_evaluate_expression (michi_create 1 0) r.2 r.1).map
      (fun r => (r.1.kind, r.2.error_stream)) =
        some (.NONE, [⟨⟨some 5, ['.']⟩, "Invalid member access"⟩]) ∧
    ((parse strtof_decimal 20 parser_create "output.position".toList).bind fun r =>
        expr_evaluate_expression (michi_create 1 0) r.2 r.1).map
      (fun r => (r.1.kind, r.2.error_stream)) =
        some (.NONE, [⟨⟨some 6, ['.']⟩, "Invalid member access"⟩]) ∧
    (panel_on_key_enter strtof_decimal 20 ((michi_create 1 0).typed "actor.x")
        parser_create).map
      (fun r => (r.2.error_stream, r.1.panel.text_input.count)) = some ([], 7) := by
  decide!

/-- C6: with a move of distance 2 in flight, submitting `actor.position.y : 5`
is accepted and sets the second lane of the position, and the move distance is
still 2; submitting `actor.position.x : 5` sets it to 0. -/
theorem position_y_assignment_keeps_move_distance :
    (panel_on_key_enter strtof_decimal 20 (michi_moving.typed "actor.position.y : 5")
        parser_create).map
      (fun r => (r.2.error_stream, r.1.panel.text_input.count, r.1.actor.position,
        r.1.actor.move_distance)) =
      some ([], 0, v2 0 5, 2) ∧
    (panel_on_key_enter strtof_decimal 20 (michi_moving.typed "actor.position.x : 5")
        parser_create).map
      (fun r => (r.2.error_stream, r.1.panel.text_input.count, r.1.actor.position,
        r.1.actor.move_distance)) =
      some ([], 0, v2 5 0, 0) := by
  decide!

/-! ## Evaluator: concatenation -/

theorem foldl_setLane_lane (f : Nat → ℚ) (off n : Nat) (v0 : V4) (j : Nat) :
    ((List.range n).foldl (fun (vec : V4) i => vec.setLane (i + off) (f i)) v0).lane j =
      if off ≤ j ∧ j < off + n ∧ j < 4 then f (j - off) else v0.lane j := by
  induction n with
  | zero =>
    rw [if_neg (by omega)]
    rfl
  | succ n ih =>
    rw [List.range_succ, List.foldl_append, List.foldl_cons, List.foldl_nil,
      v4_lane_setLane, ih]
    by_cases h : n + off = j
    · subst h
      by_cases h4 : n + off < 4
      · rw [if_pos ⟨rfl, h4⟩, if_pos ⟨by omega, by omega, h4⟩]
        congr 1
        omega
      · rw [if_neg (fun h => h4 h.2), if_neg (by omega), if_neg (by omega)]
    · rw [if_neg (fun h' => h h'.1)]
      by_cases c : off ≤ j ∧ j < off + n ∧ j < 4
      · rw [if_pos c, if_pos ⟨c.1, by omega, c.2.2⟩]
      · rw [if_neg c, if_neg (by omega)]

theorem comma_pack_lanes (lv rv : V4) (ld rd : Nat) (h : ld + rd ≤ 4) :
    (∀ i, i < ld → (comma_pack lv ld rv rd).lane i = lv.lane i) ∧
    (∀ i, i < rd → (comma_pack lv ld rv rd).lane (ld + i) = rv.lane i) ∧
    (∀ i, ld + rd ≤ i → (comma_pack lv ld rv rd).lane i = 0) := by
  have e0 : ∀ j, (v4 0 0 0 0).lane j = 0 := by
    intro j
    rcases j with _ | _ | _ | _ | j <;> rfl
  have key : ∀ j, (comma_pack lv ld rv rd).lane j =
      if ld ≤ j ∧ j < ld + rd ∧ j < 4 then rv.lane (j - ld)
      else if j < ld ∧ j < 4 then lv.lane j else 0 := by
    intro j
    have a := foldl_setLane_lane (fun i => rv.lane i) ld rd
      ((List.range ld).foldl (fun (vec : V4) i => vec.setLane i (lv.lane i)) (v4 0 0 0 0)) j
    have b := foldl_setLane_lane (fun i => lv.lane i) 0 ld (v4 0 0 0 0) j
    simp only [Nat.add_zero, Nat.zero_le, true_and, Nat.zero_add, Nat.sub_zero, e0] at b
    unfold comma_pack
    dsimp only
    rw [a, b]
  refine ⟨?_, ?_, ?_⟩
  · intro i hi
    rw [key, if_neg (by omega), if_pos ⟨hi, by omega⟩]
  · intro i hi
    rw [key, if_pos ⟨by omega, by omega, by omega⟩]
    congr 1
    omega
  · intro i hi
    rw [key, if_neg (by omega), if_neg (by omega)]

theorem parse_comma_five :
    ∃ p, parse strtof_decimal 20 parser_create
        (("1,2,3,4,5".toList ++ [Char.ofNat 0]).set "1,2,3,4,5".length (Char.ofNat 0)) =
      some (comma_five_tree, p) ∧ p.error_stream = [] :=
  parse_result_of_beq (by decide!)

theorem evaluate_comma_five (m : Michi) (p : Parser) :
    expr_evaluate_expression m p comma_five_tree =
      some (Expr.none, parser_report_error p ⟨some 7, [',']⟩
        "Vectors with dimension greater than 4 is not supported") := by
  simp [comma_five_tree, expr_evaluate_expression, expr_evaluate_binary_switch,
    expr_resolve_operands, expr_resolves_to_literal, expr_resolve, Expr.kind]

theorem submit_comma_five (w : Michi) :
    ∃ w' p', panel_on_key_enter strtof_decimal 20 (w.typed "1,2,3,4,5") parser_create =
        some (w', p') ∧
      p'.error_stream =
        [⟨⟨some 7, [',']⟩, "Vectors with dimension greater than 4 is not supported"⟩] ∧
      w'.actor = w.actor ∧ w'.output = w.output ∧ w'.output_dim = w.output_dim ∧
      w'.follow = w.follow ∧ w'.draw = w.draw ∧ w'.panel.disp = w.panel.disp ∧
      w'.size = w.size ∧ w'.position = w.position ∧ w'.should_close = w.should_close ∧
      w'.panel.text_input.count = 9 := by
  obtain ⟨p, hp, he⟩ := parse_comma_five
  have e1 : ∀ pn : Panel, panel_set_cursor_on_error pn p = (false, pn) := by
    intro pn
    simp [panel_set_cursor_on_error, he]
  have hlen : "1,2,3,4,5".length = 9 := by decide
  simp only [panel_on_key_enter, Michi.typed, hp, e1, evaluate_comma_five]
  simp only [panel_set_cursor_on_error, parser_report_error, he, List.nil_append,
    List.length_singleton, ne_eq, one_ne_zero, not_false_eq_true, if_true]
  by_cases h : w.panel.error_cursor_index ≥ 1
  · simp only [h, if_true, List.getD_cons_zero, panel_set_cursor, hlen]
    exact ⟨_, _, rfl, rfl, rfl, rfl, rfl, rfl, rfl, rfl, rfl, rfl, rfl, rfl⟩
  · have h0 : w.panel.error_cursor_index = 0 := by omega
    simp only [h, if_false, h0, List.getD_cons_zero, panel_set_cursor, hlen]
    exact ⟨_, _, rfl, rfl, rfl, rfl, rfl, rfl, rfl, rfl, rfl, rfl, rfl, rfl⟩

theorem kind_of_resolves_to_literal (e : Expr) (h : expr_resolves_to_literal e = true) :
    e.kind ≠ .NONE := by
  cases e <;> simp [expr_resolves_to_literal, Expr.kind] at h ⊢

theorem expr_evaluate_binary_of_operands (m : Michi) (p p1 p2 : Parser) (s : Str)
    (kind : Op_Kind) (l r left right : Expr) (hk : kind ≠ .NULL)
    (hl : expr_evaluate_expression m p l = some (left, p1))
    (hr : expr_evaluate_expression m p1 r = some (right, p2))
    (hln : left.kind ≠ .NONE) (hrn : right.kind ≠ .NONE) :
    expr_evaluate_expression m p (.binary s kind l (some r)) =
      some (expr_evaluate_binary_switch p2 s kind left right m) := by
  rw [expr_evaluate_expression]
  simp only [hk, if_false, hl, hr, hln, hrn, or_self]

theorem expr_resolve_operands_literal (p : Parser) (left right : Expr)
    (hll : expr_resolves_to_literal left = true) (hrl : expr_resolves_to_literal right = true) :
    expr_resolve_operands p left right = (some (expr_resolve left, expr_resolve right), p) := by
  simp [expr_resolve_operands, hll, hrl]

/-- C8: for `,` over operands that evaluate to literal-like values of dimensions
`ld` and `rd` (each at most 4): if `ld + rd <= 4` the result is a NumberLiteral
of dimension `ld + rd` whose first `ld` lanes are the left operand's, whose
next `rd` lanes are the right operand's and whose other lanes are zero, and no
diagnostic is added; if `ld + rd > 4` the result is the sentinel and
"Vectors with dimension greater than 4 is not supported" is recorded.
Submitting `1,2,3,4,5`, in any world, records that diagnostic and leaves the
world and the text as they were. -/
theorem comma_concatenation (s : Str) (l r left right : Expr) (m : Michi) (p p1 p2 : Parser)
    (hl : expr_evaluate_expression m p l = some (left, p1))
    (hr : expr_evaluate_expression m p1 r = some (right, p2))
    (hll : expr_resolves_to_literal left = true) (hrl : expr_resolves_to_literal right = true)
    (hld : (expr_resolve left).2 ≤ 4) (hrd : (expr_resolve right).2 ≤ 4) :
    ((expr_resolve left).2 + (expr_resolve right).2 ≤ 4 →
      expr_evaluate_expression m p (.binary s .COMMA l (some r)) =
        some (Expr.number s
          (comma_pack (expr_resolve left).1 (expr_resolve left).2
            (expr_resolve right).1 (expr_resolve right).2)
          ((expr_resolve left).2 + (expr_resolve right).2), p2) ∧
      (∀ i, i < (expr_resolve left).2 →
        (comma_pack (expr_resolve left).1 (expr_resolve left).2
          (expr_resolve right).1 (expr_resolve right).2).lane i = (expr_resolve left).1.lane i) ∧
      (∀ i, i < (expr_resolve right).2 →
        (comma_pack (expr_resolve left).1 (expr_resolve left).2
          (expr_resolve right).1 (expr_resolve right).2).lane ((expr_resolve left).2 + i) =
            (expr_resolve right).1.lane i) ∧
      (∀ i, (expr_resolve left).2 + (expr_resolve right).2 ≤ i →
        (comma_pack (expr_resolve left).1 (expr_resolve left).2
          (expr_resolve right).1 (expr_resolve right).2).lane i = 0)) ∧
    (4 < (expr_resolve left).2 + (expr_resolve right).2 →
      expr_evaluate_expression m p (.binary s .COMMA l (some r)) =
        some (Expr.none, parser_report_error p2 s
          "Vectors with dimension greater than 4 is not supported")) ∧
    (∀ w : Michi, ∃ w' p',
      panel_on_key_enter strtof_decimal 20 (w.typed "1,2,3,4,5") parser_create = some (w', p') ∧
      p'.error_stream =
        [⟨⟨some 7, [',']⟩, "Vectors with dimension greater than 4 is not supported"⟩] ∧
      w'.actor = w.actor ∧ w'.output = w.output ∧ w'.output_dim = w.output_dim ∧
      w'.follow = w.follow ∧ w'.draw = w.draw ∧ w'.panel.disp = w.panel.disp ∧
      w'.size = w.size ∧ w'.position = w.position ∧ w'.should_close = w.should_close ∧
      w'.panel.text_input.count = 9) := by
  have e := expr_evaluate_binary_of_operands m p p1 p2 s .COMMA l r left right (by decide) hl hr
    (kind_of_resolves_to_literal _ hll) (kind_of_resolves_to_literal _ hrl)
  have hmod : ((expr_resolve left).2 + (expr_resolve right).2) % 4294967296 =
      (expr_resolve left).2 + (expr_resolve right).2 := Nat.mod_eq_of_lt (by omega)
  refine ⟨fun h => ⟨?_, comma_pack_lanes _ _ _ _ h⟩, fun h => ?_, submit_comma_five⟩
  · rw [e]
    simp only [expr_evaluate_binary_switch, expr_resolve_operands_literal p2 left right hll hrl,
      hmod, h, if_true]
  · rw [e]
    simp only [expr_evaluate_binary_switch, expr_resolve_operands_literal p2 left right hll hrl,
      hmod, not_le.mpr h, if_false]

theorem comma_concatenation_witness :
    expr_evaluate_expression (michi_create 1 0) parser_create
        (.binary ⟨some 6, [',']⟩ .COMMA (.number ⟨some 1, [',']⟩ (v4 1 2 0 0) 2)
          (some (.number ⟨some 9, [',']⟩ (v4 3 4 0 0) 2))) =
      some (Expr.number ⟨some 6, [',']⟩ (v4 1 2 3 4) 4, parser_create) ∧
    expr_evaluate_expression (michi_create 1 0) parser_create
        (.binary ⟨some 7, [',']⟩ .COMMA (.number ⟨some 5, [',']⟩ (v4 1 2 3 4) 4)
          (some (.number ⟨some 8, ['5']⟩ (v4 5 0 0 0) 1))) =
      some (Expr.none, parser_report_error parser_create ⟨some 7, [',']⟩
        "Vectors with dimension greater than 4 is not supported") := by
  have h1 := (comma_concatenation ⟨some 6, [',']⟩ (.number ⟨some 1, [',']⟩ (v4 1 2 0 0) 2)
    (.number ⟨some 9, [',']⟩ (v4 3 4 0 0) 2) _ _ (michi_create 1 0) parser_create _ _ rfl rfl
    rfl rfl (by decide) (by decide)).1 (by decide)
  have h2 := (comma_concatenation ⟨some 7, [',']⟩ (.number ⟨some 5, [',']⟩ (v4 1 2 3 4) 4)
    (.number ⟨some 8, ['5']⟩ (v4 5 0 0 0) 1) _ _ (michi_create 1 0) parser_create _ _ rfl rfl
    rfl rfl (by decide) (by decide)).2.1 (by decide)
  refine ⟨?_, h2⟩
  rw [h1.1]
  rfl

/-! ## Evaluator: addition and subtraction -/

/-- C12: member access on the identifiers `output`, `actor` and `speed`, in any
world and with no diagnostic: `output.x .y .z .w` is a dimension-1 variable
caching and bound to output lane 0, 1, 2, 3 with no target; `actor.position`
has dimension 2 and no target, `actor.rotation` dimension 1 with target
`rotation_target`, `actor.scale` dimension 2 with target `scale_target`,
`actor.color` dimension 4 with target `color_target`, each caching the field;
`speed.position .rotation .scale .color` is a dimension-1 variable caching and
bound to the matching ease rate, with no target. -/
theorem member_access_table (m : Michi) (p : Parser) (s : Str) (oa ob : Nat) :
    expr_evaluate_expression m p (member_access s oa "output" ob "x") =
      some (.var s .X (v4 m.output.x 0 0 0) 1 (some ⟨.output, 0⟩) Option.none, p) ∧
    expr_evaluate_expression m p (member_access s oa "output" ob "y") =
      some (.var s .Y (v4 m.output.y 0 0 0) 1 (some ⟨.output, 1⟩) Option.none, p) ∧
    expr_evaluate_expression m p (member_access s oa "output" ob "z") =
      some (.var s .Z (v4 m.output.z 0 0 0) 1 (some ⟨.output, 2⟩) Option.none, p) ∧
    expr_evaluate_expression m p (member_access s oa "output" ob "w") =
      some (.var s .W (v4 m.output.w 0 0 0) 1 (some ⟨.output, 3⟩) Option.none, p) ∧
    expr_evaluate_expression m p (member_access s oa "actor" ob "position") =
      some (.var s .POSITION (v4 m.actor.position.x m.actor.position.y 0 0) 2
        (some ⟨.position, 0⟩) Option.none, p) ∧
    expr_evaluate_expression m p (member_access s oa "actor" ob "rotation") =
      some (.var s .ROTATION (v4 m.actor.rotation 0 0 0) 1
        (some ⟨.rotation, 0⟩) (some ⟨.rotation_target, 0⟩), p) ∧
    expr_evaluate_expression m p (member_access s oa "actor" ob "scale") =
      some (.var s .SCALE (v4 m.actor.scale.x m.actor.scale.y 0 0) 2
        (some ⟨.scale, 0⟩) (some ⟨.scale_target, 0⟩), p) ∧
    expr_evaluate_expression m p (member_access s oa "actor" ob "color") =
      some (.var s .COLOR
        (v4 m.actor.color.x m.actor.color.y m.actor.color.z m.actor.color.w) 4
        (some ⟨.color, 0⟩) (some ⟨.color_target, 0⟩), p) ∧
    expr_evaluate_expression m p (member_access s oa "speed" ob "position") =
      some (.var s .X (v4 m.actor.speed.position 0 0 0) 1
        (some ⟨.speed_position, 0⟩) Option.none, p) ∧
    expr_evaluate_expression m p (member_access s oa "speed" ob "rotation") =
      some (.var s .X (v4 m.actor.speed.rotation 0 0 0) 1
        (some ⟨.speed_rotation, 0⟩) Option.none, p) ∧
    expr_evaluate_expression m p (member_access s oa "speed" ob "scale") =
      some (.var s .X (v4 m.actor.speed.scale 0 0 0) 1
        (some ⟨.speed_scale, 0⟩) Option.none, p) ∧
    expr_evaluate_expression m p (member_access s oa "speed" ob "color") =
      some (.var s .X (v4 m.actor.speed.color 0 0 0) 1
        (some ⟨.speed_color, 0⟩) Option.none, p) := by
  refine ⟨rfl, rfl, rfl, rfl, rfl, rfl, rfl, rfl, rfl, rfl, rfl, rfl⟩

/-- C11: member access `.x .y .z .w` (lane `i`) on a position, scale or color
variable of dimension `d` in 1..4 bound to a world location: when `i < d` the
result is a dimension-1 variable caching lane `i` of the parent and bound to
lane `i` of the parent's primary location and of its target, if it has one,
with no diagnostic; when `i >= d` the result is the sentinel and "Invalid
member access" is recorded.  So `actor.position.w` and `actor.scale.z` fail
and `actor.color.w` succeeds. -/
theorem lane_member_access (s : Str) (l r : Expr) (m : Michi) (p p1 p2 : Parser) (ps : Str)
    (pkind : Michi_Var) (pv : V4) (d : Nat) (ptr : Loc) (copy_ptr : Option Loc) (rs : Str)
    (rkind : Michi_Var) (rv : V4) (rd : Nat) (rptr rcopy : Option Loc) (i : Nat)
    (hl : expr_evaluate_expression m p l = some (.var ps pkind pv d (some ptr) copy_ptr, p1))
    (hr : expr_evaluate_expression m p1 r = some (.var rs rkind rv rd rptr rcopy, p2))
    (hp : pkind = .POSITION ∨ pkind = .SCALE ∨ pkind = .COLOR)
    (hi : rkind.laneIndex = some i) (hd1 : 1 ≤ d) (hd4 : d ≤ 4) :
    (i < d →
      expr_evaluate_expression m p (.binary s .PERIOD l (some r)) =
        some (.var s rkind (v4 (pv.lane i) 0 0 0) 1 (some (ptr.add i))
          (copy_ptr.map fun c => c.add i), p2)) ∧
    (d ≤ i →
      expr_evaluate_expression m p (.binary s .PERIOD l (some r)) =
        some (Expr.none, parser_report_error p2 s "Invalid member access")) ∧
    ((parse strtof_decimal 20 parser_create "actor.position.w".toList).bind fun r =>
        expr_evaluate_expression (michi_create 1 0) r.2 r.1).map
      (fun r => (r.1.kind, r.2.error_stream)) =
        some (.NONE, [⟨⟨some 14, ['.']⟩, "Invalid member access"⟩]) ∧
    ((parse strtof_decimal 20 parser_create "actor.scale.z".toList).bind fun r =>
        expr_evaluate_expression (michi_create 1 0) r.2 r.1).map
      (fun r => (r.1.kind, r.2.error_stream)) =
        some (.NONE, [⟨⟨some 11, ['.']⟩, "Invalid member access"⟩]) ∧
    ((parse strtof_decimal 20 parser_create "actor.color.w".toList).bind fun r =>
        expr_evaluate_expression (michi_create 1 0) r.2 r.1).map
      (fun r => (r.1.beq (.var ⟨some 11, ['.']⟩ .W (v4 1 0 0 0) 1 (some ⟨.color, 3⟩)
        (some ⟨.color_target, 3⟩)), r.2.error_stream)) = some (true, []) := by
  have e := expr_evaluate_binary_of_operands m p p1 p2 s .PERIOD l r _ _ (by decide) hl hr
    (by simp [Expr.kind]) (by simp [Expr.kind])
  rw [e]
  refine ⟨fun h => ?_, fun h => ?_, by decide!, by decide!, by decide!⟩
  · rcases hp with rfl | rfl | rfl <;> cases rkind <;>
      simp only [Michi_Var.laneIndex, Option.some.injEq, reduceCtorEq] at hi <;> subst hi <;>
      simp only [expr_evaluate_binary_switch, expr_evaluate_period, ge_iff_le] <;>
      first
      | rfl
      | (rw [if_pos (by omega)])
  · rcases hp with rfl | rfl | rfl <;> cases rkind <;>
      simp only [Michi_Var.laneIndex, Option.some.injEq, reduceCtorEq] at hi <;> subst hi <;>
      simp only [expr_evaluate_binary_switch, expr_evaluate_period, ge_iff_le] <;>
      first
      | (exfalso; omega)
      | (rw [if_neg (by omega)])

theorem lane_member_access_witness :
    expr_evaluate_expression (michi_create 1 0) parser_create
        (.binary ⟨some 14, ['.']⟩ .PERIOD (member_access ⟨some 5, ['.']⟩ 0 "actor" 6 "position")
          (some (ident 15 "y"))) =
      some (.var ⟨some 14, ['.']⟩ .Y (v4 0 0 0 0) 1 (some ⟨.position, 1⟩) Option.none,
        parser_create) ∧
    expr_evaluate_expression (michi_create 1 0) parser_create
        (.binary ⟨some 14, ['.']⟩ .PERIOD (member_access ⟨some 5, ['.']⟩ 0 "actor" 6 "position")
          (some (ident 15 "z"))) =
      some (Expr.none, parser_report_error parser_create ⟨some 14, ['.']⟩
        "Invalid member access") := by
  have h1 := (lane_member_access ⟨some 14, ['.']⟩
    (member_access ⟨some 5, ['.']⟩ 0 "actor" 6 "position") (ident 15 "y") (michi_create 1 0)
    parser_create parser_create parser_create ⟨some 5, ['.']⟩ .POSITION (v4 0 0 0 0) 2
    ⟨.position, 0⟩ Option.none ⟨some 15, ['y']⟩ .Y (v4 0 0 0 0) 0 Option.none Option.none 1
    rfl rfl (Or.inl rfl) rfl (by decide) (by decide)).1 (by decide)
  have h2 := (lane_member_access ⟨some 14, ['.']⟩
    (member_access ⟨some 5, ['.']⟩ 0 "actor" 6 "position") (ident 15 "z") (michi_create 1 0)
    parser_create parser_create parser_create ⟨some 5, ['.']⟩ .POSITION (v4 0 0 0 0) 2
    ⟨.position, 0⟩ Option.none ⟨some 15, ['z']⟩ .Z (v4 0 0 0 0) 0 Option.none Option.none 2
    rfl rfl (Or.inl rfl) rfl (by decide) (by decide)).2.1 (by decide)
  exact ⟨h1, h2⟩

theorem colon_switch_kind (p : Parser) (s : Str) (left right : Expr) (m : Michi) :
    (expr_evaluate_binary_switch p s .COLON left right m).1 = Expr.none ∨
      (expr_evaluate_binary_switch p s .COLON left right m).1 = Expr.statement s left right := by
  simp only [expr_evaluate_binary_switch]
  split_ifs <;> simp

/-- C13: for `:` over operands that evaluate to non-Null values, the result is
the node `Statement{left, right}`, with nothing recorded, when left is an
Action or a Variable and right is literal-like, a Variable or a Constant; in
every other case the result is the sentinel and exactly one diagnostic is
appended.  Hence a `:` whose right operand is itself a `:` node evaluates to
the sentinel, as `move : rotate : 90` does. -/
theorem colon_statement (s : Str) (l r left right : Expr) (m : Michi) (p p1 p2 : Parser)
    (hl : expr_evaluate_expression m p l = some (left, p1))
    (hr : expr_evaluate_expression m p1 r = some (right, p2))
    (hln : left.kind ≠ .NONE) (hrn : right.kind ≠ .NONE) :
    ((left.kind = .ACTION ∨ left.kind = .VAR) ∧
        (expr_resolves_to_literal right = true ∨ right.kind = .VAR ∨ right.kind = .CONST) →
      expr_evaluate_expression m p (.binary s .COLON l (some r)) =
        some (Expr.statement s left right, p2)) ∧
    (¬ ((left.kind = .ACTION ∨ left.kind = .VAR) ∧
        (expr_resolves_to_literal right = true ∨ right.kind = .VAR ∨ right.kind = .CONST)) →
      ∃ d, expr_evaluate_expression m p (.binary s .COLON l (some r)) =
        some (Expr.none, { p2 with error_stream := p2.error_stream ++ [d] })) ∧
    (∀ (s0 : Str) (l0 left0 : Expr) (p0 : Parser),
      expr_evaluate_expression m p0 l0 = some (left0, p) →
      ∃ p3, expr_evaluate_expression m p0
          (.binary s0 .COLON l0 (some (.binary s .COLON l (some r)))) =
        some (Expr.none, p3)) ∧
    ((parse strtof_decimal 20 parser_create "move : rotate : 90".toList).bind fun r =>
        expr_evaluate_expression (michi_create 1 0) r.2 r.1).map
      (fun r => (r.1.kind, r.2.error_stream)) =
        some (.NONE, [⟨⟨some 14, [':']⟩, "Expected action or variable or constant"⟩]) := by
  have e := expr_evaluate_binary_of_operands m p p1 p2 s .COLON l r _ _ (by decide) hl hr hln hrn
  refine ⟨fun h => ?_, fun h => ?_, fun s0 l0 left0 p0 h0 => ?_, by decide!⟩
  · rw [e]
    obtain ⟨h1, h2⟩ := h
    have c1 : ¬ (left.kind ≠ .ACTION ∧ left.kind ≠ .VAR) := by
      rintro ⟨a, b⟩
      rcases h1 with h1 | h1
      · exact a h1
      · exact b h1
    have c2 : ¬ ((!expr_resolves_to_literal right) = true ∧ right.kind ≠ .VAR ∧
        right.kind ≠ .CONST) := by
      rintro ⟨a, b, c⟩
      rcases h2 with h2 | h2 | h2
      · rw [h2] at a
        exact absurd a (by decide)
      · exact b h2
      · exact c h2
    simp only [expr_evaluate_binary_switch]
    rw [if_neg c1, if_neg c2]
  · rw [e]
    by_cases c1 : left.kind ≠ .ACTION ∧ left.kind ≠ .VAR
    · refine ⟨⟨left.string, "Expected action or variable"⟩, ?_⟩
      simp only [expr_evaluate_binary_switch]
      rw [if_pos c1]
      rfl
    · have c2 : (!expr_resolves_to_literal right) = true ∧ right.kind ≠ .VAR ∧
          right.kind ≠ .CONST := by
        refine ⟨?_, ?_, ?_⟩
        · cases hh : expr_resolves_to_literal right
          · rfl
          · exact absurd ⟨by
              by_contra hc
              exact c1 ⟨fun a => hc (Or.inl a), fun b => hc (Or.inr b)⟩, Or.inl hh⟩ h
        · intro hh
          exact h ⟨by
            by_contra hc
            exact c1 ⟨fun a => hc (Or.inl a), fun b => hc (Or.inr b)⟩, Or.inr (Or.inl hh)⟩
        · intro hh
          exact h ⟨by
            by_contra hc
            exact c1 ⟨fun a => hc (Or.inl a), fun b => hc (Or.inr b)⟩, Or.inr (Or.inr hh)⟩
      refine ⟨⟨right.string, "Expected action or variable or constant"⟩, ?_⟩
      simp only [expr_evaluate_binary_switch]
      rw [if_neg c1, if_pos c2]
      rfl
  · rw [expr_evaluate_expression]
    simp only [reduceCtorEq, if_false, h0, e]
    rcases colon_switch_kind p2 s left right m with hk | hk
    · generalize expr_evaluate_binary_switch p2 s .COLON left right m = x at hk ⊢
      obtain ⟨x1, x2⟩ := x
      simp only at hk
      subst hk
      simp [Expr.kind]
    · generalize expr_evaluate_binary_switch p2 s .COLON left right m = x at hk ⊢
      obtain ⟨x1, x2⟩ := x
      simp only at hk
      subst hk
      have ks : (Expr.statement s left right).kind = .STATEMENT := rfl
      have kl : expr_resolves_to_literal (Expr.statement s left right) = false := rfl
      by_cases hn : left0.kind = .NONE
      · simp [hn]
      · simp only [hn, ks, reduceCtorEq, or_self, if_false, expr_evaluate_binary_switch, kl,
          Bool.not_false, ne_eq, not_false_eq_true, and_self, if_true]
        split_ifs <;> simp

theorem colon_statement_witness :
    expr_evaluate_expression (michi_create 1 0) parser_create
        (.binary ⟨some 5, [':']⟩ .COLON (ident 0 "move")
          (some (.number ⟨some 7, ['2']⟩ (v4 2 0 0 0) 1))) =
      some (Expr.statement ⟨some 5, [':']⟩ (.action ⟨some 0, "move".toList⟩ .MOVE)
        (.number ⟨some 7, ['2']⟩ (v4 2 0 0 0) 1), parser_create) :=
  (colon_statement ⟨some 5, [':']⟩ (ident 0 "move") (.number ⟨some 7, ['2']⟩ (v4 2 0 0 0) 1)
    (.action ⟨some 0, "move".toList⟩ .MOVE) (.number ⟨some 7, ['2']⟩ (v4 2 0 0 0) 1)
    (michi_create 1 0) parser_create parser_create parser_create rfl rfl (by decide)
    (by decide)).1 ⟨Or.inl rfl, Or.inl rfl⟩

/-! ## Key handler: the Enter case -/

theorem take_set_self (l : List Char) (n : Nat) (a : Char) : (l.set n a).take n = l.take n := by
  rw [List.set_take, List.set_eq_of_length_le]
  simp

theorem Michi.terminated_world (m : Michi) : m.terminated.world = m.world := rfl

theorem Michi.terminated_text (m : Michi) : m.terminated.text = m.text := by
  simp only [Michi.text, Michi.terminated, take_set_self]

theorem panel_set_cursor_keeps (panel : Panel) (cursor : Nat) :
    (panel_set_cursor panel cursor).disp = panel.disp ∧
    (panel_set_cursor panel cursor).text_input.buffer = panel.text_input.buffer ∧
    (panel_set_cursor panel cursor).text_input.count = panel.text_input.count := by
  unfold panel_set_cursor
  split_ifs <;> exact ⟨rfl, rfl, rfl⟩

theorem panel_set_cursor_on_error_keeps (panel : Panel) (p : Parser) :
    (panel_set_cursor_on_error panel p).2.disp = panel.disp ∧
    (panel_set_cursor_on_error panel p).2.text_input.buffer = panel.text_input.buffer ∧
    (panel_set_cursor_on_error panel p).2.text_input.count = panel.text_input.count := by
  unfold panel_set_cursor_on_error
  split_ifs
  · dsimp only
    split
    · exact panel_set_cursor_keeps _ _
    · exact ⟨rfl, rfl, rfl⟩
  · dsimp only
    split
    · exact panel_set_cursor_keeps _ _
    · exact ⟨rfl, rfl, rfl⟩
  · exact ⟨rfl, rfl, rfl⟩

theorem panel_set_cursor_on_error_empty (panel : Panel) (p : Parser)
    (h : p.error_stream = []) : panel_set_cursor_on_error panel p = (false, panel) := by
  simp [panel_set_cursor_on_error, h]

theorem panel_set_cursor_on_error_true (panel : Panel) (p : Parser)
    (h : p.error_stream ≠ []) : (panel_set_cursor_on_error panel p).1 = true := by
  have : p.error_stream.length ≠ 0 := by
    intro h0
    exact h (List.length_eq_zero.mp h0)
  unfold panel_set_cursor_on_error
  rw [if_pos this]
  dsimp only
  split <;> rfl

theorem world_of_panel (m : Michi) (panel : Panel) (h : panel.disp = m.panel.disp) :
    ({ m with panel := panel } : Michi).world = m.world := by
  simp only [Michi.world, h]

theorem text_of_panel (m : Michi) (panel : Panel)
    (h1 : panel.text_input.buffer = m.panel.text_input.buffer)
    (h2 : panel.text_input.count = m.panel.text_input.count) :
    ({ m with panel := panel } : Michi).text = m.text := by
  simp only [Michi.text, h1, h2]

/-- The Enter case when parsing leaves a diagnostic. -/
theorem panel_on_key_enter_parse_errors (strtof : Strtof) (fuel : Nat) (m : Michi)
    (parser : Parser) (e : Expr) (p : Parser)
    (hp : parse strtof fuel parser m.terminated.panel.text_input.buffer = some (e, p))
    (he : p.error_stream ≠ []) :
    panel_on_key_enter strtof fuel m parser =
      some ({ m.terminated with panel := (panel_set_cursor_on_error m.terminated.panel p).2 },
        p) := by
  have h1 := panel_set_cursor_on_error_true m.terminated.panel p he
  unfold panel_on_key_enter
  simp only [Michi.terminated] at hp h1 ⊢
  rw [hp]
  dsimp only
  generalize panel_set_cursor_on_error _ p = r at h1 ⊢
  obtain ⟨b, q⟩ := r
  simp only at h1
  subst h1
  rfl

/-- The Enter case when parsing leaves no diagnostic and evaluation leaves one. -/
theorem panel_on_key_enter_evaluate_errors (strtof : Strtof) (fuel : Nat) (m : Michi)
    (parser : Parser) (e e' : Expr) (p p' : Parser)
    (hp : parse strtof fuel parser m.terminated.panel.text_input.buffer = some (e, p))
    (he : p.error_stream = [])
    (hv : expr_evaluate_expression m.terminated p e = some (e', p'))
    (he' : p'.error_stream ≠ []) :
    panel_on_key_enter strtof fuel m parser =
      some ({ m.terminated with panel := (panel_set_cursor_on_error m.terminated.panel p').2 },
        p') := by
  have h1 := panel_set_cursor_on_error_true m.terminated.panel p' he'
  unfold panel_on_key_enter
  simp only [Michi.terminated] at hp h1 hv ⊢
  rw [hp]
  dsimp only
  rw [panel_set_cursor_on_error_empty _ p he]
  dsimp only
  rw [hv]
  dsimp only
  generalize panel_set_cursor_on_error _ p' = r at h1 ⊢
  obtain ⟨b, q⟩ := r
  simp only at h1
  subst h1
  rfl

/-- The Enter case when neither parsing nor evaluation leaves a diagnostic: the
executor runs on the world as it was before evaluation. -/
theorem panel_on_key_enter_execute (strtof : Strtof) (fuel : Nat) (m : Michi)
    (parser : Parser) (e e' : Expr) (p p' : Parser)
    (hp : parse strtof fuel parser m.terminated.panel.text_input.buffer = some (e, p))
    (he : p.error_stream = [])
    (hv : expr_evaluate_expression m.terminated p e = some (e', p'))
    (he' : p'.error_stream = []) :
    panel_on_key_enter strtof fuel m parser =
      match expr_type_check_and_execute e' p' m.terminated with
      | (true, p2, m2) =>
        some ({ m2 with
          panel := panel_set_cursor
            { m2.panel with text_input := { m2.panel.text_input with count := 0 } } 0 }, p2)
      | (false, p2, m2) =>
        some ({ m2 with panel := (panel_set_cursor_on_error m2.panel p2).2 }, p2) := by
  unfold panel_on_key_enter
  simp only [Michi.terminated] at hp hv ⊢
  rw [hp]
  dsimp only
  rw [panel_set_cursor_on_error_empty _ p he]
  dsimp only
  rw [hv]
  dsimp only
  rw [panel_set_cursor_on_error_empty _ p' he']

/-- A text that parsing leaves diagnostics for is rejected on Enter, in any
world: the diagnostics stay, the world and the text are as before. -/
theorem submit_parse_rejected (w : Michi) (s : String) (errs : List Parse_Error)
    (h : (parse strtof_decimal 20 parser_create
        ((s.toList ++ [Char.ofNat 0]).set s.length (Char.ofNat 0))).map
          (fun r => r.2.error_stream) = some errs)
    (hne : errs ≠ []) :
    ∃ w' p', panel_on_key_enter strtof_decimal 20 (w.typed s) parser_create = some (w', p') ∧
      p'.error_stream = errs ∧ w'.world = w.world ∧ w'.text = (w.typed s).text := by
  cases hr : parse strtof_decimal 20 parser_create
      ((s.toList ++ [Char.ofNat 0]).set s.length (Char.ofNat 0)) with
  | none => rw [hr] at h; simp at h
  | some r =>
    obtain ⟨e, p⟩ := r
    rw [hr] at h
    simp only [Option.map_some', Option.some.injEq] at h
    have hp : parse strtof_decimal 20 parser_create
        (w.typed s).terminated.panel.text_input.buffer = some (e, p) := hr
    have hk := panel_set_cursor_on_error_keeps (w.typed s).terminated.panel p
    refine ⟨_, _, panel_on_key_enter_parse_errors strtof_decimal 20 (w.typed s) parser_create
      e p hp (by rw [h]; exact hne), h, ?_, ?_⟩
    · exact world_of_panel _ _ hk.1
    · exact (text_of_panel _ _ hk.2.1 hk.2.2).trans (Michi.terminated_text _)

/-- A text that parses and evaluates with no diagnostic and whose node the
executor accepts, on Enter in any world: the executor's world with the text
cleared. -/
theorem submit_accepted (w : Michi) (s : String) (e e' : Expr) (m2 : Michi)
    (h : (parse strtof_decimal 20 parser_create
        ((s.toList ++ [Char.ofNat 0]).set s.length (Char.ofNat 0))).map
          (fun r => (r.1.beq e, r.2.error_stream)) = some (true, []))
    (hv : ∀ p, expr_evaluate_expression (w.typed s).terminated p e = some (e', p))
    (hx : ∀ p, expr_type_check_and_execute e' p (w.typed s).terminated = (true, p, m2)) :
    ∃ w' p', panel_on_key_enter strtof_decimal 20 (w.typed s) parser_create = some (w', p') ∧
      p'.error_stream = [] ∧ w'.world = m2.world ∧ w'.panel.text_input.count = 0 := by
  obtain ⟨p, hp, he⟩ := parse_result_of_beq h
  have hp' : parse strtof_decimal 20 parser_create
      (w.typed s).terminated.panel.text_input.buffer = some (e, p) := hp
  have hh := panel_on_key_enter_execute strtof_decimal 20 (w.typed s) parser_create e e' p p
    hp' he (hv p) he
  rw [hx p] at hh
  refine ⟨_, _, hh, he, ?_, ?_⟩
  · exact world_of_panel _ _ (panel_set_cursor_keeps _ _).1
  · exact (panel_set_cursor_keeps _ _).2.2

/-! ## Malformed and chained inputs -/

/-- C15, as the code has it: parsing `(1 + ` returns the bracket node over
`1 + Null` and leaves two diagnostics, "Expected expression" for the missing
operand and then "Expected \")\"" for the missing bracket, both at the end of
the input; submitting it, in any world, executes nothing and leaves the world
and the text as they were. -/
theorem unmatched_bracket_diagnostics :
    (parse strtof_decimal 20 parser_create "(1 + ".toList).map
      (fun r => (r.1.beq (.unary ⟨some 5, []⟩ .BRACKET
        (.binary ⟨some 3, ['+']⟩ .PLUS (.number ⟨some 1, ['1']⟩ (v4 1 0 0 0) 1)
          (some Expr.none))), r.2.error_stream)) =
      some (true,
        [⟨⟨some 5, []⟩, "Expected expression"⟩, ⟨⟨some 5, []⟩, "Expected \")\""⟩]) ∧
    ∀ w : Michi, ∃ w' p',
      panel_on_key_enter strtof_decimal 20 (w.typed "(1 + ") parser_create = some (w', p') ∧
      p'.error_stream =
        [⟨⟨some 5, []⟩, "Expected expression"⟩, ⟨⟨some 5, []⟩, "Expected \")\""⟩] ∧
      w'.world = w.world ∧ w'.text = (w.typed "(1 + ").text := by
  refine ⟨by decide!, fun w => submit_parse_rejected w "(1 + " _ (by decide!) (by simp)⟩

/-- C15, as stated, fails: parsing `(1 + ` leaves two diagnostics, not one. -/
theorem unmatched_bracket_two_diagnostics :
    (parse strtof_decimal 20 parser_create "(1 + ".toList).map
      (fun r => r.2.error_stream.map fun e => e.message) =
        some ["Expected expression", "Expected \")\""] ∧
    (parse strtof_decimal 20 parser_create "(1 + ".toList).map
      (fun r => r.2.error_stream.length) ≠ some 1 := by
  decide!

/-- C14, as stated, fails: submitting `move(2): rotate(90): move(2)` after
`michi_create` leaves three "Expected operator" diagnostics, the text in place,
and the move distance and the rotation target at 0. -/
theorem call_bracket_chain_rejected :
    (panel_on_key_enter strtof_decimal 20
        ((michi_create 1 0).typed "move(2): rotate(90): move(2)") parser_create).map
      (fun r => (r.2.error_stream.map (fun e => e.message), r.1.panel.text_input.count,
        r.1.actor.move_distance, r.1.actor.rotation_target)) =
      some (["Expected operator", "Expected operator", "Expected operator"], 28, 0, 0) := by
  decide!

/-- C14, as the code has it: submitting `move(2): rotate(90): move(2)`, in any
world, is rejected by the parser with an "Expected operator" diagnostic at each
`(`, and the world and the text are as before; the statements `rotate: 90` and
`move: 2`, submitted on their own in any world, are accepted with no
diagnostic: the first adds 13176795 / 8388608 to the rotation target, which
is `90 * (pi / 180)` for the program's `pi` (`3.1415926535f`, the binary32
value 13176795 / 4194304) and is what its two binary32 operations give; the
second sets the move distance to 2; nothing else of the world changes. -/
theorem call_bracket_chain_submission (w : Michi) :
    (∃ w' p', panel_on_key_enter strtof_decimal 20
        (w.typed "move(2): rotate(90): move(2)") parser_create = some (w', p') ∧
      p'.error_stream = [⟨⟨some 4, ['(']⟩, "Expected operator"⟩,
        ⟨⟨some 15, ['(']⟩, "Expected operator"⟩, ⟨⟨some 25, ['(']⟩, "Expected operator"⟩] ∧
      w'.world = w.world ∧ w'.text = (w.typed "move(2): rotate(90): move(2)").text) ∧
    (∃ w' p', panel_on_key_enter strtof_decimal 20 (w.typed "rotate: 90") parser_create =
        some (w', p') ∧
      p'.error_stream = [] ∧ w'.panel.text_input.count = 0 ∧
      w'.world = ({ w with actor := { w.actor with
        rotation_target := w.actor.rotation_target + 13176795 / 8388608 } } : Michi).world) ∧
    (∃ w' p', panel_on_key_enter strtof_decimal 20 (w.typed "move: 2") parser_create =
        some (w', p') ∧
      p'.error_stream = [] ∧ w'.panel.text_input.count = 0 ∧
      w'.world = ({ w with actor := { w.actor with move_distance := 2 } } : Michi).world) ∧
    float_round (31415926535 / 10000000000) = .finite MATH_PI ∧
    float_div MATH_PI 180 = .finite (9370165 / 536870912) ∧
    float_mul 90 (9370165 / 536870912) = .finite (13176795 / 8388608) := by
  have e : (90 : ℚ) * (MATH_PI / 180) = 13176795 / 8388608 := by decide!
  refine ⟨submit_parse_rejected w _ _ (by decide!) (by simp), ?_, ?_, by decide!, by decide!,
    by decide!⟩
  · obtain ⟨w', p', h1, h2, h3, h4⟩ := submit_accepted w "rotate: 90"
      (.binary ⟨some 6, [':']⟩ .COLON (ident 0 "rotate")
        (some (.number ⟨some 8, "90".toList⟩ (v4 90 0 0 0) 1)))
      (.statement ⟨some 6, [':']⟩ (.action ⟨some 0, "rotate".toList⟩ .ROTATE)
        (.number ⟨some 8, "90".toList⟩ (v4 90 0 0 0) 1))
      { (w.typed "rotate: 90").terminated with actor := { w.actor with
        rotation_target := w.actor.rotation_target + 90 * (MATH_PI / 180) } }
      (by decide!) (fun p => rfl) (fun p => rfl)
    rw [e] at h3
    exact ⟨w', p', h1, h2, h4, h3⟩
  · obtain ⟨w', p', h1, h2, h3, h4⟩ := submit_accepted w "move: 2"
      (.binary ⟨some 4, [':']⟩ .COLON (ident 0 "move")
        (some (.number ⟨some 6, "2".toList⟩ (v4 2 0 0 0) 1)))
      (.statement ⟨some 4, [':']⟩ (.action ⟨some 0, "move".toList⟩ .MOVE)
        (.number ⟨some 6, "2".toList⟩ (v4 2 0 0 0) 1))
      { (w.typed "move: 2").terminated with actor := { w.actor with move_distance := 2 } }
      (by decide!) (fun p => rfl) (fun p => rfl)
    exact ⟨w', p', h1, h2, h4, h3⟩

/-- C16: on Enter, with the text parsed to `e` and parser state `p`: the world
handed on after `buffer[count] = 0` is the world as it was; if parsing left a
diagnostic the result keeps the world (actor, output register and dimension,
follow, draw, display toggles, and the rest) and the text's contents and
length; if parsing left none and evaluation left one, the same holds; and if
neither left one, the executor is run on the world as it was before
evaluation. -/
theorem enter_with_diagnostics (strtof : Strtof) (fuel : Nat) (m : Michi) (parser : Parser)
    (e : Expr) (p : Parser)
    (hp : parse strtof fuel parser m.terminated.panel.text_input.buffer = some (e, p)) :
    m.terminated.world = m.world ∧ m.terminated.text = m.text ∧
    (p.error_stream ≠ [] →
      ∃ m', panel_on_key_enter strtof fuel m parser = some (m', p) ∧
        m'.world = m.world ∧ m'.text = m.text) ∧
    (p.error_stream = [] → ∀ e' p',
      expr_evaluate_expression m.terminated p e = some (e', p') →
      (p'.error_stream ≠ [] →
        ∃ m', panel_on_key_enter strtof fuel m parser = some (m', p') ∧
          m'.world = m.world ∧ m'.text = m.text) ∧
      (p'.error_stream = [] →
        panel_on_key_enter strtof fuel m parser =
          match expr_type_check_and_execute e' p' m.terminated with
          | (true, p2, m2) =>
            some ({ m2 with
              panel := panel_set_cursor
                { m2.panel with text_input := { m2.panel.text_input with count := 0 } } 0 }, p2)
          | (false, p2, m2) =>
            some ({ m2 with panel := (panel_set_cursor_on_error m2.panel p2).2 }, p2))) := by
  refine ⟨rfl, Michi.terminated_text m, fun he => ?_, fun he e' p' hv => ⟨fun he' => ?_,
    fun he' => panel_on_key_enter_execute strtof fuel m parser e e' p p' hp he hv he'⟩⟩
  · have hk := panel_set_cursor_on_error_keeps m.terminated.panel p
    exact ⟨_, panel_on_key_enter_parse_errors strtof fuel m parser e p hp he,
      world_of_panel _ _ hk.1, (text_of_panel _ _ hk.2.1 hk.2.2).trans (Michi.terminated_text _)⟩
  · have hk := panel_set_cursor_on_error_keeps m.terminated.panel p'
    exact ⟨_, panel_on_key_enter_evaluate_errors strtof fuel m parser e e' p p' hp he hv he',
      world_of_panel _ _ hk.1, (text_of_panel _ _ hk.2.1 hk.2.2).trans (Michi.terminated_text _)⟩

theorem enter_with_diagnostics_witness :
    (panel_on_key_enter strtof_decimal 20 (michi_moving.typed "1,2,3,4,5") parser_create).map
      (fun r => (r.1.world, r.1.text)) =
      some (michi_moving.world, (michi_moving.typed "1,2,3,4,5").text) := by
  obtain ⟨p, hp, he⟩ := parse_comma_five
  have h := (enter_with_diagnostics strtof_decimal 20 (michi_moving.typed "1,2,3,4,5")
    parser_create comma_five_tree p hp).2.2.2 he _ _ (evaluate_comma_five _ p)
  obtain ⟨m', h1, h2, h3⟩ := h.1 (by simp [parser_report_error])
  rw [h1]
  simp only [Option.map_some', h2, h3]
  rfl

/-- C17: the executor returns false on the sentinel and records nothing;
`actor.x` evaluates to the sentinel with an empty Error Stream, so submitting
it runs the executor, which returns false, and the Error Stream is empty
afterwards while the text stays in place. -/
theorem execute_null_silent :
    (∀ (p : Parser) (m : Michi), expr_type_check_and_execute Expr.none p m = (false, p, m)) ∧
    ((parse strtof_decimal 20 parser_create "actor.x".toList).bind fun r =>
        (expr_evaluate_expression (michi_create 1 0) r.2 r.1).map fun q =>
          (q.1.kind, (expr_type_check_and_execute q.1 q.2 (michi_create 1 0)).1,
            (expr_type_check_and_execute q.1 q.2 (michi_create 1 0)).2.1.error_stream)) =
      some (.NONE, false, []) ∧
    (panel_on_key_enter strtof_decimal 20 ((michi_create 1 0).typed "actor.x")
        parser_create).map
      (fun r => (r.2.error_stream, r.1.text, r.1.panel.error_cursor_index)) =
        some ([], ("actor.x".toList, 7), 0) := by
  refine ⟨fun p m => rfl, by decide!, by decide!⟩

/-! ## Executor: actions and the output register -/

/-- C19: executing a top-level NumberLiteral, a top-level Variable of dimension
`d >= 1`, or a statement whose left side is the variable `output` and whose
right side is literal-like, sets the output register and its dimension to the
value's vector and dimension, returns true, records nothing and changes nothing
else; a top-level Variable of dimension 0 returns false with "Invalid variable"
and changes nothing. -/
theorem output_register_commit (s ls : Str) (k : Michi_Var) (v lv : V4) (d ld : Nat)
    (ptr copy_ptr lptr lcopy : Option Loc) (right : Expr) (p : Parser) (m : Michi) :
    expr_type_check_and_execute (.number s v d) p m =
      (true, p, { m with output := v, output_dim := d }) ∧
    (1 ≤ d →
      expr_type_check_and_execute (.var s k v d ptr copy_ptr) p m =
        (true, p, { m with output := v, output_dim := d })) ∧
    (expr_resolves_to_literal right = true →
      expr_type_check_and_execute
          (.statement s (.var ls .OUTPUT lv ld lptr lcopy) right) p m =
        (true, p, { m with
          output := (expr_resolve right).1
          output_dim := (expr_resolve right).2 })) ∧
    expr_type_check_and_execute (.var s k v 0 ptr copy_ptr) p m =
      (false, parser_report_error p s "Invalid variable", m) := by
  refine ⟨rfl, fun hd => ?_, fun hlit => ?_, rfl⟩
  · have : d ≠ 0 := by omega
    simp [expr_type_check_and_execute, this]
  · simp [expr_type_check_and_execute, execute_var_statement, hlit]

theorem output_register_commit_witness :
    expr_type_check_and_execute
        (.var ⟨some 6, ['.']⟩ .X (v4 3 0 0 0) 1 (some ⟨.output, 0⟩) Option.none)
        parser_create (michi_create 1 0) =
      (true, parser_create, { michi_create 1 0 with output := v4 3 0 0 0, output_dim := 1 }) ∧
    expr_type_check_and_execute
        (.statement ⟨some 7, [':']⟩
          (.var ⟨some 0, "output".toList⟩ .OUTPUT (v4 0 0 0 0) 4 Option.none Option.none)
          (.number ⟨some 10, [',']⟩ (v4 1 2 0 0) 2))
        parser_create (michi_create 1 0) =
      (true, parser_create, { michi_create 1 0 with output := v4 1 2 0 0, output_dim := 2 }) := by
  have h := output_register_commit ⟨some 6, ['.']⟩ ⟨some 0, "output".toList⟩ .X (v4 3 0 0 0)
    (v4 0 0 0 0) 1 4 (some ⟨.output, 0⟩) Option.none Option.none Option.none
    (.number ⟨some 10, [',']⟩ (v4 1 2 0 0) 2) parser_create (michi_create 1 0)
  have h' := output_register_commit ⟨some 7, [':']⟩ ⟨some 0, "output".toList⟩ .X (v4 3 0 0 0)
    (v4 0 0 0 0) 1 4 (some ⟨.output, 0⟩) Option.none Option.none Option.none
    (.number ⟨some 10, [',']⟩ (v4 1 2 0 0) 2) parser_create (michi_create 1 0)
  exact ⟨h.2.1 (le_refl 1), h'.2.2.1 rfl⟩

/-- C20: executing a bare action.  `exit` returns true, records nothing and sets
the close flag; move, rotate, enlarge, change and follow return false with the
world unchanged and one diagnostic naming their argument shape; `disp` returns
false with the `follow` diagnostic "Expected 'on' or 'off' argument"; `draw`
has no case and returns false with the fall-through diagnostic "Expected
literal, variable or statement", also when `draw` is submitted as text; a
statement whose left side is `exit` returns false with "Action takes no
arguments". -/
theorem bare_action_execution (s ls : Str) (right : Expr) (p : Parser) (m : Michi) :
    expr_type_check_and_execute (.action s .EXIT) p m =
      (true, p, { m with should_close := true }) ∧
    expr_type_check_and_execute (.action s .MOVE) p m =
      (false, parser_report_error p s "Expected vector1 argument", m) ∧
    expr_type_check_and_execute (.action s .ROTATE) p m =
      (false, parser_report_error p s "Expected vector1 argument", m) ∧
    expr_type_check_and_execute (.action s .ENLARGE) p m =
      (false, parser_report_error p s "Expected vector1 or vector 2 argument", m) ∧
    expr_type_check_and_execute (.action s .CHANGE) p m =
      (false, parser_report_error p s
        "Expected vector1, vector2, vector3 or vector4 argument", m) ∧
    expr_type_check_and_execute (.action s .FOLLOW) p m =
      (false, parser_report_error p s "Expected 'on' or 'off' argument", m) ∧
    expr_type_check_and_execute (.action s .DISP) p m =
      (false, parser_report_error p s "Expected 'on' or 'off' argument", m) ∧
    expr_type_check_and_execute (.action s .DRAW) p m =
      (false, parser_report_error p s "Expected literal, variable or statement", m) ∧
    expr_type_check_and_execute (.statement s (.action ls .EXIT) right) p m =
      (false, parser_report_error p ls "Action takes no arguments", m) ∧
    (panel_on_key_enter strtof_decimal 20 ((michi_create 1 0).typed "draw") parser_create).map
      (fun r => (r.2.error_stream, r.1.text)) =
      some ([⟨⟨some 0, "draw".toList⟩, "Expected literal, variable or statement"⟩],
        ("draw".toList, 4)) ∧
    (panel_on_key_enter strtof_decimal 20 ((michi_create 1 0).typed "draw") parser_create).map
      (fun r => r.1.world) = some (michi_create 1 0).world := by
  refine ⟨rfl, rfl, rfl, rfl, rfl, rfl, rfl, rfl, rfl, by decide!, by decide!⟩

/-! ## Executor: flags and HUD toggles -/

/-- C21: executing `follow: r` and `draw: r`.  When `r` is the Constant `on`
(`off`) the follow, respectively draw, flag becomes true (false) whatever it
was, the executor returns true, records nothing and changes nothing else, and
executing the statement again changes nothing further.  For any other `r` the
executor returns false with "Expected 'on' or 'off' argument" and the world
unchanged.  After `follow: on` then `follow: off` the follow flag is false and
the draw flag is the original one, also when the two are submitted as text. -/
theorem follow_draw_switch (s ls : Str) (right : Expr) (p : Parser) (m : Michi) :
    (∀ b : Bool, right.on_off = some b →
      expr_type_check_and_execute (.statement s (.action ls .FOLLOW) right) p m =
        (true, p, { m with follow := b }) ∧
      expr_type_check_and_execute (.statement s (.action ls .DRAW) right) p m =
        (true, p, { m with draw := b }) ∧
      expr_type_check_and_execute (.statement s (.action ls .FOLLOW) right) p
          { m with follow := b } = (true, p, { m with follow := b }) ∧
      expr_type_check_and_execute (.statement s (.action ls .DRAW) right) p
          { m with draw := b } = (true, p, { m with draw := b })) ∧
    (right.on_off = Option.none →
      expr_type_check_and_execute (.statement s (.action ls .FOLLOW) right) p m =
        (false, parser_report_error p right.string "Expected 'on' or 'off' argument", m) ∧
      expr_type_check_and_execute (.statement s (.action ls .DRAW) right) p m =
        (false, parser_report_error p right.string "Expected 'on' or 'off' argument", m)) ∧
    (∀ (s1 s2 l1 l2 c1 c2 : Str) (v1 v2 : V4) (d1 d2 : Nat),
      expr_type_check_and_execute
          (.statement s2 (.action l2 .FOLLOW) (.const c2 .OFF v2 d2)) p
          (expr_type_check_and_execute
            (.statement s1 (.action l1 .FOLLOW) (.const c1 .ON v1 d1)) p m).2.2 =
        (true, p, { m with follow := false })) ∧
    (submit_twice { michi_create 1 0 with draw := false } "follow: on" "follow: off").map
      (fun r => (r.1.follow, r.1.draw, r.2.error_stream)) = some (false, false, []) ∧
    (submit_twice (michi_create 1 0) "follow: on" "follow: off").map
      (fun r => (r.1.follow, r.1.draw, r.2.error_stream)) = some (false, true, []) ∧
    (submit_twice (michi_create 1 0) "follow: on" "follow: on").map
      (fun r => (r.1.follow, r.1.draw, r.2.error_stream)) = some (true, true, []) := by
  refine ⟨fun b hb => ?_, fun hb => ?_, fun s1 s2 l1 l2 c1 c2 v1 v2 d1 d2 => rfl,
    by decide!, by decide!, by decide!⟩
  · cases right <;> try cases hb
    rename_i c k v d
    cases k <;> cases hb <;> exact ⟨rfl, rfl, rfl, rfl⟩
  · cases right <;> try exact ⟨rfl, rfl⟩
    rename_i c k v d
    cases k <;> first | exact ⟨rfl, rfl⟩ | cases hb

theorem follow_draw_switch_witness :
    expr_type_check_and_execute (.statement ⟨some 6, [':']⟩
        (.action ⟨some 0, "follow".toList⟩ .FOLLOW)
        (.const ⟨some 8, "on".toList⟩ .ON (v4 0 0 0 0) 0)) parser_create (michi_create 1 0) =
      (true, parser_create, { michi_create 1 0 with follow := true }) ∧
    expr_type_check_and_execute (.statement ⟨some 4, [':']⟩
        (.action ⟨some 0, "draw".toList⟩ .DRAW)
        (.number ⟨some 6, ['1']⟩ (v4 1 0 0 0) 1)) parser_create (michi_create 1 0) =
      (false, parser_report_error parser_create ⟨some 6, ['1']⟩
        "Expected 'on' or 'off' argument", michi_create 1 0) :=
  ⟨((follow_draw_switch ⟨some 6, [':']⟩ ⟨some 0, "follow".toList⟩
      (.const ⟨some 8, "on".toList⟩ .ON (v4 0 0 0 0) 0) parser_create (michi_create 1 0)).1
      true rfl).1,
   ((follow_draw_switch ⟨some 4, [':']⟩ ⟨some 0, "draw".toList⟩
      (.number ⟨some 6, ['1']⟩ (v4 1 0 0 0) 1) parser_create (michi_create 1 0)).2.1 rfl).2⟩

/-- C22: executing `disp: r`.  When `r` names the HUD flag `i` (the Constants
help, expr and the Variables position, rotation, scale, color, speed, output,
in the order of the `disp` array) the executor returns true, records nothing,
negates `disp[i]` and leaves every other flag and the rest of the world as it
was; executing the statement a second time gives back the original world.  For
any other `r` the executor returns false with "Invalid option" and the world
unchanged. -/
theorem disp_toggle (s ls : Str) (right : Expr) (p : Parser) (m : Michi) :
    (∀ i : Nat, right.disp_index = some i →
      i < 8 ∧
      expr_type_check_and_execute (.statement s (.action ls .DISP) right) p m =
        (true, p, { m with panel := { m.panel with disp := m.panel.disp.toggle i } }) ∧
      (∀ j, (m.panel.disp.toggle i).get j =
        if j = i then !m.panel.disp.get j else m.panel.disp.get j) ∧
      expr_type_check_and_execute (.statement s (.action ls .DISP) right) p
          (m.toggle_disp i) = (true, p, m)) ∧
    (right.disp_index = Option.none →
      expr_type_check_and_execute (.statement s (.action ls .DISP) right) p m =
        (false, parser_report_error p right.string "Invalid option", m)) ∧
    (∀ (c : Str) (v : V4) (d : Nat) (a b : Option Loc),
      (Expr.const c .HELP v d).disp_index = some 0 ∧
      (Expr.const c .EXPR v d).disp_index = some 1 ∧
      (Expr.var c .POSITION v d a b).disp_index = some 2 ∧
      (Expr.var c .ROTATION v d a b).disp_index = some 3 ∧
      (Expr.var c .SCALE v d a b).disp_index = some 4 ∧
      (Expr.var c .COLOR v d a b).disp_index = some 5 ∧
      (Expr.var c .SPEED v d a b).disp_index = some 6 ∧
      (Expr.var c .OUTPUT v d a b).disp_index = some 7) ∧
    (panel_on_key_enter strtof_decimal 20 ((michi_create 1 0).typed "disp: help")
        parser_create).map (fun r => r.1.world) =
      some ((michi_create 1 0).toggle_disp 0).world ∧
    (submit_twice (michi_create 1 0) "disp: help" "disp: help").map (fun r => r.1.world) =
      some (michi_create 1 0).world ∧
    (submit_twice (michi_create 1 0) "disp: help" "disp: help").map
      (fun r => r.2.error_stream) = some [] ∧
    (panel_on_key_enter strtof_decimal 20 ((michi_create 1 0).typed "disp: on")
        parser_create).map (fun r => r.1.world) = some (michi_create 1 0).world ∧
    (panel_on_key_enter strtof_decimal 20 ((michi_create 1 0).typed "disp: on")
        parser_create).map (fun r => r.2.error_stream) =
      some [⟨⟨some 6, "on".toList⟩, "Invalid option"⟩] := by
  refine ⟨fun i hi => ?_, fun hi => ?_, fun c v d a b => ⟨rfl, rfl, rfl, rfl, rfl, rfl, rfl, rfl⟩,
    by decide!, by decide!, by decide!, by decide!, by decide!⟩
  · have key : ∀ i, i < 8 →
        (∀ j, (m.panel.disp.toggle i).get j =
          if j = i then !m.panel.disp.get j else m.panel.disp.get j) := by
      intro i hi j
      rcases i with _ | _ | _ | _ | _ | _ | _ | _ | i <;>
        first
        | omega
        | (rcases j with _ | _ | _ | _ | _ | _ | _ | _ | j <;>
            simp [Panel_Disp.toggle, Panel_Disp.get])
    cases right <;> try cases hi
    · rename_i c k v d a b
      cases k <;> cases hi <;>
        exact ⟨by omega, rfl, key _ (by omega), by
          simp [expr_type_check_and_execute, execute_action_statement, Michi.toggle_disp,
            Panel_Disp.toggle]⟩
    · rename_i c k v d
      cases k <;> cases hi <;>
        exact ⟨by omega, rfl, key _ (by omega), by
          simp [expr_type_check_and_execute, execute_action_statement, Michi.toggle_disp,
            Panel_Disp.toggle]⟩
  · cases right <;> try rfl
    · rename_i c k v d a b
      cases k <;> first | rfl | cases hi
    · rename_i c k v d
      cases k <;> first | rfl | cases hi

theorem disp_toggle_witness :
    expr_type_check_and_execute (.statement ⟨some 4, [':']⟩
        (.action ⟨some 0, "disp".toList⟩ .DISP)
        (.const ⟨some 6, "help".toList⟩ .HELP (v4 0 0 0 0) 0)) parser_create (michi_create 1 0) =
      (true, parser_create, { michi_create 1 0 with panel := { (michi_create 1 0).panel with
        disp := (michi_create 1 0).panel.disp.toggle 0 } }) ∧
    expr_type_check_and_execute (.statement ⟨some 4, [':']⟩
        (.action ⟨some 0, "disp".toList⟩ .DISP)
        (.const ⟨some 6, "on".toList⟩ .ON (v4 0 0 0 0) 0)) parser_create (michi_create 1 0) =
      (false, parser_report_error parser_create ⟨some 6, "on".toList⟩ "Invalid option",
        michi_create 1 0) :=
  ⟨((disp_toggle ⟨some 4, [':']⟩ ⟨some 0, "disp".toList⟩
      (.const ⟨some 6, "help".toList⟩ .HELP (v4 0 0 0 0) 0) parser_create (michi_create 1 0)).1
      0 rfl).2.1,
   (disp_toggle ⟨some 4, [':']⟩ ⟨some 0, "disp".toList⟩
      (.const ⟨some 6, "on".toList⟩ .ON (v4 0 0 0 0) 0) parser_create (michi_create 1 0)).2.1
      rfl⟩

/-! ## Evaluator: identifiers, unary operators and division -/

theorem string_match_iff (a : Str) (b : List Char) : string_match a b = true ↔ a.chars = b := by
  unfold string_match
  constructor
  · intro h
    split at h
    · cases h
    · simpa using h
  · intro h
    subst h
    simp

theorem table_find_of_mem {α : Type} (s : Str) (t : List (α × List Char)) (k : α)
    (h : (k, s.chars) ∈ t) (hn : (t.map Prod.snd).Nodup) : table_find s t = some k := by
  induction t with
  | nil => cases h
  | cons x t ih =>
    obtain ⟨k', name⟩ := x
    rw [List.map_cons, List.nodup_cons] at hn
    rcases List.mem_cons.mp h with h | h
    · cases h
      simp [table_find, (string_match_iff s s.chars).mpr rfl]
    · have hne : s.chars ≠ name := by
        intro e
        exact hn.1 (List.mem_map.mpr ⟨(k, s.chars), h, e⟩)
      have : string_match s name = false := by
        cases hm : string_match s name
        · rfl
        · exact absurd ((string_match_iff s name).mp hm) hne
      simp [table_find, this, ih h hn.2]

theorem table_find_none {α : Type} (s : Str) (t : List (α × List Char))
    (h : s.chars ∉ t.map Prod.snd) : table_find s t = Option.none := by
  induction t with
  | nil => rfl
  | cons x t ih =>
    obtain ⟨k', name⟩ := x
    rw [List.map_cons, List.mem_cons, not_or] at h
    have : string_match s name = false := by
      cases hm : string_match s name
      · rfl
      · exact absurd ((string_match_iff s name).mp hm) h.1
    simp [table_find, this, ih h.2]

theorem michi_names_nodup : michi_names.Nodup := by decide!

/-- C23: evaluating an Identifier node with string `s`.  If the bytes of `s`
are an entry of the action table the result is that Action; if they are an
entry of the variable table the result is that Variable, with a zero vector,
`NULL` pointers and dimension 0, except `output` whose dimension is the
world's output dimension; if they are an entry of the constant table the
result is that Constant with dimension 0; in these cases nothing is recorded.
If they are in none of the tables the result is the sentinel and "Invalid
identifier" is recorded with `s`.  The tables have 8, 11 and 4 entries and no
name occurs twice in them taken together.  The comparison is exact: `Move` is
not an action. -/
theorem identifier_resolution (s : Str) (m : Michi) (p : Parser) :
    (∀ k, (k, s.chars) ∈ michi_action_strings →
      expr_evaluate_expression m p (.identifier s) = some (Expr.action s k, p)) ∧
    (∀ k, (k, s.chars) ∈ michi_var_strings →
      expr_evaluate_expression m p (.identifier s) =
        some (Expr.var s k (v4 0 0 0 0) (if k = .OUTPUT then m.output_dim else 0)
          Option.none Option.none, p)) ∧
    (∀ k, (k, s.chars) ∈ michi_const_strings →
      expr_evaluate_expression m p (.identifier s) = some (Expr.const s k (v4 0 0 0 0) 0, p)) ∧
    (s.chars ∉ michi_names →
      expr_evaluate_expression m p (.identifier s) =
        some (Expr.none, parser_report_error p s "Invalid identifier")) ∧
    (michi_action_strings.length = 8 ∧ michi_var_strings.length = 11 ∧
      michi_const_strings.length = 4 ∧ michi_names.Nodup) ∧
    expr_evaluate_expression m p (ident 0 "Move") =
      some (Expr.none, parser_report_error p ⟨some 0, "Move".toList⟩ "Invalid identifier") := by
  have hnd := michi_names_nodup
  unfold michi_names at hnd
  rw [List.nodup_append, List.nodup_append] at hnd
  obtain ⟨⟨ha, hv, hav⟩, hc, havc⟩ := hnd
  refine ⟨fun k hk => ?_, fun k hk => ?_, fun k hk => ?_, fun hn => ?_,
    ⟨rfl, rfl, rfl, michi_names_nodup⟩, rfl⟩
  · rw [expr_evaluate_expression, table_find_of_mem s _ k hk ha]
  · have hin : s.chars ∈ michi_var_strings.map Prod.snd := List.mem_map.mpr ⟨_, hk, rfl⟩
    have hna : s.chars ∉ michi_action_strings.map Prod.snd := fun h => hav h hin
    rw [expr_evaluate_expression, table_find_none s _ hna, table_find_of_mem s _ k hk hv]
  · have hin : s.chars ∈ michi_const_strings.map Prod.snd := List.mem_map.mpr ⟨_, hk, rfl⟩
    have hna : s.chars ∉ michi_action_strings.map Prod.snd :=
      fun h => havc (List.mem_append_left _ h) hin
    have hnv : s.chars ∉ michi_var_strings.map Prod.snd :=
      fun h => havc (List.mem_append_right _ h) hin
    rw [expr_evaluate_expression, table_find_none s _ hna, table_find_none s _ hnv,
      table_find_of_mem s _ k hk hc]
  · unfold michi_names at hn
    rw [List.mem_append, List.mem_append, not_or, not_or] at hn
    rw [expr_evaluate_expression, table_find_none s _ hn.1.1, table_find_none s _ hn.1.2,
      table_find_none s _ hn.2]

theorem identifier_resolution_witness :
    expr_evaluate_expression (michi_create 1 0) parser_create (ident 3 "rotate") =
      some (Expr.action ⟨some 3, "rotate".toList⟩ .ROTATE, parser_create) ∧
    expr_evaluate_expression (michi_create 1 0) parser_create (ident 0 "output") =
      some (Expr.var ⟨some 0, "output".toList⟩ .OUTPUT (v4 0 0 0 0)
        (if Michi_Var.OUTPUT = .OUTPUT then (michi_create 1 0).output_dim else 0)
        Option.none Option.none, parser_create) ∧
    expr_evaluate_expression (michi_create 1 0) parser_create (ident 0 "help") =
      some (Expr.const ⟨some 0, "help".toList⟩ .HELP (v4 0 0 0 0) 0, parser_create) ∧
    expr_evaluate_expression (michi_create 1 0) parser_create (ident 0 "foo") =
      some (Expr.none, parser_report_error parser_create ⟨some 0, "foo".toList⟩
        "Invalid identifier") :=
  ⟨(identifier_resolution ⟨some 3, "rotate".toList⟩ (michi_create 1 0) parser_create).1
      .ROTATE (by decide!),
   (identifier_resolution ⟨some 0, "output".toList⟩ (michi_create 1 0) parser_create).2.1
      .OUTPUT (by decide!),
   (identifier_resolution ⟨some 0, "help".toList⟩ (michi_create 1 0) parser_create).2.2.1
      .HELP (by decide!),
   (identifier_resolution ⟨some 0, "foo".toList⟩ (michi_create 1 0) parser_create).2.2.2.1
      (by decide!)⟩

theorem resolves_to_literal_iff (c : Expr) :
    expr_resolves_to_literal c = true ↔
      c.kind = .NUMBER_LITERAL ∨
        ((c.kind = .VAR ∨ c.kind = .CONST) ∧ 1 ≤ (expr_resolve c).2) := by
  cases c <;> simp [expr_resolves_to_literal, Expr.kind, expr_resolve, Nat.one_le_iff_ne_zero]

/-- C24: evaluating a UnaryOp whose child evaluates to `c`.  If `c` is
literal-like (a NumberLiteral, or a Variable or Constant of dimension at least
1) with vector `v` and dimension `d`, the result is a NumberLiteral of dimension
`d` whose lanes are those of `v` negated for `-` and those of `v` for `+` and
for the bracket, and nothing is recorded.  Otherwise the result is the
sentinel, whatever the operator, and "Expected expression" is recorded, with
the string of `c`, exactly when `c` is not the sentinel.  So `-move` records
"Expected expression" at `move` and `-foo` only the child's "Invalid
identifier". -/
theorem unary_evaluation (s : Str) (child c : Expr) (m : Michi) (p p1 : Parser)
    (hc : expr_evaluate_expression m p child = some (c, p1)) :
    (expr_resolves_to_literal c = true ↔
      c.kind = .NUMBER_LITERAL ∨
        ((c.kind = .VAR ∨ c.kind = .CONST) ∧ 1 ≤ (expr_resolve c).2)) ∧
    (expr_resolves_to_literal c = true →
      expr_evaluate_expression m p (.unary s .MINUS child) =
        some (Expr.number s
          ⟨-(expr_resolve c).1.x, -(expr_resolve c).1.y, -(expr_resolve c).1.z,
            -(expr_resolve c).1.w⟩ (expr_resolve c).2, p1) ∧
      (∀ i, (V4.mk (-(expr_resolve c).1.x) (-(expr_resolve c).1.y) (-(expr_resolve c).1.z)
        (-(expr_resolve c).1.w)).lane i = -(expr_resolve c).1.lane i) ∧
      expr_evaluate_expression m p (.unary s .PLUS child) =
        some (Expr.number s (expr_resolve c).1 (expr_resolve c).2, p1) ∧
      expr_evaluate_expression m p (.unary s .BRACKET child) =
        some (Expr.number s (expr_resolve c).1 (expr_resolve c).2, p1)) ∧
    (expr_resolves_to_literal c = false → ∀ k : Op_Kind,
      (c.kind = .NONE →
        expr_evaluate_expression m p (.unary s k child) = some (Expr.none, p1)) ∧
      (c.kind ≠ .NONE →
        expr_evaluate_expression m p (.unary s k child) =
          some (Expr.none, { p1 with error_stream := p1.error_stream ++
            [⟨c.string, "Expected expression"⟩] }))) ∧
    (evaluate_text (michi_create 1 0) "-move").map (fun r => (r.1.beq .none, r.2.error_stream)) =
      some (true, [⟨⟨some 1, "move".toList⟩, "Expected expression"⟩]) ∧
    (evaluate_text (michi_create 1 0) "-foo").map (fun r => (r.1.beq .none, r.2.error_stream)) =
      some (true, [⟨⟨some 1, "foo".toList⟩, "Invalid identifier"⟩]) ∧
    (evaluate_text (michi_create 1 0) "-(1,2)").map (fun r => (r.1.beq
        (.number ⟨some 0, ['-']⟩ (v4 (-1) (-2) 0 0) 2), r.2.error_stream)) = some (true, []) := by
  refine ⟨resolves_to_literal_iff c, fun hlit => ⟨?_, ?_, ?_, ?_⟩, fun hlit k => ⟨?_, ?_⟩,
    by decide!, by decide!, by decide!⟩
  · rw [expr_evaluate_expression]
    simp only [hc, hlit, if_true, v4]
  · intro i
    rcases i with _ | _ | _ | _ | i <;> simp [V4.lane]
  · rw [expr_evaluate_expression]
    simp only [hc, hlit, if_true]
  · rw [expr_evaluate_expression]
    simp only [hc, hlit, if_true]
  · intro hn
    rw [expr_evaluate_expression]
    simp only [hc, hlit, hn, if_true, Bool.false_eq_true, if_false]
  · intro hn
    rw [expr_evaluate_expression]
    simp only [hc, hlit, hn, if_false, Bool.false_eq_true, parser_report_error]

theorem unary_evaluation_witness :
    expr_evaluate_expression (michi_create 1 0) parser_create
        (.unary ⟨some 0, ['-']⟩ .MINUS (.number ⟨some 3, [',']⟩ (v4 1 2 0 0) 2)) =
      some (Expr.number ⟨some 0, ['-']⟩ ⟨-1, -2, -0, -0⟩ 2, parser_create) ∧
    expr_evaluate_expression (michi_create 1 0) parser_create
        (.unary ⟨some 0, ['+']⟩ .PLUS (.action ⟨some 1, "move".toList⟩ .MOVE)) =
      some (Expr.none, { parser_create with error_stream := parser_create.error_stream ++
        [⟨⟨some 1, "move".toList⟩, "Expected expression"⟩] }) :=
  ⟨((unary_evaluation ⟨some 0, ['-']⟩ (.number ⟨some 3, [',']⟩ (v4 1 2 0 0) 2)
      (.number ⟨some 3, [',']⟩ (v4 1 2 0 0) 2) (michi_create 1 0) parser_create parser_create
      rfl).2.1 rfl).1,
   (((unary_evaluation ⟨some 0, ['+']⟩ (.action ⟨some 1, "move".toList⟩ .MOVE)
      (.action ⟨some 1, "move".toList⟩ .MOVE) (michi_create 1 0) parser_create parser_create
      rfl).2.2.1 rfl) .PLUS).2 (by decide)⟩

theorem extends_nil (p : Parser) (e : Expr) :
    ∃ own, ((e, p) : Expr × Parser).2 = { p with error_stream := p.error_stream ++ own } ∧
      own.length ≤ 1 := ⟨[], by simp, by simp⟩

theorem extends_one (p : Parser) (e : Expr) (c : Str) (msg : String) :
    ∃ own, ((e, parser_report_error p c msg) : Expr × Parser).2 =
      { p with error_stream := p.error_stream ++ own } ∧ own.length ≤ 1 :=
  ⟨[⟨c, msg⟩], rfl, by simp⟩

theorem expr_evaluate_period_extends (p : Parser) (s : Str) (left right : Expr) (m : Michi) :
    ∃ own, (expr_evaluate_period p s left right m).2 =
      { p with error_stream := p.error_stream ++ own } ∧ own.length ≤ 1 := by
  unfold expr_evaluate_period
  repeat' split
  all_goals first
    | exact extends_nil _ _
    | exact extends_one _ _ _ _
    | (dsimp only
       split_ifs <;> first
         | exact extends_nil _ _
         | exact extends_one _ _ _ _)

theorem expr_resolve_operands_extends (p : Parser) (left right : Expr) :
    (∃ c msg, expr_resolve_operands p left right =
      (Option.none, parser_report_error p c msg)) ∨
    ∃ v, expr_resolve_operands p left right = (some v, p) := by
  unfold expr_resolve_operands
  split_ifs
  · exact Or.inl ⟨_, _, rfl⟩
  · exact Or.inl ⟨_, _, rfl⟩
  · exact Or.inr ⟨_, rfl⟩

theorem expr_evaluate_binary_switch_extends (p : Parser) (s : Str) (k : Op_Kind)
    (left right : Expr) (m : Michi) :
    ∃ own, (expr_evaluate_binary_switch p s k left right m).2 =
      { p with error_stream := p.error_stream ++ own } ∧ own.length ≤ 1 := by
  cases k
  case PERIOD => exact expr_evaluate_period_extends p s left right m
  case COLON =>
    unfold expr_evaluate_binary_switch
    simp only []
    split_ifs
    all_goals first
      | exact extends_nil _ _
      | exact extends_one _ _ _ _
  case NULL => exact extends_nil _ _
  case BRACKET => exact extends_nil _ _
  all_goals
    unfold expr_evaluate_binary_switch
    simp only []
    rcases expr_resolve_operands_extends p left right with ⟨c, msg, h⟩ | ⟨⟨⟨lv, ld⟩, ⟨rv, rd⟩⟩, h⟩
    · rw [h]
      exact extends_one _ _ _ _
    · rw [h]
      simp only []
      split_ifs
      all_goals first
        | exact extends_nil _ _
        | exact extends_one _ _ _ _


theorem some_extends_nil (e : Expr) (p : Parser) :
    some (e, p) = some (e, { p with error_stream := p.error_stream ++ [] }) := by simp

/-- On a tree without `NULL` pointers the evaluator returns, and all it does to
the parser is append to the Error Stream. -/
theorem expr_evaluate_complete (m : Michi) : ∀ (e : Expr) (p : Parser), e.complete = true →
    ∃ e' own, expr_evaluate_expression m p e =
      some (e', { p with error_stream := p.error_stream ++ own })
  | .none, p, _ => ⟨_, [_], rfl⟩
  | .number s v d, p, _ => ⟨_, [], by rw [expr_evaluate_expression]; exact some_extends_nil _ _⟩
  | .var s k v d a c, p, _ => ⟨_, [], by rw [expr_evaluate_expression]; exact some_extends_nil _ _⟩
  | .const s k v d, p, _ => ⟨_, [], by rw [expr_evaluate_expression]; exact some_extends_nil _ _⟩
  | .action s k, p, _ => ⟨_, [], by rw [expr_evaluate_expression]; exact some_extends_nil _ _⟩
  | .statement s l r, p, _ => ⟨_, [], by rw [expr_evaluate_expression]; exact some_extends_nil _ _⟩
  | .identifier s, p, _ => by
    rw [expr_evaluate_expression]
    cases table_find s michi_action_strings with
    | some k => exact ⟨_, [], some_extends_nil _ _⟩
    | none =>
      cases table_find s michi_var_strings with
      | some k => exact ⟨_, [], some_extends_nil _ _⟩
      | none =>
        cases table_find s michi_const_strings with
        | some k => exact ⟨_, [], some_extends_nil _ _⟩
        | none => exact ⟨_, [_], rfl⟩
  | .unary s k c, p, h => by
    obtain ⟨c', own, hc⟩ := expr_evaluate_complete m c p (by simpa [Expr.complete] using h)
    rw [expr_evaluate_expression, hc]
    dsimp only
    split_ifs
    · cases k <;> exact ⟨_, own, rfl⟩
    · exact ⟨_, own, rfl⟩
    · exact ⟨Expr.none, own ++ [⟨c'.string, "Expected expression"⟩],
        by simp [parser_report_error]⟩
  | .binary s k l Option.none, p, h => by simp [Expr.complete] at h
  | .binary s k l (some r), p, h => by
    simp only [Expr.complete, Bool.and_eq_true] at h
    obtain ⟨left, dl, hl⟩ := expr_evaluate_complete m l p h.1
    obtain ⟨right, dr, hr⟩ := expr_evaluate_complete m r
      { p with error_stream := p.error_stream ++ dl } h.2
    rw [expr_evaluate_expression]
    split_ifs with hk
    · exact ⟨_, [_], rfl⟩
    · simp only [hl, hr]
      split_ifs
      · exact ⟨Expr.none, dl ++ dr, by simp⟩
      · obtain ⟨own, ho, -⟩ := expr_evaluate_binary_switch_extends
          { p with error_stream := p.error_stream ++ dl ++ dr } s k left right m
        refine ⟨(expr_evaluate_binary_switch
          { p with error_stream := p.error_stream ++ dl ++ dr } s k left right m).1,
          dl ++ dr ++ own, ?_⟩
        rw [← List.append_assoc, ← List.append_assoc, ← ho]

/-- C26: a binary node with a real operator kind over two operands without
`NULL` pointers.  The left operand is evaluated first and appends `dl` to the
Error Stream, the right operand is evaluated next, whatever the left one gave,
and appends `dr`; the node then appends `own`, at most one diagnostic, so the
stream grows by `dl ++ dr ++ own`.  If either operand evaluated to the
sentinel, the result is the sentinel and `own` is empty.  Evaluating `foo +
bar` records exactly "Invalid identifier" for `foo` and then for `bar`. -/
theorem binary_operands_evaluated (s : Str) (k : Op_Kind) (l r : Expr) (m : Michi)
    (p : Parser) (hk : k ≠ .NULL) (hl : l.complete = true) (hr : r.complete = true) :
    (∃ left right dl dr res own,
      expr_evaluate_expression m p l =
        some (left, { p with error_stream := p.error_stream ++ dl }) ∧
      expr_evaluate_expression m { p with error_stream := p.error_stream ++ dl } r =
        some (right, { p with error_stream := p.error_stream ++ dl ++ dr }) ∧
      expr_evaluate_expression m p (.binary s k l (some r)) =
        some (res, { p with error_stream := p.error_stream ++ dl ++ dr ++ own }) ∧
      own.length ≤ 1 ∧
      (left.kind = .NONE ∨ right.kind = .NONE → res = Expr.none ∧ own = [])) ∧
    (evaluate_text (michi_create 1 0) "foo + bar").map
      (fun r => (r.1.beq .none, r.2.error_stream)) =
      some (true, [⟨⟨some 0, "foo".toList⟩, "Invalid identifier"⟩,
        ⟨⟨some 6, "bar".toList⟩, "Invalid identifier"⟩]) := by
  refine ⟨?_, by decide!⟩
  obtain ⟨left, dl, el⟩ := expr_evaluate_complete m l p hl
  obtain ⟨right, dr, er⟩ := expr_evaluate_complete m r
    { p with error_stream := p.error_stream ++ dl } hr
  by_cases hn : left.kind = .NONE ∨ right.kind = .NONE
  · refine ⟨left, right, dl, dr, .none, [], el, er, ?_, by simp, fun _ => ⟨rfl, rfl⟩⟩
    rw [expr_evaluate_expression]
    simp only [hk, if_false, el, er, hn, if_true, List.append_nil]
  · obtain ⟨own, ho, hlen⟩ := expr_evaluate_binary_switch_extends
      { p with error_stream := p.error_stream ++ dl ++ dr } s k left right m
    refine ⟨left, right, dl, dr, (expr_evaluate_binary_switch
      { p with error_stream := p.error_stream ++ dl ++ dr } s k left right m).1, own, el, er, ?_,
      hlen, fun h => absurd h hn⟩
    rw [expr_evaluate_expression]
    simp only [hk, if_false, el, er, hn, ← ho]

theorem binary_operands_evaluated_witness :
    ∃ left right dl dr res own,
      expr_evaluate_expression (michi_create 1 0) parser_create (ident 0 "foo") =
        some (left, { parser_create with error_stream := parser_create.error_stream ++ dl }) ∧
      expr_evaluate_expression (michi_create 1 0)
          { parser_create with error_stream := parser_create.error_stream ++ dl }
          (ident 6 "bar") =
        some (right, { parser_create with
          error_stream := parser_create.error_stream ++ dl ++ dr }) ∧
      expr_evaluate_expression (michi_create 1 0) parser_create
          (.binary ⟨some 4, ['+']⟩ .PLUS (ident 0 "foo") (some (ident 6 "bar"))) =
        some (res, { parser_create with
          error_stream := parser_create.error_stream ++ dl ++ dr ++ own }) ∧
      own.length ≤ 1 ∧
      (left.kind = .NONE ∨ right.kind = .NONE → res = Expr.none ∧ own = []) :=
  (binary_operands_evaluated ⟨some 4, ['+']⟩ .PLUS (ident 0 "foo") (ident 6 "bar")
    (michi_create 1 0) parser_create (by decide) rfl rfl).1

/-! ## Lexer: number literals and the range error -/

theorem consume_character_errno (l : Lexer) :
    (_lexer_consume_character l).errno_erange = l.errno_erange := by
  unfold _lexer_consume_character
  split_ifs
  · dsimp only
    split_ifs <;> rfl
  · rfl

theorem consume_characters_errno (n : Nat) : ∀ l : Lexer,
    (_lexer_consume_characters l n).errno_erange = l.errno_erange := by
  induction n with
  | zero => intro l; rfl
  | succ n ih =>
    intro l
    rw [_lexer_consume_characters, ih, consume_character_errno]

/-- The token `lexer_number` makes: an error exactly when `errno` is set. -/
theorem lexer_number_token (l : Lexer) (value : ℚ) (count : Nat) :
    (l.errno_erange = true →
      (lexer_number l value count).token.kind = .ERROR ∧
      (lexer_number l value count).error = "Number literal out of range") ∧
    (l.errno_erange = false →
      (lexer_number l value count).token.kind = .NUMBER_LITERAL ∧
      (lexer_number l value count).token.number = value) := by
  constructor
  · intro h
    have := consume_characters_errno count l
    simp [lexer_number, this, h, _lexer_make_error_token, _lexer_make_token]
  · intro h
    have := consume_characters_errno count l
    simp [lexer_number, this, h, _lexer_make_token]

/-- The scanner at a digit takes the `strtof` branch of the `default` case. -/
theorem lexer_advance_token_digit (strtof : Strtof) (l : Lexer) (ht : l.tokenizing = true)
    (hd : isdigit (l.peek l.current) = true) :
    lexer_advance_token strtof l =
      if (lexer_strtof strtof l).2.2 ≠ 0 then
        lexer_number (lexer_strtof strtof l).1 (lexer_strtof strtof l).2.1
          (lexer_strtof strtof l).2.2
      else lexer_identifier (lexer_strtof strtof l).1 (l.peek l.current) := by
  have ne : ∀ c : Char, isdigit c = false → l.peek l.current ≠ c := by
    intro c hc h
    rw [h, hc] at hd
    cases hd
  have hs : isspace (l.peek l.current) = false := by
    simp only [isdigit, Bool.and_eq_true, decide_eq_true_eq] at hd
    simp only [isspace, Bool.or_eq_false_iff, beq_eq_false_iff_ne, ne_eq, Bool.and_eq_false_iff,
      decide_eq_false_iff_not]
    omega
  unfold lexer_advance_token
  rw [lexer_advance_token_loop]
  simp only [ht, if_true, hs, Bool.false_eq_true, if_false, ne '+' (by decide),
    ne '-' (by decide), ne '*' (by decide), ne '/' (by decide), ne '(' (by decide),
    ne ')' (by decide), ne ',' (by decide), ne ':' (by decide), ne '.' (by decide), hd]


/-- C28: the scanner positioned at a digit where `strtof` reads a literal.  The
token is the error "Number literal out of range" exactly when `errno` was
already `ERANGE` or `strtof` reports a range error for this literal: `errno`
is never cleared, so once a literal has overflowed every later literal in the
session is rejected, in range or not.  After the submission of a literal
above `FLT_MAX`, the submission `1` is rejected, where a first submission `1`
is accepted. -/
theorem range_error_sticky (strtof : Strtof) (l : Lexer) (ht : l.tokenizing = true)
    (hd : isdigit (l.peek l.current) = true) (hc : (strtof l.rest).2.1 ≠ 0) :
    ((lexer_advance_token strtof l).token.kind = .ERROR ↔
      (l.errno_erange = true ∨ (strtof l.rest).2.2 = true)) ∧
    (l.errno_erange = true → (strtof l.rest).2.2 = false →
      (lexer_advance_token strtof l).token.kind = .ERROR ∧
      (lexer_advance_token strtof l).error = "Number literal out of range") ∧
    (l.errno_erange = false → (strtof l.rest).2.2 = false →
      (lexer_advance_token strtof l).token.kind = .NUMBER_LITERAL ∧
      (lexer_advance_token strtof l).token.number = (strtof l.rest).1) ∧
    (parse strtof_ranged 20 parser_create
        ("10000000000000000000000000000000000000000".toList ++ [Char.ofNat 0])).map
      (fun r => (r.1.beq .none, r.2.error_stream)) =
      some (true, [⟨⟨some 0, "10000000000000000000000000000000000000000".toList⟩,
        "Number literal out of range"⟩]) ∧
    (parse_twice "10000000000000000000000000000000000000000" "1").map
      (fun r => (r.1.beq .none, r.2.error_stream)) =
      some (true, [⟨⟨some 0, ['1']⟩, "Number literal out of range"⟩]) ∧
    (parse strtof_ranged 20 parser_create ("1".toList ++ [Char.ofNat 0])).map
      (fun r => (r.1.beq (.number ⟨some 0, ['1']⟩ (v4 1 0 0 0) 1), r.2.error_stream)) =
      some (true, []) ∧
    strtof_ranged ['1'] = (1, 1, false) := by
  have e := lexer_advance_token_digit strtof l ht hd
  have hc' : (lexer_strtof strtof l).2.2 ≠ 0 := hc
  rw [if_pos hc'] at e
  have he : (lexer_strtof strtof l).1.errno_erange = (l.errno_erange || (strtof l.rest).2.2) :=
    rfl
  have hn := lexer_number_token (lexer_strtof strtof l).1 (lexer_strtof strtof l).2.1
    (lexer_strtof strtof l).2.2
  rw [← e, he] at hn
  refine ⟨?_, fun h1 h2 => hn.1 (by simp [h1]), fun h1 h2 => ?_, by decide!, by decide!,
    by decide!, by decide!⟩
  · constructor
    · intro hk
      by_contra hne
      rw [not_or] at hne
      have := (hn.2 (by simpa using hne)).1
      rw [hk] at this
      cases this
    · intro h
      exact (hn.1 (by simpa using h)).1
  · exact hn.2 (by simp [h1, h2])

theorem range_error_sticky_witness :
    (lexer_advance_token strtof_ranged
        ⟨['1', Char.ofNat 0], 0, 0, "", Token.zero, true, true⟩).token.kind = .ERROR ∧
    (lexer_advance_token strtof_ranged
        ⟨['1', Char.ofNat 0], 0, 0, "", Token.zero, true, true⟩).error =
      "Number literal out of range" :=
  (range_error_sticky strtof_ranged ⟨['1', Char.ofNat 0], 0, 0, "", Token.zero, true, true⟩ rfl
    (by decide) (by decide!)).2.1 rfl (by decide!)

/-! ## Lexer: progress -/

theorem Lexer.current_lt (l : Lexer) (hs : l.sound) (ht : l.tokenizing = true) :
    l.current < l.first.length := by
  by_contra h
  have := hs ht
  apply this
  unfold Lexer.peek
  rw [List.getD_eq_default _ _ (by omega)]

theorem Lexer.le_refl (l : Lexer) (hs : l.sound) : l.le l := ⟨hs, rfl, Nat.le_refl _⟩

theorem Lexer.le_trans {a b c : Lexer} (h1 : a.le b) (h2 : b.le c) : a.le c :=
  ⟨h2.1, h2.2.1.trans h1.2.1, h2.2.2.trans h1.2.2⟩

theorem Lexer.lt_of_lt_of_le {a b c : Lexer} (h1 : a.lt b) (h2 : b.le c) : a.lt c :=
  ⟨h2.1, h2.2.1.trans h1.2.1, Nat.lt_of_le_of_lt h2.2.2 h1.2.2⟩

theorem Lexer.lt_of_le_of_lt {a b c : Lexer} (h1 : a.le b) (h2 : b.lt c) : a.lt c :=
  ⟨h2.1, h2.2.1.trans h1.2.1, Nat.lt_of_lt_of_le h2.2.2 h1.2.2⟩

theorem Lexer.le_of_lt {a b : Lexer} (h : a.lt b) : a.le b := ⟨h.1, h.2.1, Nat.le_of_lt h.2.2⟩

theorem consume_character_lt (l : Lexer) (hs : l.sound) (ht : l.tokenizing = true) :
    l.lt (_lexer_consume_character l) := by
  have hc := l.current_lt hs ht
  unfold _lexer_consume_character
  rw [if_pos ht]
  dsimp only
  split_ifs with h
  · refine ⟨fun h' => Bool.noConfusion h', rfl, ?_⟩
    simp only [Lexer.left, ht, if_true, Bool.false_eq_true, if_false]
    omega
  · refine ⟨fun _ => h, rfl, ?_⟩
    simp only [Lexer.left, ht, if_true]
    omega

theorem consume_character_le (l : Lexer) (hs : l.sound) : l.le (_lexer_consume_character l) := by
  by_cases ht : l.tokenizing = true
  · exact Lexer.le_of_lt (consume_character_lt l hs ht)
  · unfold _lexer_consume_character
    rw [if_neg ht]
    exact l.le_refl hs

theorem consume_characters_le (n : Nat) : ∀ l : Lexer, l.sound →
    l.le (_lexer_consume_characters l n) := by
  induction n with
  | zero => intro l hs; exact l.le_refl hs
  | succ n ih =>
    intro l hs
    rw [_lexer_consume_characters]
    exact Lexer.le_trans (consume_character_le l hs) (ih _ (consume_character_le l hs).1)

theorem consume_characters_lt (n : Nat) (l : Lexer) (hs : l.sound) (ht : l.tokenizing = true)
    (hn : n ≠ 0) : l.lt (_lexer_consume_characters l n) := by
  obtain ⟨n, rfl⟩ := Nat.exists_eq_succ_of_ne_zero hn
  rw [_lexer_consume_characters]
  exact Lexer.lt_of_lt_of_le (consume_character_lt l hs ht)
    (consume_characters_le n _ (consume_character_lt l hs ht).1)

theorem make_token_le (l : Lexer) (k : Token_Kind) (hs : l.sound) :
    l.le (_lexer_make_token l k) := ⟨hs, rfl, Nat.le_refl _⟩

theorem make_error_token_le (l : Lexer) (e : String) (hs : l.sound) :
    l.le (_lexer_make_error_token l e) := ⟨hs, rfl, Nat.le_refl _⟩

theorem lexer_skip_space_le (fuel : Nat) : ∀ l : Lexer, l.sound → l.le (lexer_skip_space fuel l) := by
  induction fuel with
  | zero => intro l hs; exact l.le_refl hs
  | succ n ih =>
    intro l hs
    rw [lexer_skip_space]
    split_ifs
    · exact Lexer.le_trans (consume_character_le l hs) (ih _ (consume_character_le l hs).1)
    · exact l.le_refl hs

theorem lexer_identifier_loop_le (a : Char) (fuel : Nat) : ∀ l : Lexer, l.sound →
    l.le (lexer_identifier_loop a fuel l) := by
  induction fuel with
  | zero => intro l hs; exact l.le_refl hs
  | succ n ih =>
    intro l hs
    rw [lexer_identifier_loop]
    dsimp only
    split_ifs
    · exact consume_character_le l hs
    · exact Lexer.le_trans (consume_character_le l hs) (ih _ (consume_character_le l hs).1)
    · exact l.le_refl hs

theorem lexer_identifier_loop_lt (a : Char) (fuel : Nat) (l : Lexer) (hs : l.sound)
    (ht : l.tokenizing = true) : l.lt (lexer_identifier_loop a (fuel + 1) l) := by
  rw [lexer_identifier_loop]
  simp only [ht, if_true]
  split_ifs
  · exact consume_character_lt l hs ht
  · exact Lexer.lt_of_lt_of_le (consume_character_lt l hs ht)
      (lexer_identifier_loop_le a fuel _ (consume_character_lt l hs ht).1)


theorem lexer_single_lt (l : Lexer) (k : Token_Kind) (hs : l.sound) (ht : l.tokenizing = true) :
    l.lt (_lexer_make_token (_lexer_consume_character l) k) :=
  Lexer.lt_of_lt_of_le (consume_character_lt l hs ht)
    (make_token_le _ k (consume_character_lt l hs ht).1)

theorem lexer_number_lt (l : Lexer) (value : ℚ) (count : Nat) (hs : l.sound)
    (ht : l.tokenizing = true) (hc : count ≠ 0) :
    l.lt (lexer_number l value count) ∧ (lexer_number l value count).token.kind ≠ .EOF := by
  have h := consume_characters_lt count l hs ht hc
  unfold lexer_number
  dsimp only
  split_ifs
  · exact ⟨Lexer.lt_of_lt_of_le h (make_error_token_le _ _ h.1), by
      simp [_lexer_make_error_token, _lexer_make_token]⟩
  · exact ⟨Lexer.lt_of_lt_of_le h (make_token_le _ .NUMBER_LITERAL h.1), by
      simp [_lexer_make_token]⟩

theorem lexer_identifier_lt (l : Lexer) (a : Char) (hs : l.sound) (ht : l.tokenizing = true) :
    l.lt (lexer_identifier l a) ∧ (lexer_identifier l a).token.kind ≠ .EOF := by
  unfold lexer_identifier
  split_ifs
  · exact ⟨Lexer.lt_of_lt_of_le (consume_character_lt l hs ht)
      (make_error_token_le _ _ (consume_character_lt l hs ht).1), by
      simp [_lexer_make_error_token, _lexer_make_token]⟩
  · have h := lexer_identifier_loop_lt a l.first.length l hs ht
    exact ⟨Lexer.lt_of_lt_of_le h (make_token_le _ .IDENTIFIER h.1), by simp [_lexer_make_token]⟩

theorem lexer_strtof_lt (strtof : Strtof) (l k : Lexer) (h : (lexer_strtof strtof l).1.lt k) :
    l.lt k := h

theorem lexer_strtof_sound (strtof : Strtof) (l : Lexer) (hs : l.sound) :
    (lexer_strtof strtof l).1.sound := hs

/-- The turn of the scanner's loop at a byte that is not white space. -/
theorem lexer_advance_token_loop_nonspace_eq (strtof : Strtof) (fuel : Nat) (l : Lexer)
    (ht : l.tokenizing = true) (hsp : isspace (l.peek l.current) = false) :
    lexer_advance_token_loop strtof (fuel + 1) l =
      if l.peek l.current = '+' then _lexer_make_token (_lexer_consume_character l) .PLUS
      else if l.peek l.current = '-' then _lexer_make_token (_lexer_consume_character l) .MINUS
      else if l.peek l.current = '*' then _lexer_make_token (_lexer_consume_character l) .MUL
      else if l.peek l.current = '/' then _lexer_make_token (_lexer_consume_character l) .DIV
      else if l.peek l.current = '(' then
        _lexer_make_token (_lexer_consume_character l) .BRACKET_OPEN
      else if l.peek l.current = ')' then
        _lexer_make_token (_lexer_consume_character l) .BRACKET_CLOSE
      else if l.peek l.current = ',' then _lexer_make_token (_lexer_consume_character l) .COMMA
      else if l.peek l.current = ':' then _lexer_make_token (_lexer_consume_character l) .COLON
      else if l.peek l.current = '.' then
        if isdigit (l.peek (l.current + 1)) then
          if (lexer_strtof strtof l).2.2 = 0 then
            _lexer_make_token (_lexer_consume_character (lexer_strtof strtof l).1) .PERIOD
          else lexer_number (lexer_strtof strtof l).1 (lexer_strtof strtof l).2.1
            (lexer_strtof strtof l).2.2
        else _lexer_make_token (_lexer_consume_character l) .PERIOD
      else if isdigit (l.peek l.current) then
        if (lexer_strtof strtof l).2.2 ≠ 0 then
          lexer_number (lexer_strtof strtof l).1 (lexer_strtof strtof l).2.1
            (lexer_strtof strtof l).2.2
        else lexer_identifier (lexer_strtof strtof l).1 (l.peek l.current)
      else lexer_identifier l (l.peek l.current) := by
  rw [lexer_advance_token_loop, if_pos ht]
  show (if isspace (l.peek l.current) = true then _ else _) = _
  rw [if_neg (by rw [hsp]; exact Bool.false_ne_true)]

/-- A turn of the scanner's loop at a byte that is not white space makes a
token other than EOF and consumes a byte. -/
theorem lexer_advance_token_loop_nonspace (strtof : Strtof) (fuel : Nat) (l : Lexer)
    (hs : l.sound) (ht : l.tokenizing = true) (hsp : isspace (l.peek l.current) = false) :
    l.lt (lexer_advance_token_loop strtof (fuel + 1) l) ∧
      (lexer_advance_token_loop strtof (fuel + 1) l).token.kind ≠ .EOF := by
  have single : ∀ k : Token_Kind, k ≠ .EOF →
      l.lt (_lexer_make_token (_lexer_consume_character l) k) ∧
        (_lexer_make_token (_lexer_consume_character l) k).token.kind ≠ .EOF :=
    fun k hk => ⟨lexer_single_lt l k hs ht, hk⟩
  rw [lexer_advance_token_loop_nonspace_eq strtof fuel l ht hsp]
  by_cases h1 : l.peek l.current = '+'
  · rw [if_pos h1]; exact single _ (by decide)
  rw [if_neg h1]
  by_cases h2 : l.peek l.current = '-'
  · rw [if_pos h2]; exact single _ (by decide)
  rw [if_neg h2]
  by_cases h3 : l.peek l.current = '*'
  · rw [if_pos h3]; exact single _ (by decide)
  rw [if_neg h3]
  by_cases h4 : l.peek l.current = '/'
  · rw [if_pos h4]; exact single _ (by decide)
  rw [if_neg h4]
  by_cases h5 : l.peek l.current = '('
  · rw [if_pos h5]; exact single _ (by decide)
  rw [if_neg h5]
  by_cases h6 : l.peek l.current = ')'
  · rw [if_pos h6]; exact single _ (by decide)
  rw [if_neg h6]
  by_cases h7 : l.peek l.current = ','
  · rw [if_pos h7]; exact single _ (by decide)
  rw [if_neg h7]
  by_cases h8 : l.peek l.current = ':'
  · rw [if_pos h8]; exact single _ (by decide)
  rw [if_neg h8]
  by_cases h9 : l.peek l.current = '.'
  · rw [if_pos h9]
    by_cases hb : isdigit (l.peek (l.current + 1)) = true
    · rw [if_pos hb]
      by_cases hc : (lexer_strtof strtof l).2.2 = 0
      · rw [if_pos hc]
        exact ⟨lexer_single_lt _ _ (lexer_strtof_sound strtof l hs) ht,
          fun h => Token_Kind.noConfusion h⟩
      · rw [if_neg hc]
        exact lexer_number_lt _ _ _ (lexer_strtof_sound strtof l hs) ht hc
    · rw [if_neg hb]; exact single _ (by decide)
  rw [if_neg h9]
  by_cases hd : isdigit (l.peek l.current) = true
  · rw [if_pos hd]
    by_cases hc : (lexer_strtof strtof l).2.2 ≠ 0
    · rw [if_pos hc]
      exact lexer_number_lt _ _ _ (lexer_strtof_sound strtof l hs) ht hc
    · rw [if_neg hc]
      exact lexer_identifier_lt _ _ (lexer_strtof_sound strtof l hs) ht
  · rw [if_neg hd]
    exact lexer_identifier_lt _ _ hs ht


theorem lexer_advance_token_loop_space_eq (strtof : Strtof) (fuel : Nat) (l : Lexer)
    (ht : l.tokenizing = true) (hsp : isspace (l.peek l.current) = true) :
    lexer_advance_token_loop strtof (fuel + 1) l =
      lexer_advance_token_loop strtof fuel
        (_lexer_set_token_start
          (lexer_skip_space (_lexer_consume_character l).first.length
            (_lexer_consume_character l))) := by
  rw [lexer_advance_token_loop, if_pos ht]
  show (if isspace (l.peek l.current) = true then _ else _) = _
  rw [if_pos hsp]

theorem Lexer.left_pos (l : Lexer) (hs : l.sound) (ht : l.tokenizing = true) : 0 < l.left := by
  have := l.current_lt hs ht
  simp only [Lexer.left, ht, if_true]
  omega

theorem Lexer.left_le (l : Lexer) : l.left ≤ l.first.length := by
  unfold Lexer.left
  split_ifs <;> omega

/-- The scanner's loop, given a turn for every byte left and one more: the
token it makes is EOF if it was entered at the end of the text, and otherwise
it consumes a byte; after an EOF token it is at the end of the text. -/
theorem lexer_advance_token_loop_spec (strtof : Strtof) : ∀ (fuel : Nat) (l : Lexer),
    l.sound → l.left + 1 ≤ fuel →
    (lexer_advance_token_loop strtof fuel l).sound ∧
    (lexer_advance_token_loop strtof fuel l).first = l.first ∧
    (l.tokenizing = true → (lexer_advance_token_loop strtof fuel l).left < l.left) ∧
    (l.tokenizing = false → (lexer_advance_token_loop strtof fuel l).token.kind = .EOF) ∧
    ((lexer_advance_token_loop strtof fuel l).token.kind = .EOF →
      (lexer_advance_token_loop strtof fuel l).tokenizing = false) := by
  intro fuel
  induction fuel with
  | zero => intro l _ h; omega
  | succ fuel ih =>
    intro l hs hf
    by_cases ht : l.tokenizing = true
    · cases hsp : isspace (l.peek l.current)
      · obtain ⟨h1, h2⟩ := lexer_advance_token_loop_nonspace strtof fuel l hs ht hsp
        exact ⟨h1.1, h1.2.1, fun _ => h1.2.2, fun h => Bool.noConfusion (ht.symm.trans h),
          fun h => absurd h h2⟩
      · rw [lexer_advance_token_loop_space_eq strtof fuel l ht hsp]
        have c1 := consume_character_lt l hs ht
        have c2 := lexer_skip_space_le (_lexer_consume_character l).first.length _ c1.1
        have c3 : l.lt (_lexer_set_token_start (lexer_skip_space
            (_lexer_consume_character l).first.length (_lexer_consume_character l))) :=
          Lexer.lt_of_lt_of_le c1 c2
        obtain ⟨i1, i2, i3, i4, i5⟩ := ih _ c3.1 (by have := c3.2.2; omega)
        refine ⟨i1, i2.trans c3.2.1, fun _ => ?_, fun h => Bool.noConfusion (ht.symm.trans h), i5⟩
        by_cases ht3 : (_lexer_set_token_start (lexer_skip_space
            (_lexer_consume_character l).first.length (_lexer_consume_character l))).tokenizing
            = true
        · exact Nat.lt_trans (i3 ht3) c3.2.2
        · have h5 := i5 (i4 (by simpa using ht3))
          have hp := l.left_pos hs ht
          simp only [Lexer.left, h5, Bool.false_eq_true, if_false]
          exact hp
    · have htf : l.tokenizing = false := by simpa using ht
      rw [lexer_advance_token_loop, if_neg ht]
      exact ⟨fun h => Bool.noConfusion (htf.symm.trans h), rfl, fun h => absurd h ht,
        fun _ => rfl, fun _ => htf⟩

theorem lexer_advance_token_spec (strtof : Strtof) (l : Lexer) (hs : l.sound) :
    (lexer_advance_token strtof l).sound ∧
    (lexer_advance_token strtof l).first = l.first ∧
    (l.tokenizing = true → (lexer_advance_token strtof l).left < l.left) ∧
    (l.tokenizing = false → (lexer_advance_token strtof l).token.kind = .EOF) ∧
    ((lexer_advance_token strtof l).token.kind = .EOF →
      (lexer_advance_token strtof l).tokenizing = false) :=
  lexer_advance_token_loop_spec strtof _ l hs (Nat.succ_le_succ l.left_le)

theorem lexer_init_sound (l : Lexer) (text : List Char) : (lexer_init l text).sound := by
  intro h
  simpa [lexer_init, Lexer.peek] using h

theorem lexer_nth_succ (strtof : Strtof) (l : Lexer) (text : List Char) (n : Nat) :
    lexer_nth strtof l text (n + 1) = lexer_advance_token strtof (lexer_nth strtof l text n) := by
  unfold lexer_nth
  rw [Function.iterate_succ_apply']

theorem lexer_nth_zero (strtof : Strtof) (l : Lexer) (text : List Char) :
    lexer_nth strtof l text 0 = lexer_advance_token strtof (lexer_init l text) := rfl

theorem lexer_nth_sound (strtof : Strtof) (l : Lexer) (text : List Char) : ∀ n,
    (lexer_nth strtof l text n).sound ∧ (lexer_nth strtof l text n).first = text ∧
    ((lexer_nth strtof l text n).token.kind = .EOF →
      (lexer_nth strtof l text n).tokenizing = false) := by
  intro n
  induction n with
  | zero =>
    obtain ⟨h1, h2, -, -, h5⟩ := lexer_advance_token_spec strtof _ (lexer_init_sound l text)
    exact ⟨h1, h2, h5⟩
  | succ n ih =>
    rw [lexer_nth_succ]
    obtain ⟨h1, h2, -, -, h5⟩ := lexer_advance_token_spec strtof _ ih.1
    exact ⟨h1, h2.trans ih.2.1, h5⟩

/-- After the EOF token the scanner makes EOF tokens only. -/
theorem lexer_nth_eof (strtof : Strtof) (l : Lexer) (text : List Char) (n : Nat)
    (h : (lexer_nth strtof l text n).token.kind = .EOF) :
    ∀ k, n ≤ k → (lexer_nth strtof l text k).token.kind = .EOF := by
  intro k hk
  induction k with
  | zero =>
    have : n = 0 := by omega
    rw [← this]; exact h
  | succ k ih =>
    by_cases hn : n = k + 1
    · rw [← hn]; exact h
    · have hk' := ih (by omega)
      rw [lexer_nth_succ]
      have hs := lexer_nth_sound strtof l text k
      exact (lexer_advance_token_spec strtof _ hs.1).2.2.2.1 (hs.2.2 hk')

/-- Every token before the EOF token spans a byte of the text. -/
theorem lexer_nth_left (strtof : Strtof) (l : Lexer) (text : List Char) : ∀ n,
    (lexer_nth strtof l text n).token.kind ≠ .EOF →
    (lexer_nth strtof l text n).left + n + 1 ≤ text.length := by
  intro n
  induction n with
  | zero =>
    intro h
    have hs := lexer_init_sound l text
    obtain ⟨-, -, h3, h4, -⟩ := lexer_advance_token_spec strtof _ hs
    have ht : (lexer_init l text).tokenizing = true := by
      by_contra hc
      exact h (h4 (by simpa using hc))
    have := h3 ht
    have hl := (lexer_init l text).left_le
    rw [lexer_nth_zero]
    have hf : (lexer_init l text).first = text := rfl
    rw [hf] at hl
    omega
  | succ n ih =>
    intro h
    have hs := lexer_nth_sound strtof l text n
    rw [lexer_nth_succ] at h ⊢
    obtain ⟨-, -, h3, h4, -⟩ := lexer_advance_token_spec strtof _ hs.1
    have ht : (lexer_nth strtof l text n).tokenizing = true := by
      by_contra hc
      exact h (h4 (by simpa using hc))
    have hne : (lexer_nth strtof l text n).token.kind ≠ .EOF := by
      intro hc
      rw [hs.2.2 hc] at ht
      cases ht
    have := ih hne
    have := h3 ht
    omega

/-- The scanner reaches the EOF token within `text.length + 1` tokens. -/
theorem lexer_nth_reaches_eof (strtof : Strtof) (l : Lexer) (text : List Char) :
    (lexer_nth strtof l text text.length).token.kind = .EOF := by
  by_contra h
  have := lexer_nth_left strtof l text _ h
  omega

/-! ## Parser: the tokenizing loop -/

/-- The tokenizing loop of `parse` entered with the scanner `p.lexer`: if the
first `n` tokens are neither EOF nor an error and the next one is, the loop
adds those `n` tokens and stops there, recording the error if it is one. -/
theorem parse_tokenize_run (strtof : Strtof) : ∀ (n fuel : Nat) (p : Parser),
    (∀ k, k < n → ((lexer_advance_token strtof)^[k] p.lexer).token.kind ≠ .EOF ∧
      ((lexer_advance_token strtof)^[k] p.lexer).token.kind ≠ .ERROR) →
    (((lexer_advance_token strtof)^[n] p.lexer).token.kind = .EOF ∨
      ((lexer_advance_token strtof)^[n] p.lexer).token.kind = .ERROR) →
    n + 1 ≤ fuel →
    parse_tokenize strtof fuel p =
      some (decide (((lexer_advance_token strtof)^[n] p.lexer).token.kind = .ERROR),
        { tokens := p.tokens ++
            (List.range n).map fun k => ((lexer_advance_token strtof)^[k] p.lexer).token
          error_stream :=
            if ((lexer_advance_token strtof)^[n] p.lexer).token.kind = .ERROR then
              p.error_stream ++ [⟨((lexer_advance_token strtof)^[n] p.lexer).token.string,
                ((lexer_advance_token strtof)^[n] p.lexer).error⟩]
            else p.error_stream
          lexer := (lexer_advance_token strtof)^[n] p.lexer
          cursor := p.cursor }) := by
  intro n
  induction n with
  | zero =>
    intro fuel p _ hend hf
    obtain ⟨fuel, rfl⟩ := Nat.exists_eq_succ_of_ne_zero (by omega : fuel ≠ 0)
    rw [parse_tokenize]
    simp only [Function.iterate_zero, id_eq] at hend ⊢
    rcases hend with h | h
    · simp [h]
    · simp [h, parser_report_error]
  | succ n ih =>
    intro fuel p hk hend hf
    obtain ⟨fuel, rfl⟩ := Nat.exists_eq_succ_of_ne_zero (by omega : fuel ≠ 0)
    have h0 := hk 0 (by omega)
    simp only [Function.iterate_zero, id_eq] at h0
    rw [parse_tokenize]
    simp only [h0.1, h0.2, ne_eq, not_false_eq_true, if_true, if_false]
    rw [ih fuel _ (fun k hk' => by simpa [Function.iterate_succ_apply] using hk (k + 1) (by omega))
      (by simpa [Function.iterate_succ_apply] using hend) (by omega)]
    simp only [Function.iterate_succ_apply, List.range_succ_eq_map, List.map_cons, List.map_map,
      Function.iterate_zero, id_eq, List.append_assoc, List.singleton_append]
    rfl


theorem lexer_nth_iterate (strtof : Strtof) (l : Lexer) (text : List Char) (k : Nat) :
    (lexer_advance_token strtof)^[k] (lexer_advance_token strtof (lexer_init l text)) =
      lexer_nth strtof l text k := by
  unfold lexer_nth
  rw [Function.iterate_succ_apply]

/-- Fewer than `text.length + 1` tokens come before the first EOF token. -/
theorem lexer_nth_count (strtof : Strtof) (l : Lexer) (text : List Char) (n : Nat)
    (hk : ∀ k, k < n → (lexer_nth strtof l text k).token.kind ≠ .EOF) : n ≤ text.length := by
  rcases Nat.eq_zero_or_pos n with h | h
  · omega
  · have := lexer_nth_left strtof l text (n - 1) (hk _ (by omega))
    omega

/-- The tokenizing loop of `parse` on `text`, its `text.length + 1` turns being
enough: token `n` being the first EOF or error token, the loop stops there
with the `n` tokens before it in the Token Buffer. -/
theorem parse_tokenize_text (strtof : Strtof) (p : Parser) (text : List Char) (n : Nat)
    (hk : ∀ k, k < n → (lexer_nth strtof p.lexer text k).token.kind ≠ .EOF ∧
      (lexer_nth strtof p.lexer text k).token.kind ≠ .ERROR)
    (hend : (lexer_nth strtof p.lexer text n).token.kind = .EOF ∨
      (lexer_nth strtof p.lexer text n).token.kind = .ERROR) :
    parse_tokenize strtof (text.length + 1)
        { tokens := [], error_stream := []
          lexer := lexer_advance_token strtof (lexer_init p.lexer text), cursor := p.cursor } =
      some (decide ((lexer_nth strtof p.lexer text n).token.kind = .ERROR),
        { tokens := (List.range n).map fun k => (lexer_nth strtof p.lexer text k).token
          error_stream :=
            if (lexer_nth strtof p.lexer text n).token.kind = .ERROR then
              [⟨(lexer_nth strtof p.lexer text n).token.string,
                (lexer_nth strtof p.lexer text n).error⟩]
            else []
          lexer := lexer_nth strtof p.lexer text n
          cursor := p.cursor }) := by
  have hc := lexer_nth_count strtof p.lexer text n fun k h => (hk k h).1
  have := parse_tokenize_run strtof n (text.length + 1)
    { tokens := [], error_stream := []
      lexer := lexer_advance_token strtof (lexer_init p.lexer text), cursor := p.cursor }
    (by simpa only [lexer_nth_iterate] using hk) (by simpa only [lexer_nth_iterate] using hend)
    (by omega)
  simpa only [lexer_nth_iterate, List.nil_append] using this

/-- The function `parse` on a text whose first EOF or error token is an error:
no expression is parsed. -/
theorem parse_of_error (strtof : Strtof) (fuel : Nat) (p : Parser) (text : List Char) (n : Nat)
    (hk : ∀ k, k < n → (lexer_nth strtof p.lexer text k).token.kind ≠ .EOF ∧
      (lexer_nth strtof p.lexer text k).token.kind ≠ .ERROR)
    (hend : (lexer_nth strtof p.lexer text n).token.kind = .ERROR) :
    parse strtof fuel p text =
      some (Expr.none,
        { tokens := (List.range n).map fun k => (lexer_nth strtof p.lexer text k).token
          error_stream := [⟨(lexer_nth strtof p.lexer text n).token.string,
            (lexer_nth strtof p.lexer text n).error⟩]
          lexer := lexer_nth strtof p.lexer text n
          cursor := p.cursor }) := by
  have h := parse_tokenize_text strtof p text n hk (Or.inr hend)
  unfold parse
  dsimp only
  rw [h]
  simp [hend]

/-- The function `parse` on a text whose first EOF or error token is the EOF:
the tokens up to the EOF are in the Token Buffer and the expression parser is
run on them from the first, unless the first is the EOF. -/
theorem parse_of_eof (strtof : Strtof) (fuel : Nat) (p : Parser) (text : List Char) (n : Nat)
    (hk : ∀ k, k < n → (lexer_nth strtof p.lexer text k).token.kind ≠ .EOF ∧
      (lexer_nth strtof p.lexer text k).token.kind ≠ .ERROR)
    (hend : (lexer_nth strtof p.lexer text n).token.kind = .EOF) :
    parse strtof fuel p text =
      if n = 0 then
        some (Expr.none,
          { tokens := [(lexer_nth strtof p.lexer text 0).token], error_stream := []
            lexer := lexer_nth strtof p.lexer text 0, cursor := 0 })
      else
        parse_expression fuel
          { tokens := ((List.range n).map fun k => (lexer_nth strtof p.lexer text k).token) ++
              [(lexer_nth strtof p.lexer text n).token]
            error_stream := []
            lexer := lexer_nth strtof p.lexer text n
            cursor := 0 } (-1) .EOF := by
  have h := parse_tokenize_text strtof p text n hk (Or.inl hend)
  unfold parse
  dsimp only
  rw [h]
  have hne : ¬ (lexer_nth strtof p.lexer text n).token.kind = .ERROR := by
    rw [hend]; decide
  simp only [hne, decide_False, if_false]
  rcases Nat.eq_zero_or_pos n with h0 | h0
  · subst h0
    simp [hend]
  · have h1 : n ≠ 0 := by omega
    have hf : ((((List.range n).map fun k => (lexer_nth strtof p.lexer text k).token) ++
        [(lexer_nth strtof p.lexer text n).token]).getD 0 Token.zero).kind ≠ .EOF := by
      obtain ⟨m, rfl⟩ := Nat.exists_eq_succ_of_ne_zero h1
      simp only [List.range_succ_eq_map, List.map_cons, List.cons_append, List.getD_cons_zero]
      exact (hk 0 (by omega)).1
    simp only [h1, if_false, hf]

/-! ## Parser: termination and the cursor -/

theorem Parser.peek_eq (p : Parser) (h : p.wf) :
    parser_peek_token p = p.tokens.getD p.cursor Token.zero := by
  unfold parser_peek_token
  rw [if_pos]
  simpa using Nat.ne_of_lt h.1

theorem Parser.peek_eof_iff (p : Parser) (h : p.wf) :
    (parser_peek_token p).kind = .EOF ↔ p.cursor + 1 = p.tokens.length := by
  rw [p.peek_eq h]
  exact h.2.1 _ h.1

theorem Parser.peek_ne_error (p : Parser) (h : p.wf) : (parser_peek_token p).kind ≠ .ERROR := by
  rw [p.peek_eq h]
  exact h.2.2 _ h.1

theorem Parser.reaches_refl (p : Parser) (h : p.wf) : p.reaches p :=
  ⟨rfl, rfl, Nat.le_refl _, h.1, [], by simp⟩

theorem Parser.reaches_trans {a b c : Parser} (h1 : a.reaches b) (h2 : b.reaches c) :
    a.reaches c := by
  obtain ⟨t1, l1, c1, d1, o1, e1⟩ := h1
  obtain ⟨t2, l2, c2, d2, o2, e2⟩ := h2
  refine ⟨t2.trans t1, l2.trans l1, Nat.le_trans c1 c2, by rw [← t1]; exact d2, o1 ++ o2, ?_⟩
  rw [e2, e1, List.append_assoc]

theorem Parser.wf_of_reaches {p q : Parser} (h : p.wf) (hr : p.reaches q) : q.wf := by
  obtain ⟨t, -, -, d, -⟩ := hr
  refine ⟨by rw [t]; exact d, ?_, ?_⟩
  · rw [t]; exact h.2.1
  · rw [t]; exact h.2.2

theorem Parser.remaining_le {p q : Parser} (hr : p.reaches q) : q.remaining ≤ p.remaining := by
  obtain ⟨t, -, c, -, -⟩ := hr
  unfold Parser.remaining
  rw [t]
  omega

theorem Parser.remaining_lt {p q : Parser} (hr : p.reaches q) (hc : p.cursor < q.cursor) :
    q.remaining < p.remaining := by
  obtain ⟨t, -, c, d, -⟩ := hr
  unfold Parser.remaining
  rw [t]
  omega

theorem Parser.reaches_report (p : Parser) (h : p.wf) (c : Str) (msg : String) :
    p.reaches (parser_report_error p c msg) :=
  ⟨rfl, rfl, Nat.le_refl _, h.1, [⟨c, msg⟩], rfl⟩

theorem Parser.peek_report (p : Parser) (c : Str) (msg : String) :
    parser_peek_token (parser_report_error p c msg) = parser_peek_token p := rfl

theorem Parser.consume_eq (p : Parser) (h : p.wf) :
    parser_consume_token p = { p with cursor := p.cursor + 1 } := by
  unfold parser_consume_token
  rw [if_pos]
  simpa using Nat.ne_of_lt h.1

theorem Parser.reaches_consume (p : Parser) (h : p.wf) (hne : (parser_peek_token p).kind ≠ .EOF) :
    p.reaches (parser_consume_token p) ∧ p.cursor < (parser_consume_token p).cursor := by
  have h1 : p.cursor + 1 ≠ p.tokens.length := fun e => hne ((p.peek_eof_iff h).mpr e)
  rw [p.consume_eq h]
  have := h.1
  exact ⟨⟨rfl, rfl, Nat.le_succ _, by show p.cursor + 1 < _; omega, [], by simp⟩,
    Nat.lt_succ_self _⟩

theorem Parser.remaining_zero_iff (p : Parser) (h : p.wf) :
    p.remaining = 0 ↔ (parser_peek_token p).kind = .EOF := by
  rw [p.peek_eof_iff h]
  have := h.1
  unfold Parser.remaining
  omega

theorem option_match_bind {α : Type} (o : Option (Expr × Parser))
    (f : Expr → Parser → Option α) :
    (match o with
      | Option.none => Option.none
      | some (a, p) => f a p) = o.bind fun r => f r.1 r.2 := by
  cases o <;> rfl

theorem parse_subexpression_sign (fuel : Nat) (p : Parser)
    (h : (parser_peek_token p).kind = .PLUS ∨ (parser_peek_token p).kind = .MINUS) :
    parse_subexpression (fuel + 1) p =
      (parse_subexpression fuel (parser_consume_token p)).map fun r =>
        (Expr.unary (parser_peek_token p).string (Op_Kind.ofToken (parser_peek_token p).kind)
          r.1, r.2) := by
  rw [parse_subexpression]
  rcases h with h | h <;> simp only [h] <;>
    cases parse_subexpression fuel (parser_consume_token p) <;> rfl

theorem parse_subexpression_open (fuel : Nat) (p : Parser)
    (h : (parser_peek_token p).kind = .BRACKET_OPEN) :
    parse_subexpression (fuel + 1) p =
      (parse_expression fuel (parser_consume_token p) (-1) .BRACKET_CLOSE).map fun r =>
        (Expr.unary (parser_peek_token r.2).string .BRACKET r.1,
          if (parser_peek_token r.2).kind = .BRACKET_CLOSE then parser_consume_token r.2
          else parser_report_error r.2 (parser_peek_token r.2).string "Expected \")\"") := by
  rw [parse_subexpression]
  simp only [h]
  cases parse_expression fuel (parser_consume_token p) (-1) .BRACKET_CLOSE <;> rfl

theorem parse_subexpression_close (fuel : Nat) (p : Parser)
    (h : (parser_peek_token p).kind = .BRACKET_CLOSE) :
    parse_subexpression (fuel + 1) p =
      some (Expr.none, parser_report_error (parser_consume_token p) (parser_peek_token p).string
        "Bracket mismatch!") := by
  rw [parse_subexpression]
  simp only [h]

theorem parse_subexpression_other (fuel : Nat) (p : Parser)
    (h : (parser_peek_token p).kind.starts_operand = false) :
    parse_subexpression (fuel + 1) p =
      some (Expr.none, parser_report_error p (parser_peek_token p).string
        "Expected expression") := by
  rw [parse_subexpression]
  generalize (parser_peek_token p) = t at h
  obtain ⟨k, s, n⟩ := t
  cases k <;> simp [Token_Kind.starts_operand] at h <;> rfl

theorem parse_expression_eof (fuel : Nat) (p : Parser) (prec : Int) (expect : Token_Kind)
    (h : (parser_peek_token p).kind = .EOF) :
    parse_expression (fuel + 1) p prec expect =
      some (Expr.none, parser_report_error p (parser_peek_token p).string
        "Expected expression") := by
  rw [parse_expression]
  simp [h]

theorem parse_expression_operand (fuel : Nat) (p : Parser) (prec : Int) (expect : Token_Kind)
    (h : (parser_peek_token p).kind ≠ .EOF) :
    parse_expression (fuel + 1) p prec expect =
      (parse_subexpression fuel p).bind fun r =>
        parse_expression_loop fuel r.2 prec expect r.1 := by
  rw [parse_expression]
  simp only [h, ne_eq, not_false_eq_true, if_true]
  cases parse_subexpression fuel p <;> rfl

theorem parse_expression_loop_expect (fuel : Nat) (p : Parser) (prec : Int)
    (expect : Token_Kind) (a_node : Expr) (h : (parser_peek_token p).kind = expect) :
    parse_expression_loop (fuel + 1) p prec expect a_node = some (a_node, p) := by
  rw [parse_expression_loop]
  simp [h]

theorem parse_expression_loop_stopped (fuel : Nat) (p : Parser) (prec : Int)
    (expect : Token_Kind) (a_node : Expr) (h : p.stopped prec expect) :
    parse_expression_loop (fuel + 1) p prec expect a_node = some (a_node, p) := by
  rcases h with h | h | h | h
  · exact parse_expression_loop_eof fuel p prec expect a_node h
  · exact parse_expression_loop_expect fuel p prec expect a_node h
  · exact parse_expression_loop_break fuel p prec expect a_node (Or.inl h)
  · exact parse_expression_loop_break fuel p prec expect a_node (Or.inr h)

theorem parse_expression_loop_close (fuel : Nat) (p : Parser) (prec : Int)
    (expect : Token_Kind) (a_node : Expr) (hs : ¬ p.stopped prec expect)
    (h : (parser_peek_token p).kind = .BRACKET_CLOSE) :
    parse_expression_loop (fuel + 1) p prec expect a_node =
      parse_expression_loop fuel
        (parser_report_error (parser_consume_token p) (parser_peek_token p).string
          "Bracket mismatch") prec expect
        (Expr.binary (parser_peek_token p).string .NULL a_node (some Expr.none)) := by
  unfold Parser.stopped at hs
  simp only [not_or] at hs
  obtain ⟨h1, h2, h3, h4⟩ := hs
  rw [parse_expression_loop]
  simp only [h1, h2, h3, h4, if_false]
  unfold parse_binary_operator
  simp only [h]

theorem parse_expression_loop_other (fuel : Nat) (p : Parser) (prec : Int)
    (expect : Token_Kind) (a_node : Expr) (hs : ¬ p.stopped prec expect)
    (h : (parser_peek_token p).kind = .NUMBER_LITERAL ∨
      (parser_peek_token p).kind = .IDENTIFIER ∨ (parser_peek_token p).kind = .BRACKET_OPEN) :
    parse_expression_loop (fuel + 1) p prec expect a_node =
      (parse_expression fuel
        (parser_report_error p (parser_peek_token p).string "Expected operator")
        (token_op_precedence (parser_peek_token p).kind) expect).bind fun r =>
          parse_expression_loop fuel r.2 prec expect
            (Expr.binary (parser_peek_token p).string .NULL a_node (some r.1)) := by
  unfold Parser.stopped at hs
  simp only [not_or] at hs
  obtain ⟨h1, h2, h3, h4⟩ := hs
  rw [parse_expression_loop]
  simp only [h1, h2, h3, h4, if_false]
  unfold parse_binary_operator
  rcases h with h | h | h <;> simp only [h] <;> exact option_match_bind _ _

theorem parse_expression_loop_operator (fuel : Nat) (p : Parser) (prec : Int)
    (expect : Token_Kind) (a_node : Expr) (hs : ¬ p.stopped prec expect)
    (hop : (parser_peek_token p).kind.is_binary_op = true) :
    parse_expression_loop (fuel + 1) p prec expect a_node =
      (parse_expression fuel (parser_consume_token p)
        (token_op_precedence (parser_peek_token p).kind) expect).bind fun r =>
          parse_expression_loop fuel r.2 prec expect
            (binary_node (parser_peek_token p) a_node r.1) := by
  unfold Parser.stopped at hs
  simp only [not_or] at hs
  exact parse_expression_loop_op fuel p prec expect a_node hop hs.2.1 hs.2.2.1 hs.2.2.2

/-- The kinds of token: the EOF, the error token, the six that start an operand
or close a bracket, and the binary operators. -/
theorem Token_Kind.cases_parse (k : Token_Kind) :
    k = .EOF ∨ k = .ERROR ∨ k = .BRACKET_CLOSE ∨
      (k = .NUMBER_LITERAL ∨ k = .IDENTIFIER ∨ k = .BRACKET_OPEN) ∨ k.is_binary_op = true := by
  cases k <;> simp [Token_Kind.is_binary_op]

theorem Token_Kind.starts_operand_cases (k : Token_Kind) (h : k.starts_operand = true) :
    (k = .PLUS ∨ k = .MINUS) ∨ k.is_primary = true ∨ k = .BRACKET_OPEN ∨ k = .BRACKET_CLOSE := by
  cases k <;> simp [Token_Kind.starts_operand, Token_Kind.is_primary] at h ⊢

theorem primary_node_complete (t : Token) : (primary_node t).complete = true := by
  unfold primary_node
  split <;> rfl

/-- With fuel in proportion to the tokens left before the EOF, the three
functions of the expression parser return a tree without `NULL` pointers and
leave the cursor inside the Token Buffer, not before where it was.
`parse_subexpression` moves the cursor if it meets a token that starts an
operand, and so does `parse_expression`; the loop of `parse_expression` is left
on its exit condition. -/
theorem parse_terminates : ∀ r : Nat,
    (∀ (fuel : Nat) (p : Parser), p.wf → p.remaining = r → 4 * r + 1 ≤ fuel →
      ∃ e q, parse_subexpression fuel p = some (e, q) ∧ p.reaches q ∧ e.complete = true ∧
        ((parser_peek_token p).kind.starts_operand = true → p.cursor < q.cursor)) ∧
    (∀ (fuel : Nat) (p : Parser) (prec : Int) (expect : Token_Kind) (a : Expr), p.wf →
      p.remaining = r → 4 * r + 3 ≤ fuel → a.complete = true →
      ∃ e q, parse_expression_loop fuel p prec expect a = some (e, q) ∧ p.reaches q ∧
        e.complete = true ∧ q.stopped prec expect) ∧
    (∀ (fuel : Nat) (p : Parser) (prec : Int) (expect : Token_Kind), p.wf →
      p.remaining = r →
      (4 * r + 4 ≤ fuel ∨
        ((parser_peek_token p).kind.starts_operand = true ∧ 4 * r + 2 ≤ fuel)) →
      ∃ e q, parse_expression fuel p prec expect = some (e, q) ∧ p.reaches q ∧
        e.complete = true ∧
        ((parser_peek_token p).kind.starts_operand = true → p.cursor < q.cursor) ∧
        q.stopped prec expect) := by
  intro r
  induction r using Nat.strong_induction_on with
  | _ r ih =>
  -- parse_subexpression
  have hS : ∀ (fuel : Nat) (p : Parser), p.wf → p.remaining = r → 4 * r + 1 ≤ fuel →
      ∃ e q, parse_subexpression fuel p = some (e, q) ∧ p.reaches q ∧ e.complete = true ∧
        ((parser_peek_token p).kind.starts_operand = true → p.cursor < q.cursor) := by
    intro fuel p hw hr hf
    obtain ⟨f, rfl⟩ : ∃ f, fuel = f + 1 := ⟨fuel - 1, by omega⟩
    cases hso : (parser_peek_token p).kind.starts_operand
    · rw [parse_subexpression_other f p hso]
      exact ⟨_, _, rfl, p.reaches_report hw _ _, rfl, fun h => Bool.noConfusion h⟩
    · have hne : (parser_peek_token p).kind ≠ .EOF := by
        intro h; rw [h] at hso; cases hso
      obtain ⟨hc, hlt⟩ := p.reaches_consume hw hne
      have hwc := Parser.wf_of_reaches hw hc
      have hrc := Parser.remaining_lt hc hlt
      rcases Token_Kind.starts_operand_cases _ hso with h | h | h | h
      · obtain ⟨e, q, he, hq, hcomp, -⟩ := (ih _ (by omega)).1 f (parser_consume_token p) hwc rfl
          (by omega)
        rw [parse_subexpression_sign f p h, he]
        exact ⟨_, _, rfl, Parser.reaches_trans hc hq, hcomp,
          fun _ => Nat.lt_of_lt_of_le hlt hq.2.2.1⟩
      · rw [parse_subexpression_primary f p h]
        exact ⟨_, _, rfl, hc, primary_node_complete _, fun _ => hlt⟩
      · obtain ⟨e, q, he, hq, hcomp, -, -⟩ := (ih _ (by omega)).2.2 f (parser_consume_token p)
          (-1) .BRACKET_CLOSE hwc rfl (Or.inl (by omega))
        rw [parse_subexpression_open f p h, he]
        have hwq := Parser.wf_of_reaches hwc hq
        refine ⟨_, _, rfl, ?_, hcomp, fun _ => ?_⟩
        · dsimp only
          split_ifs with hk
          · exact Parser.reaches_trans hc (Parser.reaches_trans hq
              (q.reaches_consume hwq (by rw [hk]; decide)).1)
          · exact Parser.reaches_trans hc (Parser.reaches_trans hq (q.reaches_report hwq _ _))
        · dsimp only
          split_ifs with hk
          · exact Nat.lt_of_lt_of_le hlt (Nat.le_trans hq.2.2.1
              (q.reaches_consume hwq (by rw [hk]; decide)).1.2.2.1)
          · exact Nat.lt_of_lt_of_le hlt hq.2.2.1
      · rw [parse_subexpression_close f p h]
        exact ⟨_, _, rfl, Parser.reaches_trans hc (Parser.reaches_report _ hwc _ _), rfl,
          fun _ => hlt⟩
  -- parse_expression entered on a token that starts an operand
  have hE1 : ∀ (fuel : Nat) (p : Parser) (prec : Int) (expect : Token_Kind), p.wf →
      p.remaining = r → (parser_peek_token p).kind.starts_operand = true → 4 * r + 2 ≤ fuel →
      ∃ e q, parse_expression fuel p prec expect = some (e, q) ∧ p.reaches q ∧
        e.complete = true ∧
        ((parser_peek_token p).kind.starts_operand = true → p.cursor < q.cursor) ∧
        q.stopped prec expect := by
    intro fuel p prec expect hw hr hso hf
    obtain ⟨f, rfl⟩ : ∃ f, fuel = f + 1 := ⟨fuel - 1, by omega⟩
    have hne : (parser_peek_token p).kind ≠ .EOF := by
      intro h; rw [h] at hso; cases hso
    obtain ⟨a, p1, hs, h1, hcomp1, hcur⟩ := hS f p hw hr (by omega)
    have hw1 := Parser.wf_of_reaches hw h1
    have hr1 := Parser.remaining_lt h1 (hcur hso)
    obtain ⟨e, q, hl, h2, hcomp2, hstop⟩ := (ih _ (by omega)).2.1 f p1 prec expect a hw1 rfl
      (by omega) hcomp1
    rw [parse_expression_operand f p prec expect hne, hs]
    exact ⟨e, q, hl, Parser.reaches_trans h1 h2, hcomp2,
      fun _ => Nat.lt_of_lt_of_le (hcur hso) h2.2.2.1, hstop⟩
  -- the loop of parse_expression
  have hL : ∀ (fuel : Nat) (p : Parser) (prec : Int) (expect : Token_Kind) (a : Expr), p.wf →
      p.remaining = r → 4 * r + 3 ≤ fuel → a.complete = true →
      ∃ e q, parse_expression_loop fuel p prec expect a = some (e, q) ∧ p.reaches q ∧
        e.complete = true ∧ q.stopped prec expect := by
    intro fuel p prec expect a hw hr hf ha
    obtain ⟨f, rfl⟩ : ∃ f, fuel = f + 1 := ⟨fuel - 1, by omega⟩
    by_cases hst : p.stopped prec expect
    · rw [parse_expression_loop_stopped f p prec expect a hst]
      exact ⟨_, _, rfl, p.reaches_refl hw, ha, hst⟩
    · have hne : (parser_peek_token p).kind ≠ .EOF := fun h => hst (Or.inl h)
      obtain ⟨hc, hlt⟩ := p.reaches_consume hw hne
      have hwc := Parser.wf_of_reaches hw hc
      have hrc := Parser.remaining_lt hc hlt
      rcases Token_Kind.cases_parse (parser_peek_token p).kind with h | h | h | h | h
      · exact absurd h hne
      · exact absurd h (p.peek_ne_error hw)
      · rw [parse_expression_loop_close f p prec expect a hst h]
        have h1 : p.reaches (parser_report_error (parser_consume_token p)
            (parser_peek_token p).string "Bracket mismatch") :=
          Parser.reaches_trans hc (Parser.reaches_report _ hwc _ _)
        have hr1 : (parser_report_error (parser_consume_token p)
            (parser_peek_token p).string "Bracket mismatch").remaining < p.remaining := hrc
        obtain ⟨e, q, hl, h2, hcomp, hstop⟩ := (ih _ (by omega)).2.1 f _ prec expect
          (Expr.binary (parser_peek_token p).string .NULL a (some Expr.none))
          (Parser.wf_of_reaches hw h1) rfl (by omega)
          (by simp [Expr.complete, ha])
        exact ⟨e, q, hl, Parser.reaches_trans h1 h2, hcomp, hstop⟩
      · rw [parse_expression_loop_other f p prec expect a hst h]
        have hso : (parser_peek_token (parser_report_error p (parser_peek_token p).string
            "Expected operator")).kind.starts_operand = true := by
          rw [Parser.peek_report]
          rcases h with h | h | h <;> rw [h] <;> rfl
        have h0 := p.reaches_report hw (parser_peek_token p).string "Expected operator"
        obtain ⟨right, p2, he, h1, hcomp1, hcur, -⟩ := hE1 f _
          (token_op_precedence (parser_peek_token p).kind) expect
          (Parser.wf_of_reaches hw h0) hr hso (by omega)
        have h01 := Parser.reaches_trans h0 h1
        have hr2 : p2.remaining < p.remaining := Parser.remaining_lt h01 (hcur hso)
        obtain ⟨e, q, hl, h2, hcomp, hstop⟩ := (ih _ (by omega)).2.1 f p2 prec expect
          (Expr.binary (parser_peek_token p).string .NULL a (some right))
          (Parser.wf_of_reaches hw h01) rfl (by omega)
          (by simp [Expr.complete, ha, hcomp1])
        rw [he]
        exact ⟨e, q, hl, Parser.reaches_trans h01 h2, hcomp, hstop⟩
      · rw [parse_expression_loop_operator f p prec expect a hst h]
        obtain ⟨right, p2, he, h1, hcomp1, -, -⟩ := (ih _ (by omega)).2.2 f
          (parser_consume_token p) (token_op_precedence (parser_peek_token p).kind) expect
          hwc rfl (Or.inl (by omega))
        have h01 := Parser.reaches_trans hc h1
        have hr2 : p2.remaining ≤ (parser_consume_token p).remaining := Parser.remaining_le h1
        obtain ⟨e, q, hl, h2, hcomp, hstop⟩ := (ih _ (by omega)).2.1 f p2 prec expect
          (binary_node (parser_peek_token p) a right)
          (Parser.wf_of_reaches hw h01) rfl (by omega)
          (by simp [binary_node, Expr.complete, ha, hcomp1])
        rw [he]
        exact ⟨e, q, hl, Parser.reaches_trans h01 h2, hcomp, hstop⟩
  refine ⟨hS, hL, ?_⟩
  intro fuel p prec expect hw hr hf
  rcases hf with hf | ⟨hso, hf⟩
  · obtain ⟨f, rfl⟩ : ∃ f, fuel = f + 1 := ⟨fuel - 1, by omega⟩
    by_cases heof : (parser_peek_token p).kind = .EOF
    · rw [parse_expression_eof f p prec expect heof]
      have hno : (parser_peek_token p).kind.starts_operand = true →
          p.cursor < (parser_report_error p (parser_peek_token p).string
            "Expected expression").cursor := by
        intro h
        rw [heof] at h
        cases h
      exact ⟨_, _, rfl, p.reaches_report hw _ _, rfl, hno, Or.inl heof⟩
    · obtain ⟨a, p1, hs, h1, hcomp1, hcur⟩ := hS f p hw hr (by omega)
      have hw1 := Parser.wf_of_reaches hw h1
      have hr1 := Parser.remaining_le h1
      have hL1 : ∃ e q, parse_expression_loop f p1 prec expect a = some (e, q) ∧ p1.reaches q ∧
          e.complete = true ∧ q.stopped prec expect := by
        by_cases hrr : p1.remaining = r
        · exact hL f p1 prec expect a hw1 hrr (by omega) hcomp1
        · exact (ih _ (by omega)).2.1 f p1 prec expect a hw1 rfl (by omega) hcomp1
      obtain ⟨e, q, hl, h2, hcomp2, hstop⟩ := hL1
      rw [parse_expression_operand f p prec expect heof, hs]
      exact ⟨e, q, hl, Parser.reaches_trans h1 h2, hcomp2,
        fun h => Nat.lt_of_lt_of_le (hcur h) h2.2.2.1, hstop⟩
  · exact hE1 fuel p prec expect hw hr hso hf

theorem token_op_precedence_ge (k : Token_Kind) : -1 ≤ token_op_precedence k := by
  cases k <;> decide

theorem token_op_associativity_low (k : Token_Kind) (h : token_op_precedence k = -1) :
    token_op_associativity k = .RL := by
  cases k <;> first | rfl | (exfalso; revert h; decide)

/-- The call `parse_expression(parser, -1, TOKEN_KIND_EOF)` that `parse` makes,
given fuel in proportion to the tokens: it returns a tree without `NULL`
pointers and leaves the cursor on the EOF token. -/
theorem parse_expression_top (fuel : Nat) (p : Parser) (hw : p.wf)
    (hf : 4 * p.remaining + 4 ≤ fuel) :
    ∃ e q, parse_expression fuel p (-1) .EOF = some (e, q) ∧ p.reaches q ∧
      e.complete = true ∧ q.cursor + 1 = q.tokens.length := by
  obtain ⟨e, q, he, hq, hc, -, hs⟩ := (parse_terminates p.remaining).2.2 fuel p (-1) .EOF hw rfl
    (Or.inl hf)
  have hwq := Parser.wf_of_reaches hw hq
  refine ⟨e, q, he, hq, hc, (q.peek_eof_iff hwq).mp ?_⟩
  rcases hs with h | h | h | h
  · exact h
  · exact h
  · have := token_op_precedence_ge (parser_peek_token q).kind
    omega
  · have := token_op_associativity_low _ h.1
    rw [this] at h
    exact absurd h.2 (by decide)

/-- The Token Buffer `parse` hands to the expression parser. -/
theorem parse_tokens_wf (strtof : Strtof) (l : Lexer) (text : List Char) (n : Nat)
    (hk : ∀ k, k < n → (lexer_nth strtof l text k).token.kind ≠ .EOF ∧
      (lexer_nth strtof l text k).token.kind ≠ .ERROR)
    (hend : (lexer_nth strtof l text n).token.kind = .EOF) (lx : Lexer)
    (errs : List Parse_Error) :
    Parser.wf
      { tokens := ((List.range n).map fun k => (lexer_nth strtof l text k).token) ++
          [(lexer_nth strtof l text n).token]
        error_stream := errs, lexer := lx, cursor := 0 } := by
  have hlen : (((List.range n).map fun k => (lexer_nth strtof l text k).token) ++
      [(lexer_nth strtof l text n).token]).length = n + 1 := by simp
  have hget : ∀ i, i < n + 1 →
      (((List.range n).map fun k => (lexer_nth strtof l text k).token) ++
        [(lexer_nth strtof l text n).token]).getD i Token.zero =
      (lexer_nth strtof l text i).token := by
    intro i hi
    rw [List.getD_eq_getElem _ _ (by rw [hlen]; exact hi)]
    by_cases h : i < n
    · rw [List.getElem_append_left (by simpa using h)]
      simp
    · have : i = n := by omega
      subst this
      rw [List.getElem_append_right (by simp)]
      simp
  refine ⟨by show 0 < _; rw [hlen]; omega, ?_, ?_⟩
  · intro i hi
    show (_ = Token_Kind.EOF ↔ i + 1 = _)
    rw [hlen] at hi ⊢
    rw [hget i hi]
    by_cases h : i < n
    · exact ⟨fun e => absurd e (hk i h).1, fun e => by omega⟩
    · have : i = n := by omega
      subst this
      exact ⟨fun _ => rfl, fun _ => hend⟩
  · intro i hi
    show _ ≠ Token_Kind.ERROR
    rw [hlen] at hi
    rw [hget i hi]
    by_cases h : i < n
    · exact (hk i h).2
    · have : i = n := by omega
      subst this
      rw [hend]
      decide

/-- A text whose tokens up to the first EOF token are no error tokens has no
error token at all. -/
theorem lex_error_free_of_eof (strtof : Strtof) (l : Lexer) (text : List Char) (n : Nat)
    (hn : (lexer_nth strtof l text n).token.kind = .EOF)
    (hk : ∀ k, k < n → (lexer_nth strtof l text k).token.kind ≠ .ERROR) :
    ∀ k, (lexer_nth strtof l text k).token.kind ≠ .ERROR := by
  intro k
  by_cases h : k < n
  · exact hk k h
  · rw [lexer_nth_eof strtof l text n hn k (by omega)]
    decide

/-- The function `parse` on a text without error tokens, given fuel in
proportion to the length of the text: with `n` tokens before the EOF token, it
returns a tree without `NULL` pointers, the Token Buffer holds those tokens
and the EOF token, and the cursor is on the EOF token. -/
theorem parse_of_clean_text (strtof : Strtof) (p : Parser) (text : List Char)
    (hfree : ∀ n, (lexer_nth strtof p.lexer text n).token.kind ≠ .ERROR) (fuel : Nat)
    (hf : 4 * text.length + 4 ≤ fuel) :
    ∃ n e q, n ≤ text.length ∧ (lexer_nth strtof p.lexer text n).token.kind = .EOF ∧
      (∀ k, k < n → (lexer_nth strtof p.lexer text k).token.kind ≠ .EOF) ∧
      parse strtof fuel p text = some (e, q) ∧ e.complete = true ∧ q.wf ∧
      q.tokens = ((List.range n).map fun k => (lexer_nth strtof p.lexer text k).token) ++
        [(lexer_nth strtof p.lexer text n).token] ∧
      q.lexer = lexer_nth strtof p.lexer text n ∧ q.cursor = n := by
  have hex : ∃ n, (lexer_nth strtof p.lexer text n).token.kind = .EOF :=
    ⟨_, lexer_nth_reaches_eof strtof p.lexer text⟩
  classical
  have hn := Nat.find_spec hex
  have hmin : ∀ k, k < Nat.find hex → (lexer_nth strtof p.lexer text k).token.kind ≠ .EOF :=
    fun k hk => Nat.find_min hex hk
  generalize Nat.find hex = n at hn hmin
  have hk : ∀ k, k < n → (lexer_nth strtof p.lexer text k).token.kind ≠ .EOF ∧
      (lexer_nth strtof p.lexer text k).token.kind ≠ .ERROR := fun k h => ⟨hmin k h, hfree k⟩
  have hle := lexer_nth_count strtof p.lexer text n hmin
  have hw := parse_tokens_wf strtof p.lexer text n hk hn (lexer_nth strtof p.lexer text n) []
  rw [parse_of_eof strtof fuel p text n hk hn]
  by_cases h0 : n = 0
  · subst h0
    rw [if_pos rfl]
    exact ⟨0, Expr.none, _, hle, hn, hmin, rfl, rfl, hw, rfl, rfl, rfl⟩
  · rw [if_neg h0]
    have hr : Parser.remaining
        { tokens := ((List.range n).map fun k => (lexer_nth strtof p.lexer text k).token) ++
            [(lexer_nth strtof p.lexer text n).token]
          error_stream := [], lexer := lexer_nth strtof p.lexer text n, cursor := 0 } = n := by
      simp [Parser.remaining]
    obtain ⟨e, q, he, hq, hc, hcur⟩ := parse_expression_top fuel _ hw (by rw [hr]; omega)
    refine ⟨n, e, q, hle, hn, hmin, he, hc, Parser.wf_of_reaches hw hq, hq.1, hq.2.1, ?_⟩
    rw [hq.1] at hcur
    simp at hcur
    exact hcur

/-! ## Parser: lexical errors, complete trees and the cursor -/

/-- C27: if token number `n` of the text is the first error token, `parse`
returns the sentinel, whatever the fuel of the expression parser (it is not
run: the cursor is left as it was), the Token Buffer holds exactly the `n`
tokens scanned before, none of them an error or EOF token, the scanner rests
on the error token, and the Error Stream holds the one diagnostic with that
token's string and the scanner's message.  So `1 + $ 2` leaves the two tokens
`1` and `+` and the diagnostic "Invalid character" at `$`. -/
theorem lex_error_stops_parse (strtof : Strtof) (fuel : Nat) (p : Parser) (text : List Char)
    (n : Nat) (hn : (lexer_nth strtof p.lexer text n).token.kind = .ERROR)
    (hmin : ∀ k, k < n → (lexer_nth strtof p.lexer text k).token.kind ≠ .ERROR) :
    parse strtof fuel p text =
      some (Expr.none,
        { tokens := (List.range n).map fun k => (lexer_nth strtof p.lexer text k).token
          error_stream := [⟨(lexer_nth strtof p.lexer text n).token.string,
            (lexer_nth strtof p.lexer text n).error⟩]
          lexer := lexer_nth strtof p.lexer text n
          cursor := p.cursor }) ∧
    (∀ k, k < n → (lexer_nth strtof p.lexer text k).token.kind ≠ .EOF ∧
      (lexer_nth strtof p.lexer text k).token.kind ≠ .ERROR) ∧
    n ≤ text.length ∧
    (parse strtof_decimal 0 parser_create ("1 + $ 2".toList ++ [Char.ofNat 0])).map
      (fun r => (r.1.beq .none, r.2.tokens.map (fun t => t.kind), r.2.error_stream)) =
      some (true, [.NUMBER_LITERAL, .PLUS], [⟨⟨some 4, ['$']⟩, "Invalid character"⟩]) := by
  have hk : ∀ k, k < n → (lexer_nth strtof p.lexer text k).token.kind ≠ .EOF ∧
      (lexer_nth strtof p.lexer text k).token.kind ≠ .ERROR := by
    intro k h
    refine ⟨fun he => ?_, hmin k h⟩
    have := lexer_nth_eof strtof p.lexer text k he n (by omega)
    rw [this] at hn
    cases hn
  exact ⟨parse_of_error strtof fuel p text n hk hn, hk,
    lexer_nth_count strtof p.lexer text n fun k h => (hk k h).1, by decide!⟩

theorem lex_error_stops_parse_witness :
    parse strtof_decimal 0 parser_create ("1 + $ 2".toList ++ [Char.ofNat 0]) =
      some (Expr.none,
        { tokens := (List.range 2).map fun k =>
            (lexer_nth strtof_decimal parser_create.lexer
              ("1 + $ 2".toList ++ [Char.ofNat 0]) k).token
          error_stream := [⟨(lexer_nth strtof_decimal parser_create.lexer
              ("1 + $ 2".toList ++ [Char.ofNat 0]) 2).token.string,
            (lexer_nth strtof_decimal parser_create.lexer
              ("1 + $ 2".toList ++ [Char.ofNat 0]) 2).error⟩]
          lexer := lexer_nth strtof_decimal parser_create.lexer
            ("1 + $ 2".toList ++ [Char.ofNat 0]) 2
          cursor := parser_create.cursor }) :=
  (lex_error_stops_parse strtof_decimal 0 parser_create ("1 + $ 2".toList ++ [Char.ofNat 0]) 2
    (by decide!) (by decide!)).1

theorem parse_binary_operator_complete (q : Parser) (left : Expr) :
    (parse_binary_operator q left).1.complete = true ↔
      (left.complete = true ∧ (parser_peek_token q).kind = .BRACKET_CLOSE) := by
  unfold parse_binary_operator
  generalize (parser_peek_token q) = t
  obtain ⟨k, s, n⟩ := t
  cases k <;> simp [Expr.complete]

/-- C29: on a text without error tokens `parse`, given fuel in proportion to
the length of the text, returns a node, and in the tree no binary node is
without its right operand (a unary node's child and a binary node's left
operand are nodes by construction of the tree).  `parse_binary_operator`
leaves the right operand unset except on a closing bracket, where it is the
sentinel; the loop of `parse_expression` fills it.  The trees of `1 2`
("Expected operator") and `1 )` ("Bracket mismatch") are the degenerate nodes
with both operands. -/
theorem parse_returns_complete_tree (strtof : Strtof) (p : Parser) (text : List Char)
    (hfree : ∀ n, (lexer_nth strtof p.lexer text n).token.kind ≠ .ERROR) (fuel : Nat)
    (hf : 4 * text.length + 4 ≤ fuel) :
    (∃ e q, parse strtof fuel p text = some (e, q) ∧ e.complete = true) ∧
    (∀ (q : Parser) (left : Expr),
      (parse_binary_operator q left).1.complete = true ↔
        (left.complete = true ∧ (parser_peek_token q).kind = .BRACKET_CLOSE)) ∧
    (parse strtof_decimal 20 parser_create ("1 2".toList ++ [Char.ofNat 0])).map
      (fun r => (r.1.beq (.binary ⟨some 2, ['2']⟩ .NULL (.number ⟨some 0, ['1']⟩ (v4 1 0 0 0) 1)
        (some (.number ⟨some 2, ['2']⟩ (v4 2 0 0 0) 1))), r.1.complete, r.2.error_stream)) =
      some (true, true, [⟨⟨some 2, ['2']⟩, "Expected operator"⟩]) ∧
    (parse strtof_decimal 20 parser_create ("1 )".toList ++ [Char.ofNat 0])).map
      (fun r => (r.1.beq (.binary ⟨some 2, [')']⟩ .NULL (.number ⟨some 0, ['1']⟩ (v4 1 0 0 0) 1)
        (some .none)), r.1.complete, r.2.error_stream)) =
      some (true, true, [⟨⟨some 2, [')']⟩, "Bracket mismatch"⟩]) := by
  obtain ⟨n, e, q, -, -, -, he, hc, -⟩ := parse_of_clean_text strtof p text hfree fuel hf
  exact ⟨⟨e, q, he, hc⟩, parse_binary_operator_complete, by decide!, by decide!⟩

theorem parse_returns_complete_tree_witness :
    ∃ e q, parse strtof_decimal 28 parser_create ("1 + 2".toList ++ [Char.ofNat 0]) =
      some (e, q) ∧ e.complete = true :=
  (parse_returns_complete_tree strtof_decimal parser_create ("1 + 2".toList ++ [Char.ofNat 0])
    (lex_error_free_of_eof strtof_decimal parser_create.lexer _ 3 (by decide!) (by decide!))
    28 (by decide)).1

/-- C30: on a text without error tokens `parse`, given fuel in proportion to
the length of the text, returns with the cursor on the EOF token, the last of
the Token Buffer, every token before it being consumed.  And wherever one of
`parse_subexpression`, `parse_expression` and the loop of `parse_expression`
is entered with the cursor inside such a Token Buffer, it returns with the
cursor inside it, on the EOF token at most, and not before where it was.  For
`1 + 2` the cursor ends on 3, the index of the EOF token. -/
theorem parse_cursor_rests_on_eof (strtof : Strtof) (p : Parser) (text : List Char)
    (hfree : ∀ n, (lexer_nth strtof p.lexer text n).token.kind ≠ .ERROR) (fuel : Nat)
    (hf : 4 * text.length + 4 ≤ fuel) :
    (∃ e q, parse strtof fuel p text = some (e, q) ∧
      q.cursor + 1 = q.tokens.length ∧
      (q.tokens.getD q.cursor Token.zero).kind = .EOF ∧
      (∀ i, i < q.cursor → (q.tokens.getD i Token.zero).kind ≠ .EOF ∧
        (q.tokens.getD i Token.zero).kind ≠ .ERROR)) ∧
    (∀ (f : Nat) (s : Parser) (prec : Int) (expect : Token_Kind) (a : Expr),
      s.wf → 4 * s.remaining + 4 ≤ f → a.complete = true →
      (∃ e t, parse_subexpression f s = some (e, t) ∧
        s.cursor ≤ t.cursor ∧ t.cursor < t.tokens.length ∧ t.wf) ∧
      (∃ e t, parse_expression f s prec expect = some (e, t) ∧
        s.cursor ≤ t.cursor ∧ t.cursor < t.tokens.length ∧ t.wf) ∧
      (∃ e t, parse_expression_loop f s prec expect a = some (e, t) ∧
        s.cursor ≤ t.cursor ∧ t.cursor < t.tokens.length ∧ t.wf)) ∧
    (parse strtof_decimal 28 parser_create ("1 + 2".toList ++ [Char.ofNat 0])).map
      (fun r => (r.2.cursor, r.2.tokens.map fun t => t.kind)) =
      some (3, [.NUMBER_LITERAL, .PLUS, .NUMBER_LITERAL, .EOF]) := by
  refine ⟨?_, ?_, by decide!⟩
  · obtain ⟨n, e, q, -, -, -, he, -, hw, ht, -, hcur⟩ :=
      parse_of_clean_text strtof p text hfree fuel hf
    have hlen : q.cursor + 1 = q.tokens.length := by
      rw [ht, hcur]; simp
    refine ⟨e, q, he, hlen, (hw.2.1 _ hw.1).mpr hlen, fun i hi => ⟨fun h => ?_, ?_⟩⟩
    · have := (hw.2.1 i (by omega)).mp h
      omega
    · exact hw.2.2 i (by omega)
  · intro f s prec expect a hw hfs ha
    obtain ⟨hS, hL, hE⟩ := parse_terminates s.remaining
    obtain ⟨e1, t1, h1, r1, -, -⟩ := hS f s hw rfl (by omega)
    obtain ⟨e2, t2, h2, r2, -, -, -⟩ := hE f s prec expect hw rfl (Or.inl hfs)
    obtain ⟨e3, t3, h3, r3, -, -⟩ := hL f s prec expect a hw rfl (by omega) ha
    have w1 := Parser.wf_of_reaches hw r1
    have w2 := Parser.wf_of_reaches hw r2
    have w3 := Parser.wf_of_reaches hw r3
    exact ⟨⟨e1, t1, h1, r1.2.2.1, w1.1, w1⟩, ⟨e2, t2, h2, r2.2.2.1, w2.1, w2⟩,
      ⟨e3, t3, h3, r3.2.2.1, w3.1, w3⟩⟩

theorem parse_cursor_rests_on_eof_witness :
    ∃ e q, parse strtof_decimal 28 parser_create ("1 + 2".toList ++ [Char.ofNat 0]) =
        some (e, q) ∧
      q.cursor + 1 = q.tokens.length ∧
      (q.tokens.getD q.cursor Token.zero).kind = .EOF ∧
      (∀ i, i < q.cursor → (q.tokens.getD i Token.zero).kind ≠ .EOF ∧
        (q.tokens.getD i Token.zero).kind ≠ .ERROR) :=
  (parse_cursor_rests_on_eof strtof_decimal parser_create ("1 + 2".toList ++ [Char.ofNat 0])
    (lex_error_free_of_eof strtof_decimal parser_create.lexer _ 3 (by decide!) (by decide!))
    28 (by decide)).1

/-! ## Executor: atomicity -/

theorem atomic_false (p : Parser) (m : Michi) (c : Str) (msg : String) :
    (((false, parser_report_error p c msg, m) : Bool × Parser × Michi).1 = false →
      ((false, parser_report_error p c msg, m) : Bool × Parser × Michi).2.2 = m ∧
      ∃ c' msg', ((false, parser_report_error p c msg, m) : Bool × Parser × Michi).2.1 =
        parser_report_error p c' msg') ∧
    (((false, parser_report_error p c msg, m) : Bool × Parser × Michi).1 = true →
      ((false, parser_report_error p c msg, m) : Bool × Parser × Michi).2.1 = p) :=
  ⟨fun _ => ⟨rfl, c, msg, rfl⟩, fun h => Bool.noConfusion h⟩

theorem atomic_true (p : Parser) (m m' : Michi) :
    (((true, p, m') : Bool × Parser × Michi).1 = false →
      ((true, p, m') : Bool × Parser × Michi).2.2 = m ∧
      ∃ c' msg', ((true, p, m') : Bool × Parser × Michi).2.1 = parser_report_error p c' msg') ∧
    (((true, p, m') : Bool × Parser × Michi).1 = true →
      ((true, p, m') : Bool × Parser × Michi).2.1 = p) :=
  ⟨fun h => Bool.noConfusion h, fun _ => rfl⟩

theorem execute_action_statement_atomic (s ls : Str) (k : Michi_Action) (right : Expr)
    (p : Parser) (m : Michi) :
    ((execute_action_statement s ls k right p m).1 = false →
      (execute_action_statement s ls k right p m).2.2 = m ∧
      ∃ c' msg', (execute_action_statement s ls k right p m).2.1 =
        parser_report_error p c' msg') ∧
    ((execute_action_statement s ls k right p m).1 = true →
      (execute_action_statement s ls k right p m).2.1 = p) := by
  unfold execute_action_statement
  repeat' split
  all_goals first
    | exact atomic_false _ _ _ _
    | exact atomic_true _ _ _

theorem execute_var_statement_atomic (s ls : Str) (k : Michi_Var) (d : Nat)
    (ptr copy : Option Loc) (right : Expr) (p : Parser) (m : Michi) :
    ((execute_var_statement s ls k d ptr copy right p m).1 = false →
      (execute_var_statement s ls k d ptr copy right p m).2.2 = m ∧
      ∃ c' msg', (execute_var_statement s ls k d ptr copy right p m).2.1 =
        parser_report_error p c' msg') ∧
    ((execute_var_statement s ls k d ptr copy right p m).1 = true →
      (execute_var_statement s ls k d ptr copy right p m).2.1 = p) := by
  unfold execute_var_statement
  repeat' split
  all_goals first
    | exact atomic_false _ _ _ _
    | exact atomic_true _ _ _

/-- C34: the executor on any node.  If it returns false, the world is exactly
as before and the Error Stream has grown by one diagnostic, or by none when
the node is the sentinel; if it returns true, the Error Stream is as before.
So `move: 1, 2` submitted in the initial world leaves the world as it was and
the one diagnostic "Expected vector1 argument". -/
theorem executor_atomic (e : Expr) (p : Parser) (m : Michi) :
    ((expr_type_check_and_execute e p m).1 = false →
      (expr_type_check_and_execute e p m).2.2 = m ∧
      (e = Expr.none → (expr_type_check_and_execute e p m).2.1 = p) ∧
      (e ≠ Expr.none → ∃ c msg, (expr_type_check_and_execute e p m).2.1 =
        { p with error_stream := p.error_stream ++ [⟨c, msg⟩] })) ∧
    ((expr_type_check_and_execute e p m).1 = true →
      (expr_type_check_and_execute e p m).2.1 = p) ∧
    (panel_on_key_enter strtof_decimal 20 ((michi_create 1 0).typed "move: 1, 2")
        parser_create).map (fun r => r.1.world) = some (michi_create 1 0).world ∧
    (panel_on_key_enter strtof_decimal 20 ((michi_create 1 0).typed "move: 1, 2")
        parser_create).map (fun r => r.2.error_stream) =
      some [⟨⟨some 4, [':']⟩, "Expected vector1 argument"⟩] := by
  have key : e ≠ Expr.none →
      ((expr_type_check_and_execute e p m).1 = false →
        (expr_type_check_and_execute e p m).2.2 = m ∧
        ∃ c' msg', (expr_type_check_and_execute e p m).2.1 = parser_report_error p c' msg') ∧
      ((expr_type_check_and_execute e p m).1 = true →
        (expr_type_check_and_execute e p m).2.1 = p) := by
    intro hne
    cases e with
    | none => exact absurd rfl hne
    | number s v d => exact atomic_true _ _ _
    | identifier s => exact atomic_false _ _ _ _
    | unary s k c => exact atomic_false _ _ _ _
    | binary s k l r => exact atomic_false _ _ _ _
    | const s k v d => exact atomic_false _ _ _ _
    | var s k v d a c =>
      unfold expr_type_check_and_execute
      dsimp only
      split
      · exact atomic_false _ _ _ _
      · exact atomic_true _ _ _
    | action s k => cases k <;> first | exact atomic_false _ _ _ _ | exact atomic_true _ _ _
    | statement s l r =>
      cases l with
      | action ls k => exact execute_action_statement_atomic s ls k r p m
      | var ls k v d a c => exact execute_var_statement_atomic s ls k d a c r p m
      | _ => exact atomic_false _ _ _ _
  refine ⟨fun h => ?_, fun h => ?_, by decide!, by decide!⟩
  · by_cases hn : e = Expr.none
    · subst hn
      exact ⟨rfl, fun _ => rfl, fun h' => absurd rfl h'⟩
    · obtain ⟨h1, c, msg, h2⟩ := (key hn).1 h
      exact ⟨h1, fun h' => absurd h' hn, fun _ => ⟨c, msg, h2⟩⟩
  · by_cases hn : e = Expr.none
    · subst hn
      rfl
    · exact (key hn).2 h


theorem executor_atomic_witness :
    (expr_type_check_and_execute (.statement ⟨some 4, [':']⟩
        (.action ⟨some 0, "move".toList⟩ .MOVE) (.number ⟨some 7, [',']⟩ (v4 1 2 0 0) 2))
        parser_create (michi_create 1 0)).2.2 = michi_create 1 0 :=
  ((executor_atomic (.statement ⟨some 4, [':']⟩
    (.action ⟨some 0, "move".toList⟩ .MOVE) (.number ⟨some 7, [',']⟩ (v4 1 2 0 0) 2))
    parser_create (michi_create 1 0)).1 rfl).1

/-! ## The output register and the error cursor -/

/-- C40: the bare identifier `output`, the output dimension `d` being at least
1.  It evaluates to the Variable `output` with vector (0,0,0,0), dimension `d`
and no binding, whatever the register holds; executing that Variable, as the
submission of `output` alone does, sets the four lanes of the register to zero
and keeps the dimension; `output + v`, for a literal `v` of dimension `d`,
evaluates to the literal `v`; `output.x .y .z .w` evaluate to Variables caching
the register's lanes. -/
theorem bare_output_is_zero (m : Michi) (p : Parser) (s sp sv : Str) (off oa ob : Nat) (v : V4)
    (hd : 1 ≤ m.output_dim) :
    expr_evaluate_expression m p (ident off "output") =
      some (.var ⟨some off, "output".toList⟩ .OUTPUT (v4 0 0 0 0) m.output_dim
        Option.none Option.none, p) ∧
    expr_type_check_and_execute
        (.var s .OUTPUT (v4 0 0 0 0) m.output_dim Option.none Option.none) p m =
      (true, p, { m with output := v4 0 0 0 0 }) ∧
    expr_evaluate_expression m p
        (.binary sp .PLUS (ident off "output") (some (.number sv v m.output_dim))) =
      some (.number sp v m.output_dim, p) ∧
    (expr_evaluate_expression m p (member_access sp oa "output" ob "x") =
        some (.var sp .X (v4 m.output.x 0 0 0) 1 (some ⟨.output, 0⟩) Option.none, p) ∧
      expr_evaluate_expression m p (member_access sp oa "output" ob "y") =
        some (.var sp .Y (v4 m.output.y 0 0 0) 1 (some ⟨.output, 1⟩) Option.none, p) ∧
      expr_evaluate_expression m p (member_access sp oa "output" ob "z") =
        some (.var sp .Z (v4 m.output.z 0 0 0) 1 (some ⟨.output, 2⟩) Option.none, p) ∧
      expr_evaluate_expression m p (member_access sp oa "output" ob "w") =
        some (.var sp .W (v4 m.output.w 0 0 0) 1 (some ⟨.output, 3⟩) Option.none, p)) ∧
    (∃ w' p', panel_on_key_enter strtof_decimal 20 (m.typed "output") parser_create =
        some (w', p') ∧
      p'.error_stream = [] ∧ w'.world = ({ m with output := v4 0 0 0 0 } : Michi).world) := by
  have hne : m.output_dim ≠ 0 := by omega
  have e1 : ∀ (o : Nat) (q : Parser) (w : Michi),
      expr_evaluate_expression w q (ident o "output") =
        some (.var ⟨some o, "output".toList⟩ .OUTPUT (v4 0 0 0 0) w.output_dim
          Option.none Option.none, q) := fun o q w => rfl
  have e2 : ∀ (q : Parser) (w : Michi) (t : Str), w.output_dim ≠ 0 →
      expr_type_check_and_execute
        (.var t .OUTPUT (v4 0 0 0 0) w.output_dim Option.none Option.none) q w =
      (true, q, { w with output := v4 0 0 0 0 }) := by
    intro q w t h
    simp [expr_type_check_and_execute, h]
  refine ⟨e1 off p m, e2 p m s hne, ?_, ⟨rfl, rfl, rfl, rfl⟩, ?_⟩
  · rw [expr_evaluate_binary_of_operands m p p p sp .PLUS (ident off "output")
      (.number sv v m.output_dim) _ _ (by decide) (e1 off p m) rfl (by simp [Expr.kind])
      (by simp [Expr.kind])]
    have hl : expr_resolves_to_literal (.var ⟨some off, "output".toList⟩ .OUTPUT (v4 0 0 0 0)
        m.output_dim Option.none Option.none) = true := by
      simp [expr_resolves_to_literal, hne]
    have hr : expr_resolves_to_literal (Expr.number sv v m.output_dim) = true := rfl
    simp only [expr_evaluate_binary_switch, expr_resolve_operands_literal p _ _ hl hr,
      expr_resolve, if_true]
    simp [v4add, v4]
  · obtain ⟨w', p', h1, h2, h3, -⟩ := submit_accepted m "output" (ident 0 "output")
      (.var ⟨some 0, "output".toList⟩ .OUTPUT (v4 0 0 0 0) m.output_dim Option.none Option.none)
      { (m.typed "output").terminated with output := v4 0 0 0 0 } (by decide!)
      (fun q => e1 0 q _) (fun q => e2 q (m.typed "output").terminated _ hne)
    exact ⟨w', p', h1, h2, h3.trans rfl⟩

theorem bare_output_is_zero_witness :
    expr_type_check_and_execute
        (.var ⟨some 0, "output".toList⟩ .OUTPUT (v4 0 0 0 0)
          ({ michi_create 1 0 with output := v4 1 2 3 4 } : Michi).output_dim
          Option.none Option.none)
        parser_create { michi_create 1 0 with output := v4 1 2 3 4 } =
      (true, parser_create,
        { ({ michi_create 1 0 with output := v4 1 2 3 4 } : Michi) with output := v4 0 0 0 0 }) :=
  (bare_output_is_zero { michi_create 1 0 with output := v4 1 2 3 4 } parser_create
    ⟨some 0, "output".toList⟩ ⟨some 7, ['+']⟩ ⟨some 9, ['5']⟩ 0 0 7 (v4 5 0 0 0)
    (by decide)).2.1

theorem error_selected_lt (panel : Panel) (p : Parser) (h : p.error_stream ≠ []) :
    error_selected panel p < p.error_stream.length := by
  have : 0 < p.error_stream.length := List.length_pos.mpr h
  unfold error_selected
  split_ifs <;> omega

theorem error_jump_index (panel : Panel) (p : Parser) (h : p.error_stream ≠ []) :
    (error_jump p panel).error_cursor_index = error_selected panel p + 1 := by
  have hl : p.error_stream.length ≠ 0 := fun e => h (List.length_eq_zero.mp e)
  unfold error_jump panel_set_cursor_on_error error_selected
  rw [if_pos hl]
  dsimp only
  split_ifs with h1 <;> split <;>
    first
    | rfl
    | (unfold panel_set_cursor; split_ifs <;> rfl)

/-- The diagnostic selected by the call number `k` of a run of calls on one
Error Stream. -/
theorem error_selected_iterate (panel : Panel) (p : Parser) (h : p.error_stream ≠ []) :
    ∀ k : Nat, error_selected ((error_jump p)^[k] panel) p =
      (error_selected panel p + k) % p.error_stream.length := by
  intro k
  induction k with
  | zero =>
    rw [Function.iterate_zero, id_eq, Nat.add_zero,
      Nat.mod_eq_of_lt (error_selected_lt panel p h)]
  | succ k ih =>
    have hlt := Nat.mod_lt (error_selected panel p + k) (List.length_pos.mpr h)
    have key : (error_selected panel p + (k + 1)) % p.error_stream.length =
        ((error_selected panel p + k) % p.error_stream.length + 1) % p.error_stream.length := by
      rw [Nat.mod_add_mod]
      rfl
    rw [key, error_selected, Function.iterate_succ_apply', error_jump_index _ p h, ih]
    split_ifs with h1
    · have h2 : (error_selected panel p + k) % p.error_stream.length + 1 =
          p.error_stream.length := by omega
      rw [h2, Nat.mod_self]
    · exact (Nat.mod_eq_of_lt (by omega)).symm

theorem error_jump_text (panel : Panel) (p : Parser) (h : p.error_stream ≠ []) :
    (error_jump p panel).text_input =
      (match (p.error_stream.getD (error_selected panel p) ⟨Str.null, ""⟩).content.data with
        | some c => (panel_set_cursor panel c).text_input
        | Option.none => panel.text_input) ∧
    (error_jump p panel).disp = panel.disp := by
  have hl : p.error_stream.length ≠ 0 := fun e => h (List.length_eq_zero.mp e)
  unfold error_jump panel_set_cursor_on_error error_selected
  rw [if_pos hl]
  dsimp only
  split_ifs with h1 <;> split <;> rename_i hc <;> simp only [hc] <;>
    first
    | exact ⟨rfl, rfl⟩
    | exact ⟨trivial, trivial⟩
    | (unfold panel_set_cursor; dsimp only; split_ifs <;> exact ⟨rfl, rfl⟩)

/-- C32: `panel_set_cursor_on_error` on a stream of `n >= 1` diagnostics with
stored index `i` selects diagnostic `i` if `i < n` and diagnostic 0 otherwise,
returns true, stores the selected index plus one, which lies in `1..n`, and
hands the offset of the selected diagnostic to `panel_set_cursor`; the display
toggles are untouched.  In a run of calls on one stream, call number `k`
(from 0) selects diagnostic `(s + k) mod n`, `s` being the first selection.
On an empty stream it returns false and leaves the panel as it is. -/
theorem error_cursor_cycle (panel : Panel) (p : Parser) :
    (p.error_stream ≠ [] →
      (panel_set_cursor_on_error panel p).1 = true ∧
      error_selected panel p =
        (if panel.error_cursor_index < p.error_stream.length then panel.error_cursor_index
          else 0) ∧
      (panel_set_cursor_on_error panel p).2.error_cursor_index = error_selected panel p + 1 ∧
      1 ≤ (panel_set_cursor_on_error panel p).2.error_cursor_index ∧
      (panel_set_cursor_on_error panel p).2.error_cursor_index ≤ p.error_stream.length ∧
      (panel_set_cursor_on_error panel p).2.text_input =
        (match (p.error_stream.getD (error_selected panel p) ⟨Str.null, ""⟩).content.data with
          | some c => (panel_set_cursor panel c).text_input
          | Option.none => panel.text_input) ∧
      (panel_set_cursor_on_error panel p).2.disp = panel.disp ∧
      ∀ k : Nat, error_selected ((error_jump p)^[k] panel) p =
          (error_selected panel p + k) % p.error_stream.length ∧
        1 ≤ ((error_jump p)^[k + 1] panel).error_cursor_index ∧
        ((error_jump p)^[k + 1] panel).error_cursor_index ≤ p.error_stream.length) ∧
    (p.error_stream = [] → panel_set_cursor_on_error panel p = (false, panel)) := by
  refine ⟨fun h => ?_, fun h => ?_⟩
  · have hl : p.error_stream.length ≠ 0 := fun e => h (List.length_eq_zero.mp e)
    have hi := error_jump_index panel p h
    have hs := error_selected_lt panel p h
    have ht := error_jump_text panel p h
    refine ⟨?_, ?_, hi, ?_, ?_, ht.1, ht.2, fun k => ⟨error_selected_iterate panel p h k, ?_, ?_⟩⟩
    · unfold panel_set_cursor_on_error
      rw [if_pos hl]
      dsimp only
      split <;> rfl
    · unfold error_selected
      split_ifs <;> first | rfl | omega
    · show 1 ≤ (error_jump p panel).error_cursor_index
      omega
    · show (error_jump p panel).error_cursor_index ≤ _
      omega
    · rw [Function.iterate_succ_apply', error_jump_index _ p h]
      omega
    · rw [Function.iterate_succ_apply', error_jump_index _ p h]
      have := error_selected_lt ((error_jump p)^[k] panel) p h
      omega
  · unfold panel_set_cursor_on_error
    rw [if_neg (by simp [h])]

theorem error_cursor_cycle_witness :
    (panel_set_cursor_on_error (michi_create 1 0).panel
        { parser_create with error_stream :=
          [⟨⟨some 0, ['a']⟩, "first"⟩, ⟨⟨some 2, ['b']⟩, "second"⟩] }).2.error_cursor_index =
      error_selected (michi_create 1 0).panel
        { parser_create with error_stream :=
          [⟨⟨some 0, ['a']⟩, "first"⟩, ⟨⟨some 2, ['b']⟩, "second"⟩] } + 1 :=
  ((error_cursor_cycle (michi_create 1 0).panel
    { parser_create with error_stream :=
      [⟨⟨some 0, ['a']⟩, "first"⟩, ⟨⟨some 2, ['b']⟩, "second"⟩] }).1 (by decide)).2.2.1

/-! ## Parser: termination on every text -/

/-- The function `parse` returns on every text, given fuel in proportion to its
length. -/
theorem parse_total (strtof : Strtof) (p : Parser) (text : List Char) (fuel : Nat)
    (hf : 4 * text.length + 4 ≤ fuel) : ∃ e q, parse strtof fuel p text = some (e, q) := by
  by_cases hfree : ∀ n, (lexer_nth strtof p.lexer text n).token.kind ≠ .ERROR
  · obtain ⟨n, e, q, -, -, -, he, -⟩ := parse_of_clean_text strtof p text hfree fuel hf
    exact ⟨e, q, he⟩
  · have hex : ∃ n, (lexer_nth strtof p.lexer text n).token.kind = .ERROR := by
      by_contra hc
      exact hfree fun n hn => hc ⟨n, hn⟩
    classical
    have hn := Nat.find_spec hex
    have hmin : ∀ k, k < Nat.find hex →
        (lexer_nth strtof p.lexer text k).token.kind ≠ .ERROR := fun k hk => Nat.find_min hex hk
    generalize Nat.find hex = n at hn hmin
    have hk : ∀ k, k < n → (lexer_nth strtof p.lexer text k).token.kind ≠ .EOF ∧
        (lexer_nth strtof p.lexer text k).token.kind ≠ .ERROR := by
      intro k h
      refine ⟨fun he => ?_, hmin k h⟩
      have := lexer_nth_eof strtof p.lexer text k he n (by omega)
      rw [this] at hn
      cases hn
    exact ⟨_, _, parse_of_error strtof fuel p text n hk hn⟩

theorem parse_binary_operator_cursor (s : Parser) (left : Expr) (hw : s.wf)
    (hne : (parser_peek_token s).kind ≠ .EOF)
    (hc : (parse_binary_operator s left).2.cursor = s.cursor) :
    (parser_peek_token s).kind = .NUMBER_LITERAL ∨ (parser_peek_token s).kind = .IDENTIFIER ∨
      (parser_peek_token s).kind = .BRACKET_OPEN := by
  have hcons := (s.reaches_consume hw hne).2
  rcases Token_Kind.cases_parse (parser_peek_token s).kind with h | h | h | h | h
  · exact absurd h hne
  · exact absurd h (s.peek_ne_error hw)
  · exfalso
    unfold parse_binary_operator at hc
    simp only [h] at hc
    have : (parser_report_error (parser_consume_token s) (parser_peek_token s).string
        "Bracket mismatch").cursor = (parser_consume_token s).cursor := rfl
    omega
  · exact h
  · exfalso
    rw [parse_binary_operator_op s left h] at hc
    dsimp only at hc
    omega

/-- C38: termination of the parser.  `parse` returns on every text, given fuel
in proportion to its length, and the three functions of the expression parser
return on every Token Buffer that ends in its only EOF token and holds no
error token, with no more tokens left than before.  Every turn of the loop of
`parse_expression` that is not its exit goes on to the next turn with fewer
tokens left; where `parse_binary_operator` does not consume, the token is a
number, an identifier or an opening bracket, which `parse_subexpression`
consumes. -/
theorem parse_terminates_on_tokens (strtof : Strtof) (p : Parser) (text : List Char)
    (fuel : Nat) (hf : 4 * text.length + 4 ≤ fuel) :
    (∃ e q, parse strtof fuel p text = some (e, q)) ∧
    (∀ (s : Parser) (f : Nat) (prec : Int) (expect : Token_Kind) (a : Expr), s.wf →
      4 * s.remaining + 4 ≤ f → a.complete = true →
      (∃ e t, parse_subexpression f s = some (e, t) ∧ t.remaining ≤ s.remaining) ∧
      (∃ e t, parse_expression f s prec expect = some (e, t) ∧ t.remaining ≤ s.remaining) ∧
      (∃ e t, parse_expression_loop f s prec expect a = some (e, t) ∧
        t.remaining ≤ s.remaining)) ∧
    (∀ (s : Parser) (f : Nat) (prec : Int) (expect : Token_Kind) (a : Expr), s.wf →
      ¬ s.stopped prec expect → 4 * s.remaining + 2 ≤ f →
      ∃ t a', parse_expression_loop (f + 1) s prec expect a =
          parse_expression_loop f t prec expect a' ∧
        t.remaining < s.remaining ∧ t.wf) ∧
    (∀ (s : Parser) (left : Expr), s.wf → (parser_peek_token s).kind ≠ .EOF →
      (parse_binary_operator s left).2.cursor = s.cursor →
      ((parser_peek_token s).kind = .NUMBER_LITERAL ∨
        (parser_peek_token s).kind = .IDENTIFIER ∨
        (parser_peek_token s).kind = .BRACKET_OPEN) ∧
      ∀ f, 4 * s.remaining + 1 ≤ f →
        ∃ e t, parse_subexpression f s = some (e, t) ∧ s.cursor < t.cursor) := by
  refine ⟨parse_total strtof p text fuel hf, ?_, ?_, ?_⟩
  · intro s f prec expect a hw hfs ha
    obtain ⟨hS, hL, hE⟩ := parse_terminates s.remaining
    obtain ⟨e1, t1, h1, r1, -, -⟩ := hS f s hw rfl (by omega)
    obtain ⟨e2, t2, h2, r2, -, -, -⟩ := hE f s prec expect hw rfl (Or.inl hfs)
    obtain ⟨e3, t3, h3, r3, -, -⟩ := hL f s prec expect a hw rfl (by omega) ha
    exact ⟨⟨e1, t1, h1, Parser.remaining_le r1⟩, ⟨e2, t2, h2, Parser.remaining_le r2⟩,
      ⟨e3, t3, h3, Parser.remaining_le r3⟩⟩
  · intro s f prec expect a hw hst hfs
    have hne : (parser_peek_token s).kind ≠ .EOF := fun h => hst (Or.inl h)
    obtain ⟨hc, hlt⟩ := s.reaches_consume hw hne
    have hwc := Parser.wf_of_reaches hw hc
    have hrc := Parser.remaining_lt hc hlt
    rcases Token_Kind.cases_parse (parser_peek_token s).kind with h | h | h | h | h
    · exact absurd h hne
    · exact absurd h (s.peek_ne_error hw)
    · rw [parse_expression_loop_close f s prec expect a hst h]
      have h1 : s.reaches (parser_report_error (parser_consume_token s)
          (parser_peek_token s).string "Bracket mismatch") :=
        Parser.reaches_trans hc (Parser.reaches_report _ hwc _ _)
      exact ⟨_, _, rfl, hrc, Parser.wf_of_reaches hw h1⟩
    · rw [parse_expression_loop_other f s prec expect a hst h]
      have hso : (parser_peek_token (parser_report_error s (parser_peek_token s).string
          "Expected operator")).kind.starts_operand = true := by
        rw [Parser.peek_report]
        rcases h with h | h | h <;> rw [h] <;> rfl
      have h0 := s.reaches_report hw (parser_peek_token s).string "Expected operator"
      obtain ⟨right, p2, he, h1, -, hcur, -⟩ := (parse_terminates s.remaining).2.2 f
        (parser_report_error s (parser_peek_token s).string "Expected operator")
        (token_op_precedence (parser_peek_token s).kind) expect
        (Parser.wf_of_reaches hw h0) rfl (Or.inr ⟨hso, hfs⟩)
      have h01 := Parser.reaches_trans h0 h1
      rw [he]
      exact ⟨p2, _, rfl, Parser.remaining_lt h01 (hcur hso), Parser.wf_of_reaches hw h01⟩
    · rw [parse_expression_loop_operator f s prec expect a hst h]
      obtain ⟨right, p2, he, h1, -, -, -⟩ := (parse_terminates (parser_consume_token s).remaining).2.2
        f (parser_consume_token s) (token_op_precedence (parser_peek_token s).kind) expect
        hwc rfl (Or.inl (by omega))
      have h01 := Parser.reaches_trans hc h1
      rw [he]
      exact ⟨p2, _, rfl, Nat.lt_of_le_of_lt (Parser.remaining_le h1) hrc,
        Parser.wf_of_reaches hw h01⟩
  · intro s left hw hne hc
    have hk := parse_binary_operator_cursor s left hw hne hc
    refine ⟨hk, fun f hfs => ?_⟩
    have hso : (parser_peek_token s).kind.starts_operand = true := by
      rcases hk with h | h | h <;> rw [h] <;> rfl
    obtain ⟨e, t, he, -, -, hcur⟩ := (parse_terminates s.remaining).1 f s hw rfl hfs
    exact ⟨e, t, he, hcur hso⟩

theorem parse_terminates_on_tokens_witness :
    ∃ e q, parse strtof_decimal 44 parser_create ("1 2 ) ( +".toList ++ [Char.ofNat 0]) =
      some (e, q) :=
  (parse_terminates_on_tokens strtof_decimal parser_create
    ("1 2 ) ( +".toList ++ [Char.ofNat 0]) 44 (by decide)).1

/-! ## Parser: the tree and the tokens -/

theorem Parser.segment_self (p : Parser) : p.segment p = [] := by
  simp [Parser.segment]

theorem Parser.segment_append (p m q : Parser) (h1 : p.reaches m) (h2 : m.reaches q) :
    p.segment q = p.segment m ++ m.segment q := by
  obtain ⟨t1, -, c1, d1, -⟩ := h1
  obtain ⟨t2, -, c2, d2, -⟩ := h2
  unfold Parser.segment
  rw [t1]
  have e1 : q.cursor - p.cursor = (m.cursor - p.cursor) + (q.cursor - m.cursor) := by omega
  have e2' : p.cursor + (m.cursor - p.cursor) = m.cursor := by omega
  rw [e1, List.take_add, List.drop_drop]
  congr 2
  rw [e2']

theorem Parser.segment_consume (p : Parser) (h : p.wf) :
    p.segment (parser_consume_token p) = [parser_peek_token p] := by
  rw [p.peek_eq h, p.consume_eq h]
  unfold Parser.segment
  have h1 := h.1
  simp only [Nat.add_sub_cancel_left]
  rw [List.getD_eq_getElem _ _ h1, List.drop_eq_getElem_cons h1]
  simp [List.take]

theorem Parser.segment_report (p : Parser) (c : Str) (msg : String) :
    p.segment (parser_report_error p c msg) = [] := by
  simp [Parser.segment, parser_report_error]

/-- Where the Error Stream is the same after two steps of a parse, it is the
same in between. -/
theorem Parser.reaches_quiet {p m q : Parser} (h1 : p.reaches m) (h2 : m.reaches q)
    (h : q.error_stream = p.error_stream) :
    m.error_stream = p.error_stream ∧ q.error_stream = m.error_stream := by
  obtain ⟨-, -, -, -, o1, e1⟩ := h1
  obtain ⟨-, -, -, -, o2, e2⟩ := h2
  rw [e2, e1, List.append_assoc] at h
  have : o1 ++ o2 = [] := by simpa using h
  obtain ⟨a, b⟩ := List.append_eq_nil.mp this
  subst a b
  simp [e1, e2]

theorem Parser.report_loud {p q : Parser} (c : Str) (msg : String)
    (h : (parser_report_error p c msg).reaches q) : q.error_stream ≠ p.error_stream := by
  obtain ⟨-, -, -, -, o, e⟩ := h
  intro hc
  rw [e] at hc
  have := congrArg List.length hc
  simp [parser_report_error] at this


theorem Parser.loud {p m q : Parser} (c : Str) (msg : String) (h1 : p.reaches m)
    (h2 : (parser_report_error m c msg).reaches q) : q.error_stream ≠ p.error_stream := by
  obtain ⟨-, -, -, -, o1, e1⟩ := h1
  obtain ⟨-, -, -, -, o2, e2⟩ := h2
  intro hc
  rw [e2] at hc
  have := congrArg List.length hc
  simp [parser_report_error, e1] at this

theorem Token.shape_operator (t : Token) (h : t.kind.is_binary_op = true) :
    t.shape = ((Op_Kind.ofToken t.kind).token, some t.string, Option.none) ∧
      Op_Kind.ofToken t.kind ≠ .NULL := by
  obtain ⟨k, s, n⟩ := t
  cases k <;> first
    | exact ⟨rfl, fun h => Op_Kind.noConfusion h⟩
    | exact Bool.noConfusion h

theorem Token.shape_sign (t : Token) (h : t.kind = .PLUS ∨ t.kind = .MINUS) :
    t.shape = ((Op_Kind.ofToken t.kind).token, some t.string, Option.none) ∧
      Op_Kind.ofToken t.kind ≠ .BRACKET := by
  obtain ⟨k, s, n⟩ := t
  rcases h with h | h <;> simp only at h <;> subst h <;>
    exact ⟨rfl, fun h => Op_Kind.noConfusion h⟩

theorem primary_node_shape (t : Token) (h : t.kind.is_primary = true) :
    (primary_node t).parsed = true ∧ (primary_node t).clean = true ∧
      (primary_node t).traverse = [t.shape] := by
  obtain ⟨k, s, n⟩ := t
  cases k <;> first
    | exact ⟨by simp [primary_node, Expr.parsed, v4], rfl, rfl⟩
    | exact ⟨rfl, rfl, rfl⟩
    | exact Bool.noConfusion h

/-- What the expression parser returns, if it returns, on a Token Buffer that
ends in its only EOF token: a tree of parser nodes and a parser further on in
the buffer; and if it has recorded nothing, the tree has no sentinel and no
null operator and its traversal is the tokens consumed. -/
theorem parse_sound : ∀ fuel : Nat,
    (∀ (p : Parser) (e : Expr) (q : Parser), p.wf → parse_subexpression fuel p = some (e, q) →
      p.reaches q ∧ e.parsed = true ∧
      (q.error_stream = p.error_stream →
        e.clean = true ∧ e.traverse = (p.segment q).map Token.shape)) ∧
    (∀ (p : Parser) (prec : Int) (expect : Token_Kind) (a e : Expr) (q : Parser), p.wf →
      a.parsed = true → parse_expression_loop fuel p prec expect a = some (e, q) →
      p.reaches q ∧ e.parsed = true ∧
      (q.error_stream = p.error_stream →
        (a.clean = true → e.clean = true) ∧
        e.traverse = a.traverse ++ (p.segment q).map Token.shape)) ∧
    (∀ (p : Parser) (prec : Int) (expect : Token_Kind) (e : Expr) (q : Parser), p.wf →
      parse_expression fuel p prec expect = some (e, q) →
      p.reaches q ∧ e.parsed = true ∧
      (q.error_stream = p.error_stream →
        e.clean = true ∧ e.traverse = (p.segment q).map Token.shape)) := by
  intro fuel
  induction fuel with
  | zero =>
    refine ⟨fun p e q _ h => ?_, fun p prec expect a e q _ _ h => ?_,
      fun p prec expect e q _ h => ?_⟩
    · simp [parse_subexpression] at h
    · simp [parse_expression_loop] at h
    · simp [parse_expression] at h
  | succ f ih =>
    obtain ⟨iS, iL, iE⟩ := ih
    refine ⟨?_, ?_, ?_⟩
    · intro p e q hw h
      cases hso : (parser_peek_token p).kind.starts_operand
      · rw [parse_subexpression_other f p hso] at h
        obtain ⟨rfl, rfl⟩ := Prod.mk.inj (Option.some.inj h)
        exact ⟨p.reaches_report hw _ _, rfl, fun hq =>
          absurd hq (Parser.loud _ _ (p.reaches_refl hw)
            (Parser.reaches_refl _ (Parser.wf_of_reaches hw (p.reaches_report hw _ _))))⟩
      · have hne : (parser_peek_token p).kind ≠ .EOF := by
          intro h0; rw [h0] at hso; cases hso
        obtain ⟨hc, hlt⟩ := p.reaches_consume hw hne
        have hwc := Parser.wf_of_reaches hw hc
        have hseg := p.segment_consume hw
        rcases Token_Kind.starts_operand_cases _ hso with hk | hk | hk | hk
        · rw [parse_subexpression_sign f p hk] at h
          cases hr : parse_subexpression f (parser_consume_token p) with
          | none => rw [hr] at h; cases h
          | some r =>
            obtain ⟨c, q1⟩ := r
            rw [hr] at h
            obtain ⟨rfl, rfl⟩ := Prod.mk.inj (Option.some.inj h)
            obtain ⟨r1, pc, tr⟩ := iS _ c q1 hwc hr
            refine ⟨Parser.reaches_trans hc r1, pc, fun hq => ?_⟩
            obtain ⟨q0, q2⟩ := Parser.reaches_quiet hc r1 hq
            obtain ⟨cc, ct⟩ := tr q2
            obtain ⟨sh, nb⟩ := Token.shape_sign _ hk
            refine ⟨cc, ?_⟩
            rw [Parser.segment_append p _ q1 hc r1, hseg, List.map_append, ← ct]
            simp only [Expr.traverse, nb, if_false, List.map_cons, List.map_nil, sh,
              List.singleton_append]
        · rw [parse_subexpression_primary f p hk] at h
          obtain ⟨rfl, rfl⟩ := Prod.mk.inj (Option.some.inj h)
          obtain ⟨a1, a2, a3⟩ := primary_node_shape _ hk
          exact ⟨hc, a1, fun _ => ⟨a2, by rw [a3, hseg]; rfl⟩⟩
        · rw [parse_subexpression_open f p hk] at h
          cases hr : parse_expression f (parser_consume_token p) (-1) .BRACKET_CLOSE with
          | none => rw [hr] at h; cases h
          | some r =>
            obtain ⟨c, q1⟩ := r
            rw [hr] at h
            obtain ⟨rfl, rfl⟩ := Prod.mk.inj (Option.some.inj h)
            obtain ⟨r1, pc, tr⟩ := iE _ _ _ c q1 hwc hr
            have hw1 := Parser.wf_of_reaches hwc r1
            dsimp only
            by_cases hcl : (parser_peek_token q1).kind = .BRACKET_CLOSE
            · rw [if_pos hcl]
              have hne1 : (parser_peek_token q1).kind ≠ .EOF := by rw [hcl]; decide
              obtain ⟨hc1, -⟩ := q1.reaches_consume hw1 hne1
              have r01 := Parser.reaches_trans hc r1
              refine ⟨Parser.reaches_trans r01 hc1, pc, fun hq => ?_⟩
              obtain ⟨q0, q2⟩ := Parser.reaches_quiet r01 hc1 hq
              obtain ⟨q3, q4⟩ := Parser.reaches_quiet hc r1 q0
              obtain ⟨cc, ct⟩ := tr q4
              refine ⟨cc, ?_⟩
              rw [Parser.segment_append p _ _ r01 hc1, Parser.segment_append p _ q1 hc r1, hseg,
                q1.segment_consume hw1, List.map_append, List.map_append, ← ct]
              simp only [Expr.traverse, if_true, List.map_cons, List.map_nil, Token.shape, hk, hcl,
                List.singleton_append, List.cons_append]
              simp
            · rw [if_neg hcl]
              have r01 := Parser.reaches_trans hc r1
              exact ⟨Parser.reaches_trans r01 (q1.reaches_report hw1 _ _), pc, fun hq =>
                absurd hq (Parser.loud _ _ r01 (Parser.reaches_refl _
                  (Parser.wf_of_reaches hw1 (q1.reaches_report hw1 _ _))))⟩
        · rw [parse_subexpression_close f p hk] at h
          obtain ⟨rfl, rfl⟩ := Prod.mk.inj (Option.some.inj h)
          exact ⟨Parser.reaches_trans hc (Parser.reaches_report _ hwc _ _), rfl, fun hq =>
            absurd hq (Parser.loud _ _ hc (Parser.reaches_refl _
              (Parser.wf_of_reaches hwc (Parser.reaches_report _ hwc _ _))))⟩
    · intro p prec expect a e q hw ha h
      by_cases hst : p.stopped prec expect
      · rw [parse_expression_loop_stopped f p prec expect a hst] at h
        obtain ⟨rfl, rfl⟩ := Prod.mk.inj (Option.some.inj h)
        exact ⟨p.reaches_refl hw, ha, fun _ => ⟨fun hc => hc, by simp [Parser.segment_self]⟩⟩
      · have hne : (parser_peek_token p).kind ≠ .EOF := fun h => hst (Or.inl h)
        obtain ⟨hc, hlt⟩ := p.reaches_consume hw hne
        have hwc := Parser.wf_of_reaches hw hc
        have hseg := p.segment_consume hw
        rcases Token_Kind.cases_parse (parser_peek_token p).kind with hk | hk | hk | hk | hk
        · exact absurd hk hne
        · exact absurd hk (p.peek_ne_error hw)
        · rw [parse_expression_loop_close f p prec expect a hst hk] at h
          have h1 := Parser.reaches_report _ hwc (parser_peek_token p).string "Bracket mismatch"
          obtain ⟨r2, pe, -⟩ := iL _ prec expect _ e q (Parser.wf_of_reaches hwc h1)
            (by simp [Expr.parsed, ha]) h
          exact ⟨Parser.reaches_trans hc (Parser.reaches_trans h1 r2), pe, fun hq =>
            absurd hq (Parser.loud _ _ hc r2)⟩
        · rw [parse_expression_loop_other f p prec expect a hst hk] at h
          have h0 := p.reaches_report hw (parser_peek_token p).string "Expected operator"
          have hw0 := Parser.wf_of_reaches hw h0
          cases hr : parse_expression f
              (parser_report_error p (parser_peek_token p).string "Expected operator")
              (token_op_precedence (parser_peek_token p).kind) expect with
          | none => rw [hr] at h; cases h
          | some r =>
            obtain ⟨right, p2⟩ := r
            rw [hr] at h
            obtain ⟨r1, pr, -⟩ := iE _ _ _ right p2 hw0 hr
            obtain ⟨r2, pe, -⟩ := iL p2 prec expect _ e q (Parser.wf_of_reaches hw0 r1)
              (by simp [Expr.parsed, ha, pr]) h
            exact ⟨Parser.reaches_trans h0 (Parser.reaches_trans r1 r2), pe, fun hq =>
              absurd hq (Parser.loud _ _ (p.reaches_refl hw) (Parser.reaches_trans r1 r2))⟩
        · rw [parse_expression_loop_operator f p prec expect a hst hk] at h
          cases hr : parse_expression f (parser_consume_token p)
              (token_op_precedence (parser_peek_token p).kind) expect with
          | none => rw [hr] at h; cases h
          | some r =>
            obtain ⟨right, p2⟩ := r
            rw [hr] at h
            obtain ⟨r1, pr, tr1⟩ := iE _ _ _ right p2 hwc hr
            have r01 := Parser.reaches_trans hc r1
            obtain ⟨r2, pe, tr2⟩ := iL p2 prec expect _ e q (Parser.wf_of_reaches hw r01)
              (by simp [binary_node, Expr.parsed, ha, pr]) h
            refine ⟨Parser.reaches_trans r01 r2, pe, fun hq => ?_⟩
            obtain ⟨q0, q2⟩ := Parser.reaches_quiet r01 r2 hq
            obtain ⟨q3, q4⟩ := Parser.reaches_quiet hc r1 q0
            obtain ⟨rc, rt⟩ := tr1 q4
            obtain ⟨ec, et⟩ := tr2 q2
            obtain ⟨sh, nn⟩ := Token.shape_operator _ hk
            refine ⟨fun hac => ec (by simp [binary_node, Expr.clean, nn, hac, rc]), ?_⟩
            rw [et, Parser.segment_append p _ q r01 r2, Parser.segment_append p _ p2 hc r1, hseg,
              List.map_append, List.map_append, ← rt]
            simp only [binary_node, Expr.traverse, List.map_cons, List.map_nil, sh,
              List.append_assoc]
    · intro p prec expect e q hw h
      by_cases heof : (parser_peek_token p).kind = .EOF
      · rw [parse_expression_eof f p prec expect heof] at h
        obtain ⟨rfl, rfl⟩ := Prod.mk.inj (Option.some.inj h)
        exact ⟨p.reaches_report hw _ _, rfl, fun hq =>
          absurd hq (Parser.loud _ _ (p.reaches_refl hw)
            (Parser.reaches_refl _ (Parser.wf_of_reaches hw (p.reaches_report hw _ _))))⟩
      · rw [parse_expression_operand f p prec expect heof] at h
        cases hr : parse_subexpression f p with
        | none => rw [hr] at h; cases h
        | some r =>
          obtain ⟨a, p1⟩ := r
          rw [hr] at h
          obtain ⟨r1, pa, tr1⟩ := iS p a p1 hw hr
          obtain ⟨r2, pe, tr2⟩ := iL p1 prec expect a e q (Parser.wf_of_reaches hw r1) pa h
          refine ⟨Parser.reaches_trans r1 r2, pe, fun hq => ?_⟩
          obtain ⟨q0, q2⟩ := Parser.reaches_quiet r1 r2 hq
          obtain ⟨ac, at'⟩ := tr1 q0
          obtain ⟨ec, et⟩ := tr2 q2
          refine ⟨ec ac, ?_⟩
          rw [et, at', Parser.segment_append p p1 q r1 r2, List.map_append]

/-! ## Parser: no token dropped, duplicated or reordered -/

/-- C36 (counterexample): the empty text has no error token and `parse` records
no diagnostic on it, yet the tree it returns is the Null sentinel. -/
theorem parse_empty_text_is_sentinel :
    (lexer_nth strtof_decimal parser_create.lexer [Char.ofNat 0] 0).token.kind = .EOF ∧
    (parse strtof_decimal 8 parser_create [Char.ofNat 0]).map
      (fun r => (r.1.beq .none, r.1.clean, r.2.error_stream)) = some (true, false, []) ∧
    (parse strtof_decimal 12 parser_create ("  ".toList ++ [Char.ofNat 0])).map
      (fun r => (r.1.beq .none, r.1.clean, r.2.error_stream)) = some (true, false, []) := by
  refine ⟨by decide!, by decide!, by decide!⟩

/-- C36 (amended): on a text without error tokens that has at least one token
before the EOF token, `parse`, given fuel in proportion to the length of the
text, returns a tree, and if it has recorded no diagnostic then the in-order
traversal of the tree (a leaf gives its token, with its value if a number; a
sign gives its token and then the child; a bracket node gives `(`, the child
and its `)`; a binary node gives left, operator, right) is the sequence of the
`n` tokens before the EOF token, and the tree has no Null sentinel and no
binary node of the null operator kind.  For `(1 + 2) * -x` the traversal is
the eight tokens. -/
theorem parse_keeps_tokens (strtof : Strtof) (p : Parser) (text : List Char)
    (hfree : ∀ n, (lexer_nth strtof p.lexer text n).token.kind ≠ .ERROR)
    (hne : (lexer_nth strtof p.lexer text 0).token.kind ≠ .EOF) (fuel : Nat)
    (hf : 4 * text.length + 4 ≤ fuel) :
    (∃ n e q, (lexer_nth strtof p.lexer text n).token.kind = .EOF ∧
      (∀ k, k < n → (lexer_nth strtof p.lexer text k).token.kind ≠ .EOF) ∧
      parse strtof fuel p text = some (e, q) ∧
      (q.error_stream = [] →
        e.traverse = (List.range n).map (fun k => (lexer_nth strtof p.lexer text k).token.shape) ∧
        e.clean = true)) ∧
    (parse strtof_decimal 52 parser_create ("(1 + 2) * -x".toList ++ [Char.ofNat 0])).map
      (fun r => (r.1.traverse.map (fun t => t.1), r.1.clean, r.2.error_stream)) =
      some ([.BRACKET_OPEN, .NUMBER_LITERAL, .PLUS, .NUMBER_LITERAL, .BRACKET_CLOSE, .MUL,
        .MINUS, .IDENTIFIER], true, []) := by
  refine ⟨?_, by decide!⟩
  obtain ⟨n, e, q, -, hn, hmin, he, -, -, -, -, hcur⟩ :=
    parse_of_clean_text strtof p text hfree fuel hf
  refine ⟨n, e, q, hn, hmin, he, fun hq => ?_⟩
  have hk : ∀ k, k < n → (lexer_nth strtof p.lexer text k).token.kind ≠ .EOF ∧
      (lexer_nth strtof p.lexer text k).token.kind ≠ .ERROR := fun k h => ⟨hmin k h, hfree k⟩
  have h0 : n ≠ 0 := by
    intro h
    subst h
    exact hne hn
  have hw := parse_tokens_wf strtof p.lexer text n hk hn (lexer_nth strtof p.lexer text n) []
  rw [parse_of_eof strtof fuel p text n hk hn, if_neg h0] at he
  obtain ⟨-, -, tr⟩ := (parse_sound fuel).2.2 _ _ _ e q hw he
  obtain ⟨hc, ht⟩ := tr hq
  refine ⟨?_, hc⟩
  rw [ht]
  simp [Parser.segment, hcur]

theorem parse_keeps_tokens_witness :
    ∃ n e q, (lexer_nth strtof_decimal parser_create.lexer
        ("1 + 2".toList ++ [Char.ofNat 0]) n).token.kind = .EOF ∧
      (∀ k, k < n → (lexer_nth strtof_decimal parser_create.lexer
        ("1 + 2".toList ++ [Char.ofNat 0]) k).token.kind ≠ .EOF) ∧
      parse strtof_decimal 28 parser_create ("1 + 2".toList ++ [Char.ofNat 0]) = some (e, q) ∧
      (q.error_stream = [] →
        e.traverse = (List.range n).map (fun k => (lexer_nth strtof_decimal parser_create.lexer
          ("1 + 2".toList ++ [Char.ofNat 0]) k).token.shape) ∧
        e.clean = true) :=
  (parse_keeps_tokens strtof_decimal parser_create ("1 + 2".toList ++ [Char.ofNat 0])
    (lex_error_free_of_eof strtof_decimal parser_create.lexer _ 3 (by decide!) (by decide!))
    (by decide!) 28 (by decide)).1

/-! ## Evaluator: bindings and dimension tags -/

theorem V4.tail_zero_def (v : V4) (d : Nat) :
    v.tail_zero d = true ↔
      (d ≤ 0 → v.x = 0) ∧ (d ≤ 1 → v.y = 0) ∧ (d ≤ 2 → v.z = 0) ∧ (d ≤ 3 → v.w = 0) := by
  have e : List.range 4 = [0, 1, 2, 3] := rfl
  simp only [V4.tail_zero, e, List.all_cons, List.all_nil, Bool.and_true, Bool.and_eq_true,
    Bool.or_eq_true, decide_eq_true_eq, V4.lane]
  constructor
  · rintro ⟨a, b, c, d'⟩
    exact ⟨fun h => a.resolve_left (by omega), fun h => b.resolve_left (by omega),
      fun h => c.resolve_left (by omega), fun h => d'.resolve_left (by omega)⟩
  · rintro ⟨a, b, c, d'⟩
    refine ⟨?_, ?_, ?_, ?_⟩
    · by_cases h : 0 < d
      · exact Or.inl h
      · exact Or.inr (a (by omega))
    · by_cases h : 1 < d
      · exact Or.inl h
      · exact Or.inr (b (by omega))
    · by_cases h : 2 < d
      · exact Or.inl h
      · exact Or.inr (c (by omega))
    · by_cases h : 3 < d
      · exact Or.inl h
      · exact Or.inr (d' (by omega))

theorem V4.tail_zero_iff (v : V4) (d : Nat) :
    v.tail_zero d = true ↔ ∀ i, d ≤ i → v.lane i = 0 := by
  rw [V4.tail_zero_def]
  constructor
  · rintro ⟨a, b, c, d'⟩ i hi
    rcases i with _ | _ | _ | _ | i
    · exact a hi
    · exact b hi
    · exact c hi
    · exact d' hi
    · rfl
  · intro h
    exact ⟨h 0, h 1, h 2, h 3⟩

/-- An operand that resolves to a literal, its tag being well-formed. -/
theorem literal_dimensioned (e : Expr) (h : expr_resolves_to_literal e = true)
    (hd : e.dimensioned = true) :
    1 ≤ (expr_resolve e).2 ∧ (expr_resolve e).2 ≤ 4 ∧
      (expr_resolve e).1.tail_zero (expr_resolve e).2 = true := by
  cases e with
  | number s v d =>
    simp only [Expr.dimensioned, Bool.and_eq_true, decide_eq_true_eq] at hd
    exact ⟨hd.1.1, hd.1.2, hd.2⟩
  | var s k v d a c =>
    simp only [expr_resolves_to_literal, bne_iff_ne, ne_eq] at h
    simp only [Expr.dimensioned, Bool.or_eq_true, Bool.and_eq_true, decide_eq_true_eq] at hd
    rcases hd with hd | hd
    · exact absurd hd h
    · exact ⟨Nat.pos_of_ne_zero h, hd.1, hd.2⟩
  | const s k v d =>
    simp only [expr_resolves_to_literal, bne_iff_ne, ne_eq] at h
    simp only [Expr.dimensioned, decide_eq_true_eq] at hd
    exact absurd hd h
  | _ => simp [expr_resolves_to_literal] at h

theorem expr_resolve_operands_cases (p : Parser) (left right : Expr) :
    (∃ q, expr_resolve_operands p left right = (Option.none, q)) ∨
    (expr_resolves_to_literal left = true ∧ expr_resolves_to_literal right = true ∧
      expr_resolve_operands p left right = (some (expr_resolve left, expr_resolve right), p)) := by
  unfold expr_resolve_operands
  split_ifs with h1 h2
  · exact Or.inl ⟨_, rfl⟩
  · exact Or.inl ⟨_, rfl⟩
  · exact Or.inr ⟨by simpa using h1, by simpa using h2, rfl⟩

theorem number_dimensioned (s : Str) (v : V4) (d : Nat) (h1 : 1 ≤ d) (h2 : d ≤ 4)
    (h3 : v.tail_zero d = true) : (Expr.number s v d).dimensioned = true := by
  simp [Expr.dimensioned, h1, h2, h3]

/-- A lane of a bound vector Variable is a bound Variable. -/
theorem lane_bound (s ls : Str) (k lk : Michi_Var) (v lv : V4) (i ld : Nat) (ptr : Loc)
    (lcopy : Option Loc) (hk : k ≠ .OUTPUT)
    (h : (Expr.var ls lk lv ld (some ptr) lcopy).bound = true) (hi : i < ld) :
    (Expr.var s k v 1 (some (ptr.add i)) (lcopy.map fun c => c.add i)).bound = true := by
  simp only [Expr.bound, Loc.inside, Bool.and_eq_true, decide_eq_true_eq] at h ⊢
  obtain ⟨⟨⟨h1, h2⟩, h3⟩, h4⟩ := h
  refine ⟨⟨⟨le_refl 1, ?_⟩, hk⟩, ?_⟩
  · show ptr.lane + i + 1 ≤ ptr.field.dim
    omega
  · cases lcopy with
    | none => rfl
    | some c =>
      simp only [Bool.and_eq_true, decide_eq_true_eq] at h4
      simp only [Option.map_some', Loc.add, Bool.and_eq_true, decide_eq_true_eq]
      exact ⟨h4.1, by omega⟩

theorem lane_dimensioned (s : Str) (k : Michi_Var) (a : ℚ) (ptr copy : Option Loc) :
    (Expr.var s k (v4 a 0 0 0) 1 ptr copy).dimensioned = true := by
  simp [Expr.dimensioned, V4.tail_zero_def, v4]

/-- The member access on evaluated operands gives a bound node with a
well-formed tag, the left operand being bound. -/
theorem expr_evaluate_period_bound (p : Parser) (s : Str) (left right : Expr) (m : Michi)
    (hl : left.bound = true) :
    (expr_evaluate_period p s left right m).1.bound = true ∧
      (expr_evaluate_period p s left right m).1.dimensioned = true := by
  cases left with
  | var ls lk lv ld lptr lcopy =>
    cases right with
    | var rs rk rv rd rptr rcopy =>
      cases lk <;> cases rk <;>
        first
        | exact ⟨rfl, rfl⟩
        | (cases lptr with
           | none => exact ⟨rfl, rfl⟩
           | some ptr =>
             have h1 : 1 ≤ ld := by
               simp only [Expr.bound, Bool.and_eq_true, decide_eq_true_eq] at hl
               exact hl.1.1.1
             simp only [expr_evaluate_period]
             first
             | exact ⟨rfl, rfl⟩
             | exact ⟨lane_bound _ _ _ _ _ _ _ _ _ _ (by decide) hl (by omega),
                 lane_dimensioned _ _ _ _ _⟩
             | (split_ifs with hc
                · exact ⟨lane_bound _ _ _ _ _ _ _ _ _ _ (by decide) hl (by omega),
                    lane_dimensioned _ _ _ _ _⟩
                · exact ⟨rfl, rfl⟩))
    | _ => exact ⟨rfl, rfl⟩
  | _ => cases right <;> exact ⟨rfl, rfl⟩

theorem v4_tail_arith (lv rv : V4) (d : Nat) (a : ℚ) (hl : lv.tail_zero d = true)
    (hr : rv.tail_zero d = true) :
    (v4add lv rv).tail_zero d = true ∧ (v4sub lv rv).tail_zero d = true ∧
      (v4mul lv a).tail_zero d = true ∧
      (v4 (-lv.x) (-lv.y) (-lv.z) (-lv.w)).tail_zero d = true := by
  rw [V4.tail_zero_def] at hl hr
  obtain ⟨l0, l1, l2, l3⟩ := hl
  obtain ⟨r0, r1, r2, r3⟩ := hr
  simp only [V4.tail_zero_def, v4add, v4sub, v4mul, v4]
  refine ⟨⟨fun h => ?_, fun h => ?_, fun h => ?_, fun h => ?_⟩,
    ⟨fun h => ?_, fun h => ?_, fun h => ?_, fun h => ?_⟩,
    ⟨fun h => ?_, fun h => ?_, fun h => ?_, fun h => ?_⟩,
    ⟨fun h => ?_, fun h => ?_, fun h => ?_, fun h => ?_⟩⟩ <;>
  simp [l0, l1, l2, l3, r0, r1, r2, r3, h]

theorem v4_tail_scalar (x : ℚ) (d : Nat) (h : 1 ≤ d) : (v4 x 0 0 0).tail_zero d = true := by
  rw [V4.tail_zero_def]
  exact ⟨fun h' => by omega, fun _ => rfl, fun _ => rfl, fun _ => rfl⟩

/-- The operator switch on evaluated operands: the result is bound if the
operands are, and its tag is well-formed if theirs are. -/
theorem expr_evaluate_binary_switch_bound (p : Parser) (s : Str) (k : Op_Kind)
    (left right : Expr) (m : Michi) (hl : left.bound = true) (hr : right.bound = true) :
    (expr_evaluate_binary_switch p s k left right m).1.bound = true ∧
    (left.dimensioned = true → right.dimensioned = true →
      (expr_evaluate_binary_switch p s k left right m).1.dimensioned = true) := by
  cases k
  case PERIOD =>
    exact ⟨(expr_evaluate_period_bound p s left right m hl).1,
      fun _ _ => (expr_evaluate_period_bound p s left right m hl).2⟩
  case COLON =>
    unfold expr_evaluate_binary_switch
    simp only []
    split_ifs
    · exact ⟨rfl, fun _ _ => rfl⟩
    · exact ⟨rfl, fun _ _ => rfl⟩
    · exact ⟨by simp [Expr.bound, hl, hr], fun dl dr => by simp [Expr.dimensioned, dl, dr]⟩
  case NULL => exact ⟨rfl, fun _ _ => rfl⟩
  case BRACKET => exact ⟨rfl, fun _ _ => rfl⟩
  all_goals
    unfold expr_evaluate_binary_switch
    simp only []
    rcases expr_resolve_operands_cases p left right with ⟨q, h⟩ | ⟨ll, lr, h⟩
    · rw [h]
      exact ⟨rfl, fun _ _ => rfl⟩
    · rw [h]
      simp only []
      split_ifs
      all_goals first
        | exact ⟨rfl, fun _ _ => rfl⟩
        | (refine ⟨rfl, fun dl dr => ?_⟩
           obtain ⟨a1, a2, a3⟩ := literal_dimensioned left ll dl
           obtain ⟨b1, b2, b3⟩ := literal_dimensioned right lr dr
           first
           | exact number_dimensioned _ _ _ a1 a2 (v4_tail_arith _ _ _ 0 a3 (by simp_all)).1
           | exact number_dimensioned _ _ _ a1 a2 (v4_tail_arith _ _ _ 0 a3 (by simp_all)).2.1
           | exact number_dimensioned _ _ _ a1 a2 (v4_tail_arith _ _ _ _ a3 a3).2.2.1
           | exact number_dimensioned _ _ _ b1 b2 (v4_tail_arith _ _ _ _ b3 b3).2.2.1
           | exact number_dimensioned _ _ _ a1 a2 (v4_tail_scalar _ _ a1)
           | (have e : ((expr_resolve left).2 + (expr_resolve right).2) % 4294967296 =
                  (expr_resolve left).2 + (expr_resolve right).2 :=
                Nat.mod_eq_of_lt (by omega)
              have hsum : (expr_resolve left).2 + (expr_resolve right).2 ≤ 4 := by
                rw [← e]
                assumption
              simp only [e]
              exact number_dimensioned _ _ _ (by omega) hsum
                ((V4.tail_zero_iff _ _).mpr (comma_pack_lanes _ _ _ _ hsum).2.2)))

theorem Expr.complete_of_parsed : ∀ e : Expr, e.parsed = true → e.complete = true
  | .none, _ => rfl
  | .number _ _ _, _ => rfl
  | .identifier _, _ => rfl
  | .unary _ _ c, h => Expr.complete_of_parsed c h
  | .binary _ _ l (some r), h => by
    simp only [Expr.parsed, Bool.and_eq_true] at h
    simp only [Expr.complete, Bool.and_eq_true]
    exact ⟨Expr.complete_of_parsed l h.1, Expr.complete_of_parsed r h.2⟩
  | .binary _ _ _ Option.none, h => by simp [Expr.parsed] at h
  | .var _ _ _ _ _ _, h => by simp [Expr.parsed] at h
  | .const _ _ _ _, h => by simp [Expr.parsed] at h
  | .action _ _, h => by simp [Expr.parsed] at h
  | .statement _ _ _, h => by simp [Expr.parsed] at h

/-- What evaluation gives on a tree of parser nodes: a bound node, and one with
well-formed tags if the output dimension is at most 4. -/
theorem expr_evaluate_bound (m : Michi) : ∀ (e : Expr) (p : Parser) (e' : Expr) (q : Parser),
    e.parsed = true → expr_evaluate_expression m p e = some (e', q) →
    e'.bound = true ∧ (m.output_dim ≤ 4 → e'.dimensioned = true)
  | .none, p, e', q, _, h => by
    rw [expr_evaluate_expression] at h
    obtain ⟨rfl, -⟩ := Prod.mk.inj (Option.some.inj h)
    exact ⟨rfl, fun _ => rfl⟩
  | .number s v d, p, e', q, hp, h => by
    rw [expr_evaluate_expression] at h
    obtain ⟨rfl, -⟩ := Prod.mk.inj (Option.some.inj h)
    simp only [Expr.parsed, Bool.and_eq_true, decide_eq_true_eq] at hp
    obtain ⟨⟨⟨rfl, hy⟩, hz⟩, hw⟩ := hp
    refine ⟨rfl, fun _ => number_dimensioned _ _ _ (le_refl 1) (by omega) ?_⟩
    rw [V4.tail_zero_def]
    exact ⟨fun h' => by omega, fun _ => hy, fun _ => hz, fun _ => hw⟩
  | .var _ _ _ _ _ _, _, _, _, hp, _ => by simp [Expr.parsed] at hp
  | .const _ _ _ _, _, _, _, hp, _ => by simp [Expr.parsed] at hp
  | .action _ _, _, _, _, hp, _ => by simp [Expr.parsed] at hp
  | .statement _ _ _, _, _, _, hp, _ => by simp [Expr.parsed] at hp
  | .binary _ _ _ Option.none, _, _, _, hp, _ => by simp [Expr.parsed] at hp
  | .identifier s, p, e', q, _, h => by
    rw [expr_evaluate_expression] at h
    cases h1 : table_find s michi_action_strings with
    | some k =>
      rw [h1] at h
      obtain ⟨rfl, -⟩ := Prod.mk.inj (Option.some.inj h)
      exact ⟨rfl, fun _ => rfl⟩
    | none =>
      rw [h1] at h
      cases h2 : table_find s michi_var_strings with
      | some k =>
        rw [h2] at h
        obtain ⟨rfl, -⟩ := Prod.mk.inj (Option.some.inj h)
        by_cases hk : k = .OUTPUT
        · subst hk
          refine ⟨by simp [Expr.bound], fun hd => ?_⟩
          simp [Expr.dimensioned, hd, V4.tail_zero_def, v4]
        · refine ⟨by simp [Expr.bound, hk], fun hd => ?_⟩
          simp [Expr.dimensioned, hk]
      | none =>
        rw [h2] at h
        cases h3 : table_find s michi_const_strings with
        | some k =>
          rw [h3] at h
          obtain ⟨rfl, -⟩ := Prod.mk.inj (Option.some.inj h)
          exact ⟨rfl, fun _ => rfl⟩
        | none =>
          rw [h3] at h
          obtain ⟨rfl, -⟩ := Prod.mk.inj (Option.some.inj h)
          exact ⟨rfl, fun _ => rfl⟩
  | .unary s k c, p, e', q, hp, h => by
    rw [expr_evaluate_expression] at h
    cases hc : expr_evaluate_expression m p c with
    | none => rw [hc] at h; cases h
    | some r =>
      obtain ⟨c', p1⟩ := r
      rw [hc] at h
      obtain ⟨cb, cd⟩ := expr_evaluate_bound m c p c' p1 hp hc
      dsimp only at h
      split_ifs at h with hl hn
      · cases k <;> obtain ⟨rfl, -⟩ := Prod.mk.inj (Option.some.inj h) <;>
          first
          | exact ⟨rfl, fun _ => rfl⟩
          | (refine ⟨rfl, fun hd => ?_⟩
             obtain ⟨a1, a2, a3⟩ := literal_dimensioned c' hl (cd hd)
             first
             | exact number_dimensioned _ _ _ a1 a2 a3
             | exact number_dimensioned _ _ _ a1 a2 (v4_tail_arith _ _ _ 0 a3 a3).2.2.2)
      · obtain ⟨rfl, -⟩ := Prod.mk.inj (Option.some.inj h)
        exact ⟨rfl, fun _ => rfl⟩
      · obtain ⟨rfl, -⟩ := Prod.mk.inj (Option.some.inj h)
        exact ⟨rfl, fun _ => rfl⟩
  | .binary s k l (some r), p, e', q, hp, h => by
    simp only [Expr.parsed, Bool.and_eq_true] at hp
    rw [expr_evaluate_expression] at h
    split_ifs at h with hk
    · obtain ⟨rfl, -⟩ := Prod.mk.inj (Option.some.inj h)
      exact ⟨rfl, fun _ => rfl⟩
    · cases h1 : expr_evaluate_expression m p l with
      | none => rw [h1] at h; cases h
      | some r1 =>
        obtain ⟨left, p1⟩ := r1
        rw [h1] at h
        dsimp only at h
        cases h2 : expr_evaluate_expression m p1 r with
        | none => rw [h2] at h; cases h
        | some r2 =>
          obtain ⟨right, p2⟩ := r2
          rw [h2] at h
          dsimp only at h
          obtain ⟨lb, ld⟩ := expr_evaluate_bound m l p left p1 hp.1 h1
          obtain ⟨rb, rd⟩ := expr_evaluate_bound m r p1 right p2 hp.2 h2
          split_ifs at h with hn
          · obtain ⟨rfl, -⟩ := Prod.mk.inj (Option.some.inj h)
            exact ⟨rfl, fun _ => rfl⟩
          · have hs := expr_evaluate_binary_switch_bound p2 s k left right m lb rb
            have he : e' = (expr_evaluate_binary_switch p2 s k left right m).1 :=
              (congrArg Prod.fst (Option.some.inj h)).symm
            rw [he]
            exact ⟨hs.1, fun hd => hs.2 (ld hd) (rd hd)⟩

theorem Field.target_dim (f t : Field) (h : f.target = some t) : t.dim = f.dim := by
  cases f <;> simp only [Field.target, Option.some.injEq, reduceCtorEq] at h <;> subst h <;> rfl

/-- The bindings of a bound Variable of dimension at least 1, spelled out. -/
theorem bound_var (s : Str) (k : Michi_Var) (v : V4) (d : Nat) (ptr copy : Option Loc)
    (h : (Expr.var s k v d ptr copy).bound = true) (hd : 1 ≤ d) :
    (k = .OUTPUT ∧ ptr = Option.none ∧ copy = Option.none) ∨
    (k ≠ .OUTPUT ∧ ∃ l, ptr = some l ∧ l.lane + d ≤ l.field.dim ∧
      ∀ c, copy = some c →
        l.field.target = some c.field ∧ c.lane = l.lane ∧ c.lane + d ≤ c.field.dim) := by
  cases ptr with
  | none =>
    simp only [Expr.bound, Bool.and_eq_true, Bool.or_eq_true, decide_eq_true_eq,
      Option.isNone_iff_eq_none] at h
    rcases h.2 with h0 | h0
    · omega
    · exact Or.inl ⟨h0, rfl, h.1⟩
  | some l =>
    simp only [Expr.bound, Loc.inside, Bool.and_eq_true, decide_eq_true_eq] at h
    obtain ⟨⟨⟨-, h2⟩, h3⟩, h4⟩ := h
    refine Or.inr ⟨h3, l, rfl, h2, fun c hc => ?_⟩
    subst hc
    simp only [Bool.and_eq_true, decide_eq_true_eq] at h4
    refine ⟨h4.1, h4.2, ?_⟩
    rw [Field.target_dim _ _ h4.1, h4.2]
    exact h2

/-- C35: evaluating a tree of parser nodes, in any world and with any Error
Stream, returns a node whose Variables are bound (`Expr.bound`).  If the node
is a Variable of dimension `d ≥ 1` it is either the bare `output` Variable,
which has no binding, or it has a primary binding whose `d` floats lie inside
the field it points into, and its target binding, if any, is the same lanes of
the matching target field, which has as many floats.  If the node is a
Statement on a Variable other than `output` and the executor accepts it, the
two `memcpy` of the executor write `d` floats through a primary binding that
is present and lies inside its field, and through the target binding, if
present, inside the target field.  So `actor.scale.y` is the Variable bound to
lane 1 of `scale` with lane 1 of `scale_target` as its target. -/
theorem variable_bindings_in_range (m : Michi) (p : Parser) (e : Expr)
    (he : e.parsed = true) :
    (∃ e' q, expr_evaluate_expression m p e = some (e', q) ∧ e'.bound = true ∧
      (∀ s k v d ptr copy, e' = .var s k v d ptr copy → 1 ≤ d →
        (k = .OUTPUT ∧ ptr = Option.none ∧ copy = Option.none) ∨
        (k ≠ .OUTPUT ∧ ∃ l, ptr = some l ∧ l.lane + d ≤ l.field.dim ∧
          ∀ c, copy = some c →
            l.field.target = some c.field ∧ c.lane = l.lane ∧ c.lane + d ≤ c.field.dim)) ∧
      (∀ s ls k v d ptr copy right p' m',
        e' = .statement s (.var ls k v d ptr copy) right → k ≠ .OUTPUT →
        (expr_type_check_and_execute e' p' m').1 = true →
        (expr_resolve right).2 = d ∧
        ∃ l, ptr = some l ∧ l.lane + d ≤ l.field.dim ∧
          ∀ c, copy = some c →
            l.field.target = some c.field ∧ c.lane = l.lane ∧ c.lane + d ≤ c.field.dim)) ∧
    (evaluate_text (michi_create 1 0) "actor.scale.y").map (fun r => (r.1.beq
        (.var ⟨some 11, ['.']⟩ .Y (v4 4 0 0 0) 1 (some ⟨.scale, 1⟩) (some ⟨.scale_target, 1⟩)),
        r.1.bound, r.2.error_stream)) = some (true, true, []) := by
  refine ⟨?_, by decide!⟩
  obtain ⟨e', own, h⟩ := expr_evaluate_complete m e p (Expr.complete_of_parsed e he)
  have hb := (expr_evaluate_bound m e p e' _ he h).1
  refine ⟨e', _, h, hb, ?_, ?_⟩
  · intro s k v d ptr copy heq hd
    subst heq
    exact bound_var s k v d ptr copy hb hd
  · intro s ls k v d ptr copy right p' m' heq hk hx
    subst heq
    simp only [Expr.bound, Bool.and_eq_true] at hb
    have hx' : (execute_var_statement s ls k d ptr copy right p' m').1 = true := hx
    unfold execute_var_statement at hx'
    rw [if_neg hk] at hx'
    by_cases h0 : d = 0
    · rw [if_pos h0] at hx'
      cases hx'
    · rw [if_neg h0] at hx'
      rcases bound_var ls k v d ptr copy hb.1 (Nat.pos_of_ne_zero h0) with hh | hh
      · exact absurd hh.1 hk
      · refine ⟨?_, hh.2⟩
        by_cases h1 : expr_resolves_to_literal right = true
        · rw [if_pos h1] at hx'
          generalize expr_resolve right = rr at hx' ⊢
          obtain ⟨rv, rd⟩ := rr
          dsimp only at hx' ⊢
          by_cases h2 : rd = d
          · exact h2
          · rw [if_neg h2] at hx'
            cases hx'
        · rw [if_neg h1] at hx'
          cases hx'

theorem variable_bindings_in_range_witness :
    ∃ e' q, expr_evaluate_expression (michi_create 1 0) parser_create
        (member_access ⟨some 5, ['.']⟩ 0 "actor" 6 "scale") = some (e', q) ∧ e'.bound = true :=
  (variable_bindings_in_range (michi_create 1 0) parser_create
    (member_access ⟨some 5, ['.']⟩ 0 "actor" 6 "scale") rfl).1.imp
    fun _ h => h.imp fun _ h => ⟨h.1, h.2.1⟩

/-! ## The output dimension -/

theorem Lexer.tidy_sound (l : Lexer) (h : l.tidy) : l.sound := fun ht => h.2.mp ht

theorem Lexer.scanned_refl (l : Lexer) (h : l.tidy) : l.scanned l :=
  ⟨rfl, rfl, Nat.le_refl _, h, fun i h1 h2 => absurd h1 (by omega)⟩

theorem Lexer.scanned_trans {l m k : Lexer} (h1 : l.scanned m) (h2 : m.scanned k) :
    l.scanned k := by
  obtain ⟨a1, a2, a3, a4, a5⟩ := h1
  obtain ⟨b1, b2, b3, b4, b5⟩ := h2
  refine ⟨b1.trans a1, b2.trans a2, Nat.le_trans a3 b3, b4, fun i hi hk => ?_⟩
  by_cases hm : i < m.current
  · exact a5 i hi hm
  · have := b5 i (by omega) hk
    unfold Lexer.peek at this ⊢
    rw [← a1]
    exact this

theorem consume_character_scanned (l : Lexer) (h : l.tidy) :
    l.scanned (_lexer_consume_character l) ∧
      (l.tokenizing = true → (_lexer_consume_character l).current = l.current + 1) := by
  unfold _lexer_consume_character
  by_cases ht : l.tokenizing = true
  · have hc := l.current_lt (l.tidy_sound h) ht
    have hp := h.2.mp ht
    rw [if_pos ht]
    dsimp only
    by_cases hn : Lexer.peek { l with current := l.current + 1 } (l.current + 1) = Char.ofNat 0
    · rw [if_pos hn]
      refine ⟨⟨rfl, rfl, Nat.le_succ _, ⟨hc, ?_⟩, fun i h1 h2 => ?_⟩, fun _ => rfl⟩
      · exact ⟨fun h' => Bool.noConfusion h', fun h' => absurd hn h'⟩
      · have : i = l.current := by
          have h2' : i < l.current + 1 := h2
          omega
        rw [this]
        exact hp
    · rw [if_neg hn]
      refine ⟨⟨rfl, rfl, Nat.le_succ _, ⟨hc, ?_⟩, fun i h1 h2 => ?_⟩, fun _ => rfl⟩
      · exact ⟨fun _ => hn, fun _ => ht⟩
      · have : i = l.current := by
          have h2' : i < l.current + 1 := h2
          omega
        rw [this]
        exact hp
  · rw [if_neg ht]
    exact ⟨l.scanned_refl h, fun h' => absurd h' ht⟩

theorem consume_characters_scanned (n : Nat) : ∀ l : Lexer, l.tidy →
    l.scanned (_lexer_consume_characters l n) := by
  induction n with
  | zero => intro l h; exact l.scanned_refl h
  | succ n ih =>
    intro l h
    rw [_lexer_consume_characters]
    have c := (consume_character_scanned l h).1
    exact Lexer.scanned_trans c (ih _ c.2.2.2.1)

theorem consume_characters_advance (n : Nat) (l : Lexer) (h : l.tidy) (ht : l.tokenizing = true)
    (hn : n ≠ 0) : l.current < (_lexer_consume_characters l n).current := by
  obtain ⟨n, rfl⟩ := Nat.exists_eq_succ_of_ne_zero hn
  rw [_lexer_consume_characters]
  have c := consume_character_scanned l h
  have c2 := consume_characters_scanned n _ c.1.2.2.2.1
  have := c.2 ht
  have := c2.2.2.1
  omega

theorem lexer_skip_space_scanned (fuel : Nat) : ∀ l : Lexer, l.tidy →
    l.scanned (lexer_skip_space fuel l) ∧
      ∀ i, l.current ≤ i → i < (lexer_skip_space fuel l).current →
        isspace (l.peek i) = true := by
  induction fuel with
  | zero => intro l h; exact ⟨l.scanned_refl h, fun i h1 h2 => absurd h1 (by
      have h2' : i < l.current := h2
      omega)⟩
  | succ n ih =>
    intro l h
    rw [lexer_skip_space]
    by_cases hc : (l.tokenizing && isspace (l.peek l.current)) = true
    · rw [if_pos hc]
      simp only [Bool.and_eq_true] at hc
      have c := consume_character_scanned l h
      obtain ⟨i1, i2⟩ := ih _ c.1.2.2.2.1
      refine ⟨Lexer.scanned_trans c.1 i1, fun i h1 h2 => ?_⟩
      by_cases hi : i = l.current
      · rw [hi]; exact hc.2
      · have := i2 i (by have := c.2 hc.1; omega) h2
        unfold Lexer.peek at this ⊢
        rw [← c.1.1]
        exact this
    · rw [if_neg hc]
      exact ⟨l.scanned_refl h, fun i h1 h2 => absurd h1 (by omega)⟩

theorem lexer_identifier_loop_scanned (a : Char) (fuel : Nat) : ∀ l : Lexer, l.tidy →
    l.scanned (lexer_identifier_loop a fuel l) := by
  induction fuel with
  | zero => intro l h; exact l.scanned_refl h
  | succ n ih =>
    intro l h
    rw [lexer_identifier_loop]
    dsimp only
    have c := (consume_character_scanned l h).1
    split_ifs
    · exact c
    · exact Lexer.scanned_trans c (ih _ c.2.2.2.1)
    · exact l.scanned_refl h

theorem lexer_identifier_loop_advance (a : Char) (fuel : Nat) (l : Lexer) (h : l.tidy)
    (ht : l.tokenizing = true) : l.current < (lexer_identifier_loop a (fuel + 1) l).current := by
  have c := consume_character_scanned l h
  have c1 := c.2 ht
  rw [lexer_identifier_loop]
  simp only [ht, if_true]
  split_ifs
  · omega
  · have := (lexer_identifier_loop_scanned a fuel _ c.1.2.2.2.1).2.2.1
    omega

theorem lexer_strtof_scanned (strtof : Strtof) (l : Lexer) (h : l.tidy) :
    l.scanned (lexer_strtof strtof l).1 :=
  ⟨rfl, rfl, Nat.le_refl _, h, fun i h1 h2 => absurd h1 (by
    have h2' : i < l.current := h2
    omega)⟩

/-- A token made of the bytes scanned since the last one. -/
theorem tokenized_of_scanned (l g k : Lexer) (hr : l.ready) (hs : l.scanned g)
    (hlt : l.current < g.current) (h1 : k.first = g.first) (h2 : k.token_start = g.current)
    (h3 : k.current = g.current) (h4 : k.tokenizing = g.tokenizing)
    (h5 : k.token.string =
      ⟨some g.token_start, (g.first.drop g.token_start).take (g.current - g.token_start)⟩)
    (h6 : k.token.kind ≠ .EOF) : l.tokenized k l.current := by
  obtain ⟨a1, a2, a3, a4, a5⟩ := hs
  have hts : g.token_start = l.current := a2.trans hr.1
  refine ⟨h1.trans a1, ⟨h2.trans h3.symm, ?_⟩, Nat.le_refl _, by omega, ?_,
    fun i hi hk => absurd hi (by omega), fun i hi hk => a5 i hi (by omega),
    fun _ => by omega, fun h => absurd h h6⟩
  · unfold Lexer.tidy Lexer.peek
    rw [h3, h4, h1]
    exact a4
  · rw [h5, hts, a1, h3]

theorem make_token_tokenized (l g : Lexer) (kind : Token_Kind) (hr : l.ready)
    (hs : l.scanned g) (hlt : l.current < g.current) (hk : kind ≠ .EOF) :
    l.tokenized (_lexer_make_token g kind) l.current :=
  tokenized_of_scanned l g _ hr hs hlt rfl rfl rfl rfl rfl hk

theorem make_error_token_tokenized (l g : Lexer) (e : String) (hr : l.ready)
    (hs : l.scanned g) (hlt : l.current < g.current) :
    l.tokenized (_lexer_make_error_token g e) l.current :=
  tokenized_of_scanned l g _ hr hs hlt rfl rfl rfl rfl rfl (fun h => Token_Kind.noConfusion h)

theorem lexer_single_tokenized (l : Lexer) (kind : Token_Kind) (hr : l.ready)
    (ht : l.tokenizing = true) (hk : kind ≠ .EOF) :
    l.tokenized (_lexer_make_token (_lexer_consume_character l) kind) l.current := by
  have c := consume_character_scanned l hr.2
  exact make_token_tokenized l _ kind hr c.1 (by have := c.2 ht; omega) hk

theorem lexer_number_tokenized (l g : Lexer) (value : ℚ) (count : Nat) (hr : l.ready)
    (hs : l.scanned g) (he : g.current = l.current) (ht : l.tokenizing = true)
    (hc : count ≠ 0) : l.tokenized (lexer_number g value count) l.current := by
  have htg : g.tokenizing = true := by
    have h1 := hs.2.2.2.1.2
    have h2 := hr.2.2.mp ht
    apply h1.mpr
    unfold Lexer.peek at h2 ⊢
    rw [hs.1, he]
    exact h2
  have c := consume_characters_scanned count g hs.2.2.2.1
  have ca := consume_characters_advance count g hs.2.2.2.1 htg hc
  have sc := Lexer.scanned_trans hs c
  unfold lexer_number
  dsimp only
  split_ifs
  · exact make_error_token_tokenized l _ _ hr sc (by omega)
  · exact tokenized_of_scanned l (_lexer_consume_characters g count) _ hr sc (by omega)
      rfl rfl rfl rfl rfl (fun h => Token_Kind.noConfusion h)

theorem lexer_identifier_tokenized (l g : Lexer) (a : Char) (hr : l.ready)
    (hs : l.scanned g) (he : g.current = l.current) (ht : l.tokenizing = true) :
    l.tokenized (lexer_identifier g a) l.current := by
  have htg : g.tokenizing = true := by
    have h1 := hs.2.2.2.1.2
    have h2 := hr.2.2.mp ht
    apply h1.mpr
    unfold Lexer.peek at h2 ⊢
    rw [hs.1, he]
    exact h2
  unfold lexer_identifier
  split_ifs
  · have c := consume_character_scanned g hs.2.2.2.1
    exact make_error_token_tokenized l _ _ hr (Lexer.scanned_trans hs c.1)
      (by have := c.2 htg; omega)
  · have c := lexer_identifier_loop_scanned a (g.first.length + 1) g hs.2.2.2.1
    have ca := lexer_identifier_loop_advance a g.first.length g hs.2.2.2.1 htg
    exact make_token_tokenized l _ _ hr (Lexer.scanned_trans hs c) (by omega)
      (fun h => Token_Kind.noConfusion h)

/-- The branches of a turn of the scanner's loop at a byte that is not white
space: what holds of each holds of the turn. -/
theorem lexer_advance_token_loop_branches (P : Lexer → Prop) (strtof : Strtof) (fuel : Nat)
    (l : Lexer) (ht : l.tokenizing = true) (hsp : isspace (l.peek l.current) = false)
    (single : ∀ k : Token_Kind, k ≠ .EOF → k ≠ .ERROR →
      P (_lexer_make_token (_lexer_consume_character l) k))
    (period : P (_lexer_make_token (_lexer_consume_character (lexer_strtof strtof l).1) .PERIOD))
    (number : (lexer_strtof strtof l).2.2 ≠ 0 →
      P (lexer_number (lexer_strtof strtof l).1 (lexer_strtof strtof l).2.1
        (lexer_strtof strtof l).2.2))
    (ident : P (lexer_identifier (lexer_strtof strtof l).1 (l.peek l.current)))
    (other : P (lexer_identifier l (l.peek l.current))) :
    P (lexer_advance_token_loop strtof (fuel + 1) l) := by
  rw [lexer_advance_token_loop_nonspace_eq strtof fuel l ht hsp]
  by_cases h1 : l.peek l.current = '+'
  · rw [if_pos h1]; exact single _ (by decide) (by decide)
  rw [if_neg h1]
  by_cases h2 : l.peek l.current = '-'
  · rw [if_pos h2]; exact single _ (by decide) (by decide)
  rw [if_neg h2]
  by_cases h3 : l.peek l.current = '*'
  · rw [if_pos h3]; exact single _ (by decide) (by decide)
  rw [if_neg h3]
  by_cases h4 : l.peek l.current = '/'
  · rw [if_pos h4]; exact single _ (by decide) (by decide)
  rw [if_neg h4]
  by_cases h5 : l.peek l.current = '('
  · rw [if_pos h5]; exact single _ (by decide) (by decide)
  rw [if_neg h5]
  by_cases h6 : l.peek l.current = ')'
  · rw [if_pos h6]; exact single _ (by decide) (by decide)
  rw [if_neg h6]
  by_cases h7 : l.peek l.current = ','
  · rw [if_pos h7]; exact single _ (by decide) (by decide)
  rw [if_neg h7]
  by_cases h8 : l.peek l.current = ':'
  · rw [if_pos h8]; exact single _ (by decide) (by decide)
  rw [if_neg h8]
  by_cases h9 : l.peek l.current = '.'
  · rw [if_pos h9]
    by_cases hb : isdigit (l.peek (l.current + 1)) = true
    · rw [if_pos hb]
      by_cases hc : (lexer_strtof strtof l).2.2 = 0
      · rw [if_pos hc]
        exact period
      · rw [if_neg hc]
        exact number hc
    · rw [if_neg hb]; exact single _ (by decide) (by decide)
  rw [if_neg h9]
  by_cases hd : isdigit (l.peek l.current) = true
  · rw [if_pos hd]
    by_cases hc : (lexer_strtof strtof l).2.2 ≠ 0
    · rw [if_pos hc]
      exact number hc
    · rw [if_neg hc]
      exact ident
  · rw [if_neg hd]
    exact other

theorem isspace_ne_nul (c : Char) (h : isspace c = true) : c ≠ Char.ofNat 0 := by
  intro hc
  rw [hc] at h
  exact absurd h (by decide)

/-- The scanner's loop, entered between two tokens with a turn for every byte
left and one more: it makes the token that starts after the white space. -/
theorem lexer_advance_token_loop_tokenized (strtof : Strtof) : ∀ (fuel : Nat) (l : Lexer),
    l.ready → l.left + 1 ≤ fuel →
    ∃ s, l.tokenized (lexer_advance_token_loop strtof fuel l) s := by
  intro fuel
  induction fuel with
  | zero => intro l _ h; omega
  | succ fuel ih =>
    intro l hr hf
    by_cases ht : l.tokenizing = true
    · cases hsp : isspace (l.peek l.current)
      · refine ⟨l.current, ?_⟩
        have hs := lexer_strtof_scanned strtof l hr.2
        apply lexer_advance_token_loop_branches (fun k => l.tokenized k l.current) strtof fuel l
          ht hsp
        · intro k hk _
          exact lexer_single_tokenized l k hr ht hk
        · have c := consume_character_scanned (lexer_strtof strtof l).1 hs.2.2.2.1
          exact make_token_tokenized l _ _ hr (Lexer.scanned_trans hs c.1)
            (by have := c.2 ht; exact Nat.lt_of_lt_of_le (Nat.lt_succ_self _) (Nat.le_of_eq this.symm))
            (fun h => Token_Kind.noConfusion h)
        · intro hc
          exact lexer_number_tokenized l _ _ _ hr hs rfl ht hc
        · exact lexer_identifier_tokenized l _ _ hr hs rfl ht
        · exact lexer_identifier_tokenized l l _ hr (l.scanned_refl hr.2) rfl ht
      · rw [lexer_advance_token_loop_space_eq strtof fuel l ht hsp]
        have hsound := l.tidy_sound hr.2
        have c1 := consume_character_lt l hsound ht
        have c2 := lexer_skip_space_le (_lexer_consume_character l).first.length _ c1.1
        have c3 : l.lt (_lexer_set_token_start (lexer_skip_space
            (_lexer_consume_character l).first.length (_lexer_consume_character l))) :=
          Lexer.lt_of_lt_of_le c1 c2
        have d1 := consume_character_scanned l hr.2
        have d2 := lexer_skip_space_scanned (_lexer_consume_character l).first.length
          (_lexer_consume_character l) d1.1.2.2.2.1
        have d3 := Lexer.scanned_trans d1.1 d2.1
        generalize hm : lexer_skip_space (_lexer_consume_character l).first.length
          (_lexer_consume_character l) = m at c3 d2 d3 ⊢
        have hr2 : (_lexer_set_token_start m).ready := ⟨rfl, d3.2.2.2.1⟩
        obtain ⟨s, t1, t2, t3, t4, t5, t6, t7, t8, t9⟩ :=
          ih (_lexer_set_token_start m) hr2 (by have := c3.2.2; omega)
        have hf1 : (_lexer_set_token_start m).first = l.first := d3.1
        have hpk : ∀ i, (_lexer_set_token_start m).peek i = l.peek i := by
          intro i
          unfold Lexer.peek
          rw [hf1]
        have hcur : (_lexer_set_token_start m).current = m.current := rfl
        have hadv := d1.2 ht
        refine ⟨s, t1.trans hf1, t2, ?_, t4, ?_, fun i hi hk => ?_, fun i hi hk => ?_, t8, t9⟩
        · have := d3.2.2.1
          omega
        · rw [t5, hf1]
        · by_cases him : i < m.current
          · by_cases hi0 : i = l.current
            · rw [hi0]; exact hsp
            · have := d2.2 i (by omega) him
              unfold Lexer.peek at this ⊢
              rw [← d1.1.1]
              exact this
          · rw [← hpk]
            exact t6 i (by omega) hk
        · rw [← hpk]
          exact t7 i hi hk
    · have htf : l.tokenizing = false := by simpa using ht
      rw [lexer_advance_token_loop, if_neg ht]
      refine ⟨l.current, rfl, ⟨rfl, hr.2⟩, Nat.le_refl _, Nat.le_refl _, ?_,
        fun i h1 h2 => absurd h1 (by omega), fun i h1 h2 => absurd h1 (by
          have h2' : i < l.current := h2
          omega), fun h => absurd rfl h, fun _ => ⟨rfl, htf⟩⟩
      show (⟨some l.token_start, _⟩ : Str) = _
      rw [hr.1]
      simp [_lexer_make_token]

/-- A call of `lexer_advance_token` between two tokens makes the token that
starts after the white space. -/
theorem lexer_advance_token_tokenized (strtof : Strtof) (l : Lexer) (hr : l.ready) :
    ∃ s, l.tokenized (lexer_advance_token strtof l) s :=
  lexer_advance_token_loop_tokenized strtof _ l hr (Nat.succ_le_succ l.left_le)

theorem lexer_init_ready (l : Lexer) (text : List Char) : (lexer_init l text).ready := by
  refine ⟨rfl, Nat.zero_le _, ?_⟩
  simp [lexer_init, Lexer.peek]

/-- The span of a token made by a call: it ends at the cursor. -/
theorem Lexer.tokenized_span {l k : Lexer} {s : Nat} (h : l.tokenized k s) :
    k.token.start = s ∧ k.token.stop = k.current ∧
      k.token.string.chars = (l.first.drop s).take (k.current - s) := by
  obtain ⟨t1, t2, t3, t4, t5, t6, t7, t8, t9⟩ := h
  have hlen : k.current ≤ l.first.length := by rw [← t1]; exact t2.2.1
  refine ⟨by rw [Token.start, t5]; rfl, ?_, by rw [t5]⟩
  rw [Token.stop, Token.start, Str.length, t5]
  simp only [Option.getD_some, List.length_take, List.length_drop]
  omega

/-- A call of `lexer_advance_token` at the terminating NUL. -/
theorem lexer_advance_token_at_nul (strtof : Strtof) (l : Lexer) (hr : l.ready)
    (ht : l.tokenizing = false) :
    (lexer_advance_token strtof l).token.kind = .EOF ∧
    (lexer_advance_token strtof l).token.string = ⟨some l.current, []⟩ ∧
    (lexer_advance_token strtof l).current = l.current ∧
    (lexer_advance_token strtof l).first = l.first ∧
    (lexer_advance_token strtof l).tokenizing = false ∧
    (lexer_advance_token strtof l).ready := by
  have hn : ¬ l.tokenizing = true := by rw [ht]; exact Bool.false_ne_true
  unfold lexer_advance_token
  rw [lexer_advance_token_loop, if_neg hn]
  refine ⟨rfl, ?_, rfl, rfl, ht, ⟨rfl, hr.2⟩⟩
  show (⟨some l.token_start, _⟩ : Str) = _
  rw [hr.1]
  simp

theorem lexer_advance_token_iterate_nul (strtof : Strtof) (l : Lexer) (hr : l.ready)
    (ht : l.tokenizing = false) : ∀ n,
    ((lexer_advance_token strtof)^[n + 1] l).token.kind = .EOF ∧
    ((lexer_advance_token strtof)^[n + 1] l).token.string = ⟨some l.current, []⟩ ∧
    ((lexer_advance_token strtof)^[n + 1] l).current = l.current ∧
    ((lexer_advance_token strtof)^[n + 1] l).first = l.first ∧
    ((lexer_advance_token strtof)^[n + 1] l).tokenizing = false ∧
    ((lexer_advance_token strtof)^[n + 1] l).ready := by
  intro n
  induction n with
  | zero => exact lexer_advance_token_at_nul strtof l hr ht
  | succ n ih =>
    rw [Function.iterate_succ_apply']
    obtain ⟨-, -, i3, i4, i5, i6⟩ := ih
    obtain ⟨j1, j2, j3, j4, j5, j6⟩ := lexer_advance_token_at_nul strtof _ i6 i5
    exact ⟨j1, by rw [j2, i3], j3.trans i3, j4.trans i4, j5, j6⟩

/-- C31: a call of `lexer_advance_token` on the scanner as `lexer_init` or the
call before left it (`Lexer.ready`: the token starts at the cursor and
`tokenizing` tells whether the cursor is at the NUL).  The call returns with
the scanner in that state again and with one token in `token`: after the white
space from the old cursor up to `s`, its span starts at `s`, holds the bytes
from there up to the new cursor, none of them the NUL, and ends at the new
cursor; the span is empty only for the EOF token, made at the NUL.  If the
cursor is at the NUL, every call from then on makes the EOF token of length 0
at the cursor and leaves the cursor where it is.  On `ab + 1` the calls give
`ab` on [0,2), `+` on [3,4), `1` on [5,6) and then EOF on [6,6). -/
theorem advance_token_span (strtof : Strtof) (l : Lexer) (hr : l.ready) :
    (∃ s, l.tokenized (lexer_advance_token strtof l) s ∧
      (lexer_advance_token strtof l).token.start = s ∧
      (lexer_advance_token strtof l).token.stop = (lexer_advance_token strtof l).current ∧
      ((lexer_advance_token strtof l).token.kind ≠ .EOF →
        l.current < (lexer_advance_token strtof l).current)) ∧
    (lexer_advance_token strtof l).ready ∧
    (l.peek l.current = Char.ofNat 0 → ∀ n,
      ((lexer_advance_token strtof)^[n + 1] l).token.kind = .EOF ∧
      ((lexer_advance_token strtof)^[n + 1] l).token.string.length = 0 ∧
      ((lexer_advance_token strtof)^[n + 1] l).token.start = l.current ∧
      ((lexer_advance_token strtof)^[n + 1] l).current = l.current) ∧
    (∀ (l0 : Lexer) (text : List Char), (lexer_init l0 text).ready) ∧
    (List.range 5).map (fun k =>
      ((lexer_nth strtof_decimal parser_create.lexer ("ab + 1".toList ++ [Char.ofNat 0])
          k).token.kind,
        (lexer_nth strtof_decimal parser_create.lexer ("ab + 1".toList ++ [Char.ofNat 0])
          k).token.start,
        (lexer_nth strtof_decimal parser_create.lexer ("ab + 1".toList ++ [Char.ofNat 0])
          k).token.stop,
        (lexer_nth strtof_decimal parser_create.lexer ("ab + 1".toList ++ [Char.ofNat 0])
          k).current)) =
      [(.IDENTIFIER, 0, 2, 2), (.PLUS, 3, 4, 4), (.NUMBER_LITERAL, 5, 6, 6), (.EOF, 6, 6, 6),
        (.EOF, 6, 6, 6)] := by
  obtain ⟨s, hs⟩ := lexer_advance_token_tokenized strtof l hr
  have hsp := Lexer.tokenized_span hs
  refine ⟨⟨s, hs, hsp.1, hsp.2.1, fun hk => ?_⟩, hs.2.1, fun hn n => ?_, lexer_init_ready,
    by decide!⟩
  · have := hs.2.2.2.2.2.2.2.1 hk
    have := hs.2.2.1
    omega
  · have ht : l.tokenizing = false := by
      by_contra hc
      exact hr.2.2.mp (by simpa using hc) hn
    obtain ⟨j1, j2, j3, -⟩ := lexer_advance_token_iterate_nul strtof l hr ht n
    exact ⟨j1, by rw [j2]; rfl, by rw [Token.start, j2]; rfl, j3⟩

theorem advance_token_span_witness :
    (lexer_advance_token strtof_decimal
      (lexer_init parser_create.lexer ("1 + 2".toList ++ [Char.ofNat 0]))).ready :=
  (advance_token_span strtof_decimal
    (lexer_init parser_create.lexer ("1 + 2".toList ++ [Char.ofNat 0]))
    (lexer_init_ready _ _)).2.1

/-! ## Lexer: the spans of the tokens of a text -/

theorem lexer_nth_ready (strtof : Strtof) (l : Lexer) (text : List Char) : ∀ k,
    (lexer_nth strtof l text k).ready ∧ (lexer_nth strtof l text k).first = text := by
  intro k
  induction k with
  | zero =>
    obtain ⟨s, hs⟩ := lexer_advance_token_tokenized strtof _ (lexer_init_ready l text)
    exact ⟨hs.2.1, hs.1⟩
  | succ k ih =>
    rw [lexer_nth_succ]
    obtain ⟨s, hs⟩ := lexer_advance_token_tokenized strtof _ ih.1
    exact ⟨hs.2.1, hs.1.trans ih.2⟩

/-- Token `k + 1` of a text, seen from the scanner after token `k`. -/
theorem lexer_nth_tokenized (strtof : Strtof) (l : Lexer) (text : List Char) (k : Nat) :
    (lexer_nth strtof l text k).tokenized (lexer_nth strtof l text (k + 1))
      (lexer_nth strtof l text (k + 1)).token.start := by
  rw [lexer_nth_succ]
  obtain ⟨s, hs⟩ := lexer_advance_token_tokenized strtof _ (lexer_nth_ready strtof l text k).1
  rw [(Lexer.tokenized_span hs).1]
  exact hs

theorem lexer_nth_tokenized_zero (strtof : Strtof) (l : Lexer) (text : List Char) :
    (lexer_init l text).tokenized (lexer_nth strtof l text 0)
      (lexer_nth strtof l text 0).token.start := by
  rw [lexer_nth_zero]
  obtain ⟨s, hs⟩ := lexer_advance_token_tokenized strtof _ (lexer_init_ready l text)
  rw [(Lexer.tokenized_span hs).1]
  exact hs

/-- The span of token `k` of a text ends at the cursor, is inside the text, is
not empty unless the token is EOF, and no byte before the cursor is the NUL. -/
theorem lexer_nth_span (strtof : Strtof) (l : Lexer) (text : List Char) : ∀ k,
    (lexer_nth strtof l text k).token.stop = (lexer_nth strtof l text k).current ∧
    (lexer_nth strtof l text k).token.start ≤ (lexer_nth strtof l text k).token.stop ∧
    (lexer_nth strtof l text k).token.stop ≤ text.length ∧
    ((lexer_nth strtof l text k).token.kind ≠ .EOF →
      (lexer_nth strtof l text k).token.start < (lexer_nth strtof l text k).token.stop) ∧
    (∀ i, i < (lexer_nth strtof l text k).current → text.getD i (Char.ofNat 0) ≠ Char.ofNat 0) := by
  intro k
  have hr := lexer_nth_ready strtof l text k
  have hlen : (lexer_nth strtof l text k).current ≤ text.length := by
    have := hr.1.2.1
    rw [hr.2] at this
    exact this
  induction k with
  | zero =>
    have h := lexer_nth_tokenized_zero strtof l text
    have hsp := Lexer.tokenized_span h
    obtain ⟨t1, t2, t3, t4, t5, t6, t7, t8, t9⟩ := h
    rw [hsp.2.1]
    refine ⟨rfl, t4, hlen, t8, fun i hi => ?_⟩
    by_cases his : i < (lexer_nth strtof l text 0).token.start
    · exact isspace_ne_nul _ (t6 i (Nat.zero_le _) his)
    · exact t7 i (by omega) hi
  | succ k ih =>
    have h := lexer_nth_tokenized strtof l text k
    have hrk := lexer_nth_ready strtof l text k
    have hlk : (lexer_nth strtof l text k).current ≤ text.length := by
      have := hrk.1.2.1
      rw [hrk.2] at this
      exact this
    obtain ⟨-, -, -, -, i5⟩ := ih hrk hlk
    have hsp := Lexer.tokenized_span h
    obtain ⟨t1, t2, t3, t4, t5, t6, t7, t8, t9⟩ := h
    have hpk : ∀ i, (lexer_nth strtof l text k).peek i = text.getD i (Char.ofNat 0) := by
      intro i
      unfold Lexer.peek
      rw [hrk.2]
    rw [hsp.2.1]
    refine ⟨rfl, t4, hlen, t8, fun i hi => ?_⟩
    by_cases hik : i < (lexer_nth strtof l text k).current
    · exact i5 i hik
    · rw [← hpk]
      by_cases his : i < (lexer_nth strtof l text (k + 1)).token.start
      · exact isspace_ne_nul _ (t6 i (by omega) his)
      · exact t7 i (by omega) hi

/-- Between the end of token `k` and the start of token `k + 1` there is white
space only, and before the first token too. -/
theorem lexer_nth_gap (strtof : Strtof) (l : Lexer) (text : List Char) :
    (∀ i, i < (lexer_nth strtof l text 0).token.start →
      isspace (text.getD i (Char.ofNat 0)) = true) ∧
    ∀ k, (lexer_nth strtof l text k).token.stop ≤ (lexer_nth strtof l text (k + 1)).token.start ∧
      ∀ i, (lexer_nth strtof l text k).token.stop ≤ i →
        i < (lexer_nth strtof l text (k + 1)).token.start →
        isspace (text.getD i (Char.ofNat 0)) = true := by
  constructor
  · intro i hi
    have h := lexer_nth_tokenized_zero strtof l text
    exact h.2.2.2.2.2.1 i (Nat.zero_le _) hi
  · intro k
    have h := lexer_nth_tokenized strtof l text k
    have hrk := lexer_nth_ready strtof l text k
    rw [(lexer_nth_span strtof l text k).1]
    refine ⟨h.2.2.1, fun i h1 h2 => ?_⟩
    have := h.2.2.2.2.2.1 i h1 h2
    unfold Lexer.peek at this
    rw [hrk.2] at this
    exact this

theorem lexer_nth_stop_mono (strtof : Strtof) (l : Lexer) (text : List Char) (j : Nat) :
    ∀ k, j ≤ k → (lexer_nth strtof l text j).token.stop ≤ (lexer_nth strtof l text k).token.stop := by
  intro k hk
  induction k with
  | zero =>
    have : j = 0 := by omega
    rw [this]
  | succ k ih =>
    by_cases hj : j = k + 1
    · rw [hj]
    · have h1 := ih (by omega)
      have h2 := ((lexer_nth_gap strtof l text).2 k).1
      have h3 := (lexer_nth_span strtof l text (k + 1)).2.1
      omega

/-- The end of token `k`, if the tokens up to it are not EOF, is at least
`k + 1` bytes into the text. -/
theorem lexer_nth_stop_ge (strtof : Strtof) (l : Lexer) (text : List Char) : ∀ k,
    (∀ j, j ≤ k → (lexer_nth strtof l text j).token.kind ≠ .EOF) →
    k + 1 ≤ (lexer_nth strtof l text k).token.stop := by
  intro k
  induction k with
  | zero =>
    intro h
    have := (lexer_nth_span strtof l text 0).2.2.2.1 (h 0 (Nat.le_refl _))
    omega
  | succ k ih =>
    intro h
    have h1 := ih fun j hj => h j (by omega)
    have h2 := ((lexer_nth_gap strtof l text).2 k).1
    have h3 := (lexer_nth_span strtof l text (k + 1)).2.2.2.1 (h (k + 1) (Nat.le_refl _))
    omega

/-- The tokenizing loop of `parse` returns on every text. -/
theorem parse_tokenize_total (strtof : Strtof) (p : Parser) (text : List Char) :
    ∃ r, parse_tokenize strtof (text.length + 1)
      { tokens := [], error_stream := []
        lexer := lexer_advance_token strtof (lexer_init p.lexer text), cursor := p.cursor } =
      some r := by
  have hex : ∃ n, (lexer_nth strtof p.lexer text n).token.kind = .EOF ∨
      (lexer_nth strtof p.lexer text n).token.kind = .ERROR :=
    ⟨_, Or.inl (lexer_nth_reaches_eof strtof p.lexer text)⟩
  classical
  have hn := Nat.find_spec hex
  have hmin : ∀ k, k < Nat.find hex →
      ¬ ((lexer_nth strtof p.lexer text k).token.kind = .EOF ∨
        (lexer_nth strtof p.lexer text k).token.kind = .ERROR) :=
    fun k hk => Nat.find_min hex hk
  generalize Nat.find hex = n at hn hmin
  exact ⟨_, parse_tokenize_text strtof p text n
    (fun k h => ⟨fun c => hmin k h (Or.inl c), fun c => hmin k h (Or.inr c)⟩) hn⟩

/-- Every byte before the end of token `n` is in the span of a token or is
white space. -/
theorem lexer_nth_cover (strtof : Strtof) (l : Lexer) (text : List Char) : ∀ n i,
    i < (lexer_nth strtof l text n).token.stop →
    (∃ k, k ≤ n ∧ (lexer_nth strtof l text k).token.start ≤ i ∧
      i < (lexer_nth strtof l text k).token.stop) ∨
    isspace (text.getD i (Char.ofNat 0)) = true := by
  intro n
  induction n with
  | zero =>
    intro i hi
    by_cases h : (lexer_nth strtof l text 0).token.start ≤ i
    · exact Or.inl ⟨0, Nat.le_refl _, h, hi⟩
    · exact Or.inr ((lexer_nth_gap strtof l text).1 i (by omega))
  | succ n ih =>
    intro i hi
    by_cases h : (lexer_nth strtof l text (n + 1)).token.start ≤ i
    · exact Or.inl ⟨n + 1, Nat.le_refl _, h, hi⟩
    · by_cases h2 : (lexer_nth strtof l text n).token.stop ≤ i
      · exact Or.inr (((lexer_nth_gap strtof l text).2 n).2 i h2 (by omega))
      · rcases ih i (by omega) with ⟨k, hk, h3⟩ | h3
        · exact Or.inl ⟨k, by omega, h3⟩
        · exact Or.inr h3

/-- C39: the tokens of a text, token `k` being what call `k` of
`lexer_advance_token` after `lexer_init` makes, whatever the state of the
scanner before.  The span of every token is inside the text and holds no NUL,
and it is not empty unless the token is EOF; the span of a token ends before
the span of any later token starts, so the spans are in increasing order and
disjoint; every byte before the end of a token that is in no span is white
space, and the EOF token is made at the NUL.  Hence `n` tokens before the
first EOF token are at most as many as the bytes before the NUL; the token of
call `text.length` is EOF, and the tokenizing loop of `parse`, which stops at
the EOF token or the first error token, returns.  On `ab + 1` the spans are
[0,2), [3,4), [5,6) and the EOF token is at 6. -/
theorem token_spans_partition (strtof : Strtof) (l : Lexer) (text : List Char) :
    (∀ k, ((lexer_nth strtof l text k).token.kind ≠ .EOF →
        (lexer_nth strtof l text k).token.start < (lexer_nth strtof l text k).token.stop) ∧
      (lexer_nth strtof l text k).token.start ≤ (lexer_nth strtof l text k).token.stop ∧
      (lexer_nth strtof l text k).token.stop ≤ text.length ∧
      (∀ i, i < (lexer_nth strtof l text k).token.stop →
        text.getD i (Char.ofNat 0) ≠ Char.ofNat 0) ∧
      ((lexer_nth strtof l text k).token.kind = .EOF →
        text.getD (lexer_nth strtof l text k).token.stop (Char.ofNat 0) = Char.ofNat 0)) ∧
    (∀ j k, j < k →
      (lexer_nth strtof l text j).token.stop ≤ (lexer_nth strtof l text k).token.start) ∧
    (∀ n i, i < (lexer_nth strtof l text n).token.stop →
      (∃ k, k ≤ n ∧ (lexer_nth strtof l text k).token.start ≤ i ∧
        i < (lexer_nth strtof l text k).token.stop) ∨
      isspace (text.getD i (Char.ofNat 0)) = true) ∧
    (∀ n, (∀ j, j < n → (lexer_nth strtof l text j).token.kind ≠ .EOF) →
      n ≤ text.length ∧ ∀ body, text = body ++ [Char.ofNat 0] → n ≤ body.length) ∧
    (lexer_nth strtof l text text.length).token.kind = .EOF ∧
    (∀ p : Parser, ∃ r, parse_tokenize strtof (text.length + 1)
      { tokens := [], error_stream := []
        lexer := lexer_advance_token strtof (lexer_init p.lexer text), cursor := p.cursor } =
      some r) ∧
    (List.range 4).map (fun k =>
      ((lexer_nth strtof_decimal parser_create.lexer ("ab + 1".toList ++ [Char.ofNat 0])
          k).token.kind,
        (lexer_nth strtof_decimal parser_create.lexer ("ab + 1".toList ++ [Char.ofNat 0])
          k).token.start,
        (lexer_nth strtof_decimal parser_create.lexer ("ab + 1".toList ++ [Char.ofNat 0])
          k).token.stop)) =
      [(.IDENTIFIER, 0, 2), (.PLUS, 3, 4), (.NUMBER_LITERAL, 5, 6), (.EOF, 6, 6)] := by
  refine ⟨fun k => ?_, fun j k hjk => ?_, lexer_nth_cover strtof l text, fun n hn => ?_,
    lexer_nth_reaches_eof strtof l text, fun p => parse_tokenize_total strtof p text, by decide!⟩
  · obtain ⟨s1, s2, s3, s4, s5⟩ := lexer_nth_span strtof l text k
    refine ⟨s4, s2, s3, fun i hi => s5 i (by omega), fun he => ?_⟩
    have hr := lexer_nth_ready strtof l text k
    have ht := (lexer_nth_sound strtof l text k).2.2 he
    have := hr.1.2.2
    rw [ht] at this
    have h0 : (lexer_nth strtof l text k).peek (lexer_nth strtof l text k).current =
        Char.ofNat 0 := by
      by_contra hc
      exact Bool.noConfusion (this.mpr hc)
    unfold Lexer.peek at h0
    rw [hr.2] at h0
    rw [s1]
    exact h0
  · obtain ⟨k, rfl⟩ : ∃ m, k = m + 1 := ⟨k - 1, by omega⟩
    have h1 := lexer_nth_stop_mono strtof l text j k (by omega)
    have h2 := ((lexer_nth_gap strtof l text).2 k).1
    omega
  · refine ⟨lexer_nth_count strtof l text n hn, fun body hb => ?_⟩
    rcases Nat.eq_zero_or_pos n with h0 | h0
    · omega
    · obtain ⟨m, rfl⟩ : ∃ m, n = m + 1 := ⟨n - 1, by omega⟩
      have h1 := lexer_nth_stop_ge strtof l text m fun j hj => hn j (by omega)
      have h2 := (lexer_nth_span strtof l text m).2.2.2.2
      rw [← (lexer_nth_span strtof l text m).1] at h2
      by_contra hc
      have h3 := h2 body.length (by omega)
      apply h3
      rw [hb]
      simp

/-! ## Re-entrancy of the scanner -/

theorem consume_character_leftover (l : Lexer) (e : String) (t : Token) :
    _lexer_consume_character (l.leftover e t) = (_lexer_consume_character l).leftover e t := by
  unfold _lexer_consume_character Lexer.leftover
  dsimp only [Lexer.peek]
  split_ifs <;> rfl

theorem consume_characters_leftover (n : Nat) : ∀ (l : Lexer) (e : String) (t : Token),
    _lexer_consume_characters (l.leftover e t) n =
      (_lexer_consume_characters l n).leftover e t := by
  induction n with
  | zero => intro l e t; rfl
  | succ n ih =>
    intro l e t
    rw [_lexer_consume_characters, _lexer_consume_characters, consume_character_leftover, ih]

theorem lexer_skip_space_leftover (fuel : Nat) : ∀ (l : Lexer) (e : String) (t : Token),
    lexer_skip_space fuel (l.leftover e t) = (lexer_skip_space fuel l).leftover e t := by
  induction fuel with
  | zero => intro l e t; rfl
  | succ n ih =>
    intro l e t
    rw [lexer_skip_space, lexer_skip_space, consume_character_leftover, ih]
    show (if (l.tokenizing && isspace (l.peek l.current)) = true then _ else _) = _
    split_ifs <;> rfl

theorem lexer_identifier_loop_leftover (a : Char) (fuel : Nat) :
    ∀ (l : Lexer) (e : String) (t : Token),
    lexer_identifier_loop a fuel (l.leftover e t) =
      (lexer_identifier_loop a fuel l).leftover e t := by
  induction fuel with
  | zero => intro l e t; rfl
  | succ n ih =>
    intro l e t
    rw [lexer_identifier_loop, lexer_identifier_loop]
    dsimp only
    rw [consume_character_leftover, ih]
    show (if l.tokenizing = true then
        (if (!isalnum ((_lexer_consume_character l).peek (_lexer_consume_character l).current) &&
            a != '_') = true then _ else _) else _) = _
    split_ifs <;> rfl

theorem lexer_strtof_leftover (strtof : Strtof) (l : Lexer) (e : String) (t : Token) :
    lexer_strtof strtof (l.leftover e t) =
      ((lexer_strtof strtof l).1.leftover e t, (lexer_strtof strtof l).2) := rfl

theorem Token.read_number (k : Token_Kind) (s : Str) (n n' : ℚ) (h : k ≠ .NUMBER_LITERAL) :
    Token.read ⟨k, s, n'⟩ = Token.read ⟨k, s, n⟩ := by
  simp [Token.read, h]

/-- A token made with other leftovers reads the same. -/
theorem make_token_leftover (g : Lexer) (kind : Token_Kind) (e : String) (t : Token)
    (hk : kind ≠ .NUMBER_LITERAL) (he : kind ≠ .ERROR) :
    (_lexer_make_token g kind).same_token (_lexer_make_token (g.leftover e t) kind) :=
  ⟨rfl, rfl, rfl, rfl, rfl, Token.read_number _ _ _ _ hk, fun h => absurd h he⟩

theorem make_error_token_leftover (g : Lexer) (msg e : String) (t : Token) :
    (_lexer_make_error_token g msg).same_token (_lexer_make_error_token (g.leftover e t) msg) :=
  ⟨rfl, rfl, rfl, rfl, rfl, Token.read_number _ _ _ _ (by decide), fun _ => rfl⟩

theorem lexer_number_leftover (g : Lexer) (value : ℚ) (count : Nat) (e : String) (t : Token) :
    (lexer_number g value count).same_token (lexer_number (g.leftover e t) value count) := by
  unfold lexer_number
  dsimp only
  rw [consume_characters_leftover]
  show Lexer.same_token _ (if (_lexer_consume_characters g count).errno_erange = true then _
    else _)
  split_ifs
  · exact make_error_token_leftover _ _ _ _
  · exact ⟨rfl, rfl, rfl, rfl, rfl, rfl, fun h => Token_Kind.noConfusion h⟩

theorem lexer_identifier_leftover (g : Lexer) (a : Char) (e : String) (t : Token) :
    (lexer_identifier g a).same_token (lexer_identifier (g.leftover e t) a) := by
  unfold lexer_identifier
  rw [consume_character_leftover, lexer_identifier_loop_leftover]
  split_ifs
  · exact make_error_token_leftover _ _ _ _
  · exact make_token_leftover _ _ _ _ (by decide) (by decide)

/-- The scanner's loop with other leftovers in the message and the token makes
a token that reads the same. -/
theorem lexer_advance_token_loop_leftover (strtof : Strtof) : ∀ (fuel : Nat) (l : Lexer)
    (e : String) (t : Token),
    (lexer_advance_token_loop strtof fuel l).same_token
      (lexer_advance_token_loop strtof fuel (l.leftover e t)) := by
  intro fuel
  induction fuel with
  | zero =>
    intro l e t
    exact make_token_leftover l .EOF e t (by decide) (by decide)
  | succ fuel ih =>
    intro l e t
    by_cases ht : l.tokenizing = true
    · have ht' : (l.leftover e t).tokenizing = true := ht
      cases hsp : isspace (l.peek l.current)
      · have hsp' : isspace ((l.leftover e t).peek (l.leftover e t).current) = false := hsp
        have single : ∀ k : Token_Kind, k ≠ .EOF → k ≠ .ERROR → k ≠ .NUMBER_LITERAL →
            (_lexer_make_token (_lexer_consume_character l) k).same_token
              (_lexer_make_token (_lexer_consume_character (l.leftover e t)) k) := by
          intro k _ h2 h3
          rw [consume_character_leftover]
          exact make_token_leftover _ k e t h3 h2
        have other : (lexer_identifier l (l.peek l.current)).same_token
            (lexer_identifier (l.leftover e t) (l.peek l.current)) :=
          lexer_identifier_leftover l _ e t
        have ident : (lexer_identifier (lexer_strtof strtof l).1 (l.peek l.current)).same_token
            (lexer_identifier ((lexer_strtof strtof l).1.leftover e t) (l.peek l.current)) :=
          lexer_identifier_leftover _ _ e t
        have number : (lexer_number (lexer_strtof strtof l).1 (lexer_strtof strtof l).2.1
            (lexer_strtof strtof l).2.2).same_token
            (lexer_number ((lexer_strtof strtof l).1.leftover e t) (lexer_strtof strtof l).2.1
              (lexer_strtof strtof l).2.2) :=
          lexer_number_leftover _ _ _ e t
        have period : (_lexer_make_token (_lexer_consume_character (lexer_strtof strtof l).1)
            .PERIOD).same_token
            (_lexer_make_token (_lexer_consume_character
              ((lexer_strtof strtof l).1.leftover e t)) .PERIOD) := by
          rw [consume_character_leftover]
          exact make_token_leftover _ _ e t (by decide) (by decide)
        have hr := lexer_advance_token_loop_nonspace_eq strtof fuel (l.leftover e t) ht' hsp'
        rw [lexer_strtof_leftover] at hr
        have hpk : (l.leftover e t).peek (l.leftover e t).current = l.peek l.current := rfl
        have hpk1 : (l.leftover e t).peek ((l.leftover e t).current + 1) =
            l.peek (l.current + 1) := rfl
        rw [hpk, hpk1] at hr
        dsimp only at hr
        rw [hr, lexer_advance_token_loop_nonspace_eq strtof fuel l ht hsp]
        by_cases h1 : l.peek l.current = '+'
        · simp only [if_pos h1]; exact single _ (by decide) (by decide) (by decide)
        simp only [if_neg h1]
        by_cases h2 : l.peek l.current = '-'
        · simp only [if_pos h2]; exact single _ (by decide) (by decide) (by decide)
        simp only [if_neg h2]
        by_cases h3 : l.peek l.current = '*'
        · simp only [if_pos h3]; exact single _ (by decide) (by decide) (by decide)
        simp only [if_neg h3]
        by_cases h4 : l.peek l.current = '/'
        · simp only [if_pos h4]; exact single _ (by decide) (by decide) (by decide)
        simp only [if_neg h4]
        by_cases h5 : l.peek l.current = '('
        · simp only [if_pos h5]; exact single _ (by decide) (by decide) (by decide)
        simp only [if_neg h5]
        by_cases h6 : l.peek l.current = ')'
        · simp only [if_pos h6]; exact single _ (by decide) (by decide) (by decide)
        simp only [if_neg h6]
        by_cases h7 : l.peek l.current = ','
        · simp only [if_pos h7]; exact single _ (by decide) (by decide) (by decide)
        simp only [if_neg h7]
        by_cases h8 : l.peek l.current = ':'
        · simp only [if_pos h8]; exact single _ (by decide) (by decide) (by decide)
        simp only [if_neg h8]
        by_cases h9 : l.peek l.current = '.'
        · simp only [if_pos h9]
          by_cases hb : isdigit (l.peek (l.current + 1)) = true
          · simp only [if_pos hb]
            by_cases hc : (lexer_strtof strtof l).2.2 = 0
            · simp only [if_pos hc]
              exact period
            · simp only [if_neg hc]
              exact number
          · simp only [if_neg hb]; exact single _ (by decide) (by decide) (by decide)
        simp only [if_neg h9]
        by_cases hd : isdigit (l.peek l.current) = true
        · simp only [if_pos hd]
          by_cases hc : (lexer_strtof strtof l).2.2 ≠ 0
          · simp only [if_pos hc]
            exact number
          · simp only [if_neg hc]
            exact ident
        · simp only [if_neg hd]
          exact other
      · have hsp' : isspace ((l.leftover e t).peek (l.leftover e t).current) = true := hsp
        rw [lexer_advance_token_loop_space_eq strtof fuel l ht hsp,
          lexer_advance_token_loop_space_eq strtof fuel (l.leftover e t) ht' hsp',
          consume_character_leftover]
        have hf : ((_lexer_consume_character l).leftover e t).first.length =
            (_lexer_consume_character l).first.length := rfl
        rw [hf, lexer_skip_space_leftover]
        exact ih _ e t
    · have ht' : ¬ (l.leftover e t).tokenizing = true := ht
      rw [lexer_advance_token_loop, lexer_advance_token_loop, if_neg ht, if_neg ht']
      exact make_token_leftover l .EOF e t (by decide) (by decide)

/-- Two scanners at the same place of the same text with the same `errno`: the
call makes tokens that read the same. -/
theorem lexer_advance_token_alike (strtof : Strtof) (l l' : Lexer) (h1 : l'.first = l.first)
    (h2 : l'.token_start = l.token_start) (h3 : l'.current = l.current)
    (h4 : l'.tokenizing = l.tokenizing) (h5 : l'.errno_erange = l.errno_erange) :
    (lexer_advance_token strtof l).same_token (lexer_advance_token strtof l') := by
  have e : l' = l.leftover l'.error l'.token := by
    obtain ⟨a, b, c, d, f, g, h⟩ := l
    obtain ⟨a', b', c', d', f', g', h'⟩ := l'
    simp only at h1 h2 h3 h4 h5
    subst h1 h2 h3 h4 h5
    rfl
  rw [e]
  exact lexer_advance_token_loop_leftover strtof _ l _ _

/-- Token `k` of a text reads the same whatever the scanner held before, the
`errno` aside. -/
theorem lexer_nth_alike (strtof : Strtof) (l l' : Lexer) (text : List Char)
    (h : l'.errno_erange = l.errno_erange) : ∀ k,
    (lexer_nth strtof l text k).same_token (lexer_nth strtof l' text k) := by
  intro k
  induction k with
  | zero => exact lexer_advance_token_alike strtof _ _ rfl rfl rfl rfl h
  | succ k ih =>
    rw [lexer_nth_succ, lexer_nth_succ]
    obtain ⟨a1, a2, a3, a4, a5, -, -⟩ := ih
    exact lexer_advance_token_alike strtof _ _ a1 a2 a3 a4 a5

/-! ## Re-entrancy of the expression parser -/

theorem Token.read_eq {t t' : Token} (h : t'.read = t.read) :
    t'.kind = t.kind ∧ t'.string = t.string ∧ primary_node t' = primary_node t := by
  obtain ⟨k, s, n⟩ := t
  obtain ⟨k', s', n'⟩ := t'
  simp only [Token.read, Prod.mk.injEq] at h
  obtain ⟨rfl, rfl, h3⟩ := h
  refine ⟨rfl, rfl, ?_⟩
  unfold primary_node
  by_cases hk : k' = .NUMBER_LITERAL
  · subst hk
    simp only [if_true, Option.some.injEq] at h3
    subst h3
    rfl
  · cases k' <;> first | rfl | exact absurd rfl hk

theorem tokens_getD_read (ts ts' : List Token) (h : ts'.map Token.read = ts.map Token.read)
    (i : Nat) : (ts'.getD i Token.zero).read = (ts.getD i Token.zero).read := by
  have a : (ts'.map Token.read).getD i (Token.read Token.zero) =
      Token.read (ts'.getD i Token.zero) := List.getD_map _ _ _
  have b : (ts.map Token.read).getD i (Token.read Token.zero) =
      Token.read (ts.getD i Token.zero) := List.getD_map _ _ _
  rw [← a, ← b, h]

theorem Parser.alike_refl (p : Parser) : p.alike p := ⟨rfl, rfl, rfl⟩

theorem Parser.alike_length {p p' : Parser} (h : p.alike p') :
    p'.tokens.length = p.tokens.length := by
  have := congrArg List.length h.1
  simpa using this

theorem Parser.alike_peek {p p' : Parser} (h : p.alike p') :
    (parser_peek_token p').read = (parser_peek_token p).read := by
  have hl := Parser.alike_length h
  have key := tokens_getD_read p.tokens p'.tokens h.1
  unfold parser_peek_token
  rw [h.2.2, hl]
  split_ifs
  · exact key _
  · exact key _

theorem Parser.alike_consume {p p' : Parser} (h : p.alike p') :
    (parser_consume_token p).alike (parser_consume_token p') := by
  have hl := Parser.alike_length h
  unfold parser_consume_token
  rw [h.2.2, hl]
  split_ifs
  · exact ⟨h.1, h.2.1, rfl⟩
  · exact h

theorem Parser.alike_report {p p' : Parser} (h : p.alike p') (c : Str) (msg : String) :
    (parser_report_error p c msg).alike (parser_report_error p' c msg) :=
  ⟨h.1, by show p'.error_stream ++ _ = p.error_stream ++ _; rw [h.2.1], h.2.2⟩

theorem Parser.alike_wf {p p' : Parser} (h : p.alike p') (hw : p.wf) : p'.wf := by
  have hl := Parser.alike_length h
  have key : ∀ i, (p'.tokens.getD i Token.zero).kind = (p.tokens.getD i Token.zero).kind := by
    intro i
    exact (Token.read_eq (tokens_getD_read p.tokens p'.tokens h.1 i)).1
  obtain ⟨w1, w2, w3⟩ := hw
  refine ⟨by rw [h.2.2, hl]; exact w1, fun i hi => ?_, fun i hi => ?_⟩
  · rw [key, hl]
    exact w2 i (by rw [← hl]; exact hi)
  · rw [key]
    exact w3 i (by rw [← hl]; exact hi)

theorem Parser.alike_result_cases {o o' : Option (Expr × Parser)}
    (h : Parser.alike_result o o') :
    (o = Option.none ∧ o' = Option.none) ∨
    ∃ e q q', o = some (e, q) ∧ o' = some (e, q') ∧ q.alike q' := by
  cases o with
  | none =>
    cases o' with
    | none => exact Or.inl ⟨rfl, rfl⟩
    | some r' => exact absurd h (by simp [Parser.alike_result])
  | some r =>
    cases o' with
    | none => exact absurd h (by simp [Parser.alike_result])
    | some r' =>
      obtain ⟨e, q⟩ := r
      obtain ⟨e', q'⟩ := r'
      simp only [Parser.alike_result] at h
      obtain ⟨rfl, h2⟩ := h
      exact Or.inr ⟨_, _, _, rfl, rfl, h2⟩

theorem Parser.alike_result_some {e : Expr} {q q' : Parser} (h : q.alike q') :
    Parser.alike_result (some (e, q)) (some (e, q')) := ⟨rfl, h⟩

theorem Parser.alike_stopped {p p' : Parser} (h : p.alike p') (prec : Int)
    (expect : Token_Kind) : p'.stopped prec expect ↔ p.stopped prec expect := by
  unfold Parser.stopped
  rw [(Token.read_eq (Parser.alike_peek h)).1]

/-- The expression parser on two Token Buffers that read the same, from the
same cursor and with the same Error Stream: the same tree, left in parsers
that are alike. -/
theorem parse_alike : ∀ fuel : Nat,
    (∀ p p' : Parser, p.wf → p.alike p' →
      Parser.alike_result (parse_subexpression fuel p) (parse_subexpression fuel p')) ∧
    (∀ (p p' : Parser) (prec : Int) (expect : Token_Kind) (a : Expr), p.wf → p.alike p' →
      a.parsed = true →
      Parser.alike_result (parse_expression_loop fuel p prec expect a)
        (parse_expression_loop fuel p' prec expect a)) ∧
    (∀ (p p' : Parser) (prec : Int) (expect : Token_Kind), p.wf → p.alike p' →
      Parser.alike_result (parse_expression fuel p prec expect)
        (parse_expression fuel p' prec expect)) := by
  intro fuel
  induction fuel with
  | zero =>
    refine ⟨fun p p' _ _ => ?_, fun p p' prec expect a _ _ _ => ?_,
      fun p p' prec expect _ _ => ?_⟩
    · simp [parse_subexpression, Parser.alike_result]
    · simp [parse_expression_loop, Parser.alike_result]
    · simp [parse_expression, Parser.alike_result]
  | succ f ih =>
    obtain ⟨iS, iL, iE⟩ := ih
    obtain ⟨sS, sL, sE⟩ := parse_sound f
    refine ⟨?_, ?_, ?_⟩
    · intro p p' hw ha
      obtain ⟨hk, hs, hp⟩ := Token.read_eq (Parser.alike_peek ha)
      have hc := Parser.alike_consume ha
      cases hso : (parser_peek_token p).kind.starts_operand
      · rw [parse_subexpression_other f p hso, parse_subexpression_other f p' (by rw [hk]; exact hso),
          hs]
        exact Parser.alike_result_some (Parser.alike_report ha _ _)
      · have hne : (parser_peek_token p).kind ≠ .EOF := by
          intro h0; rw [h0] at hso; cases hso
        have hwc := Parser.wf_of_reaches hw (p.reaches_consume hw hne).1
        rcases Token_Kind.starts_operand_cases _ hso with h | h | h | h
        · rw [parse_subexpression_sign f p h, parse_subexpression_sign f p' (by rw [hk]; exact h),
            hk, hs]
          rcases Parser.alike_result_cases (iS _ _ hwc hc) with ⟨e1, e2⟩ | ⟨e, q, q', e1, e2, hq⟩
          · rw [e1, e2]; trivial
          · rw [e1, e2]
            exact Parser.alike_result_some hq
        · rw [parse_subexpression_primary f p h,
            parse_subexpression_primary f p' (by rw [hk]; exact h), hp]
          exact Parser.alike_result_some hc
        · rw [parse_subexpression_open f p h, parse_subexpression_open f p' (by rw [hk]; exact h)]
          rcases Parser.alike_result_cases (iE _ _ (-1) .BRACKET_CLOSE hwc hc) with
            ⟨e1, e2⟩ | ⟨e, q, q', e1, e2, hq⟩
          · rw [e1, e2]; trivial
          · rw [e1, e2]
            obtain ⟨hk1, hs1, -⟩ := Token.read_eq (Parser.alike_peek hq)
            simp only [Option.map_some', hk1, hs1]
            refine ⟨rfl, ?_⟩
            show Parser.alike _ _
            split_ifs
            · exact Parser.alike_consume hq
            · exact Parser.alike_report hq _ _
        · rw [parse_subexpression_close f p h,
            parse_subexpression_close f p' (by rw [hk]; exact h), hs]
          exact Parser.alike_result_some (Parser.alike_report hc _ _)
    · intro p p' prec expect a hw ha hpa
      obtain ⟨hk, hs, hp⟩ := Token.read_eq (Parser.alike_peek ha)
      have hc := Parser.alike_consume ha
      by_cases hst : p.stopped prec expect
      · rw [parse_expression_loop_stopped f p prec expect a hst,
          parse_expression_loop_stopped f p' prec expect a
            ((Parser.alike_stopped ha prec expect).mpr hst)]
        exact Parser.alike_result_some ha
      · have hst' : ¬ p'.stopped prec expect := fun h =>
          hst ((Parser.alike_stopped ha prec expect).mp h)
        have hne : (parser_peek_token p).kind ≠ .EOF := fun h => hst (Or.inl h)
        have hwc := Parser.wf_of_reaches hw (p.reaches_consume hw hne).1
        rcases Token_Kind.cases_parse (parser_peek_token p).kind with h | h | h | h | h
        · exact absurd h hne
        · exact absurd h (p.peek_ne_error hw)
        · rw [parse_expression_loop_close f p prec expect a hst h,
            parse_expression_loop_close f p' prec expect a hst' (by rw [hk]; exact h), hs]
          exact iL _ _ prec expect _
            (Parser.wf_of_reaches hwc (Parser.reaches_report _ hwc _ _))
            (Parser.alike_report hc _ _) (by simp [Expr.parsed, hpa])
        · rw [parse_expression_loop_other f p prec expect a hst h,
            parse_expression_loop_other f p' prec expect a hst' (by rw [hk]; exact h), hk, hs]
          have hw0 := Parser.wf_of_reaches hw (p.reaches_report hw (parser_peek_token p).string
            "Expected operator")
          rcases Parser.alike_result_cases (iE _ _ (token_op_precedence (parser_peek_token p).kind)
            expect hw0 (Parser.alike_report ha (parser_peek_token p).string "Expected operator"))
            with ⟨e1, e2⟩ | ⟨e, q, q', e1, e2, hq⟩
          · rw [e1, e2]; trivial
          · rw [e1, e2]
            obtain ⟨r1, pr, -⟩ := sE _ _ _ e q hw0 e1
            exact iL q q' prec expect _ (Parser.wf_of_reaches hw0 r1) hq
              (by simp [Expr.parsed, hpa, pr])
        · rw [parse_expression_loop_operator f p prec expect a hst h,
            parse_expression_loop_operator f p' prec expect a hst' (by rw [hk]; exact h), hk]
          rcases Parser.alike_result_cases (iE _ _ (token_op_precedence (parser_peek_token p).kind)
            expect hwc hc) with ⟨e1, e2⟩ | ⟨e, q, q', e1, e2, hq⟩
          · rw [e1, e2]; trivial
          · rw [e1, e2]
            obtain ⟨r1, pr, -⟩ := sE _ _ _ e q hwc e1
            have hb : binary_node (parser_peek_token p') a e =
                binary_node (parser_peek_token p) a e := by
              unfold binary_node
              rw [hk, hs]
            simp only [Option.some_bind, hb]
            exact iL q q' prec expect _ (Parser.wf_of_reaches hwc r1) hq
              (by simp [binary_node, Expr.parsed, hpa, pr])
    · intro p p' prec expect hw ha
      obtain ⟨hk, hs, hp⟩ := Token.read_eq (Parser.alike_peek ha)
      by_cases heof : (parser_peek_token p).kind = .EOF
      · rw [parse_expression_eof f p prec expect heof,
          parse_expression_eof f p' prec expect (by rw [hk]; exact heof), hs]
        exact Parser.alike_result_some (Parser.alike_report ha _ _)
      · rw [parse_expression_operand f p prec expect heof,
          parse_expression_operand f p' prec expect (by rw [hk]; exact heof)]
        rcases Parser.alike_result_cases (iS _ _ hw ha) with ⟨e1, e2⟩ | ⟨e, q, q', e1, e2, hq⟩
        · rw [e1, e2]; trivial
        · rw [e1, e2]
          obtain ⟨r1, pr, -⟩ := sS _ e q hw e1
          exact iL q q' prec expect e (Parser.wf_of_reaches hw r1) hq pr

/-! ## Re-entrancy of `parse` -/

theorem Lexer.same_token_kind {k k' : Lexer} (h : k.same_token k') :
    k'.token.kind = k.token.kind ∧ k'.token.string = k.token.string :=
  ⟨(Token.read_eq h.2.2.2.2.2.1).1, (Token.read_eq h.2.2.2.2.2.1).2.1⟩

theorem lexer_nth_read_alike (strtof : Strtof) (l l' : Lexer) (text : List Char)
    (h : l'.errno_erange = l.errno_erange) (n : Nat) :
    ((List.range n).map fun k => (lexer_nth strtof l' text k).token).map Token.read =
      ((List.range n).map fun k => (lexer_nth strtof l text k).token).map Token.read := by
  rw [List.map_map, List.map_map]
  apply List.map_congr_left
  intro k _
  exact (lexer_nth_alike strtof l l' text h k).2.2.2.2.2.1

/-- What `parse` leaves (the tree, the Token Buffer as it reads and the Error
Stream) depends on the parser it is entered with through `errno` only. -/
theorem parse_outcome_alike (strtof : Strtof) (fuel : Nat) (p p' : Parser) (text : List Char)
    (h : p'.lexer.errno_erange = p.lexer.errno_erange) :
    parse_outcome (parse strtof fuel p' text) = parse_outcome (parse strtof fuel p text) := by
  have hex : ∃ n, (lexer_nth strtof p.lexer text n).token.kind = .EOF ∨
      (lexer_nth strtof p.lexer text n).token.kind = .ERROR :=
    ⟨_, Or.inl (lexer_nth_reaches_eof strtof p.lexer text)⟩
  classical
  have hn := Nat.find_spec hex
  have hmin : ∀ k, k < Nat.find hex →
      ¬ ((lexer_nth strtof p.lexer text k).token.kind = .EOF ∨
        (lexer_nth strtof p.lexer text k).token.kind = .ERROR) :=
    fun k hk => Nat.find_min hex hk
  generalize Nat.find hex = n at hn hmin
  have hal := lexer_nth_alike strtof p.lexer p'.lexer text h
  have hkind : ∀ k, (lexer_nth strtof p'.lexer text k).token.kind =
      (lexer_nth strtof p.lexer text k).token.kind := fun k => (Lexer.same_token_kind (hal k)).1
  have hk : ∀ k, k < n → (lexer_nth strtof p.lexer text k).token.kind ≠ .EOF ∧
      (lexer_nth strtof p.lexer text k).token.kind ≠ .ERROR :=
    fun k h => ⟨fun c => hmin k h (Or.inl c), fun c => hmin k h (Or.inr c)⟩
  have hk' : ∀ k, k < n → (lexer_nth strtof p'.lexer text k).token.kind ≠ .EOF ∧
      (lexer_nth strtof p'.lexer text k).token.kind ≠ .ERROR := by
    intro k h
    rw [hkind]
    exact hk k h
  have hread := lexer_nth_read_alike strtof p.lexer p'.lexer text h n
  rcases hn with hn | hn
  · have hn' : (lexer_nth strtof p'.lexer text n).token.kind = .EOF := by rw [hkind]; exact hn
    rw [parse_of_eof strtof fuel p text n hk hn, parse_of_eof strtof fuel p' text n hk' hn']
    by_cases h0 : n = 0
    · rw [if_pos h0, if_pos h0]
      simp only [parse_outcome, Option.map_some', List.map_cons, List.map_nil]
      rw [(hal 0).2.2.2.2.2.1]
    · rw [if_neg h0, if_neg h0]
      have hw := parse_tokens_wf strtof p.lexer text n hk hn (lexer_nth strtof p.lexer text n) []
      have ha : Parser.alike
          { tokens := ((List.range n).map fun k => (lexer_nth strtof p.lexer text k).token) ++
              [(lexer_nth strtof p.lexer text n).token]
            error_stream := [], lexer := lexer_nth strtof p.lexer text n, cursor := 0 }
          { tokens := ((List.range n).map fun k => (lexer_nth strtof p'.lexer text k).token) ++
              [(lexer_nth strtof p'.lexer text n).token]
            error_stream := [], lexer := lexer_nth strtof p'.lexer text n, cursor := 0 } := by
        refine ⟨?_, rfl, rfl⟩
        show List.map Token.read (_ ++ _) = List.map Token.read (_ ++ _)
        rw [List.map_append, List.map_append, hread]
        simp only [List.map_cons, List.map_nil]
        rw [(hal n).2.2.2.2.2.1]
      rcases Parser.alike_result_cases ((parse_alike fuel).2.2 _ _ (-1) .EOF hw ha) with
        ⟨e1, e2⟩ | ⟨e, q, q', e1, e2, hq⟩
      · rw [e1, e2]
      · rw [e1, e2]
        simp only [parse_outcome, Option.map_some']
        rw [hq.1, hq.2.1]
  · have hn' : (lexer_nth strtof p'.lexer text n).token.kind = .ERROR := by rw [hkind]; exact hn
    rw [parse_of_error strtof fuel p text n hk hn, parse_of_error strtof fuel p' text n hk' hn']
    simp only [parse_outcome, Option.map_some']
    rw [hread, (Lexer.same_token_kind (hal n)).2, (hal n).2.2.2.2.2.2 hn]

/-- C33: what `parse` leaves (the tree, the Token Buffer as it reads, that is
kind, string and the value of number literals, and the Error Stream) is the
same for two parsers entered with the same `errno`, whatever else they hold:
Token Buffer, Error Stream, cursor and the scanner's members are overwritten
before they are read.  So a parser whose `errno` is clear parses every text as
the parser after `parser_create` does.  But `errno` is read and never cleared:
after the parse of a literal above `FLT_MAX`, the parse of `1` leaves an empty
Token Buffer, the diagnostic "Number literal out of range" and the sentinel,
where the parser after `parser_create` leaves the tokens `1` and EOF, no
diagnostic and the literal.  The member `number` of a token that is not a
number literal is a leftover too: after the parse of `5` the tokens of `x`
carry 5 there. -/
theorem parse_reentrant_up_to_errno (strtof : Strtof) (fuel : Nat) (p p' : Parser)
    (text : List Char) (h : p'.lexer.errno_erange = p.lexer.errno_erange) :
    parse_outcome (parse strtof fuel p' text) = parse_outcome (parse strtof fuel p text) ∧
    (parse_twice "10000000000000000000000000000000000000000" "1").map
      (fun r => (r.1.beq .none, r.2.error_stream)) =
      some (true, [⟨⟨some 0, ['1']⟩, "Number literal out of range"⟩]) ∧
    (parse_twice "10000000000000000000000000000000000000000" "1").map
      (fun r => r.2.tokens.map Token.read) = some [] ∧
    (parse strtof_ranged 20 parser_create ("1".toList ++ [Char.ofNat 0])).map
      (fun r => (r.1.beq (.number ⟨some 0, ['1']⟩ (v4 1 0 0 0) 1), r.2.error_stream)) =
      some (true, []) ∧
    (parse strtof_ranged 20 parser_create ("1".toList ++ [Char.ofNat 0])).map
      (fun r => r.2.tokens.map Token.read) =
      some [(.NUMBER_LITERAL, ⟨some 0, ['1']⟩, some 1), (.EOF, ⟨some 1, []⟩, Option.none)] ∧
    (parse_twice "5" "x").map (fun r => r.2.tokens.map fun t => (t.kind, t.number)) =
      some [(.IDENTIFIER, 5), (.EOF, 5)] ∧
    (parse strtof_ranged 20 parser_create ("x".toList ++ [Char.ofNat 0])).map
      (fun r => r.2.tokens.map fun t => (t.kind, t.number)) =
      some [(.IDENTIFIER, 0), (.EOF, 0)] :=
  ⟨parse_outcome_alike strtof fuel p p' text h, by decide!, by decide!, by decide!, by decide!,
    by decide!, by decide!⟩

theorem parse_reentrant_up_to_errno_witness :
    parse_outcome (parse strtof_decimal 28 parser_create ("1 + 2".toList ++ [Char.ofNat 0])) =
      parse_outcome (parse strtof_decimal 28
        { tokens := [Token.zero], error_stream := [⟨Str.null, "Expected expression"⟩]
          lexer := ⟨['z'], 1, 1, "Invalid character", ⟨.PLUS, Str.null, 7⟩, true, false⟩
          cursor := 3 } ("1 + 2".toList ++ [Char.ofNat 0])) :=
  (parse_reentrant_up_to_errno strtof_decimal 28
    { tokens := [Token.zero], error_stream := [⟨Str.null, "Expected expression"⟩]
      lexer := ⟨['z'], 1, 1, "Invalid character", ⟨.PLUS, Str.null, 7⟩, true, false⟩
      cursor := 3 } parser_create ("1 + 2".toList ++ [Char.ofNat 0]) rfl).1

end MichiLang
